import Mathlib

/-!
# Name analysis of the Drewno Mars compiler front end

A shallow embedding of `src/name_analysis.cpp` and a verification of its
specification.

The C++ pass mutates three things: the symbol table (a chain of scope tables
reached through pointers), the AST (every location node has a slot for its
resolved symbol) and the diagnostic sink.  The embedding makes all three
explicit:

* `State` holds the scope tables ever allocated (`heap`, addressed by
  `ScopeId`), the chain of open scopes, the symbol allocation counter and the
  list of diagnostics reported so far;
* every `nameAnalysis` function returns the annotated copy of the node it was
  called on, together with the boolean the C++ method returns and the new
  state;
* an internal error (`throw new InternalError`, or a symbol table operation
  that needs a current scope when no scope is open) is the result `none`.
-/

namespace DrewnoMars

/-! ## Positions, types and symbols -/

/-- Source position of an AST node. -/
structure Position where
  line : Nat
  col : Nat
deriving DecidableEq, Repr

/-- Address of a `ScopeTable` object. -/
abbrev ScopeId := Nat

/-- Primitive types of the language. -/
inductive BaseType
  | int
  | bool
  | string
  | void
deriving DecidableEq, Repr

mutual
/-- Modelled from the spec: the interned types of `types.hpp` (section 3 of the
spec, "Type").  Interning makes identity comparison coincide with structural
equality, so a value type is used. -/
inductive DataType
  | primitive (b : BaseType)
  | error
  | cls (fields : ScopeId)
  | fn (params : TypeList) (ret : DataType)
deriving DecidableEq, Repr
/-- Modelled from the spec: `TypeList`, an ordered sequence of types. -/
inductive TypeList
  | nil
  | cons (head : DataType) (tail : TypeList)
deriving DecidableEq, Repr
end

/-- Modelled from the spec: `TypeList::produce` applied to the types of a list
of type nodes, in order. -/
def TypeList.produce : List DataType → TypeList
  | [] => .nil
  | t :: ts => .cons t (TypeList.produce ts)

/-- Modelled from the spec: `FnType::produce`. -/
def FnType.produce (formalTypes : TypeList) (retType : DataType) : DataType :=
  .fn formalTypes retType

/-- Modelled from the spec: `ErrorType::produce`, the error sentinel. -/
def ErrorType.produce : DataType := .error

/-- Modelled from the spec: `DataType::validVarType` ("a usable variable type
(not void, not unresolved)"). -/
def DataType.validVarType : DataType → Bool
  | .primitive .void => false
  | .error => false
  | _ => true

/-- Modelled from the spec: `DataType::asClass`, the field scope of a class
type and null for every other type. -/
def DataType.asClass : DataType → Option ScopeId
  | .cls fields => some fields
  | _ => none

/-- Kinds of symbol (`VAR`, `FN`, `AGG` in the source). -/
inductive SymbolKind
  | var
  | fn
  | agg
deriving DecidableEq, Repr

/-- Modelled from the spec: a `SemSymbol` object.  `addr` stands for the address
of the object, so that two symbols created by two `new` expressions differ even
when they have the same name and type. -/
structure SemSymbol where
  addr : Nat
  kind : SymbolKind
  name : String
  type : DataType
deriving DecidableEq, Repr

/-- Modelled from the spec: a `ScopeTable`, a mapping from names to symbols
with at most one binding per name. -/
abbrev ScopeTable := List SemSymbol

/-- Modelled from the spec: `ScopeTable::lookup`, the local-only lookup. -/
def ScopeTable.lookup (t : ScopeTable) (name : String) : Option SemSymbol :=
  t.find? (fun s => s.name == name)

/-- Modelled from the spec: `ScopeTable::clash`. -/
def ScopeTable.clash (t : ScopeTable) (name : String) : Bool :=
  (t.lookup name).isSome

/-- Modelled from the spec: `ScopeTable::insert`, which "fails (returns false,
no mutation) if `clash` is true; otherwise binds the name to the symbol and
returns true". -/
def ScopeTable.insert (t : ScopeTable) (s : SemSymbol) : Bool × ScopeTable :=
  if t.clash s.name then (false, t) else (true, s :: t)

/-! ## Diagnostics -/

/-- The three kinds of user-facing error. -/
inductive ErrKind
  | multipleDeclaration
  | undeclaredIdentifier
  | badVariableType
deriving DecidableEq, Repr

/-- One reported diagnostic. -/
structure Diag where
  kind : ErrKind
  pos : Position
deriving DecidableEq, Repr

/-! ## The state of the pass -/

/-- The symbol table, the heap of scope tables and the diagnostic sink. -/
structure State where
  /-- every `ScopeTable` allocated so far; a `ScopeId` is an index here -/
  heap : List ScopeTable
  /-- `scopeTableChain`, innermost scope first -/
  chain : List ScopeId
  /-- address of the next symbol object -/
  nextSym : Nat
  /-- diagnostics in the order they were reported -/
  diags : List Diag
deriving DecidableEq, Repr

/-- The scope table at an address (an address never allocated reads as empty). -/
def State.scope (st : State) (id : ScopeId) : ScopeTable :=
  st.heap.getD id []

/-- Write a scope table at an address. -/
def State.setScope (st : State) (id : ScopeId) (t : ScopeTable) : State :=
  { st with heap := st.heap.set id t }

/-- Report a diagnostic; every `NameErr` function returns false. -/
def State.report (st : State) (k : ErrKind) (p : Position) : Bool × State :=
  (false, { st with diags := st.diags ++ [⟨k, p⟩] })

/-- Embeds `NameErr::multiDecl`. -/
def NameErr.multiDecl (p : Position) (st : State) : Bool × State :=
  st.report .multipleDeclaration p

/-- Embeds `NameErr::undeclID`. -/
def NameErr.undeclID (p : Position) (st : State) : Bool × State :=
  st.report .undeclaredIdentifier p

/-- Embeds `NameErr::badVarType`. -/
def NameErr.badVarType (p : Position) (st : State) : Bool × State :=
  st.report .badVariableType p

/-- Modelled from the spec: `SymbolTable::enterScope`, which "pushes and
returns a new empty scope". -/
def SymbolTable.enterScope (st : State) : ScopeId × State :=
  (st.heap.length, { st with heap := st.heap ++ [[]], chain := st.heap.length :: st.chain })

/-- Modelled from the spec: `SymbolTable::leaveScope`, which "pops the
innermost scope" and "fails fatally if the stack is empty". -/
def SymbolTable.leaveScope (st : State) : Option State :=
  match st.chain with
  | [] => none
  | _ :: rest => some { st with chain := rest }

/-- Modelled from the spec: `SymbolTable::getCurrentScope`, the innermost open
scope.  With no open scope the C++ dereferences the front of an empty list; the
model treats that as an internal error. -/
def SymbolTable.getCurrentScope (st : State) : Option ScopeId :=
  st.chain.head?

/-- The search of `SymbolTable::find` along a chain of scopes. -/
def State.findIn (st : State) : List ScopeId → String → Option SemSymbol
  | [], _ => none
  | id :: rest, name =>
    match (st.scope id).lookup name with
    | some s => some s
    | none => st.findIn rest name

/-- Modelled from the spec: `SymbolTable::find`, the "innermost-to-outermost
search across the whole stack". -/
def SymbolTable.find (st : State) (name : String) : Option SemSymbol :=
  st.findIn st.chain name

/-- Modelled from the spec: `SymbolTable::clash`, which "delegates to the
current (innermost) scope only". -/
def SymbolTable.clash (st : State) (name : String) : Option Bool :=
  (SymbolTable.getCurrentScope st).map (fun id => (st.scope id).clash name)

/-- Modelled from the spec: `ScopeTable::insert` through a pointer to the
table, for a symbol object that was just allocated. -/
def State.insertAt (st : State) (id : ScopeId) (kind : SymbolKind) (name : String)
    (type : DataType) : Bool × State :=
  let sym : SemSymbol := ⟨st.nextSym, kind, name, type⟩
  let r := (st.scope id).insert sym
  (r.1, { (st.setScope id r.2) with nextSym := st.nextSym + 1 })

/-- Modelled from the spec: `SymbolTable::insert` of a `new VarSymbol(name, type)`
into the current scope. -/
def SymbolTable.insert (st : State) (name : String) (type : DataType) : Option (Bool × State) :=
  (SymbolTable.getCurrentScope st).map (fun id => st.insertAt id .var name type)

/-- Modelled from the spec: `SymbolTable::addClass`, which "creates and inserts
an `Aggregate` symbol into the current scope, attaching the given scope as its
field namespace". -/
def SymbolTable.addClass (st : State) (name : String) (fields : ScopeId) : Option State :=
  (SymbolTable.getCurrentScope st).map (fun id => (st.insertAt id .agg name (.cls fields)).2)

/-- Modelled from the spec: `ScopeTable::addFn` through a pointer to the table:
"creates and inserts a `Function` symbol into the given scope". -/
def ScopeTable.addFn (st : State) (id : ScopeId) (name : String) (type : DataType) : State :=
  (st.insertAt id .fn name type).2

/-- Modelled from the spec: `ClassType::getField`, the lookup of a field name
in the field scope of a class type. -/
def ClassType.getField (st : State) (fields : ScopeId) (name : String) : Option SemSymbol :=
  (st.scope fields).lookup name

/-! ## The abstract syntax tree -/

/-- An `IDNode`: an identifier occurrence with the slot for its symbol. -/
structure IDNode where
  pos : Position
  name : String
  mySymbol : Option SemSymbol
deriving DecidableEq, Repr

/-- A `LocNode`: an identifier or a member access `base.field`. -/
inductive LocNode
  | id (n : IDNode)
  | member (pos : Position) (myBase : LocNode) (myField : IDNode) (mySymbol : Option SemSymbol)
deriving DecidableEq, Repr

/-- A `TypeNode`.  `basic` stands for the type nodes that do not override
`TypeNode::nameAnalysis` (one per primitive type); a `ClassTypeNode` carries the
type that its analysis computes (`myType`, null before the analysis). -/
inductive TypeNode
  | basic (pos : Position) (b : BaseType)
  | perfect (pos : Position) (mySub : TypeNode)
  | cls (pos : Position) (myID : IDNode) (myType : Option DataType)
deriving DecidableEq, Repr

/-- An `ExpNode`.  `binary` stands for every subclass of `BinaryExpNode`; the
operator plays no part in name analysis. -/
inductive ExpNode
  | intLit (pos : Position) (val : Int)
  | strLit (pos : Position) (val : String)
  | trueNode (pos : Position)
  | falseNode (pos : Position)
  | loc (l : LocNode)
  | binary (pos : Position) (op : String) (myExp1 myExp2 : ExpNode)
  | neg (pos : Position) (myExp : ExpNode)
  | not (pos : Position) (myExp : ExpNode)
  | call (pos : Position) (myCallee : LocNode) (myArgs : List ExpNode)
deriving Repr

/-- A `VarDeclNode` (a `FormalDeclNode` is one without initializer). -/
structure VarDeclNode where
  pos : Position
  myID : IDNode
  myType : TypeNode
  myInit : Option ExpNode
deriving Repr

mutual
/-- A `StmtNode`. -/
inductive StmtNode
  | assign (pos : Position) (myDst : LocNode) (mySrc : ExpNode)
  | exit (pos : Position)
  | postDec (pos : Position) (myLoc : LocNode)
  | postInc (pos : Position) (myLoc : LocNode)
  | take (pos : Position) (myDst : LocNode)
  | give (pos : Position) (mySrc : ExpNode)
  | ifStmt (pos : Position) (myCond : ExpNode) (myBody : List StmtNode)
  | ifElse (pos : Position) (myCond : ExpNode) (myBodyTrue myBodyFalse : List StmtNode)
  | while (pos : Position) (myCond : ExpNode) (myBody : List StmtNode)
  | ret (pos : Position) (myExp : Option ExpNode)
  | callStmt (pos : Position) (myCallExp : ExpNode)
  | decl (d : DeclNode)
deriving Repr
/-- A `DeclNode`; every declaration is also a statement. -/
inductive DeclNode
  | varDecl (d : VarDeclNode)
  | fnDecl (pos : Position) (myID : IDNode) (myRetType : TypeNode)
      (myFormals : List VarDeclNode) (myBody : List StmtNode)
  | classDefn (pos : Position) (myID : IDNode) (myMembers : List DeclNode)
deriving Repr
end

/-- A `ProgramNode`: the list of global declarations. -/
structure ProgramNode where
  myGlobals : List DeclNode
deriving Repr

/-- Embeds `LocNode::getSymbol`. -/
def LocNode.getSymbol : LocNode → Option SemSymbol
  | .id n => n.mySymbol
  | .member _ _ _ sym => sym

/-- Embeds `LocNode::attachSymbol` on an identifier node. -/
def IDNode.attachSymbol (n : IDNode) (symbolIn : Option SemSymbol) : IDNode :=
  { n with mySymbol := symbolIn }

/-- Modelled from the spec: `TypeNode::getType`, the type a type node denotes
(null for a class type node that was not analysed yet; `perfect` does not
change the type, the spec having no variant for it). -/
def TypeNode.getType : TypeNode → Option DataType
  | .basic _ b => some (.primitive b)
  | .perfect _ sub => sub.getType
  | .cls _ _ ty => ty

/-! ## The resolution pass -/

/-- Embeds `IDNode::nameAnalysis`. -/
def IDNode.nameAnalysis (n : IDNode) (st : State) : Bool × IDNode × State :=
  match SymbolTable.find st n.name with
  | none =>
    let r := NameErr.undeclID n.pos st
    (r.1, n, r.2)
  | some sym => (true, n.attachSymbol (some sym), st)

/-- Embeds `IDNode::nameAnalysis` and `MemberFieldExpNode::nameAnalysis`, the
two overrides of `nameAnalysis` among the location nodes. -/
def LocNode.nameAnalysis : LocNode → State → Bool × LocNode × State
  | .id n, st =>
    let (r, n', st1) := n.nameAnalysis st
    (r, .id n', st1)
  | .member pos myBase myField mySymbol, st =>
    let (result, base', st1) := LocNode.nameAnalysis myBase st
    match base'.getSymbol with
    | none => (false, .member pos base' myField mySymbol, st1)
    | some baseSym =>
      match baseSym.type.asClass with
      | none =>
        let r := NameErr.badVarType pos st1
        (false, .member pos base' myField mySymbol, r.2)
      | some classType =>
        match ClassType.getField st1 classType myField.name with
        | none =>
          let r := NameErr.undeclID myField.pos st1
          (false, .member pos base' myField mySymbol, r.2)
        | some fieldSym =>
          (result, .member pos base' (myField.attachSymbol (some fieldSym)) (some fieldSym), st1)

/-- Embeds `TypeNode::nameAnalysis`, `PerfectTypeNode::nameAnalysis` and
`ClassTypeNode::nameAnalysis`. -/
def TypeNode.nameAnalysis : TypeNode → State → Bool × TypeNode × State
  | .basic pos b, st => (true, .basic pos b, st)
  | .perfect pos mySub, st =>
    let (r, sub', st1) := TypeNode.nameAnalysis mySub st
    (r, .perfect pos sub', st1)
  | .cls pos myID _, st =>
    match SymbolTable.find st myID.name with
    | none =>
      let r := NameErr.badVarType pos st
      (false, .cls pos myID (some ErrorType.produce), r.2)
    | some sym =>
      if sym.kind ≠ .agg then
        let r := NameErr.badVarType pos st
        (false, .cls pos myID (some ErrorType.produce), r.2)
      else
        (true, .cls pos (myID.attachSymbol (some sym)) (some sym.type), st)

mutual
/-- Embeds the `nameAnalysis` overrides of the expression nodes: the literals,
`BinaryExpNode`, `NegNode`, `NotNode` and `CallExpNode`; a location node is
resolved by `LocNode.nameAnalysis`. -/
def ExpNode.nameAnalysis : ExpNode → State → Bool × ExpNode × State
  | .intLit pos v, st => (true, .intLit pos v, st)
  | .strLit pos v, st => (true, .strLit pos v, st)
  | .trueNode pos, st => (true, .trueNode pos, st)
  | .falseNode pos, st => (true, .falseNode pos, st)
  | .loc l, st =>
    let (r, l', st1) := l.nameAnalysis st
    (r, .loc l', st1)
  | .binary pos op myExp1 myExp2, st =>
    let (resultLHS, e1', st1) := ExpNode.nameAnalysis myExp1 st
    let (resultRHS, e2', st2) := ExpNode.nameAnalysis myExp2 st1
    (resultLHS && resultRHS, .binary pos op e1' e2', st2)
  | .neg pos myExp, st =>
    let (r, e', st1) := ExpNode.nameAnalysis myExp st
    (r, .neg pos e', st1)
  | .not pos myExp, st =>
    let (r, e', st1) := ExpNode.nameAnalysis myExp st
    (r, .not pos e', st1)
  | .call pos myCallee myArgs, st =>
    let (r, callee', st1) := myCallee.nameAnalysis st
    let (result, args', st2) := ExpNode.nameAnalysisList myArgs (r && true) st1
    (result, .call pos callee' args', st2)
/-- The loop `for (auto arg : *myArgs){ result = arg->nameAnalysis(symTab) && result; }`. -/
def ExpNode.nameAnalysisList : List ExpNode → Bool → State → Bool × List ExpNode × State
  | [], result, st => (result, [], st)
  | arg :: rest, result, st =>
    let (r, arg', st1) := ExpNode.nameAnalysis arg st
    let (result', rest', st2) := ExpNode.nameAnalysisList rest (r && result) st1
    (result', arg' :: rest', st2)
end

/-- Embeds `VarDeclNode::nameAnalysis`. -/
def VarDeclNode.nameAnalysis (d : VarDeclNode) (st : State) :
    Option (Bool × VarDeclNode × State) :=
  let (validType, type', st1) := d.myType.nameAnalysis st
  let varName := d.myID.name
  let dataType := type'.getType
  let (validInit, init', st2) :=
    match d.myInit with
    | none => (true, none, st1)
    | some e =>
      let (r, e', s) := e.nameAnalysis st1
      (r, some e', s)
  match dataType with
  | none => none
  | some dataType =>
    let validType := if validType then dataType.validVarType else validType
    let st3 := if !validType then (NameErr.badVarType d.myID.pos st2).2 else st2
    match SymbolTable.clash st3 varName with
    | none => none
    | some clash =>
      let validName := !clash
      let st4 := if !validName then (NameErr.multiDecl d.myID.pos st3).2 else st3
      if !validType || !validName || !validInit then
        some (false, { d with myType := type', myInit := init' }, st4)
      else
        match SymbolTable.insert st4 varName dataType with
        | none => none
        | some (_, st5) =>
          let sym := SymbolTable.find st5 varName
          some (true, { d with myID := d.myID.attachSymbol sym, myType := type', myInit := init' }, st5)

/-- The loop over the formals in `FnDeclNode::nameAnalysis`:
`validFormals = formal->nameAnalysis(symTab) && validFormals`. -/
def VarDeclNode.nameAnalysisList :
    List VarDeclNode → Bool → State → Option (Bool × List VarDeclNode × State)
  | [], validFormals, st => some (validFormals, [], st)
  | formal :: rest, validFormals, st =>
    match formal.nameAnalysis st with
    | none => none
    | some (r, formal', st1) =>
      match VarDeclNode.nameAnalysisList rest (r && validFormals) st1 with
      | none => none
      | some (validFormals', rest', st2) => some (validFormals', formal' :: rest', st2)

/-- Modelled from the spec: `TypeList::produce` on the type nodes of the
formals, "collecting each parameter's resolved type into an ordered list"; a
type node without a type is an internal error. -/
def TypeList.produceNodes : List TypeNode → Option TypeList
  | [] => some .nil
  | n :: rest =>
    match n.getType, TypeList.produceNodes rest with
    | some t, some ts => some (.cons t ts)
    | _, _ => none

mutual
/-- Embeds the `nameAnalysis` overrides of the statement nodes. -/
def StmtNode.nameAnalysis : StmtNode → State → Option (Bool × StmtNode × State)
  | .assign pos myDst mySrc, st =>
    let (r1, dst', st1) := myDst.nameAnalysis st
    let result := r1 && true
    let (r2, src', st2) := mySrc.nameAnalysis st1
    let result := r2 && result
    some (result, .assign pos dst' src', st2)
  | .exit pos, st => some (true, .exit pos, st)
  | .postDec pos myLoc, st =>
    let (r, loc', st1) := myLoc.nameAnalysis st
    some (r, .postDec pos loc', st1)
  | .postInc pos myLoc, st =>
    let (r, loc', st1) := myLoc.nameAnalysis st
    some (r, .postInc pos loc', st1)
  | .take pos myDst, st =>
    let (r, dst', st1) := myDst.nameAnalysis st
    some (r, .take pos dst', st1)
  | .give pos mySrc, st =>
    let (r, src', st1) := mySrc.nameAnalysis st
    some (r, .give pos src', st1)
  | .ifStmt pos myCond myBody, st =>
    let (r, cond', st1) := myCond.nameAnalysis st
    let result := r && true
    let (_, st2) := SymbolTable.enterScope st1
    match StmtNode.nameAnalysisList myBody result st2 with
    | none => none
    | some (result, body', st3) =>
      match SymbolTable.leaveScope st3 with
      | none => none
      | some st4 => some (result, .ifStmt pos cond' body', st4)
  | .ifElse pos myCond myBodyTrue myBodyFalse, st =>
    let (r, cond', st1) := myCond.nameAnalysis st
    let result := r && true
    let (_, st2) := SymbolTable.enterScope st1
    match StmtNode.nameAnalysisList myBodyTrue result st2 with
    | none => none
    | some (result, bodyTrue', st3) =>
      match SymbolTable.leaveScope st3 with
      | none => none
      | some st4 =>
        let (_, st5) := SymbolTable.enterScope st4
        match StmtNode.nameAnalysisList myBodyFalse result st5 with
        | none => none
        | some (result, bodyFalse', st6) =>
          match SymbolTable.leaveScope st6 with
          | none => none
          | some st7 => some (result, .ifElse pos cond' bodyTrue' bodyFalse', st7)
  | .while pos myCond myBody, st =>
    let (r, cond', st1) := myCond.nameAnalysis st
    let result := r && true
    let (_, st2) := SymbolTable.enterScope st1
    match StmtNode.nameAnalysisList myBody result st2 with
    | none => none
    | some (result, body', st3) =>
      match SymbolTable.leaveScope st3 with
      | none => none
      | some st4 => some (result, .while pos cond' body', st4)
  | .ret pos none, st => some (true, .ret pos none, st)
  | .ret pos (some myExp), st =>
    let (r, exp', st1) := myExp.nameAnalysis st
    some (r, .ret pos (some exp'), st1)
  | .callStmt pos myCallExp, st =>
    let (r, callExp', st1) := myCallExp.nameAnalysis st
    some (r, .callStmt pos callExp', st1)
  | .decl d, st =>
    match DeclNode.nameAnalysis d st with
    | none => none
    | some (r, d', st1) => some (r, .decl d', st1)
/-- The loops `for (auto stmt : *myBody){ result = stmt->nameAnalysis(symTab) && result; }`. -/
def StmtNode.nameAnalysisList :
    List StmtNode → Bool → State → Option (Bool × List StmtNode × State)
  | [], result, st => some (result, [], st)
  | stmt :: rest, result, st =>
    match StmtNode.nameAnalysis stmt st with
    | none => none
    | some (r, stmt', st1) =>
      match StmtNode.nameAnalysisList rest (r && result) st1 with
      | none => none
      | some (result', rest', st2) => some (result', stmt' :: rest', st2)
/-- Embeds `VarDeclNode::nameAnalysis` (through `VarDeclNode.nameAnalysis`),
`FnDeclNode::nameAnalysis` and `ClassDefnNode::nameAnalysis`. -/
def DeclNode.nameAnalysis : DeclNode → State → Option (Bool × DeclNode × State)
  | .varDecl d, st =>
    match d.nameAnalysis st with
    | none => none
    | some (r, d', st1) => some (r, .varDecl d', st1)
  | .fnDecl pos myID myRetType myFormals myBody, st =>
    let fnName := myID.name
    let (validRet, retType', st1) := myRetType.nameAnalysis st
    match SymbolTable.getCurrentScope st1 with
    | none => none
    | some atFnScope =>
      let (_, st2) := SymbolTable.enterScope st1
      let (validName, st3) :=
        if (st2.scope atFnScope).clash fnName then
          (false, (NameErr.multiDecl myID.pos st2).2)
        else (true, st2)
      match VarDeclNode.nameAnalysisList myFormals true st3 with
      | none => none
      | some (validFormals, formals', st4) =>
        match TypeList.produceNodes (formals'.map (fun formal => formal.myType)),
            retType'.getType with
        | some formalTypes, some retType =>
          let dataType := FnType.produce formalTypes retType
          let (id', st5) :=
            if validName then
              let st5 := ScopeTable.addFn st4 atFnScope fnName dataType
              (myID.attachSymbol ((st5.scope atFnScope).lookup fnName), st5)
            else (myID, st4)
          match StmtNode.nameAnalysisList myBody true st5 with
          | none => none
          | some (validBody, body', st6) =>
            match SymbolTable.leaveScope st6 with
            | none => none
            | some st7 =>
              some (validRet && validFormals && validName && validBody,
                .fnDecl pos id' retType' formals' body', st7)
        | _, _ => none
  | .classDefn pos myID myMembers, st =>
    let name := myID.name
    match SymbolTable.clash st name with
    | none => none
    | some clash =>
      let validName := !clash
      let result := if !validName then false else true
      let (fields, st1) := SymbolTable.enterScope st
      match DeclNode.nameAnalysisList myMembers result st1 with
      | none => none
      | some (result, members', st2) =>
        match SymbolTable.leaveScope st2 with
        | none => none
        | some st3 =>
          if result then
            match SymbolTable.addClass st3 name fields with
            | none => none
            | some st4 =>
              let (_, id', st5) := myID.nameAnalysis st4
              some (result, .classDefn pos id' members', st5)
          else some (result, .classDefn pos myID members', st3)
/-- The loop over the globals in `ProgramNode::nameAnalysis`,
`res = decl->nameAnalysis(symTab) && res`, and the loop over the members in
`ClassDefnNode::nameAnalysis`, `if (!fieldOk){ result = false; }`, which leaves
`fieldOk && result` in `result`. -/
def DeclNode.nameAnalysisList :
    List DeclNode → Bool → State → Option (Bool × List DeclNode × State)
  | [], res, st => some (res, [], st)
  | decl :: rest, res, st =>
    match DeclNode.nameAnalysis decl st with
    | none => none
    | some (r, decl', st1) =>
      match DeclNode.nameAnalysisList rest (r && res) st1 with
      | none => none
      | some (res', rest', st2) => some (res', decl' :: rest', st2)
end

/-- Embeds `ProgramNode::nameAnalysis`. -/
def ProgramNode.nameAnalysis (p : ProgramNode) (symTab : State) :
    Option (Bool × ProgramNode × State) :=
  let (_, st1) := SymbolTable.enterScope symTab
  match DeclNode.nameAnalysisList p.myGlobals true st1 with
  | none => none
  | some (res, globals', st2) =>
    match SymbolTable.leaveScope st2 with
    | none => none
    | some st3 => some (res, ⟨globals'⟩, st3)

/-! ## Vocabulary of the specification -/

/-- Two states with the same symbol table; only diagnostics were added. -/
structure State.SameTables (st st' : State) : Prop where
  heap : st'.heap = st.heap
  chain : st'.chain = st.chain
  nextSym : st'.nextSym = st.nextSym
  diags : st.diags <+: st'.diags

/-- The later state keeps every binding of the earlier one and has only
allocated and reported more. -/
structure State.Grows (st st' : State) : Prop where
  heapLen : st.heap.length ≤ st'.heap.length
  lookup : ∀ id name s, (st.scope id).lookup name = some s → (st'.scope id).lookup name = some s
  diags : st.diags <+: st'.diags
  nextSym : st.nextSym ≤ st'.nextSym

/-- Among the scope tables at addresses below `n`, only the one at `c` may
differ between the two states. -/
def State.Frame (c : Option ScopeId) (n : Nat) (st st' : State) : Prop :=
  ∀ id, id < n → c ≠ some id → st'.scope id = st.scope id

/-- What every resolution step guarantees: the chain of open scopes is the
same on return, bindings are only added, and the only scope table that existed
before and may have changed is the one that was current on entry. -/
structure State.Extends (st st' : State) : Prop where
  chain : st'.chain = st.chain
  grows : st.Grows st'
  frame : State.Frame st.chain.head? st.heap.length st st'

/-- The initializer part of `VarDeclNode::nameAnalysis`: the result of
resolving the initializer when there is one, in the state left by the type
node. -/
def VarDeclNode.initAnalysis (d : VarDeclNode) (st1 : State) : Bool × Option ExpNode × State :=
  match d.myInit with
  | none => (true, none, st1)
  | some e => ((e.nameAnalysis st1).1, some (e.nameAnalysis st1).2.1, (e.nameAnalysis st1).2.2)

/-- The value of `validType` after the test `dataType->validVarType()`. -/
def VarDeclNode.validType (d : VarDeclNode) (st : State) : Bool :=
  (d.myType.nameAnalysis st).1 &&
    (match (d.myType.nameAnalysis st).2.1.getType with
     | some t => t.validVarType
     | none => false)

/-- The diagnostics that `VarDeclNode::nameAnalysis` reports itself, after
those of the type node and of the initializer. -/
def VarDeclNode.ownDiags (d : VarDeclNode) (validType clash : Bool) : List Diag :=
  (if validType then [] else [⟨.badVariableType, d.myID.pos⟩]) ++
    (if clash then [⟨.multipleDeclaration, d.myID.pos⟩] else [])

/-- The state in which `VarDeclNode::nameAnalysis` decides between failure and
insertion. -/
def VarDeclNode.decisionState (d : VarDeclNode) (st : State) (clash : Bool) : State :=
  let st2 := (d.initAnalysis (d.myType.nameAnalysis st).2.2).2.2
  { st2 with diags := st2.diags ++ d.ownDiags (d.validType st) clash }

/-- A step that adds bindings and changes, below address `n`, at most the scope
table at `c`. -/
structure State.Step (c : Option ScopeId) (n : Nat) (st st' : State) : Prop where
  grows : st.Grows st'
  frame : State.Frame c n st st'

/-- The declarations of a list are resolved one after the other in the order
of the list, each exactly once and each in the state left by the one before it,
whatever the earlier ones returned.  The third argument lists, per declaration,
the boolean its resolution returned and its annotated copy. -/
inductive DeclNode.ResolvedInOrder :
    List DeclNode → State → List (Bool × DeclNode) → State → Prop
  | nil (st : State) : DeclNode.ResolvedInOrder [] st [] st
  | cons {d : DeclNode} {rest : List DeclNode} {st st1 st2 : State} {r : Bool} {d' : DeclNode}
      {rs : List (Bool × DeclNode)} :
      d.nameAnalysis st = some (r, d', st1) →
      DeclNode.ResolvedInOrder rest st1 rs st2 →
      DeclNode.ResolvedInOrder (d :: rest) st ((r, d') :: rs) st2

/-- The state after one more diagnostic. -/
def State.withDiag (st : State) (k : ErrKind) (p : Position) : State :=
  { st with diags := st.diags ++ [⟨k, p⟩] }

/-- The diagnostics of one kind among those reported so far. -/
def State.diagsOf (st : State) (k : ErrKind) : List Diag :=
  st.diags.filter (fun d => d.kind = k)

/-- The later state has the same `MultipleDeclaration` diagnostics. -/
def State.SameRedecls (st st' : State) : Prop :=
  st'.diagsOf .multipleDeclaration = st.diagsOf .multipleDeclaration

/-- A location node fresh from the parser: no symbol attached anywhere. -/
def LocNode.fresh : LocNode → Bool
  | .id n => n.mySymbol.isNone
  | .member _ base field sym => base.fresh && field.mySymbol.isNone && sym.isNone

/-- The identifier references to the name `x` in a location: the identifiers
that `IDNode::nameAnalysis` looks up in the scope chain (the field of a member
access is looked up in a class instead and is not one of them). -/
def LocNode.refs (x : String) : LocNode → List IDNode
  | .id n => if n.name = x then [n] else []
  | .member _ myBase _ _ => myBase.refs x

mutual
/-- The identifier references to `x` in an expression. -/
def ExpNode.refs (x : String) : ExpNode → List IDNode
  | .intLit _ _ => []
  | .strLit _ _ => []
  | .trueNode _ => []
  | .falseNode _ => []
  | .loc l => l.refs x
  | .binary _ _ e1 e2 => ExpNode.refs x e1 ++ ExpNode.refs x e2
  | .neg _ e => ExpNode.refs x e
  | .not _ e => ExpNode.refs x e
  | .call _ callee args => callee.refs x ++ ExpNode.refsList x args
/-- The identifier references to `x` in a list of expressions. -/
def ExpNode.refsList (x : String) : List ExpNode → List IDNode
  | [] => []
  | e :: rest => ExpNode.refs x e ++ ExpNode.refsList x rest
end

/-- The identifier references to `x` in a variable declaration (they are in
its initializer). -/
def VarDeclNode.refs (x : String) (d : VarDeclNode) : List IDNode :=
  match d.myInit with
  | none => []
  | some e => e.refs x

/-- The identifier references to `x` in a list of formals. -/
def VarDeclNode.refsList (x : String) : List VarDeclNode → List IDNode
  | [] => []
  | d :: rest => d.refs x ++ VarDeclNode.refsList x rest

mutual
/-- The identifier references to `x` in a statement, at any depth. -/
def StmtNode.refs (x : String) : StmtNode → List IDNode
  | .assign _ dst src => dst.refs x ++ src.refs x
  | .exit _ => []
  | .postDec _ l => l.refs x
  | .postInc _ l => l.refs x
  | .take _ l => l.refs x
  | .give _ e => e.refs x
  | .ifStmt _ cond body => cond.refs x ++ StmtNode.refsList x body
  | .ifElse _ cond bodyT bodyF =>
    cond.refs x ++ StmtNode.refsList x bodyT ++ StmtNode.refsList x bodyF
  | .while _ cond body => cond.refs x ++ StmtNode.refsList x body
  | .ret _ none => []
  | .ret _ (some e) => e.refs x
  | .callStmt _ e => e.refs x
  | .decl d => DeclNode.refs x d
/-- The identifier references to `x` in a list of statements. -/
def StmtNode.refsList (x : String) : List StmtNode → List IDNode
  | [] => []
  | s :: rest => StmtNode.refs x s ++ StmtNode.refsList x rest
/-- The identifier references to `x` in a declaration, at any depth. -/
def DeclNode.refs (x : String) : DeclNode → List IDNode
  | .varDecl d => d.refs x
  | .fnDecl _ _ _ formals body => VarDeclNode.refsList x formals ++ StmtNode.refsList x body
  | .classDefn _ _ members => DeclNode.refsList x members
/-- The identifier references to `x` in a list of declarations. -/
def DeclNode.refsList (x : String) : List DeclNode → List IDNode
  | [] => []
  | d :: rest => DeclNode.refs x d ++ DeclNode.refsList x rest
end

mutual
/-- The names a statement declares, at any depth: variables, formals,
functions and classes. -/
def StmtNode.declaredNames : StmtNode → List String
  | .ifStmt _ _ body => StmtNode.declaredNamesList body
  | .ifElse _ _ bodyT bodyF =>
    StmtNode.declaredNamesList bodyT ++ StmtNode.declaredNamesList bodyF
  | .while _ _ body => StmtNode.declaredNamesList body
  | .decl d => DeclNode.declaredNames d
  | _ => []
/-- The names a list of statements declares. -/
def StmtNode.declaredNamesList : List StmtNode → List String
  | [] => []
  | s :: rest => StmtNode.declaredNames s ++ StmtNode.declaredNamesList rest
/-- The names a declaration declares, at any depth. -/
def DeclNode.declaredNames : DeclNode → List String
  | .varDecl d => [d.myID.name]
  | .fnDecl _ myID _ formals body =>
    myID.name :: (formals.map (fun f => f.myID.name) ++ StmtNode.declaredNamesList body)
  | .classDefn _ myID members => myID.name :: DeclNode.declaredNamesList members
/-- The names a list of declarations declares. -/
def DeclNode.declaredNamesList : List DeclNode → List String
  | [] => []
  | d :: rest => DeclNode.declaredNames d ++ DeclNode.declaredNamesList rest
end

/-- What became of the references `refs` to a name, given the result `found`
of looking the name up when they were resolved: if it was bound to `f`, every
reference carries `f`; if it was unbound, every reference was reported as an
undeclared identifier at its position and, when there is a reference, the
resolution returned false. -/
def RefsResolved (found : Option SemSymbol) (refs : List IDNode) (r : Bool)
    (diags : List Diag) : Prop :=
  match found with
  | some f => ∀ n ∈ refs, n.mySymbol = some f
  | none => (∀ n ∈ refs, (⟨.undeclaredIdentifier, n.pos⟩ : Diag) ∈ diags) ∧ (refs ≠ [] → r = false)

/-- No scope table changed its binding of the name `x`. -/
def State.KeepsName (x : String) (st st' : State) : Prop :=
  ∀ id, (st'.scope id).lookup x = (st.scope id).lookup x

/-- The state in which `FnDeclNode::nameAnalysis` resolves the formals: the
return type is resolved, the body scope is entered and a clash of the function
name in the declaring scope `atFnScope` has been reported. -/
def FnDeclNode.formalsState (myID : IDNode) (myRetType : TypeNode) (st : State)
    (atFnScope : ScopeId) : State :=
  let st2 := (SymbolTable.enterScope (myRetType.nameAnalysis st).2.2).2
  if (st.scope atFnScope).clash myID.name then (NameErr.multiDecl myID.pos st2).2 else st2

/-- The state in which `FnDeclNode::nameAnalysis` resolves the body: `st4` is
the state left by the formals, and the function symbol has been added to the
declaring scope unless its name clashed there. -/
def FnDeclNode.bodyState (myID : IDNode) (clash : Bool) (atFnScope : ScopeId) (st4 : State)
    (dataType : DataType) : State :=
  if clash then st4 else ScopeTable.addFn st4 atFnScope myID.name dataType

/-- The identifier of a function declaration after `FnDeclNode::nameAnalysis`. -/
def FnDeclNode.resolvedID (myID : IDNode) (clash : Bool) (atFnScope : ScopeId) (st5 : State) :
    IDNode :=
  if clash then myID else myID.attachSymbol ((st5.scope atFnScope).lookup myID.name)

/-- The state in which `ClassDefnNode::nameAnalysis` resolves the class
identifier: `st3` is the state after the member scope was left, and the
aggregate symbol has been added to the current scope `c`. -/
def ClassDefnNode.registeredState (myID : IDNode) (c : ScopeId) (fields : ScopeId)
    (st3 : State) : State :=
  (st3.insertAt c .agg myID.name (.cls fields)).2

/-- The diagnostics reported between two states of a run. -/
def State.newDiags (st st' : State) : List Diag :=
  st'.diags.drop st.diags.length

/-- Every open scope is an allocated scope table (no dangling pointer in
`scopeTableChain`). -/
def State.WF (st : State) : Prop :=
  ∀ id ∈ st.chain, id < st.heap.length

/-- The part that `IfStmtNode`, `IfElseStmtNode` (once per branch) and
`WhileStmtNode` share: `symTab->enterScope();` then the loop over the body,
then `symTab->leaveScope();`. -/
def StmtNode.resolveBody (body : List StmtNode) (result : Bool) (st1 : State) :
    Option (Bool × List StmtNode × State) :=
  match StmtNode.nameAnalysisList body result (SymbolTable.enterScope st1).2 with
  | none => none
  | some (r, body', st3) =>
    match SymbolTable.leaveScope st3 with
    | none => none
    | some st4 => some (r, body', st4)

/-- The identifier carries a symbol. -/
def IDNode.attached (n : IDNode) : Bool := n.mySymbol.isSome

/-- Every identifier of a location carries a symbol, and so does every member
access in it. -/
def LocNode.allAttached : LocNode → Bool
  | .id n => n.attached
  | .member _ myBase myField mySymbol =>
    myBase.allAttached && myField.attached && mySymbol.isSome

/-- Every identifier of a type node carries a symbol. -/
def TypeNode.allAttached : TypeNode → Bool
  | .basic _ _ => true
  | .perfect _ mySub => mySub.allAttached
  | .cls _ myID _ => myID.attached

mutual
/-- Every identifier of an expression carries a symbol. -/
def ExpNode.allAttached : ExpNode → Bool
  | .intLit _ _ => true
  | .strLit _ _ => true
  | .trueNode _ => true
  | .falseNode _ => true
  | .loc l => l.allAttached
  | .binary _ _ e1 e2 => ExpNode.allAttached e1 && ExpNode.allAttached e2
  | .neg _ e => ExpNode.allAttached e
  | .not _ e => ExpNode.allAttached e
  | .call _ callee args => callee.allAttached && ExpNode.allAttachedList args
/-- Every identifier of a list of expressions carries a symbol. -/
def ExpNode.allAttachedList : List ExpNode → Bool
  | [] => true
  | e :: rest => ExpNode.allAttached e && ExpNode.allAttachedList rest
end

/-- Every identifier of a variable declaration carries a symbol. -/
def VarDeclNode.allAttached (d : VarDeclNode) : Bool :=
  d.myID.attached && d.myType.allAttached &&
    (match d.myInit with
     | none => true
     | some e => e.allAttached)

/-- Every identifier of a list of formals carries a symbol. -/
def VarDeclNode.allAttachedList : List VarDeclNode → Bool
  | [] => true
  | d :: rest => d.allAttached && VarDeclNode.allAttachedList rest

mutual
/-- Every identifier of a statement carries a symbol. -/
def StmtNode.allAttached : StmtNode → Bool
  | .assign _ dst src => dst.allAttached && src.allAttached
  | .exit _ => true
  | .postDec _ l => l.allAttached
  | .postInc _ l => l.allAttached
  | .take _ l => l.allAttached
  | .give _ e => e.allAttached
  | .ifStmt _ cond body => cond.allAttached && StmtNode.allAttachedList body
  | .ifElse _ cond bodyT bodyF =>
    cond.allAttached && StmtNode.allAttachedList bodyT && StmtNode.allAttachedList bodyF
  | .while _ cond body => cond.allAttached && StmtNode.allAttachedList body
  | .ret _ none => true
  | .ret _ (some e) => e.allAttached
  | .callStmt _ e => e.allAttached
  | .decl d => DeclNode.allAttached d
/-- Every identifier of a list of statements carries a symbol. -/
def StmtNode.allAttachedList : List StmtNode → Bool
  | [] => true
  | s :: rest => StmtNode.allAttached s && StmtNode.allAttachedList rest
/-- Every identifier of a declaration carries a symbol. -/
def DeclNode.allAttached : DeclNode → Bool
  | .varDecl d => d.allAttached
  | .fnDecl _ myID myRetType formals body =>
    myID.attached && myRetType.allAttached && VarDeclNode.allAttachedList formals &&
      StmtNode.allAttachedList body
  | .classDefn _ myID members => myID.attached && DeclNode.allAttachedList members
/-- Every identifier of a list of declarations carries a symbol. -/
def DeclNode.allAttachedList : List DeclNode → Bool
  | [] => true
  | d :: rest => DeclNode.allAttached d && DeclNode.allAttachedList rest
end

/-- Every identifier node of the program carries a symbol. -/
def ProgramNode.allAttached (p : ProgramNode) : Bool :=
  DeclNode.allAttachedList p.myGlobals

/-- Between the two states a diagnostic other than `MultipleDeclaration` was
reported (an `UndeclaredIdentifier` or a `BadVariableType`). -/
def State.Complains (st st' : State) : Prop :=
  ∃ dg ∈ st.newDiags st', dg.kind ≠ .multipleDeclaration

/-- The name a declaration adds to the scope it stands in. -/
def DeclNode.topName : DeclNode → String
  | .varDecl d => d.myID.name
  | .fnDecl _ myID _ _ _ => myID.name
  | .classDefn _ myID _ => myID.name

/-- The names a statement adds to the scope it stands in: its own name when it
is a declaration, none otherwise (names declared inside a body go to the scope
of that body). -/
def StmtNode.topNames : StmtNode → List String
  | .decl d => [d.topName]
  | _ => []

/-- The names a list of statements adds to the scope it stands in. -/
def StmtNode.topNamesList : List StmtNode → List String
  | [] => []
  | s :: rest => s.topNames ++ StmtNode.topNamesList rest

/-- The names a list of declarations adds to the scope it stands in. -/
def DeclNode.topNamesList : List DeclNode → List String
  | [] => []
  | d :: rest => d.topName :: DeclNode.topNamesList rest

/-- The names of the formals of a function. -/
def VarDeclNode.namesList : List VarDeclNode → List String
  | [] => []
  | d :: rest => d.myID.name :: VarDeclNode.namesList rest

mutual
/-- No scope inside the statement declares a name twice: the bodies of `if`,
`else` and `while` are scopes of their own. -/
def StmtNode.noRedecl : StmtNode → Bool
  | .ifStmt _ _ body =>
    decide (StmtNode.topNamesList body).Nodup && StmtNode.noRedeclList body
  | .ifElse _ _ bodyT bodyF =>
    decide (StmtNode.topNamesList bodyT).Nodup && StmtNode.noRedeclList bodyT &&
      (decide (StmtNode.topNamesList bodyF).Nodup && StmtNode.noRedeclList bodyF)
  | .while _ _ body =>
    decide (StmtNode.topNamesList body).Nodup && StmtNode.noRedeclList body
  | .decl d => DeclNode.noRedecl d
  | _ => true
/-- No scope inside a statement of the list declares a name twice. -/
def StmtNode.noRedeclList : List StmtNode → Bool
  | [] => true
  | s :: rest => StmtNode.noRedecl s && StmtNode.noRedeclList rest
/-- No scope inside the declaration declares a name twice: the formals and the
body of a function share one scope, the members of a class are another. -/
def DeclNode.noRedecl : DeclNode → Bool
  | .varDecl _ => true
  | .fnDecl _ _ _ formals body =>
    decide (VarDeclNode.namesList formals ++ StmtNode.topNamesList body).Nodup &&
      StmtNode.noRedeclList body
  | .classDefn _ _ members =>
    decide (DeclNode.topNamesList members).Nodup && DeclNode.noRedeclList members
/-- No scope inside a declaration of the list declares a name twice. -/
def DeclNode.noRedeclList : List DeclNode → Bool
  | [] => true
  | d :: rest => DeclNode.noRedecl d && DeclNode.noRedeclList rest
end

/-- The program has no redeclaration: no scope of it declares a name twice,
the global scope included. -/
def ProgramNode.noRedecl (p : ProgramNode) : Bool :=
  decide (DeclNode.topNamesList p.myGlobals).Nodup && DeclNode.noRedeclList p.myGlobals

/-- The formals of a list are resolved one after the other in the order of the
list, each exactly once and each in the state left by the one before it,
whatever the earlier ones returned. -/
inductive VarDeclNode.ResolvedInOrder :
    List VarDeclNode → State → List (Bool × VarDeclNode) → State → Prop
  | nil (st : State) : VarDeclNode.ResolvedInOrder [] st [] st
  | cons {d : VarDeclNode} {rest : List VarDeclNode} {st st1 st2 : State} {r : Bool}
      {d' : VarDeclNode} {rs : List (Bool × VarDeclNode)} :
      d.nameAnalysis st = some (r, d', st1) →
      VarDeclNode.ResolvedInOrder rest st1 rs st2 →
      VarDeclNode.ResolvedInOrder (d :: rest) st ((r, d') :: rs) st2

/-- The statements of a list are resolved one after the other in the order of
the list, each exactly once and each in the state left by the one before it,
whatever the earlier ones returned. -/
inductive StmtNode.ResolvedInOrder :
    List StmtNode → State → List (Bool × StmtNode) → State → Prop
  | nil (st : State) : StmtNode.ResolvedInOrder [] st [] st
  | cons {s : StmtNode} {rest : List StmtNode} {st st1 st2 : State} {r : Bool}
      {s' : StmtNode} {rs : List (Bool × StmtNode)} :
      s.nameAnalysis st = some (r, s', st1) →
      StmtNode.ResolvedInOrder rest st1 rs st2 →
      StmtNode.ResolvedInOrder (s :: rest) st ((r, s') :: rs) st2

/-- The declared types of a list of formals, in the order of the list: each
formal is resolved in the state left by the one before it, whatever it returns,
and contributes the type that its type node denotes once resolved. -/
inductive VarDeclNode.FormalTypes :
    List VarDeclNode → State → List DataType → State → Prop
  | nil (st : State) : VarDeclNode.FormalTypes [] st [] st
  | cons {d : VarDeclNode} {rest : List VarDeclNode} {st st1 st2 : State} {r : Bool}
      {d' : VarDeclNode} {t : DataType} {ts : List DataType} :
      d.nameAnalysis st = some (r, d', st1) →
      (d.myType.nameAnalysis st).2.1.getType = some t →
      VarDeclNode.FormalTypes rest st1 ts st2 →
      VarDeclNode.FormalTypes (d :: rest) st (t :: ts) st2

/-- The number of bindings held by all scope tables together. -/
def State.bindings (st : State) : Nat :=
  (st.heap.map List.length).sum

/-- Keys are unique within every scope table. -/
def State.UniqueKeys (st : State) : Prop :=
  ∀ t ∈ st.heap, (t.map (fun s => s.name)).Nodup

/-- Between the two states every insertion succeeded: each symbol object
allocated for an insertion became a binding of some scope table (as many
bindings were gained as symbols were allocated), and scope tables with unique
keys still have unique keys. -/
structure State.InsertsCleanly (st st' : State) : Prop where
  allBound : st'.bindings + st.nextSym = st.bindings + st'.nextSym
  unique : st.UniqueKeys → st'.UniqueKeys

mutual
/-- What a declaration offers to a member access, read off the program text:
`plain` for a value without fields (a variable of a primitive type, a
function), `obj` for a class and for a variable of a class type, with the
fields that the class declares. -/
inductive Shape
  | plain
  | obj (fields : FieldList)
/-- The fields a class declares, the latest first. -/
inductive FieldList
  | nil
  | cons (name : String) (shape : Shape) (rest : FieldList)
end

/-- The field of that name, if the class declares one. -/
def FieldList.lookup : FieldList → String → Option Shape
  | .nil, _ => none
  | .cons n sh rest, x => if n = x then some sh else rest.lookup x

/-- A declaration as the program text shows it: whether it declares a class,
and what it offers to a member access. -/
structure Entry where
  isClass : Bool
  shape : Shape

/-- The declarations visible at a point of the program text, the innermost and
latest first. -/
abbrev Env := List (String × Entry)

/-- The visible declaration of a name: the innermost, latest one. -/
def Env.lookup : Env → String → Option Entry
  | [], _ => none
  | (n, e) :: rest, x => if n = x then some e else Env.lookup rest x

/-- The fields that the members of a class make up. -/
def FieldList.ofEnv : Env → FieldList
  | [] => .nil
  | (n, e) :: rest => .cons n e.shape (FieldList.ofEnv rest)

/-- The shape a type annotation stands for where `env` is visible; none when a
class-type annotation names no visible class. -/
def TypeNode.shape (env : Env) : TypeNode → Option Shape
  | .basic _ _ => some .plain
  | .perfect _ sub => TypeNode.shape env sub
  | .cls _ myID _ =>
    match Env.lookup env myID.name with
    | some ⟨true, .obj fs⟩ => some (.obj fs)
    | _ => none

/-- The annotation is a usable variable type as far as the text shows: it is
not `void`. -/
def TypeNode.usable : TypeNode → Bool
  | .basic _ b => b != .void
  | .perfect _ sub => sub.usable
  | .cls _ _ _ => true

/-- The shape of what a location denotes where `env` is visible; none when the
identifier has no visible declaration, when the base of a member access is not
of a class type, or when the class of the base declares no such field. -/
def LocNode.shape (env : Env) : LocNode → Option Shape
  | .id n => (Env.lookup env n.name).map (fun e => e.shape)
  | .member _ myBase myField _ =>
    match LocNode.shape env myBase with
    | some (.obj fs) => fs.lookup myField.name
    | _ => none

mutual
/-- Every reference of the expression has a visible declaration. -/
def ExpNode.check (env : Env) : ExpNode → Bool
  | .intLit _ _ => true
  | .strLit _ _ => true
  | .trueNode _ => true
  | .falseNode _ => true
  | .loc l => (l.shape env).isSome
  | .binary _ _ e1 e2 => ExpNode.check env e1 && ExpNode.check env e2
  | .neg _ e => ExpNode.check env e
  | .not _ e => ExpNode.check env e
  | .call _ callee args => (callee.shape env).isSome && ExpNode.checkList env args
/-- Every reference of the expressions of the list has a visible declaration. -/
def ExpNode.checkList (env : Env) : List ExpNode → Bool
  | [] => true
  | e :: rest => ExpNode.check env e && ExpNode.checkList env rest
end

/-- A variable declaration read as program text, where the scope it stands in
has declared `loc` so far and `outer` is visible from the enclosing scopes: its
annotation and the references of its initializer must have visible
declarations (the variable itself is not yet visible in its initializer); the
variable is then declared in the scope. -/
def VarDeclNode.check (outer : Env) (d : VarDeclNode) (loc : Env) : Option Env :=
  match d.myType.shape (loc ++ outer) with
  | none => none
  | some sh =>
    if (match d.myInit with
        | none => true
        | some e => e.check (loc ++ outer)) then
      some ((d.myID.name, ⟨false, sh⟩) :: loc)
    else none

/-- The formals of a function read as program text, one after the other. -/
def VarDeclNode.checkList (outer : Env) : List VarDeclNode → Env → Option Env
  | [], loc => some loc
  | d :: rest, loc =>
    match d.check outer loc with
    | none => none
    | some loc1 => VarDeclNode.checkList outer rest loc1

mutual
/-- A statement read as program text, where the scope it stands in has declared
`loc` so far and `outer` is visible from the enclosing scopes: every reference
in it must have a visible declaration; the result is what the scope has
declared after it.  The body of an `if`, `else` or `while` is a scope of its
own, from which nothing stays visible. -/
def StmtNode.check (outer : Env) : StmtNode → Env → Option Env
  | .assign _ dst src, loc =>
    if (dst.shape (loc ++ outer)).isSome && src.check (loc ++ outer) then some loc else none
  | .exit _, loc => some loc
  | .postDec _ l, loc => if (l.shape (loc ++ outer)).isSome then some loc else none
  | .postInc _ l, loc => if (l.shape (loc ++ outer)).isSome then some loc else none
  | .take _ l, loc => if (l.shape (loc ++ outer)).isSome then some loc else none
  | .give _ e, loc => if e.check (loc ++ outer) then some loc else none
  | .ifStmt _ cond body, loc =>
    if cond.check (loc ++ outer) then
      match StmtNode.checkList (loc ++ outer) body [] with
      | none => none
      | some _ => some loc
    else none
  | .ifElse _ cond bodyT bodyF, loc =>
    if cond.check (loc ++ outer) then
      match StmtNode.checkList (loc ++ outer) bodyT [] with
      | none => none
      | some _ =>
        match StmtNode.checkList (loc ++ outer) bodyF [] with
        | none => none
        | some _ => some loc
    else none
  | .while _ cond body, loc =>
    if cond.check (loc ++ outer) then
      match StmtNode.checkList (loc ++ outer) body [] with
      | none => none
      | some _ => some loc
    else none
  | .ret _ none, loc => some loc
  | .ret _ (some e), loc => if e.check (loc ++ outer) then some loc else none
  | .callStmt _ e, loc => if e.check (loc ++ outer) then some loc else none
  | .decl d, loc => DeclNode.check outer d loc
/-- The statements of a scope read as program text, one after the other. -/
def StmtNode.checkList (outer : Env) : List StmtNode → Env → Option Env
  | [], loc => some loc
  | s :: rest, loc =>
    match StmtNode.check outer s loc with
    | none => none
    | some loc1 => StmtNode.checkList outer rest loc1
/-- A declaration read as program text.  A function is visible in its own body
but not to its formals; formals and body share one scope.  A class is visible
after its members, which make up its fields. -/
def DeclNode.check (outer : Env) : DeclNode → Env → Option Env
  | .varDecl d, loc => d.check outer loc
  | .fnDecl _ myID myRetType myFormals myBody, loc =>
    if (myRetType.shape (loc ++ outer)).isSome then
      match VarDeclNode.checkList (loc ++ outer) myFormals [] with
      | none => none
      | some floc =>
        match StmtNode.checkList ((myID.name, ⟨false, .plain⟩) :: (loc ++ outer)) myBody floc with
        | none => none
        | some _ => some ((myID.name, ⟨false, .plain⟩) :: loc)
    else none
  | .classDefn _ myID myMembers, loc =>
    match DeclNode.checkList (loc ++ outer) myMembers [] with
    | none => none
    | some mloc => some ((myID.name, ⟨true, .obj (FieldList.ofEnv mloc)⟩) :: loc)
/-- The declarations of a scope read as program text, one after the other. -/
def DeclNode.checkList (outer : Env) : List DeclNode → Env → Option Env
  | [], loc => some loc
  | d :: rest, loc =>
    match DeclNode.check outer d loc with
    | none => none
    | some loc1 => DeclNode.checkList outer rest loc1
end

/-- The program has no undeclared reference: every identifier it refers to has
a declaration visible at the point of the reference, every class-type
annotation names a visible class, and every member access names a field of the
class of its base. -/
def ProgramNode.refsDeclared (p : ProgramNode) : Bool :=
  (DeclNode.checkList [] p.myGlobals []).isSome

/-- No formal of the list is declared `void`. -/
def VarDeclNode.usableList : List VarDeclNode → Bool
  | [] => true
  | d :: rest => d.myType.usable && VarDeclNode.usableList rest

mutual
/-- No variable or formal in the statement is declared `void`. -/
def StmtNode.usableTypes : StmtNode → Bool
  | .ifStmt _ _ body => StmtNode.usableTypesList body
  | .ifElse _ _ bodyT bodyF => StmtNode.usableTypesList bodyT && StmtNode.usableTypesList bodyF
  | .while _ _ body => StmtNode.usableTypesList body
  | .decl d => DeclNode.usableTypes d
  | _ => true
/-- No variable or formal in the statements is declared `void`. -/
def StmtNode.usableTypesList : List StmtNode → Bool
  | [] => true
  | s :: rest => StmtNode.usableTypes s && StmtNode.usableTypesList rest
/-- No variable or formal in the declaration is declared `void`. -/
def DeclNode.usableTypes : DeclNode → Bool
  | .varDecl d => d.myType.usable
  | .fnDecl _ _ _ formals body => VarDeclNode.usableList formals && StmtNode.usableTypesList body
  | .classDefn _ _ members => DeclNode.usableTypesList members
/-- No variable or formal in the declarations is declared `void`. -/
def DeclNode.usableTypesList : List DeclNode → Bool
  | [] => true
  | d :: rest => DeclNode.usableTypes d && DeclNode.usableTypesList rest
end

/-- The program declares no variable and no formal of type `void`. -/
def ProgramNode.usableTypes (p : ProgramNode) : Bool :=
  DeclNode.usableTypesList p.myGlobals

mutual
/-- The type of a symbol offers what the shape promises: for `obj`, it is a
class type whose field scope binds every promised field to a symbol that
offers the shape of the field. -/
def State.HasShape (st : State) : Shape → DataType → Prop
  | .plain, _ => True
  | .obj fs, ty => ∃ fid, ty = .cls fid ∧ State.HasFields st fs fid
/-- The scope table `fid` binds every field of the list to a symbol that offers
the shape of the field. -/
def State.HasFields (st : State) : FieldList → ScopeId → Prop
  | .nil, _ => True
  | .cons n sh rest, fid =>
    (∃ sym, (st.scope fid).lookup n = some sym ∧ State.HasShape st sh sym.type) ∧
      State.HasFields st rest fid
end

/-- The symbol stands for the declaration: it is of aggregate kind if the
declaration is a class, and its type offers the shape of the declaration. -/
def State.Stands (st : State) (e : Entry) (sym : SemSymbol) : Prop :=
  (e.isClass = true → sym.kind = .agg) ∧ st.HasShape e.shape sym.type

/-- Every visible declaration of the text is found in the symbol table, bound
to a symbol that stands for it. -/
def State.Finds (st : State) (env : Env) : Prop :=
  ∀ x e, Env.lookup env x = some e →
    ∃ sym, SymbolTable.find st x = some sym ∧ st.Stands e sym

/-- The symbol table mirrors the program text at a point where the current
scope `c` has declared `loc` and `outer` is visible from the enclosing scopes
`rest`: the scope table `c` binds exactly the names of `loc`, each to a symbol
that stands for its declaration, and every declaration of `outer` is found in
the enclosing scopes. -/
structure State.Mirrors (st : State) (loc outer : Env) (c : ScopeId) (rest : List ScopeId) :
    Prop where
  chain : st.chain = c :: rest
  wf : st.WF
  fresh : c ∉ rest
  agree : ∀ x, Env.lookup loc x = none → (st.scope c).lookup x = none
  locals : ∀ p ∈ loc, ∃ sym, (st.scope c).lookup p.1 = some sym ∧ st.Stands p.2 sym
  outers : ∀ x e, Env.lookup outer x = some e →
    ∃ sym, st.findIn rest x = some sym ∧ st.Stands e sym

/-! # Properties

Every definition of the development stands above this line; lemmas and
theorems follow. -/

/-! ## Expression-level analysis leaves the symbol table alone -/

theorem State.SameTables.same_refl (st : State) : st.SameTables st :=
  ⟨rfl, rfl, rfl, List.prefix_refl _⟩

theorem State.SameTables.same_trans {a b c : State} (h1 : a.SameTables b) (h2 : b.SameTables c) :
    a.SameTables c :=
  ⟨h2.heap.trans h1.heap, h2.chain.trans h1.chain, h2.nextSym.trans h1.nextSym,
    h1.diags.trans h2.diags⟩

theorem State.sameTables_report (st : State) (k : ErrKind) (p : Position) :
    st.SameTables (st.report k p).2 :=
  ⟨rfl, rfl, rfl, List.prefix_append _ _⟩

theorem IDNode.id_sameTables (n : IDNode) (st : State) :
    st.SameTables (n.nameAnalysis st).2.2 := by
  unfold IDNode.nameAnalysis
  split
  · exact State.sameTables_report _ _ _
  · exact State.SameTables.same_refl _

theorem LocNode.loc_sameTables (l : LocNode) (st : State) :
    st.SameTables (l.nameAnalysis st).2.2 := by
  induction l generalizing st with
  | id n => simpa [LocNode.nameAnalysis] using IDNode.id_sameTables n st
  | member pos base field sym ih =>
    have := ih st
    simp only [LocNode.nameAnalysis]
    split <;> try exact this
    split
    · exact this.same_trans (State.sameTables_report _ _ _)
    · split
      · exact this.same_trans (State.sameTables_report _ _ _)
      · exact this

theorem TypeNode.type_sameTables (t : TypeNode) (st : State) :
    st.SameTables (t.nameAnalysis st).2.2 := by
  induction t generalizing st with
  | basic pos b => exact State.SameTables.same_refl _
  | perfect pos sub ih => simpa [TypeNode.nameAnalysis] using ih st
  | cls pos id ty =>
    simp only [TypeNode.nameAnalysis]
    split
    · exact State.sameTables_report _ _ _
    · split
      · exact State.sameTables_report _ _ _
      · exact State.SameTables.same_refl _

mutual
theorem ExpNode.exp_sameTables : ∀ (e : ExpNode) (st : State),
    st.SameTables (e.nameAnalysis st).2.2
  | .intLit _ _, st => State.SameTables.same_refl _
  | .strLit _ _, st => State.SameTables.same_refl _
  | .trueNode _, st => State.SameTables.same_refl _
  | .falseNode _, st => State.SameTables.same_refl _
  | .loc l, st => by
    simpa [ExpNode.nameAnalysis] using LocNode.loc_sameTables l st
  | .binary _ _ e1 e2, st => by
    have h1 := ExpNode.exp_sameTables e1 st
    have h2 := ExpNode.exp_sameTables e2 (e1.nameAnalysis st).2.2
    simpa [ExpNode.nameAnalysis] using h1.same_trans h2
  | .neg _ e, st => by
    simpa [ExpNode.nameAnalysis] using ExpNode.exp_sameTables e st
  | .not _ e, st => by
    simpa [ExpNode.nameAnalysis] using ExpNode.exp_sameTables e st
  | .call _ callee args, st => by
    have h1 := LocNode.loc_sameTables callee st
    have h2 := ExpNode.expList_sameTables args ((callee.nameAnalysis st).1 && true)
      (callee.nameAnalysis st).2.2
    simpa [ExpNode.nameAnalysis] using h1.same_trans h2
theorem ExpNode.expList_sameTables : ∀ (l : List ExpNode) (acc : Bool) (st : State),
    st.SameTables (ExpNode.nameAnalysisList l acc st).2.2
  | [], _, st => State.SameTables.same_refl _
  | e :: rest, acc, st => by
    have h1 := ExpNode.exp_sameTables e st
    have h2 := ExpNode.expList_sameTables rest ((e.nameAnalysis st).1 && acc)
      (e.nameAnalysis st).2.2
    simpa [ExpNode.nameAnalysisList] using h1.same_trans h2
end

/-! ## How a resolution step may change the state -/

theorem State.Grows.grows_refl (st : State) : st.Grows st :=
  ⟨le_refl _, fun _ _ _ h => h, List.prefix_refl _, le_refl _⟩

theorem State.Grows.grows_trans {a b c : State} (h1 : a.Grows b) (h2 : b.Grows c) : a.Grows c :=
  ⟨h1.heapLen.trans h2.heapLen, fun id name s h => h2.lookup id name s (h1.lookup id name s h),
    h1.diags.trans h2.diags, h1.nextSym.trans h2.nextSym⟩

theorem State.Frame.frame_refl (c : Option ScopeId) (n : Nat) (st : State) : State.Frame c n st st :=
  fun _ _ _ => rfl

theorem State.Frame.frame_trans {c : Option ScopeId} {n : Nat} {s1 s2 s3 : State}
    (h1 : State.Frame c n s1 s2) (h2 : State.Frame c n s2 s3) : State.Frame c n s1 s3 :=
  fun id hid hc => (h2 id hid hc).trans (h1 id hid hc)

theorem State.Frame.mono {c : Option ScopeId} {n m : Nat} {s1 s2 : State}
    (h : State.Frame c n s1 s2) (hm : m ≤ n) : State.Frame c m s1 s2 :=
  fun id hid hc => h id (lt_of_lt_of_le hid hm) hc

/-- A frame around a scope allocated at or above `n` fixes everything below `n`. -/
theorem State.Frame.of_new {k n : Nat} {c : Option ScopeId} {s1 s2 : State}
    (h : State.Frame (some k) n s1 s2) (hk : n ≤ k) : State.Frame c n s1 s2 :=
  fun id hid _ => h id hid (by
    intro he
    have : k = id := Option.some.inj he
    omega)

theorem State.SameTables.scope {st st' : State} (h : st.SameTables st') (id : ScopeId) :
    st'.scope id = st.scope id := by
  simp [State.scope, h.heap]

theorem State.SameTables.find {st st' : State} (h : st.SameTables st') (name : String) :
    SymbolTable.find st' name = SymbolTable.find st name := by
  have hf : ∀ l, st'.findIn l name = st.findIn l name := by
    intro l
    induction l with
    | nil => rfl
    | cons id rest ih => simp [State.findIn, h.scope, ih]
  simp [SymbolTable.find, h.chain, hf]

theorem State.SameTables.grows {st st' : State} (h : st.SameTables st') : st.Grows st' :=
  ⟨by rw [h.heap], fun id name s hl => by rw [h.scope]; exact hl, h.diags, by rw [h.nextSym]⟩

theorem State.SameTables.frame {st st' : State} (h : st.SameTables st') (c : Option ScopeId)
    (n : Nat) : State.Frame c n st st' :=
  fun id _ _ => h.scope id

theorem State.SameTables.extends {st st' : State} (h : st.SameTables st') : st.Extends st' :=
  ⟨h.chain, h.grows, h.frame _ _⟩

theorem State.Extends.ext_refl (st : State) : st.Extends st :=
  (State.SameTables.same_refl st).extends

theorem State.Extends.ext_trans {a b c : State} (h1 : a.Extends b) (h2 : b.Extends c) :
    a.Extends c :=
  ⟨h2.chain.trans h1.chain, h1.grows.grows_trans h2.grows,
    h1.frame.frame_trans ((h1.chain ▸ h2.frame).mono h1.grows.heapLen)⟩

theorem State.scope_enterScope (st : State) (id : ScopeId) :
    (SymbolTable.enterScope st).2.scope id = st.scope id := by
  simp only [State.scope, SymbolTable.enterScope, List.getD_eq_getElem?_getD]
  rcases Nat.lt_trichotomy id st.heap.length with h | h | h
  · rw [List.getElem?_append_left h]
  · subst h; simp
  · rw [List.getElem?_eq_none (by simp; omega), List.getElem?_eq_none (by omega)]

theorem State.scope_setScope (st : State) (c id : ScopeId) (t : ScopeTable) :
    (st.setScope c t).scope id = if c = id ∧ c < st.heap.length then t else st.scope id := by
  simp only [State.scope, State.setScope, List.getD_eq_getElem?_getD, List.getElem?_set]
  by_cases h : c = id
  · subst h
    by_cases h2 : c < st.heap.length
    · simp [h2]
    · simp [h2, List.getElem?_eq_none (Nat.le_of_not_lt h2)]
  · simp [h]

theorem ScopeTable.lookup_insert (t : ScopeTable) (sym : SemSymbol) (name : String) (s : SemSymbol)
    (h : t.lookup name = some s) : (t.insert sym).2.lookup name = some s := by
  unfold ScopeTable.insert
  split
  · exact h
  · rename_i hc
    simp only [ScopeTable.lookup, List.find?_cons]
    split
    · rename_i heq
      have : sym.name = name := by simpa using heq
      simp [ScopeTable.clash, this] at hc
      simp [hc] at h
    · exact h

theorem State.scope_insertAt (st : State) (c : ScopeId) (k : SymbolKind) (name : String)
    (ty : DataType) (id : ScopeId) :
    (st.insertAt c k name ty).2.scope id =
      if c = id ∧ c < st.heap.length then ((st.scope c).insert ⟨st.nextSym, k, name, ty⟩).2
      else st.scope id := by
  simp only [State.insertAt]
  have := State.scope_setScope st c id ((st.scope c).insert ⟨st.nextSym, k, name, ty⟩).2
  simpa [State.scope, State.setScope] using this

theorem State.grows_insertAt (st : State) (c : ScopeId) (k : SymbolKind) (name : String)
    (ty : DataType) : st.Grows (st.insertAt c k name ty).2 := by
  refine ⟨by simp [State.insertAt, State.setScope], ?_, by simp [State.insertAt, State.setScope],
    by simp [State.insertAt, State.setScope]⟩
  intro id nm s h
  rw [State.scope_insertAt]
  split
  · rename_i hc
    rw [hc.1]
    rw [hc.1] at hc
    exact ScopeTable.lookup_insert _ _ _ _ h
  · exact h

theorem State.frame_insertAt (st : State) (c : ScopeId) (k : SymbolKind) (name : String)
    (ty : DataType) (n : Nat) : State.Frame (some c) n st (st.insertAt c k name ty).2 := by
  intro id _ hc
  rw [State.scope_insertAt]
  have : ¬ c = id := fun h => hc (by rw [h])
  simp [this]

theorem State.chain_insertAt (st : State) (c : ScopeId) (k : SymbolKind) (name : String)
    (ty : DataType) : (st.insertAt c k name ty).2.chain = st.chain := rfl

theorem State.grows_enterScope (st : State) : st.Grows (SymbolTable.enterScope st).2 :=
  ⟨by simp [SymbolTable.enterScope], fun id name s h => by rw [State.scope_enterScope]; exact h,
    List.prefix_refl _, le_refl _⟩

theorem State.frame_enterScope (st : State) (c : Option ScopeId) (n : Nat) :
    State.Frame c n st (SymbolTable.enterScope st).2 :=
  fun id _ _ => State.scope_enterScope st id

theorem SymbolTable.leaveScope_eq {st st' : State} (h : SymbolTable.leaveScope st = some st') :
    ∃ c, st.chain = c :: st'.chain ∧ st'.heap = st.heap ∧ st'.nextSym = st.nextSym ∧
      st'.diags = st.diags := by
  unfold SymbolTable.leaveScope at h
  split at h
  · cases h
  · rename_i c rest hc
    cases h
    exact ⟨c, hc, rfl, rfl, rfl⟩

/-- A scope that is entered, used and left: the whole step extends the state. -/
theorem State.Extends.enter_leave {st st3 : State}
    (h : (SymbolTable.enterScope st).2.Extends st3) :
    ∃ st4, SymbolTable.leaveScope st3 = some st4 ∧ st.Extends st4 ∧
      st4.heap = st3.heap ∧ st4.nextSym = st3.nextSym ∧ st4.diags = st3.diags ∧
      State.Frame none st.heap.length st st4 := by
  have hc : st3.chain = st.heap.length :: st.chain := h.chain
  refine ⟨{ st3 with chain := st.chain }, by simp [SymbolTable.leaveScope, hc], ?_, rfl, rfl, rfl, ?_⟩
  · refine ⟨rfl, ?_, ?_⟩
    · have g := (State.grows_enterScope st).grows_trans h.grows
      exact ⟨g.heapLen, g.lookup, g.diags, g.nextSym⟩
    · intro id hid _
      have := h.frame id (by simp [SymbolTable.enterScope]; omega)
        (by simp [SymbolTable.enterScope]; exact Nat.ne_of_gt hid)
      rw [State.scope_enterScope] at this
      exact this
  · intro id hid _
    have := h.frame id (by simp [SymbolTable.enterScope]; omega)
      (by simp [SymbolTable.enterScope]; exact Nat.ne_of_gt hid)
    rw [State.scope_enterScope] at this
    exact this

/-! ## Variable declarations -/

theorem TypeNode.getType_nameAnalysis (t : TypeNode) (st : State) :
    ∃ ty, (t.nameAnalysis st).2.1.getType = some ty := by
  induction t generalizing st with
  | basic pos b => exact ⟨_, rfl⟩
  | perfect pos sub ih => simpa [TypeNode.nameAnalysis, TypeNode.getType] using ih st
  | cls pos id ty =>
    simp only [TypeNode.nameAnalysis]
    split
    · exact ⟨_, rfl⟩
    · split
      · exact ⟨_, rfl⟩
      · exact ⟨_, rfl⟩

theorem SymbolTable.clash_of_chain {st : State} {c : ScopeId} {rest : List ScopeId}
    (h : st.chain = c :: rest) (name : String) :
    SymbolTable.clash st name = some ((st.scope c).clash name) := by
  simp [SymbolTable.clash, SymbolTable.getCurrentScope, h]

theorem SymbolTable.insert_of_chain {st : State} {c : ScopeId} {rest : List ScopeId}
    (h : st.chain = c :: rest) (name : String) (ty : DataType) :
    SymbolTable.insert st name ty = some (st.insertAt c .var name ty) := by
  simp [SymbolTable.insert, SymbolTable.getCurrentScope, h]

theorem State.extends_insertAt {st : State} {c : ScopeId} {rest : List ScopeId}
    (h : st.chain = c :: rest) (k : SymbolKind) (name : String) (ty : DataType) :
    st.Extends (st.insertAt c k name ty).2 :=
  ⟨rfl, State.grows_insertAt st c k name ty, by
    rw [h]; exact State.frame_insertAt st c k name ty _⟩

/-- `VarDeclNode::nameAnalysis` in one equation, for a state with a current
scope `c`. -/
theorem VarDeclNode.nameAnalysis_eq (d : VarDeclNode) (st : State) {c : ScopeId}
    {rest : List ScopeId} (hc : st.chain = c :: rest) :
    ∃ ty, (d.myType.nameAnalysis st).2.1.getType = some ty ∧
      d.nameAnalysis st =
        some (
          if d.validType st && !(st.scope c).clash d.myID.name &&
              (d.initAnalysis (d.myType.nameAnalysis st).2.2).1 then
            (true,
              { d with
                myID := d.myID.attachSymbol (SymbolTable.find
                  ((d.decisionState st false).insertAt c .var d.myID.name ty).2 d.myID.name)
                myType := (d.myType.nameAnalysis st).2.1
                myInit := (d.initAnalysis (d.myType.nameAnalysis st).2.2).2.1 },
              ((d.decisionState st false).insertAt c .var d.myID.name ty).2)
          else
            (false,
              { d with
                myType := (d.myType.nameAnalysis st).2.1
                myInit := (d.initAnalysis (d.myType.nameAnalysis st).2.2).2.1 },
              d.decisionState st ((st.scope c).clash d.myID.name))) := by
  obtain ⟨ty, hty⟩ := TypeNode.getType_nameAnalysis d.myType st
  refine ⟨ty, hty, ?_⟩
  have h1 := TypeNode.type_sameTables d.myType st
  unfold VarDeclNode.nameAnalysis VarDeclNode.decisionState VarDeclNode.validType
    VarDeclNode.ownDiags VarDeclNode.initAnalysis
  rcases hT : d.myType.nameAnalysis st with ⟨validType, type', st1⟩
  rw [hT] at hty h1
  simp only at hty h1
  simp only [hty]
  have hS : st1.chain = c :: rest ∧ ∀ id, st1.scope id = st.scope id :=
    ⟨by rw [h1.chain, hc], fun id => h1.scope id⟩
  cases hInit : d.myInit with
  | none =>
    obtain ⟨heap1, chain1, ns1, dg1⟩ := st1
    obtain ⟨hch, hsc⟩ := hS
    simp only [State.scope] at hsc hch
    subst hch
    cases validType <;> cases hv : ty.validVarType <;> cases hcl : (st.scope c).clash d.myID.name <;>
      simp [SymbolTable.clash, SymbolTable.insert, SymbolTable.getCurrentScope, NameErr.badVarType,
        NameErr.multiDecl, State.report, State.scope, hsc, hv] <;>
      simp_all [State.scope]
  | some e =>
    have hIe : (e.nameAnalysis st1).2.2.chain = c :: rest ∧
        ∀ id, (e.nameAnalysis st1).2.2.scope id = st.scope id :=
      ⟨by rw [(ExpNode.exp_sameTables e st1).chain, hS.1],
       fun id => by rw [(ExpNode.exp_sameTables e st1).scope, hS.2]⟩
    rcases hE : e.nameAnalysis st1 with ⟨validInit, e', st2⟩
    rw [hE] at hIe
    obtain ⟨heap2, chain2, ns2, dg2⟩ := st2
    obtain ⟨hch, hsc⟩ := hIe
    simp only [State.scope] at hsc hch
    subst hch
    cases validType <;> cases hv : ty.validVarType <;> cases hcl : (st.scope c).clash d.myID.name <;>
      cases validInit <;>
      simp [SymbolTable.clash, SymbolTable.insert, SymbolTable.getCurrentScope, NameErr.badVarType,
        NameErr.multiDecl, State.report, State.scope, hsc, hv] <;>
      simp_all [State.scope]

theorem VarDeclNode.initAnalysis_sameTables (d : VarDeclNode) (st1 : State) :
    st1.SameTables (d.initAnalysis st1).2.2 := by
  unfold VarDeclNode.initAnalysis
  split
  · exact State.SameTables.same_refl _
  · exact ExpNode.exp_sameTables _ _

theorem VarDeclNode.decisionState_sameTables (d : VarDeclNode) (st : State) (clash : Bool) :
    st.SameTables (d.decisionState st clash) := by
  have h := (TypeNode.type_sameTables d.myType st).same_trans
    (d.initAnalysis_sameTables (d.myType.nameAnalysis st).2.2)
  exact ⟨h.heap, h.chain, h.nextSym, h.diags.trans (List.prefix_append _ _)⟩

theorem VarDeclNode.varDecl_extends (d : VarDeclNode) (st : State) (h : st.chain ≠ []) :
    ∃ r d' st', d.nameAnalysis st = some (r, d', st') ∧ st.Extends st' ∧
      ∃ ty, d'.myType.getType = some ty := by
  obtain ⟨c, rest, hc⟩ := List.exists_cons_of_ne_nil h
  obtain ⟨ty, hty, heq⟩ := d.nameAnalysis_eq st hc
  rw [heq]
  split
  · refine ⟨_, _, _, rfl, ?_, ty, hty⟩
    have hs := d.decisionState_sameTables st false
    exact hs.extends.ext_trans (State.extends_insertAt (hs.chain.trans hc) _ _ _)
  · exact ⟨_, _, _, rfl, (d.decisionState_sameTables st _).extends, ty, hty⟩

theorem VarDeclNode.formals_extends : ∀ (l : List VarDeclNode) (acc : Bool) (st : State),
    st.chain ≠ [] →
    ∃ r l' st', VarDeclNode.nameAnalysisList l acc st = some (r, l', st') ∧ st.Extends st' ∧
      ∀ f ∈ l', ∃ ty, f.myType.getType = some ty
  | [], acc, st, _ => ⟨acc, [], st, rfl, State.Extends.ext_refl _, by simp⟩
  | d :: rest, acc, st, h => by
    obtain ⟨r, d', st1, h1, e1, t1⟩ := d.varDecl_extends st h
    obtain ⟨r2, l2, st2, h2, e2, t2⟩ :=
      VarDeclNode.formals_extends rest (r && acc) st1 (by rw [e1.chain]; exact h)
    refine ⟨r2, d' :: l2, st2, ?_, e1.ext_trans e2, ?_⟩
    · simp [VarDeclNode.nameAnalysisList, h1, h2]
    · intro f hf
      rcases List.mem_cons.mp hf with rfl | hf
      · exact t1
      · exact t2 f hf

theorem TypeList.produceNodes_isSome : ∀ (l : List TypeNode),
    (∀ n ∈ l, ∃ ty, n.getType = some ty) → ∃ ts, TypeList.produceNodes l = some ts
  | [], _ => ⟨_, rfl⟩
  | n :: rest, h => by
    obtain ⟨ty, hty⟩ := h n (List.mem_cons_self _ _)
    obtain ⟨ts, hts⟩ := TypeList.produceNodes_isSome rest
      (fun m hm => h m (List.mem_cons_of_mem _ hm))
    exact ⟨.cons ty ts, by simp [TypeList.produceNodes, hty, hts]⟩

theorem State.Step.step_refl (c : Option ScopeId) (n : Nat) (st : State) : State.Step c n st st :=
  ⟨State.Grows.grows_refl _, State.Frame.frame_refl _ _ _⟩

theorem State.Step.step_trans {c : Option ScopeId} {n : Nat} {s1 s2 s3 : State}
    (h1 : State.Step c n s1 s2) (h2 : State.Step c n s2 s3) : State.Step c n s1 s3 :=
  ⟨h1.grows.grows_trans h2.grows, h1.frame.frame_trans h2.frame⟩

theorem State.SameTables.step {st st' : State} (h : st.SameTables st') (c : Option ScopeId)
    (n : Nat) : State.Step c n st st' :=
  ⟨h.grows, h.frame c n⟩

theorem State.step_enterScope (st : State) (c : Option ScopeId) (n : Nat) :
    State.Step c n st (SymbolTable.enterScope st).2 :=
  ⟨State.grows_enterScope st, State.frame_enterScope st c n⟩

theorem State.step_insertAt (st : State) (c : ScopeId) (k : SymbolKind) (name : String)
    (ty : DataType) (n : Nat) : State.Step (some c) n st (st.insertAt c k name ty).2 :=
  ⟨State.grows_insertAt st c k name ty, State.frame_insertAt st c k name ty n⟩

/-- A step made inside a scope allocated at or above `n`. -/
theorem State.Extends.step_inner {s s' : State} (h : s.Extends s') {k n : Nat}
    (hk : s.chain.head? = some k) (hn : n ≤ k) (hh : n ≤ s.heap.length) (c : Option ScopeId) :
    State.Step c n s s' :=
  ⟨h.grows, ((hk ▸ h.frame).mono hh).of_new hn⟩

theorem State.step_leaveScope {st st' : State} (h : SymbolTable.leaveScope st = some st')
    (c : Option ScopeId) (n : Nat) : State.Step c n st st' := by
  obtain ⟨k, _, hh, hn, hd⟩ := SymbolTable.leaveScope_eq h
  have hs : ∀ id, st'.scope id = st.scope id := fun id => by simp [State.scope, hh]
  exact ⟨⟨by rw [hh], fun id name s hl => by rw [hs]; exact hl, by rw [hd], by rw [hn]⟩,
    fun id _ _ => hs id⟩

theorem SymbolTable.leaveScope_of_chain {st : State} {k : ScopeId} {ch : List ScopeId}
    (h : st.chain = k :: ch) : ∃ st', SymbolTable.leaveScope st = some st' ∧ st'.chain = ch := by
  refine ⟨{ st with chain := ch }, ?_, rfl⟩
  simp [SymbolTable.leaveScope, h]

theorem State.chain_enterScope (st : State) :
    (SymbolTable.enterScope st).2.chain = st.heap.length :: st.chain := rfl

theorem State.heap_length_enterScope (st : State) :
    (SymbolTable.enterScope st).2.heap.length = st.heap.length + 1 := by
  simp [SymbolTable.enterScope]

/-- The body of a control statement: enter a scope, resolve, leave. -/
theorem State.Extends.of_body {st st1 st3 : State} (h1 : st.SameTables st1)
    (h : (SymbolTable.enterScope st1).2.Extends st3) :
    ∃ st4, SymbolTable.leaveScope st3 = some st4 ∧ st.Extends st4 := by
  obtain ⟨st4, hl, he, _⟩ := State.Extends.enter_leave h
  exact ⟨st4, hl, h1.extends.ext_trans he⟩

/-! ## Stack discipline -/

theorem State.chain_ne_nil_enterScope (st : State) : (SymbolTable.enterScope st).2.chain ≠ [] := by
  simp [SymbolTable.enterScope]

mutual
/-- Stack discipline of a statement: on a state with a current scope the
analysis returns, and the state it returns extends the one it was given. -/
theorem StmtNode.stmt_extends : ∀ (s : StmtNode) (st : State), st.chain ≠ [] →
    ∃ r s' st', s.nameAnalysis st = some (r, s', st') ∧ st.Extends st'
  | .assign pos dst src, st, _ =>
    ⟨_, _, _, rfl, ((LocNode.loc_sameTables dst st).same_trans
      (ExpNode.exp_sameTables src _)).extends⟩
  | .exit pos, st, _ => ⟨_, _, _, rfl, State.Extends.ext_refl _⟩
  | .postDec pos l, st, _ => ⟨_, _, _, rfl, (LocNode.loc_sameTables l st).extends⟩
  | .postInc pos l, st, _ => ⟨_, _, _, rfl, (LocNode.loc_sameTables l st).extends⟩
  | .take pos l, st, _ => ⟨_, _, _, rfl, (LocNode.loc_sameTables l st).extends⟩
  | .give pos e, st, _ => ⟨_, _, _, rfl, (ExpNode.exp_sameTables e st).extends⟩
  | .ifStmt pos cond body, st, _ => by
    have hc := ExpNode.exp_sameTables cond st
    obtain ⟨r, b', st3, hb, he⟩ := StmtNode.stmtList_extends body
      ((cond.nameAnalysis st).1 && true) (SymbolTable.enterScope (cond.nameAnalysis st).2.2).2
      (State.chain_ne_nil_enterScope _)
    obtain ⟨st4, hl, h4⟩ := State.Extends.of_body hc he
    exact ⟨r, _, st4, by simp only [StmtNode.nameAnalysis, hb, hl]; rfl, h4⟩
  | .ifElse pos cond bodyT bodyF, st, _ => by
    have hc := ExpNode.exp_sameTables cond st
    obtain ⟨r, b', st3, hb, he⟩ := StmtNode.stmtList_extends bodyT
      ((cond.nameAnalysis st).1 && true) (SymbolTable.enterScope (cond.nameAnalysis st).2.2).2
      (State.chain_ne_nil_enterScope _)
    obtain ⟨st4, hl, h4⟩ := State.Extends.of_body hc he
    obtain ⟨r2, b2, st6, hb2, he2⟩ := StmtNode.stmtList_extends bodyF r
      (SymbolTable.enterScope st4).2 (State.chain_ne_nil_enterScope _)
    obtain ⟨st7, hl7, h7⟩ := State.Extends.of_body (State.SameTables.same_refl st4) he2
    exact ⟨r2, _, st7, by simp only [StmtNode.nameAnalysis, hb, hl, hb2, hl7]; rfl, h4.ext_trans h7⟩
  | .while pos cond body, st, _ => by
    have hc := ExpNode.exp_sameTables cond st
    obtain ⟨r, b', st3, hb, he⟩ := StmtNode.stmtList_extends body
      ((cond.nameAnalysis st).1 && true) (SymbolTable.enterScope (cond.nameAnalysis st).2.2).2
      (State.chain_ne_nil_enterScope _)
    obtain ⟨st4, hl, h4⟩ := State.Extends.of_body hc he
    exact ⟨r, _, st4, by simp only [StmtNode.nameAnalysis, hb, hl]; rfl, h4⟩
  | .ret pos none, st, _ => ⟨_, _, _, rfl, State.Extends.ext_refl _⟩
  | .ret pos (some e), st, _ => ⟨_, _, _, rfl, (ExpNode.exp_sameTables e st).extends⟩
  | .callStmt pos e, st, _ => ⟨_, _, _, rfl, (ExpNode.exp_sameTables e st).extends⟩
  | .decl d, st, h => by
    obtain ⟨r, d', st', hd, he⟩ := DeclNode.decl_extends d st h
    exact ⟨r, _, st', by simp only [StmtNode.nameAnalysis, hd]; rfl, he⟩
/-- Stack discipline of a statement list. -/
theorem StmtNode.stmtList_extends : ∀ (l : List StmtNode) (acc : Bool) (st : State),
    st.chain ≠ [] →
    ∃ r l' st', StmtNode.nameAnalysisList l acc st = some (r, l', st') ∧ st.Extends st'
  | [], acc, st, _ => ⟨acc, [], st, rfl, State.Extends.ext_refl _⟩
  | s :: rest, acc, st, h => by
    obtain ⟨r, s', st1, h1, e1⟩ := StmtNode.stmt_extends s st h
    obtain ⟨r2, l2, st2, h2, e2⟩ :=
      StmtNode.stmtList_extends rest (r && acc) st1 (by rw [e1.chain]; exact h)
    exact ⟨r2, s' :: l2, st2, by simp only [StmtNode.nameAnalysisList, h1, h2], e1.ext_trans e2⟩
/-- Stack discipline of a declaration. -/
theorem DeclNode.decl_extends : ∀ (d : DeclNode) (st : State), st.chain ≠ [] →
    ∃ r d' st', d.nameAnalysis st = some (r, d', st') ∧ st.Extends st'
  | .varDecl d, st, h => by
    obtain ⟨r, d', st', hd, he, _⟩ := d.varDecl_extends st h
    exact ⟨r, _, st', by simp only [DeclNode.nameAnalysis, hd]; rfl, he⟩
  | .fnDecl pos id ret formals body, st, h => by
    obtain ⟨c, rest, hc⟩ := List.exists_cons_of_ne_nil h
    have hr := TypeNode.type_sameTables ret st
    obtain ⟨rty, hrty⟩ := TypeNode.getType_nameAnalysis ret st
    rcases hR : ret.nameAnalysis st with ⟨validRet, ret', st1⟩
    rw [hR] at hr hrty
    simp only at hr hrty
    have hc1 : st1.chain = c :: rest := hr.chain.trans hc
    simp only [DeclNode.nameAnalysis, hR, SymbolTable.getCurrentScope, hc1, List.head?]
    have h3 : (SymbolTable.enterScope st1).2.SameTables
        (if ((SymbolTable.enterScope st1).2.scope c).clash id.name = true then
          (false, (NameErr.multiDecl id.pos (SymbolTable.enterScope st1).2).2)
        else (true, (SymbolTable.enterScope st1).2)).2 := by
      split
      · exact State.sameTables_report _ _ _
      · exact State.SameTables.same_refl _
    generalize (if ((SymbolTable.enterScope st1).2.scope c).clash id.name = true then
          (false, (NameErr.multiDecl id.pos (SymbolTable.enterScope st1).2).2)
        else (true, (SymbolTable.enterScope st1).2)) = V at h3 ⊢
    obtain ⟨validName, st3⟩ := V
    simp only at h3 ⊢
    have hc3 : st3.chain = st1.heap.length :: c :: rest := by
      rw [h3.chain, State.chain_enterScope, hc1]
    obtain ⟨vf, formals', st4, hF, e4, t4⟩ := VarDeclNode.formals_extends formals true st3
      (by rw [hc3]; simp)
    obtain ⟨fts, hfts⟩ := TypeList.produceNodes_isSome (formals'.map (fun formal => formal.myType))
      (by simpa using t4)
    simp only [hF, hfts, hrty]
    have h5 : ∃ st5, st5 = (if validName = true then
          (id.attachSymbol (((ScopeTable.addFn st4 c id.name (FnType.produce fts rty)).scope
            c).lookup id.name), ScopeTable.addFn st4 c id.name (FnType.produce fts rty))
          else (id, st4)).2 ∧ st5.chain = st4.chain ∧
          State.Step (some c) st.heap.length st4 st5 := by
      refine ⟨_, rfl, ?_, ?_⟩
      · split <;> rfl
      · split
        · exact State.step_insertAt _ _ _ _ _ _
        · exact State.Step.step_refl _ _ _
    obtain ⟨st5, h5eq, hc5, s5⟩ := h5
    rw [← h5eq]
    have hc4 : st5.chain = st1.heap.length :: c :: rest := by rw [hc5, e4.chain, hc3]
    obtain ⟨vb, body', st6, hB, e6⟩ := StmtNode.stmtList_extends body true st5
      (by rw [hc4]; simp)
    obtain ⟨st7, hL, hc7⟩ := SymbolTable.leaveScope_of_chain (e6.chain.trans hc4)
    simp only [hB, hL]
    have hlen1 : st1.heap.length = st.heap.length := by rw [hr.heap]
    have hlen3 : st3.heap.length = st.heap.length + 1 := by
      rw [h3.heap, State.heap_length_enterScope, hlen1]
    have S : State.Step (some c) st.heap.length st st7 :=
      (hr.step _ _).step_trans <| (State.step_enterScope _ _ _).step_trans <| (h3.step _ _).step_trans <|
        (e4.step_inner (by rw [hc3]; rfl) (le_of_eq hlen1.symm) (by omega) _).step_trans <|
        s5.step_trans <|
        (e6.step_inner (by rw [hc4]; rfl) (le_of_eq hlen1.symm)
          (by have := e4.grows.heapLen; have := s5.grows.heapLen; omega) _).step_trans
        (State.step_leaveScope hL _ _)
    exact ⟨_, _, _, rfl, hc7.trans hc.symm, S.grows, by rw [hc]; exact S.frame⟩
  | .classDefn pos id members, st, h => by
    obtain ⟨c, rest, hc⟩ := List.exists_cons_of_ne_nil h
    simp only [DeclNode.nameAnalysis, SymbolTable.clash_of_chain hc]
    obtain ⟨r, m', st2, hM, e2⟩ := DeclNode.declList_extends members
      (if (!!(st.scope c).clash id.name) = true then false else true)
      (SymbolTable.enterScope st).2 (State.chain_ne_nil_enterScope _)
    obtain ⟨st3, hL, e3, _⟩ := State.Extends.enter_leave e2
    simp only [hM, hL]
    cases r with
    | false => exact ⟨_, _, _, rfl, e3⟩
    | true =>
      have hc3 : st3.chain = c :: rest := e3.chain.trans hc
      simp only [SymbolTable.addClass, SymbolTable.getCurrentScope, hc3, List.head?, Option.map,
        if_true]
      exact ⟨_, _, _, rfl, e3.ext_trans ((State.extends_insertAt hc3 _ _ _).ext_trans
        (IDNode.id_sameTables _ _).extends)⟩
/-- Stack discipline of a declaration list. -/
theorem DeclNode.declList_extends : ∀ (l : List DeclNode) (acc : Bool) (st : State),
    st.chain ≠ [] →
    ∃ r l' st', DeclNode.nameAnalysisList l acc st = some (r, l', st') ∧ st.Extends st'
  | [], acc, st, _ => ⟨acc, [], st, rfl, State.Extends.ext_refl _⟩
  | d :: rest, acc, st, h => by
    obtain ⟨r, d', st1, h1, e1⟩ := DeclNode.decl_extends d st h
    obtain ⟨r2, l2, st2, h2, e2⟩ :=
      DeclNode.declList_extends rest (r && acc) st1 (by rw [e1.chain]; exact h)
    exact ⟨r2, d' :: l2, st2, by simp only [DeclNode.nameAnalysisList, h1, h2], e1.ext_trans e2⟩
end

/-! ## Programs and declaration lists -/

theorem DeclNode.nameAnalysisList_iff : ∀ (l : List DeclNode) (acc : Bool) (st : State)
    (res : Bool) (l' : List DeclNode) (st' : State),
    DeclNode.nameAnalysisList l acc st = some (res, l', st') ↔
      ∃ rs, DeclNode.ResolvedInOrder l st rs st' ∧ l' = rs.map (·.2) ∧
        res = (rs.all (·.1) && acc)
  | [], acc, st, res, l', st' => by
    constructor
    · intro h
      simp only [DeclNode.nameAnalysisList, Option.some.injEq, Prod.mk.injEq] at h
      obtain ⟨rfl, rfl, rfl⟩ := h
      exact ⟨[], .nil _, rfl, by simp⟩
    · rintro ⟨rs, hrs, rfl, rfl⟩
      cases hrs
      simp [DeclNode.nameAnalysisList]
  | d :: rest, acc, st, res, l', st' => by
    constructor
    · intro h
      simp only [DeclNode.nameAnalysisList] at h
      cases hd : d.nameAnalysis st with
      | none => simp [hd] at h
      | some x =>
        obtain ⟨r, d', st1⟩ := x
        simp only [hd] at h
        cases hl : DeclNode.nameAnalysisList rest (r && acc) st1 with
        | none => simp [hl] at h
        | some y =>
          obtain ⟨res2, l2, st2⟩ := y
          simp only [hl, Option.some.injEq, Prod.mk.injEq] at h
          obtain ⟨rfl, rfl, rfl⟩ := h
          obtain ⟨rs, hrs, rfl, rfl⟩ :=
            (DeclNode.nameAnalysisList_iff rest (r && acc) st1 _ _ _).mp hl
          refine ⟨(r, d') :: rs, .cons hd hrs, rfl, ?_⟩
          cases r <;> cases acc <;> simp
    · rintro ⟨rs, hrs, rfl, rfl⟩
      cases hrs with
      | cons hd hrest =>
        rename_i st1 r d' rs
        have := (DeclNode.nameAnalysisList_iff rest (r && acc) st1 _ _ _).mpr
          ⟨rs, hrest, rfl, rfl⟩
        simp only [DeclNode.nameAnalysisList, hd, this]
        cases r <;> cases acc <;> simp

theorem DeclNode.ResolvedInOrder.length_eq {l : List DeclNode} {st st' : State}
    {rs : List (Bool × DeclNode)} (h : DeclNode.ResolvedInOrder l st rs st') :
    rs.length = l.length := by
  induction h with
  | nil => rfl
  | cons _ _ ih => simp [ih]

/-- C1. `ProgramNode::nameAnalysis` returns on every program and every symbol
table: it enters one scope, resolves every global declaration exactly once in
declared order (each in the state left by the previous one, whether that one
succeeded or not), leaves the scope again, and returns true exactly when every
declaration returned true. -/
theorem ProgramNode.nameAnalysis_resolves_all (p : ProgramNode) (symTab : State) :
    ∃ (rs : List (Bool × DeclNode)) (st2 st3 : State) (res : Bool),
      DeclNode.ResolvedInOrder p.myGlobals (SymbolTable.enterScope symTab).2 rs st2 ∧
      SymbolTable.leaveScope st2 = some st3 ∧
      st2.chain = (SymbolTable.enterScope symTab).1 :: symTab.chain ∧
      st3.chain = symTab.chain ∧
      p.nameAnalysis symTab = some (res, ⟨rs.map (·.2)⟩, st3) ∧
      rs.length = p.myGlobals.length ∧
      (res = true ↔ ∀ x ∈ rs, x.1 = true) := by
  obtain ⟨res, l', st2, hl, he⟩ := DeclNode.declList_extends p.myGlobals true
    (SymbolTable.enterScope symTab).2 (State.chain_ne_nil_enterScope _)
  obtain ⟨rs, hrs, rfl, rfl⟩ := (DeclNode.nameAnalysisList_iff _ _ _ _ _ _).mp hl
  have hc2 : st2.chain = symTab.heap.length :: symTab.chain := he.chain
  obtain ⟨st3, hL, hc3⟩ := SymbolTable.leaveScope_of_chain hc2
  refine ⟨rs, st2, st3, (rs.all (·.1) && true), hrs, hL, hc2, hc3, ?_, hrs.length_eq, ?_⟩
  · simp only [ProgramNode.nameAnalysis, hl, hL]
  · simp

/-! ## Identifier references -/

theorem State.findIn_eq_none (st : State) (name : String) :
    ∀ (l : List ScopeId), st.findIn l name = none ↔ ∀ id ∈ l, (st.scope id).lookup name = none
  | [] => by simp [State.findIn]
  | id :: rest => by
    have ih := State.findIn_eq_none st name rest
    cases h : (st.scope id).lookup name with
    | none => simp [State.findIn, h, ih]
    | some s => simp [State.findIn, h]

theorem State.findIn_innermost (st : State) (name : String) (s : SemSymbol) :
    ∀ (pre : List ScopeId) (id : ScopeId) (post : List ScopeId),
      (∀ j ∈ pre, (st.scope j).lookup name = none) → (st.scope id).lookup name = some s →
      st.findIn (pre ++ id :: post) name = some s
  | [], id, post, _, h => by simp [State.findIn, h]
  | j :: pre, id, post, hpre, h => by
    have hj : (st.scope j).lookup name = none := hpre j (List.mem_cons_self _ _)
    have := State.findIn_innermost st name s pre id post
      (fun k hk => hpre k (List.mem_cons_of_mem _ hk)) h
    simp [State.findIn, hj, this]

/-- C4. `IDNode::nameAnalysis` searches the chain of scopes from the innermost
one outward.  If no open scope binds the name it reports `UndeclaredIdentifier`
at the position of the reference, returns false and leaves the node as it was
(without a symbol if it had none); if `id` is the innermost scope that binds
the name, to `s`, it attaches `s`, reports nothing and returns true. -/
theorem IDNode.nameAnalysis_innermost (n : IDNode) (st : State) :
    ((∀ id ∈ st.chain, (st.scope id).lookup n.name = none) →
      n.nameAnalysis st = (false, n, st.withDiag .undeclaredIdentifier n.pos)) ∧
    (∀ (pre : List ScopeId) (id : ScopeId) (post : List ScopeId) (s : SemSymbol),
      st.chain = pre ++ id :: post →
      (∀ j ∈ pre, (st.scope j).lookup n.name = none) →
      (st.scope id).lookup n.name = some s →
      n.nameAnalysis st = (true, { n with mySymbol := some s }, st)) := by
  constructor
  · intro h
    have hf : SymbolTable.find st n.name = none := (State.findIn_eq_none st n.name st.chain).mpr h
    simp [IDNode.nameAnalysis, hf, NameErr.undeclID, State.report, State.withDiag]
  · intro pre id post s hc hpre hs
    have hf : SymbolTable.find st n.name = some s := by
      unfold SymbolTable.find
      rw [hc]
      exact State.findIn_innermost st n.name s pre id post hpre hs
    simp [IDNode.nameAnalysis, hf, IDNode.attachSymbol]

/-- C4, on a concrete input: `x` is bound in the outer of two scopes and in the
inner one; an unbound `y` is reported. -/
theorem IDNode.nameAnalysis_innermost_witness :
    (IDNode.nameAnalysis ⟨⟨1, 1⟩, "y", none⟩
        ⟨[[⟨0, .var, "x", .primitive .int⟩], [⟨1, .var, "x", .primitive .bool⟩]], [1, 0], 2, []⟩ =
      (false, ⟨⟨1, 1⟩, "y", none⟩,
        ⟨[[⟨0, .var, "x", .primitive .int⟩], [⟨1, .var, "x", .primitive .bool⟩]], [1, 0], 2,
          [⟨.undeclaredIdentifier, ⟨1, 1⟩⟩]⟩)) ∧
    (IDNode.nameAnalysis ⟨⟨1, 1⟩, "x", none⟩
        ⟨[[⟨0, .var, "x", .primitive .int⟩], [⟨1, .var, "x", .primitive .bool⟩]], [1, 0], 2, []⟩ =
      (true, ⟨⟨1, 1⟩, "x", some ⟨1, .var, "x", .primitive .bool⟩⟩,
        ⟨[[⟨0, .var, "x", .primitive .int⟩], [⟨1, .var, "x", .primitive .bool⟩]], [1, 0], 2, []⟩)) :=
  ⟨(IDNode.nameAnalysis_innermost ⟨⟨1, 1⟩, "y", none⟩
      ⟨[[⟨0, .var, "x", .primitive .int⟩], [⟨1, .var, "x", .primitive .bool⟩]], [1, 0], 2, []⟩).1
      (by decide),
   (IDNode.nameAnalysis_innermost ⟨⟨1, 1⟩, "x", none⟩
      ⟨[[⟨0, .var, "x", .primitive .int⟩], [⟨1, .var, "x", .primitive .bool⟩]], [1, 0], 2, []⟩).2
      [] 1 [0] ⟨1, .var, "x", .primitive .bool⟩ rfl (by decide) (by decide)⟩

/-! ## Expressions never report a redeclaration -/

theorem State.sameRedecls_refl (st : State) : st.SameRedecls st := rfl

theorem State.SameRedecls.redecl_trans {a b c : State} (h1 : a.SameRedecls b)
    (h2 : b.SameRedecls c) : a.SameRedecls c :=
  Eq.trans h2 h1

theorem State.sameRedecls_report (st : State) (k : ErrKind) (p : Position)
    (hk : k ≠ .multipleDeclaration) : st.SameRedecls (st.report k p).2 := by
  simp [State.SameRedecls, State.diagsOf, State.report, List.filter_append, hk]

theorem IDNode.id_sameRedecls (n : IDNode) (st : State) :
    st.SameRedecls (n.nameAnalysis st).2.2 := by
  unfold IDNode.nameAnalysis
  split
  · exact State.sameRedecls_report _ _ _ (by decide)
  · exact State.sameRedecls_refl _

theorem LocNode.loc_sameRedecls (l : LocNode) (st : State) :
    st.SameRedecls (l.nameAnalysis st).2.2 := by
  induction l generalizing st with
  | id n => simpa [LocNode.nameAnalysis] using IDNode.id_sameRedecls n st
  | member pos base field sym ih =>
    have := ih st
    simp only [LocNode.nameAnalysis]
    split <;> try exact this
    split
    · exact this.redecl_trans (State.sameRedecls_report _ _ _ (by decide))
    · split
      · exact this.redecl_trans (State.sameRedecls_report _ _ _ (by decide))
      · exact this

theorem TypeNode.type_sameRedecls (t : TypeNode) (st : State) :
    st.SameRedecls (t.nameAnalysis st).2.2 := by
  induction t generalizing st with
  | basic pos b => exact State.sameRedecls_refl _
  | perfect pos sub ih => simpa [TypeNode.nameAnalysis] using ih st
  | cls pos id ty =>
    simp only [TypeNode.nameAnalysis]
    split
    · exact State.sameRedecls_report _ _ _ (by decide)
    · split
      · exact State.sameRedecls_report _ _ _ (by decide)
      · exact State.sameRedecls_refl _

mutual
theorem ExpNode.exp_sameRedecls : ∀ (e : ExpNode) (st : State),
    st.SameRedecls (e.nameAnalysis st).2.2
  | .intLit _ _, st => State.sameRedecls_refl _
  | .strLit _ _, st => State.sameRedecls_refl _
  | .trueNode _, st => State.sameRedecls_refl _
  | .falseNode _, st => State.sameRedecls_refl _
  | .loc l, st => by
    simpa [ExpNode.nameAnalysis] using LocNode.loc_sameRedecls l st
  | .binary _ _ e1 e2, st => by
    have h1 := ExpNode.exp_sameRedecls e1 st
    have h2 := ExpNode.exp_sameRedecls e2 (e1.nameAnalysis st).2.2
    simpa [ExpNode.nameAnalysis] using h1.redecl_trans h2
  | .neg _ e, st => by
    simpa [ExpNode.nameAnalysis] using ExpNode.exp_sameRedecls e st
  | .not _ e, st => by
    simpa [ExpNode.nameAnalysis] using ExpNode.exp_sameRedecls e st
  | .call _ callee args, st => by
    have h1 := LocNode.loc_sameRedecls callee st
    have h2 := ExpNode.expList_sameRedecls args ((callee.nameAnalysis st).1 && true)
      (callee.nameAnalysis st).2.2
    simpa [ExpNode.nameAnalysis] using h1.redecl_trans h2
theorem ExpNode.expList_sameRedecls : ∀ (l : List ExpNode) (acc : Bool) (st : State),
    st.SameRedecls (ExpNode.nameAnalysisList l acc st).2.2
  | [], _, st => State.sameRedecls_refl _
  | e :: rest, acc, st => by
    have h1 := ExpNode.exp_sameRedecls e st
    have h2 := ExpNode.expList_sameRedecls rest ((e.nameAnalysis st).1 && acc)
      (e.nameAnalysis st).2.2
    simpa [ExpNode.nameAnalysisList] using h1.redecl_trans h2
end

theorem VarDeclNode.initAnalysis_sameRedecls (d : VarDeclNode) (st1 : State) :
    st1.SameRedecls (d.initAnalysis st1).2.2 := by
  unfold VarDeclNode.initAnalysis
  split
  · exact State.sameRedecls_refl _
  · exact ExpNode.exp_sameRedecls _ _

/-! ## Redeclaration of a variable -/

/-- A variable declaration whose name is bound in the current scope. -/
theorem VarDeclNode.nameAnalysis_clash (d : VarDeclNode) (st : State) (c : ScopeId)
    (rest : List ScopeId) (first : SemSymbol)
    (hc : st.chain = c :: rest)
    (hbound : (st.scope c).lookup d.myID.name = some first)
    (htype : d.validType st = true) :
    ∃ d' st',
      d.nameAnalysis st = some (false, d', st') ∧
      d'.myID = d.myID ∧
      st'.diagsOf .multipleDeclaration =
        st.diagsOf .multipleDeclaration ++ [⟨.multipleDeclaration, d.myID.pos⟩] ∧
      st'.diags = (d.initAnalysis (d.myType.nameAnalysis st).2.2).2.2.diags ++
        [⟨.multipleDeclaration, d.myID.pos⟩] ∧
      st'.heap = st.heap ∧ st'.chain = st.chain ∧ st'.nextSym = st.nextSym ∧
      (st'.scope c).lookup d.myID.name = some first := by
  obtain ⟨ty, _, heq⟩ := d.nameAnalysis_eq st hc
  have hcl : (st.scope c).clash d.myID.name = true := by simp [ScopeTable.clash, hbound]
  have hs := d.decisionState_sameTables st true
  have hr : st.SameRedecls (d.initAnalysis (d.myType.nameAnalysis st).2.2).2.2 :=
    (TypeNode.type_sameRedecls d.myType st).redecl_trans (d.initAnalysis_sameRedecls _)
  refine ⟨{ d with myType := (d.myType.nameAnalysis st).2.1
                   myInit := (d.initAnalysis (d.myType.nameAnalysis st).2.2).2.1 },
    d.decisionState st true, ?_, rfl, ?_, ?_, hs.heap, hs.chain, hs.nextSym, ?_⟩
  · rw [heq]; simp [hcl]
  · have : (d.decisionState st true).diagsOf .multipleDeclaration =
        (d.initAnalysis (d.myType.nameAnalysis st).2.2).2.2.diagsOf .multipleDeclaration ++
          [⟨.multipleDeclaration, d.myID.pos⟩] := by
      simp [VarDeclNode.decisionState, VarDeclNode.ownDiags, State.diagsOf, htype,
        List.filter_append]
    rw [this, hr]
  · simp [VarDeclNode.decisionState, VarDeclNode.ownDiags, htype]
  · rw [hs.scope]; exact hbound

/-- C3. In a scope where the name of a variable declaration is already bound
(to `first`), `VarDeclNode::nameAnalysis` on a declaration with a usable type
returns false, reports exactly one `MultipleDeclaration`, at the position of
the declaration's identifier and after the diagnostics of its initializer,
attaches nothing and inserts nothing: heap, chain and symbol counter are
unchanged and the name is still bound to `first`.  Hence any further
declaration of the name in that scope is rejected in the same way, against
`first` again. -/
theorem VarDeclNode.redeclaration_rejected (d : VarDeclNode) (st : State) (c : ScopeId)
    (rest : List ScopeId) (first : SemSymbol)
    (hc : st.chain = c :: rest)
    (hbound : (st.scope c).lookup d.myID.name = some first)
    (htype : d.validType st = true) :
    ∃ d' st',
      d.nameAnalysis st = some (false, d', st') ∧
      d'.myID = d.myID ∧
      st'.diagsOf .multipleDeclaration =
        st.diagsOf .multipleDeclaration ++ [⟨.multipleDeclaration, d.myID.pos⟩] ∧
      st'.diags = (d.initAnalysis (d.myType.nameAnalysis st).2.2).2.2.diags ++
        [⟨.multipleDeclaration, d.myID.pos⟩] ∧
      st'.heap = st.heap ∧ st'.chain = st.chain ∧ st'.nextSym = st.nextSym ∧
      (st'.scope c).lookup d.myID.name = some first ∧
      ∀ (third : VarDeclNode), third.myID.name = d.myID.name → third.validType st' = true →
        ∃ third' st'',
          third.nameAnalysis st' = some (false, third', st'') ∧
          third'.myID = third.myID ∧
          st''.diagsOf .multipleDeclaration =
            st'.diagsOf .multipleDeclaration ++ [⟨.multipleDeclaration, third.myID.pos⟩] ∧
          st''.heap = st.heap ∧ st''.chain = st.chain ∧ st''.nextSym = st.nextSym ∧
          (st''.scope c).lookup d.myID.name = some first := by
  obtain ⟨d', st', h1, h2, h3, h4, h5, h6, h7, h8⟩ :=
    d.nameAnalysis_clash st c rest first hc hbound htype
  refine ⟨d', st', h1, h2, h3, h4, h5, h6, h7, h8, ?_⟩
  intro third hname htype3
  obtain ⟨t', st'', g1, g2, g3, _, g5, g6, g7, g8⟩ :=
    third.nameAnalysis_clash st' c rest first (h6.trans hc) (by rw [hname]; exact h8) htype3
  exact ⟨t', st'', g1, g2, g3, g5.trans h5, g6.trans h6, g7.trans h7, by rw [← hname]; exact g8⟩

/-- C3 on a concrete input: `x : bool;` in a scope that already binds `x`, then
a third `x : int;`. -/
theorem VarDeclNode.redeclaration_rejected_witness :
    ∃ d' st',
      VarDeclNode.nameAnalysis ⟨⟨2, 0⟩, ⟨⟨2, 1⟩, "x", none⟩, .basic ⟨2, 4⟩ .bool, none⟩
        ⟨[[⟨0, .var, "x", .primitive .int⟩]], [0], 1, []⟩ = some (false, d', st') ∧
      d'.myID = ⟨⟨2, 1⟩, "x", none⟩ ∧
      st'.diags = [⟨.multipleDeclaration, ⟨2, 1⟩⟩] ∧
      st'.heap = [[⟨0, .var, "x", .primitive .int⟩]] ∧
      ∃ third' st'',
        VarDeclNode.nameAnalysis ⟨⟨3, 0⟩, ⟨⟨3, 1⟩, "x", none⟩, .basic ⟨3, 4⟩ .int, none⟩ st' =
          some (false, third', st'') ∧
        st''.heap = [[⟨0, .var, "x", .primitive .int⟩]] := by
  obtain ⟨d', st', h1, h2, _, h4, h5, _, _, _, h9⟩ := VarDeclNode.redeclaration_rejected
    ⟨⟨2, 0⟩, ⟨⟨2, 1⟩, "x", none⟩, .basic ⟨2, 4⟩ .bool, none⟩
    ⟨[[⟨0, .var, "x", .primitive .int⟩]], [0], 1, []⟩ 0 [] ⟨0, .var, "x", .primitive .int⟩
    rfl (by decide) (by decide)
  obtain ⟨t', st'', g1, _, _, g4, _⟩ :=
    h9 ⟨⟨3, 0⟩, ⟨⟨3, 1⟩, "x", none⟩, .basic ⟨3, 4⟩ .int, none⟩ rfl rfl
  exact ⟨d', st', h1, h2, h4, h5, t', st'', g1, g4⟩

/-! ## Member access -/

/-- C7. Member access `base.field` when the base resolves to the symbol
`baseSym`: on a class type whose field scope binds the field to `fieldSym` the
access succeeds and `fieldSym` is attached to the access node and to the field
identifier; on a type that is not a class it reports `BadVariableType` at the
access, fails and attaches nothing, and the outcome does not depend on any
field scope; on a class without that field it reports `UndeclaredIdentifier`
at the field, fails and attaches nothing. -/
theorem LocNode.nameAnalysis_member (pos : Position) (myBase : LocNode) (myField : IDNode)
    (mySymbol : Option SemSymbol) (st : State) (baseSym : SemSymbol)
    (hres : (myBase.nameAnalysis st).1 = true)
    (hsym : (myBase.nameAnalysis st).2.1.getSymbol = some baseSym) :
    (∀ (fields : ScopeId) (fieldSym : SemSymbol),
      baseSym.type.asClass = some fields →
      ((myBase.nameAnalysis st).2.2.scope fields).lookup myField.name = some fieldSym →
      (LocNode.member pos myBase myField mySymbol).nameAnalysis st =
        (true,
          .member pos (myBase.nameAnalysis st).2.1 { myField with mySymbol := some fieldSym }
            (some fieldSym),
          (myBase.nameAnalysis st).2.2)) ∧
    (baseSym.type.asClass = none →
      (LocNode.member pos myBase myField mySymbol).nameAnalysis st =
        (false, .member pos (myBase.nameAnalysis st).2.1 myField mySymbol,
          (myBase.nameAnalysis st).2.2.withDiag .badVariableType pos)) ∧
    (∀ (fields : ScopeId),
      baseSym.type.asClass = some fields →
      ((myBase.nameAnalysis st).2.2.scope fields).lookup myField.name = none →
      (LocNode.member pos myBase myField mySymbol).nameAnalysis st =
        (false, .member pos (myBase.nameAnalysis st).2.1 myField mySymbol,
          (myBase.nameAnalysis st).2.2.withDiag .undeclaredIdentifier myField.pos)) := by
  refine ⟨?_, ?_, ?_⟩
  · intro fields fieldSym hcls hf
    simp [LocNode.nameAnalysis, hsym, hcls, ClassType.getField, hf, hres, IDNode.attachSymbol]
  · intro hcls
    simp [LocNode.nameAnalysis, hsym, hcls, NameErr.badVarType, State.report, State.withDiag]
  · intro fields hcls hf
    simp [LocNode.nameAnalysis, hsym, hcls, ClassType.getField, hf, NameErr.undeclID,
      State.report, State.withDiag]

/-- A location node that resolves carries a symbol afterwards. -/
theorem LocNode.getSymbol_of_resolved (l : LocNode) (st : State)
    (h : (l.nameAnalysis st).1 = true) : ∃ s, (l.nameAnalysis st).2.1.getSymbol = some s := by
  cases l with
  | id n =>
    simp only [LocNode.nameAnalysis, IDNode.nameAnalysis] at h ⊢
    split at h
    · simp [NameErr.undeclID, State.report] at h
    · rename_i s hs
      exact ⟨s, by simp [hs, LocNode.getSymbol, IDNode.attachSymbol]⟩
  | member pos base field sym =>
    simp only [LocNode.nameAnalysis] at h ⊢
    split at h
    · simp at h
    · split at h
      · simp at h
      · split at h
        · simp at h
        · rename_i fs hfs
          simp only [*]
          exact ⟨fs, rfl⟩

/-- A fresh location node that fails to resolve carries no symbol afterwards. -/
theorem LocNode.getSymbol_of_failed (l : LocNode) (st : State) (hf : l.fresh = true)
    (h : (l.nameAnalysis st).1 = false) : (l.nameAnalysis st).2.1.getSymbol = none := by
  induction l generalizing st with
  | id n =>
    simp only [LocNode.fresh, Option.isNone_iff_eq_none] at hf
    simp only [LocNode.nameAnalysis, IDNode.nameAnalysis] at h ⊢
    split at h
    · simp [*, LocNode.getSymbol]
    · simp at h
  | member pos base field sym ih =>
    simp only [LocNode.fresh, Bool.and_eq_true, Option.isNone_iff_eq_none] at hf
    obtain ⟨⟨hb, _⟩, hs⟩ := hf
    simp only [LocNode.nameAnalysis] at h ⊢
    split
    · simp [LocNode.getSymbol, hs]
    · split
      · simp [LocNode.getSymbol, hs]
      · split
        · simp [LocNode.getSymbol, hs]
        · rename_i _ _ hbs _ _ _ _ _ _
          simp only [*] at h
          have := ih st hb h
          rw [this] at hbs
          cases hbs

/-- C7 on concrete inputs, in a scope with `v` of a class type whose field
scope binds `a`, and `n` of type int: `v.a` resolves, `n.a` is a bad variable
type, `v.b` is undeclared. -/
theorem LocNode.nameAnalysis_member_witness :
    (LocNode.member ⟨1, 2⟩ (.id ⟨⟨1, 1⟩, "v", none⟩) ⟨⟨1, 3⟩, "a", none⟩ none).nameAnalysis
        ⟨[[⟨2, .var, "n", .primitive .int⟩, ⟨1, .var, "v", .cls 1⟩],
          [⟨0, .var, "a", .primitive .int⟩]], [0], 3, []⟩ =
      (true,
        .member ⟨1, 2⟩ (.id ⟨⟨1, 1⟩, "v", some ⟨1, .var, "v", .cls 1⟩⟩)
          ⟨⟨1, 3⟩, "a", some ⟨0, .var, "a", .primitive .int⟩⟩
          (some ⟨0, .var, "a", .primitive .int⟩),
        ⟨[[⟨2, .var, "n", .primitive .int⟩, ⟨1, .var, "v", .cls 1⟩],
          [⟨0, .var, "a", .primitive .int⟩]], [0], 3, []⟩) ∧
    (LocNode.member ⟨1, 2⟩ (.id ⟨⟨1, 1⟩, "n", none⟩) ⟨⟨1, 3⟩, "a", none⟩ none).nameAnalysis
        ⟨[[⟨2, .var, "n", .primitive .int⟩, ⟨1, .var, "v", .cls 1⟩],
          [⟨0, .var, "a", .primitive .int⟩]], [0], 3, []⟩ =
      (false,
        .member ⟨1, 2⟩ (.id ⟨⟨1, 1⟩, "n", some ⟨2, .var, "n", .primitive .int⟩⟩)
          ⟨⟨1, 3⟩, "a", none⟩ none,
        ⟨[[⟨2, .var, "n", .primitive .int⟩, ⟨1, .var, "v", .cls 1⟩],
          [⟨0, .var, "a", .primitive .int⟩]], [0], 3, [⟨.badVariableType, ⟨1, 2⟩⟩]⟩) ∧
    (LocNode.member ⟨1, 2⟩ (.id ⟨⟨1, 1⟩, "v", none⟩) ⟨⟨1, 3⟩, "b", none⟩ none).nameAnalysis
        ⟨[[⟨2, .var, "n", .primitive .int⟩, ⟨1, .var, "v", .cls 1⟩],
          [⟨0, .var, "a", .primitive .int⟩]], [0], 3, []⟩ =
      (false,
        .member ⟨1, 2⟩ (.id ⟨⟨1, 1⟩, "v", some ⟨1, .var, "v", .cls 1⟩⟩)
          ⟨⟨1, 3⟩, "b", none⟩ none,
        ⟨[[⟨2, .var, "n", .primitive .int⟩, ⟨1, .var, "v", .cls 1⟩],
          [⟨0, .var, "a", .primitive .int⟩]], [0], 3, [⟨.undeclaredIdentifier, ⟨1, 3⟩⟩]⟩) :=
  ⟨(LocNode.nameAnalysis_member ⟨1, 2⟩ (.id ⟨⟨1, 1⟩, "v", none⟩) ⟨⟨1, 3⟩, "a", none⟩ none
      ⟨[[⟨2, .var, "n", .primitive .int⟩, ⟨1, .var, "v", .cls 1⟩],
        [⟨0, .var, "a", .primitive .int⟩]], [0], 3, []⟩ ⟨1, .var, "v", .cls 1⟩
      (by decide) (by decide)).1 1 ⟨0, .var, "a", .primitive .int⟩ rfl (by decide),
   (LocNode.nameAnalysis_member ⟨1, 2⟩ (.id ⟨⟨1, 1⟩, "n", none⟩) ⟨⟨1, 3⟩, "a", none⟩ none
      ⟨[[⟨2, .var, "n", .primitive .int⟩, ⟨1, .var, "v", .cls 1⟩],
        [⟨0, .var, "a", .primitive .int⟩]], [0], 3, []⟩ ⟨2, .var, "n", .primitive .int⟩
      (by decide) (by decide)).2.1 rfl,
   (LocNode.nameAnalysis_member ⟨1, 2⟩ (.id ⟨⟨1, 1⟩, "v", none⟩) ⟨⟨1, 3⟩, "b", none⟩ none
      ⟨[[⟨2, .var, "n", .primitive .int⟩, ⟨1, .var, "v", .cls 1⟩],
        [⟨0, .var, "a", .primitive .int⟩]], [0], 3, []⟩ ⟨1, .var, "v", .cls 1⟩
      (by decide) (by decide)).2.2 1 rfl (by decide)⟩

/-- C8 as stated fails: in `zz.f` with `zz` undeclared the base fails to
resolve, the access fails, and the only diagnostic is the
`UndeclaredIdentifier` of the base; no `BadVariableType` is raised. -/
theorem LocNode.member_unresolved_base_counterexample :
    (LocNode.nameAnalysis (.id ⟨⟨1, 1⟩, "zz", none⟩) ⟨[[]], [0], 0, []⟩).1 = false ∧
    (LocNode.nameAnalysis (.member ⟨1, 2⟩ (.id ⟨⟨1, 1⟩, "zz", none⟩) ⟨⟨1, 3⟩, "f", none⟩ none)
        ⟨[[]], [0], 0, []⟩).1 = false ∧
    (LocNode.nameAnalysis (.member ⟨1, 2⟩ (.id ⟨⟨1, 1⟩, "zz", none⟩) ⟨⟨1, 3⟩, "f", none⟩ none)
        ⟨[[]], [0], 0, []⟩).2.2.diags = [⟨.undeclaredIdentifier, ⟨1, 1⟩⟩] ∧
    (LocNode.nameAnalysis (.member ⟨1, 2⟩ (.id ⟨⟨1, 1⟩, "zz", none⟩) ⟨⟨1, 3⟩, "f", none⟩ none)
        ⟨[[]], [0], 0, []⟩).2.2.diagsOf .badVariableType = [] := by
  decide

/-- C8, amended. When the base of a member access is fresh from the parser and
fails to resolve, `MemberFieldExpNode::nameAnalysis` fails without a
diagnostic of its own: the state it returns is the one the base left, the node
gets no symbol, and no field scope is consulted. -/
theorem LocNode.nameAnalysis_member_unresolved (pos : Position) (myBase : LocNode)
    (myField : IDNode) (mySymbol : Option SemSymbol) (st : State)
    (hfresh : myBase.fresh = true) (hfail : (myBase.nameAnalysis st).1 = false) :
    (LocNode.member pos myBase myField mySymbol).nameAnalysis st =
      (false, .member pos (myBase.nameAnalysis st).2.1 myField mySymbol,
        (myBase.nameAnalysis st).2.2) := by
  have h := LocNode.getSymbol_of_failed myBase st hfresh hfail
  simp [LocNode.nameAnalysis, h]

/-- C8, amended, on the concrete input `zz.f` with `zz` undeclared. -/
theorem LocNode.nameAnalysis_member_unresolved_witness :
    (LocNode.member ⟨1, 2⟩ (.id ⟨⟨1, 1⟩, "zz", none⟩) ⟨⟨1, 3⟩, "f", none⟩ none).nameAnalysis
        ⟨[[]], [0], 0, []⟩ =
      (false, .member ⟨1, 2⟩ (.id ⟨⟨1, 1⟩, "zz", none⟩) ⟨⟨1, 3⟩, "f", none⟩ none,
        ⟨[[]], [0], 0, [⟨.undeclaredIdentifier, ⟨1, 1⟩⟩]⟩) :=
  LocNode.nameAnalysis_member_unresolved ⟨1, 2⟩ (.id ⟨⟨1, 1⟩, "zz", none⟩) ⟨⟨1, 3⟩, "f", none⟩
    none ⟨[[]], [0], 0, []⟩ (by decide) (by decide)

/-! ## Function declarations -/

theorem FnDeclNode.formalsState_sameTables (myID : IDNode) (myRetType : TypeNode) (st : State)
    (c : ScopeId) :
    (SymbolTable.enterScope (myRetType.nameAnalysis st).2.2).2.SameTables
      (FnDeclNode.formalsState myID myRetType st c) := by
  unfold FnDeclNode.formalsState
  simp only
  split
  · exact State.sameTables_report _ _ _
  · exact State.SameTables.same_refl _

/-- `FnDeclNode::nameAnalysis` step by step, on a state whose current scope is
`c`. -/
theorem DeclNode.fnDecl_run (pos : Position) (myID : IDNode) (myRetType : TypeNode)
    (myFormals : List VarDeclNode) (myBody : List StmtNode) (st : State) {c : ScopeId}
    {rest : List ScopeId} (hc : st.chain = c :: rest) :
    ∃ (validFormals : Bool) (formals' : List VarDeclNode) (st4 : State) (formalTypes : TypeList)
      (retType : DataType) (validBody : Bool) (body' : List StmtNode) (st6 st7 : State),
      VarDeclNode.nameAnalysisList myFormals true (FnDeclNode.formalsState myID myRetType st c) =
        some (validFormals, formals', st4) ∧
      TypeList.produceNodes (formals'.map (fun formal => formal.myType)) = some formalTypes ∧
      (myRetType.nameAnalysis st).2.1.getType = some retType ∧
      StmtNode.nameAnalysisList myBody true
          (FnDeclNode.bodyState myID ((st.scope c).clash myID.name) c st4
            (FnType.produce formalTypes retType)) =
        some (validBody, body', st6) ∧
      SymbolTable.leaveScope st6 = some st7 ∧
      (DeclNode.fnDecl pos myID myRetType myFormals myBody).nameAnalysis st =
        some ((myRetType.nameAnalysis st).1 && validFormals && !(st.scope c).clash myID.name &&
            validBody,
          .fnDecl pos
            (FnDeclNode.resolvedID myID ((st.scope c).clash myID.name) c
              (FnDeclNode.bodyState myID ((st.scope c).clash myID.name) c st4
                (FnType.produce formalTypes retType)))
            (myRetType.nameAnalysis st).2.1 formals' body',
          st7) ∧
      (FnDeclNode.formalsState myID myRetType st c).chain = st.heap.length :: c :: rest ∧
      (FnDeclNode.formalsState myID myRetType st c).Extends st4 ∧
      (FnDeclNode.bodyState myID ((st.scope c).clash myID.name) c st4
        (FnType.produce formalTypes retType)).Extends st6 ∧
      st7.chain = st.chain ∧ st7.diags = st6.diags := by
  have hr := TypeNode.type_sameTables myRetType st
  obtain ⟨rty, hrty⟩ := TypeNode.getType_nameAnalysis myRetType st
  have hc1 : (myRetType.nameAnalysis st).2.2.chain = c :: rest := hr.chain.trans hc
  have h3 := FnDeclNode.formalsState_sameTables myID myRetType st c
  have hc3 : (FnDeclNode.formalsState myID myRetType st c).chain = st.heap.length :: c :: rest := by
    rw [h3.chain, State.chain_enterScope, hc1, hr.heap]
  obtain ⟨vf, formals', st4, hF, e4, t4⟩ := VarDeclNode.formals_extends myFormals true
    (FnDeclNode.formalsState myID myRetType st c) (by rw [hc3]; simp)
  obtain ⟨fts, hfts⟩ := TypeList.produceNodes_isSome (formals'.map (fun formal => formal.myType))
    (by simpa using t4)
  have hc5 : (FnDeclNode.bodyState myID ((st.scope c).clash myID.name) c st4
      (FnType.produce fts rty)).chain = st.heap.length :: c :: rest := by
    unfold FnDeclNode.bodyState
    split
    · rw [e4.chain, hc3]
    · exact (e4.chain.trans hc3)
  obtain ⟨vb, body', st6, hB, e6⟩ := StmtNode.stmtList_extends myBody true
    (FnDeclNode.bodyState myID ((st.scope c).clash myID.name) c st4 (FnType.produce fts rty))
    (by rw [hc5]; simp)
  obtain ⟨st7, hL, hc7⟩ := SymbolTable.leaveScope_of_chain (e6.chain.trans hc5)
  obtain ⟨_, _, _, _, hd7⟩ := SymbolTable.leaveScope_eq hL
  refine ⟨vf, formals', st4, fts, rty, vb, body', st6, st7, hF, hfts, hrty, hB, hL, ?_, hc3, e4, e6,
    hc7.trans hc.symm, hd7⟩
  have hsc : ((SymbolTable.enterScope (myRetType.nameAnalysis st).2.2).2.scope c) = st.scope c := by
    rw [State.scope_enterScope, hr.scope]
  unfold FnDeclNode.formalsState at hF
  unfold FnDeclNode.bodyState at hB
  simp only [DeclNode.nameAnalysis, SymbolTable.getCurrentScope, hc1, List.head?, hsc]
  cases hcl : (st.scope c).clash myID.name with
  | true =>
    simp only [hcl, if_true] at hF hB
    simp only [if_true, hF, hfts, hrty, hB, hL, FnDeclNode.resolvedID, FnDeclNode.bodyState]
    simp [hB, hL]
  | false =>
    simp only [hcl, Bool.false_eq_true, if_false] at hF hB
    simp only [Bool.false_eq_true, if_false, hF, hfts, hrty, if_true, hB, hL,
      FnDeclNode.resolvedID, FnDeclNode.bodyState]
    simp [hB, hL]

/-! ## Class declarations -/

/-- `ClassDefnNode::nameAnalysis` step by step, on a state whose current scope
is `c`. -/
theorem DeclNode.classDefn_run (pos : Position) (myID : IDNode) (myMembers : List DeclNode)
    (st : State) {c : ScopeId} {rest : List ScopeId} (hc : st.chain = c :: rest) :
    ∃ (result : Bool) (members' : List DeclNode) (st2 st3 : State),
      DeclNode.nameAnalysisList myMembers (!(st.scope c).clash myID.name)
          (SymbolTable.enterScope st).2 = some (result, members', st2) ∧
      SymbolTable.leaveScope st2 = some st3 ∧
      (SymbolTable.enterScope st).2.Extends st2 ∧
      st.Extends st3 ∧ State.Frame none st.heap.length st st3 ∧
      st3.heap = st2.heap ∧ st3.nextSym = st2.nextSym ∧ st3.diags = st2.diags ∧
      (DeclNode.classDefn pos myID myMembers).nameAnalysis st =
        some (if result then
            (true,
              .classDefn pos
                (myID.nameAnalysis (ClassDefnNode.registeredState myID c st.heap.length st3)).2.1
                members',
              (myID.nameAnalysis (ClassDefnNode.registeredState myID c st.heap.length st3)).2.2)
          else (false, .classDefn pos myID members', st3)) := by
  obtain ⟨r, m', st2, hM, e2⟩ := DeclNode.declList_extends myMembers
    (!(st.scope c).clash myID.name) (SymbolTable.enterScope st).2 (State.chain_ne_nil_enterScope _)
  obtain ⟨st3, hL, e3, hh, hn, hd, hf⟩ := State.Extends.enter_leave e2
  refine ⟨r, m', st2, st3, hM, hL, e2, e3, hf, hh, hn, hd, ?_⟩
  have hacc : (if (!!(st.scope c).clash myID.name) = true then false else true) =
      !(st.scope c).clash myID.name := by
    cases (st.scope c).clash myID.name <;> rfl
  have hc3 : st3.chain = c :: rest := e3.chain.trans hc
  simp only [DeclNode.nameAnalysis, SymbolTable.clash_of_chain hc, hacc, hM, hL]
  cases r with
  | false => simp
  | true =>
    simp [SymbolTable.addClass, SymbolTable.getCurrentScope, hc3, ClassDefnNode.registeredState,
      SymbolTable.enterScope]

/-! ## References to a name that is not declared again -/

theorem RefsResolved.nil (found : Option SemSymbol) (r : Bool) (diags : List Diag) :
    RefsResolved found [] r diags := by
  cases found <;> simp [RefsResolved]

theorem RefsResolved.append {found : Option SemSymbol} {l1 l2 : List IDNode} {r1 r2 r : Bool}
    {d1 d2 d : List Diag} (h1 : RefsResolved found l1 r1 d1) (h2 : RefsResolved found l2 r2 d2)
    (hd1 : d1 ⊆ d) (hd2 : d2 ⊆ d) (hr1 : r1 = false → r = false) (hr2 : r2 = false → r = false) :
    RefsResolved found (l1 ++ l2) r d := by
  cases found with
  | some f =>
    simp only [RefsResolved] at *
    intro n hn
    rcases List.mem_append.mp hn with h | h
    · exact h1 n h
    · exact h2 n h
  | none =>
    simp only [RefsResolved] at *
    refine ⟨fun n hn => ?_, fun hne => ?_⟩
    · rcases List.mem_append.mp hn with h | h
      · exact hd1 (h1.1 n h)
      · exact hd2 (h2.1 n h)
    · cases l1 with
      | nil => exact hr2 (h2.2 (by simpa using hne))
      | cons a l => exact hr1 (h1.2 (by simp))

theorem RefsResolved.weaken {found : Option SemSymbol} {l : List IDNode} {r r' : Bool}
    {d d' : List Diag} (h : RefsResolved found l r d) (hd : d ⊆ d') (hr : r = false → r' = false) :
    RefsResolved found l r' d' := by
  cases found with
  | some f => exact h
  | none => exact ⟨fun n hn => hd (h.1 n hn), fun hne => hr (h.2 hne)⟩

theorem State.newDiags_report (st : State) (k : ErrKind) (p : Position) :
    st.newDiags (st.report k p).2 = [⟨k, p⟩] := by
  simp [State.newDiags, State.report]

/-- Diagnostics reported up to an earlier state are among those reported up to
a later one. -/
theorem State.newDiags_mono (a : State) {b c : State} (h : b.diags <+: c.diags) :
    a.newDiags b ⊆ a.newDiags c := by
  obtain ⟨t, ht⟩ := h
  intro d hd
  simp only [State.newDiags, ← ht] at hd ⊢
  rcases Nat.le_total a.diags.length b.diags.length with hl | hl
  · rw [List.drop_append_of_le_length hl]
    exact List.mem_append_left _ hd
  · rw [List.drop_eq_nil_of_le hl] at hd
    cases hd

/-- Diagnostics reported since a later state were reported since an earlier
one. -/
theorem State.newDiags_suffix {a b : State} (c : State) (h : a.diags <+: b.diags) :
    b.newDiags c ⊆ a.newDiags c := by
  intro d hd
  simp only [State.newDiags] at hd ⊢
  have hl : a.diags.length ≤ b.diags.length := h.length_le
  obtain ⟨k, hk⟩ := Nat.exists_eq_add_of_le hl
  rw [hk, ← List.drop_drop] at hd
  exact List.mem_of_mem_drop hd

theorem IDNode.id_refs (x : String) (n : IDNode) (st : State) (hn : n.name = x) :
    RefsResolved (SymbolTable.find st x) [(n.nameAnalysis st).2.1] (n.nameAnalysis st).1
      (st.newDiags (n.nameAnalysis st).2.2) := by
  subst hn
  unfold IDNode.nameAnalysis
  cases h : SymbolTable.find st n.name with
  | none => simp [RefsResolved, NameErr.undeclID, State.report, State.newDiags]
  | some s => simp [RefsResolved, IDNode.attachSymbol]

theorem IDNode.name_nameAnalysis (n : IDNode) (st : State) :
    (n.nameAnalysis st).2.1.name = n.name := by
  unfold IDNode.nameAnalysis
  split <;> rfl

theorem LocNode.loc_refs (x : String) (l : LocNode) (st : State) :
    RefsResolved (SymbolTable.find st x) ((l.nameAnalysis st).2.1.refs x) (l.nameAnalysis st).1
      (st.newDiags (l.nameAnalysis st).2.2) := by
  induction l generalizing st with
  | id n =>
    have hname := IDNode.name_nameAnalysis n st
    have hid : (LocNode.nameAnalysis (.id n) st) =
        ((n.nameAnalysis st).1, .id (n.nameAnalysis st).2.1, (n.nameAnalysis st).2.2) := rfl
    rw [hid]
    simp only [LocNode.refs, hname]
    split
    · rename_i hn
      exact IDNode.id_refs x n st hn
    · exact RefsResolved.nil _ _ _
  | member pos base field sym ih =>
    have := ih st
    simp only [LocNode.nameAnalysis]
    split
    · exact this.weaken (fun _ h => h) (fun _ => rfl)
    · split
      · exact this.weaken (State.newDiags_mono st (State.sameTables_report _ _ _).diags)
          (fun _ => rfl)
      · split
        · exact this.weaken (State.newDiags_mono st (State.sameTables_report _ _ _).diags)
            (fun _ => rfl)
        · exact this

theorem Bool.and_false_of_left {a b : Bool} (h : a = false) : (a && b) = false := by simp [h]

theorem Bool.and_false_of_right {a b : Bool} (h : b = false) : (a && b) = false := by simp [h]

mutual
theorem ExpNode.exp_refs (x : String) : ∀ (e : ExpNode) (st : State),
    RefsResolved (SymbolTable.find st x) ((e.nameAnalysis st).2.1.refs x) (e.nameAnalysis st).1
      (st.newDiags (e.nameAnalysis st).2.2)
  | .intLit _ _, st => RefsResolved.nil _ _ _
  | .strLit _ _, st => RefsResolved.nil _ _ _
  | .trueNode _, st => RefsResolved.nil _ _ _
  | .falseNode _, st => RefsResolved.nil _ _ _
  | .loc l, st => by
    simpa [ExpNode.nameAnalysis, ExpNode.refs] using LocNode.loc_refs x l st
  | .binary _ _ e1 e2, st => by
    have h1 := ExpNode.exp_refs x e1 st
    have h2 := ExpNode.exp_refs x e2 (e1.nameAnalysis st).2.2
    rw [(ExpNode.exp_sameTables e1 st).find] at h2
    simpa [ExpNode.nameAnalysis, ExpNode.refs] using
      h1.append h2 (State.newDiags_mono st (ExpNode.exp_sameTables e2 _).diags)
        (State.newDiags_suffix _ (ExpNode.exp_sameTables e1 st).diags) Bool.and_false_of_left
        Bool.and_false_of_right
  | .neg _ e, st => by
    simpa [ExpNode.nameAnalysis, ExpNode.refs] using ExpNode.exp_refs x e st
  | .not _ e, st => by
    simpa [ExpNode.nameAnalysis, ExpNode.refs] using ExpNode.exp_refs x e st
  | .call _ callee args, st => by
    have h1 := LocNode.loc_refs x callee st
    have h2 := ExpNode.expList_refs x args ((callee.nameAnalysis st).1 && true)
      (callee.nameAnalysis st).2.2
    rw [(LocNode.loc_sameTables callee st).find] at h2
    simpa [ExpNode.nameAnalysis, ExpNode.refs] using
      h1.append h2.1 (State.newDiags_mono st (ExpNode.expList_sameTables args _ _).diags)
        (State.newDiags_suffix _ (LocNode.loc_sameTables callee st).diags)
        (fun h => h2.2 (by simp [h])) (fun h => h)
theorem ExpNode.expList_refs (x : String) : ∀ (l : List ExpNode) (acc : Bool) (st : State),
    RefsResolved (SymbolTable.find st x) (ExpNode.refsList x (ExpNode.nameAnalysisList l acc st).2.1)
      (ExpNode.nameAnalysisList l acc st).1
      (st.newDiags (ExpNode.nameAnalysisList l acc st).2.2) ∧
    (acc = false → (ExpNode.nameAnalysisList l acc st).1 = false)
  | [], acc, st => ⟨RefsResolved.nil _ _ _, fun h => h⟩
  | e :: rest, acc, st => by
    have h1 := ExpNode.exp_refs x e st
    have h2 := ExpNode.expList_refs x rest ((e.nameAnalysis st).1 && acc) (e.nameAnalysis st).2.2
    rw [(ExpNode.exp_sameTables e st).find] at h2
    refine ⟨?_, fun h => ?_⟩
    · simpa [ExpNode.nameAnalysisList, ExpNode.refsList] using
        h1.append h2.1 (State.newDiags_mono st (ExpNode.expList_sameTables rest _ _).diags)
          (State.newDiags_suffix _ (ExpNode.exp_sameTables e st).diags)
          (fun h => h2.2 (by simp [h])) (fun h => h)
    · simpa [ExpNode.nameAnalysisList] using h2.2 (by simp [h])
end

theorem State.keepsName_refl (x : String) (st : State) : st.KeepsName x st := fun _ => rfl

theorem State.KeepsName.keeps_trans {x : String} {a b c : State} (h1 : a.KeepsName x b)
    (h2 : b.KeepsName x c) : a.KeepsName x c :=
  fun id => (h2 id).trans (h1 id)

theorem State.SameTables.keepsName {st st' : State} (h : st.SameTables st') (x : String) :
    st.KeepsName x st' :=
  fun id => by rw [h.scope]

theorem State.keepsName_enterScope (x : String) (st : State) :
    st.KeepsName x (SymbolTable.enterScope st).2 :=
  fun id => by rw [State.scope_enterScope]

theorem State.keepsName_leaveScope {st st' : State} (x : String)
    (h : SymbolTable.leaveScope st = some st') : st.KeepsName x st' := by
  obtain ⟨_, _, hh, _, _⟩ := SymbolTable.leaveScope_eq h
  intro id
  simp [State.scope, hh]

theorem ScopeTable.lookup_insert_ne (t : ScopeTable) (sym : SemSymbol) (x : String)
    (h : sym.name ≠ x) : (t.insert sym).2.lookup x = t.lookup x := by
  unfold ScopeTable.insert
  split
  · rfl
  · simp [ScopeTable.lookup, List.find?_cons, h]

theorem State.keepsName_insertAt (st : State) (c : ScopeId) (k : SymbolKind) (name : String)
    (ty : DataType) (x : String) (h : name ≠ x) : st.KeepsName x (st.insertAt c k name ty).2 := by
  intro id
  rw [State.scope_insertAt]
  split
  · rename_i hc
    rw [← hc.1]
    exact ScopeTable.lookup_insert_ne _ _ _ h
  · rfl

theorem State.KeepsName.findIn {x : String} {st st' : State} (h : st.KeepsName x st') :
    ∀ (l : List ScopeId), st'.findIn l x = st.findIn l x
  | [] => rfl
  | id :: rest => by simp [State.findIn, h id, State.KeepsName.findIn h rest]

theorem State.KeepsName.keeps_find {x : String} {st st' : State} (h : st.KeepsName x st')
    (hc : st'.chain = st.chain) : SymbolTable.find st' x = SymbolTable.find st x := by
  simp [SymbolTable.find, hc, h.findIn]

theorem State.lookup_new_scope (st : State) (x : String) :
    (st.scope st.heap.length).lookup x = none := by
  simp [State.scope, ScopeTable.lookup]

/-- Inside a scope that was just entered and in which `x` was not declared,
`x` is found where it was found outside. -/
theorem State.KeepsName.find_inner {x : String} {st st' : State}
    (h : (SymbolTable.enterScope st).2.KeepsName x st')
    (hc : st'.chain = (SymbolTable.enterScope st).2.chain) :
    SymbolTable.find st' x = SymbolTable.find st x := by
  have h2 : st.KeepsName x st' := (State.keepsName_enterScope x st).keeps_trans h
  have hl : (st'.scope st.heap.length).lookup x = none := by
    rw [h2, State.lookup_new_scope]
  simp [SymbolTable.find, hc, State.chain_enterScope, State.findIn, hl, h2.findIn,
    State.lookup_new_scope]

theorem VarDeclNode.initAnalysis_refs (x : String) (d : VarDeclNode) (st1 : State) :
    RefsResolved (SymbolTable.find st1 x)
      (match (d.initAnalysis st1).2.1 with
       | none => []
       | some e => e.refs x)
      (d.initAnalysis st1).1 (st1.newDiags (d.initAnalysis st1).2.2) := by
  unfold VarDeclNode.initAnalysis
  cases d.myInit with
  | none => exact RefsResolved.nil _ _ _
  | some e => exact ExpNode.exp_refs x e st1

theorem VarDeclNode.varDecl_refs (x : String) (d : VarDeclNode) (st : State) (r : Bool)
    (d' : VarDeclNode) (st' : State) (hne : st.chain ≠ []) (hx : d.myID.name ≠ x)
    (h : d.nameAnalysis st = some (r, d', st')) :
    st.KeepsName x st' ∧ RefsResolved (SymbolTable.find st x) (d'.refs x) r (st.newDiags st') := by
  obtain ⟨c, rest, hc⟩ := List.exists_cons_of_ne_nil hne
  obtain ⟨ty, _, heq⟩ := d.nameAnalysis_eq st hc
  rw [heq] at h
  have hT := TypeNode.type_sameTables d.myType st
  have hI := d.initAnalysis_refs x (d.myType.nameAnalysis st).2.2
  rw [hT.find] at hI
  have hp : ∀ cl, (d.initAnalysis (d.myType.nameAnalysis st).2.2).2.2.diags <+:
      (d.decisionState st cl).diags := fun cl => List.prefix_append _ _
  split at h
  · rename_i hv
    simp only [Option.some.injEq, Prod.mk.injEq] at h
    obtain ⟨rfl, rfl, rfl⟩ := h
    refine ⟨((d.decisionState_sameTables st false).keepsName x).keeps_trans
      (State.keepsName_insertAt _ _ _ _ _ _ hx), ?_⟩
    exact hI.weaken
      ((State.newDiags_suffix _ hT.diags).trans (State.newDiags_mono st
        ((hp false).trans (State.grows_insertAt _ _ _ _ _).diags)))
      (fun hf => by simp [hf] at hv)
  · simp only [Option.some.injEq, Prod.mk.injEq] at h
    obtain ⟨rfl, rfl, rfl⟩ := h
    exact ⟨(d.decisionState_sameTables st _).keepsName x,
      hI.weaken ((State.newDiags_suffix _ hT.diags).trans (State.newDiags_mono st (hp _)))
        (fun _ => rfl)⟩

theorem VarDeclNode.formals_refs (x : String) : ∀ (l : List VarDeclNode) (acc : Bool) (st : State)
    (r : Bool) (l' : List VarDeclNode) (st' : State), st.chain ≠ [] →
    x ∉ l.map (fun f => f.myID.name) →
    VarDeclNode.nameAnalysisList l acc st = some (r, l', st') →
    st.KeepsName x st' ∧
      RefsResolved (SymbolTable.find st x) (VarDeclNode.refsList x l') r (st.newDiags st') ∧
      (acc = false → r = false)
  | [], acc, st, r, l', st', _, _, h => by
    simp only [VarDeclNode.nameAnalysisList, Option.some.injEq, Prod.mk.injEq] at h
    obtain ⟨rfl, rfl, rfl⟩ := h
    exact ⟨State.keepsName_refl _ _, RefsResolved.nil _ _ _, fun h => h⟩
  | d :: rest, acc, st, r, l', st', hne, hx, h => by
    simp only [List.map_cons, List.mem_cons, not_or] at hx
    obtain ⟨r1, d1, st1, h1, e1, _⟩ := d.varDecl_extends st hne
    have hne1 : st1.chain ≠ [] := by rw [e1.chain]; exact hne
    obtain ⟨r2, l2, st2, h2, e2, _⟩ := VarDeclNode.formals_extends rest (r1 && acc) st1 hne1
    simp only [VarDeclNode.nameAnalysisList, h1, h2, Option.some.injEq, Prod.mk.injEq] at h
    obtain ⟨rfl, rfl, rfl⟩ := h
    obtain ⟨k1, f1⟩ := d.varDecl_refs x st r1 d1 st1 hne (fun h => hx.1 h.symm) h1
    obtain ⟨k2, f2, a2⟩ := VarDeclNode.formals_refs x rest (r1 && acc) st1 r2 l2 st2 hne1 hx.2 h2
    rw [k1.keeps_find e1.chain] at f2
    exact ⟨k1.keeps_trans k2,
      f1.append f2 (State.newDiags_mono st e2.grows.diags)
        (State.newDiags_suffix _ e1.grows.diags) (fun h => a2 (by simp [h])) (fun h => h),
      fun h => a2 (by simp [h])⟩



theorem State.Extends.leave_inner {st1 st3 : State}
    (he : (SymbolTable.enterScope st1).2.Extends st3) :
    ∃ st4, SymbolTable.leaveScope st3 = some st4 ∧ st4.chain = st1.chain ∧
      st4.diags = st3.diags := by
  obtain ⟨st4, hl, hc⟩ := SymbolTable.leaveScope_of_chain (he.chain.trans (State.chain_enterScope st1))
  obtain ⟨_, _, _, _, hd⟩ := SymbolTable.leaveScope_eq hl
  exact ⟨st4, hl, hc, hd⟩

/-- The body of an `if` or `while`: the part of the resolution after the
condition. -/
theorem StmtNode.body_refs (x : String) (st0 st st1 : State) (rc acc : Bool)
    (body : List StmtNode) (crefs : List IDNode) (h0 : st0.diags <+: st.diags)
    (hs : st.SameTables st1)
    (hcond : RefsResolved (SymbolTable.find st x) crefs rc (st0.newDiags st1))
    (hacc : rc = false → acc = false)
    (ih : ∀ (r : Bool) (l' : List StmtNode) (st' : State),
      StmtNode.nameAnalysisList body acc (SymbolTable.enterScope st1).2 = some (r, l', st') →
      (SymbolTable.enterScope st1).2.KeepsName x st' ∧
        RefsResolved (SymbolTable.find (SymbolTable.enterScope st1).2 x)
          (StmtNode.refsList x l') r ((SymbolTable.enterScope st1).2.newDiags st') ∧
        (acc = false → r = false)) :
    ∃ r b' st3 st4,
      StmtNode.nameAnalysisList body acc (SymbolTable.enterScope st1).2 =
        some (r, b', st3) ∧
      SymbolTable.leaveScope st3 = some st4 ∧
      st4.chain = st.chain ∧
      st.KeepsName x st4 ∧
      RefsResolved (SymbolTable.find st x) (crefs ++ StmtNode.refsList x b') r
        (st0.newDiags st4) := by
  obtain ⟨r, b', st3, hb, he⟩ := StmtNode.stmtList_extends body acc
    (SymbolTable.enterScope st1).2 (State.chain_ne_nil_enterScope _)
  obtain ⟨st4, hl, hc4, hd4⟩ := he.leave_inner
  obtain ⟨k, f, a⟩ := ih r b' st3 hb
  have hfind : SymbolTable.find (SymbolTable.enterScope st1).2 x = SymbolTable.find st x := by
    rw [(State.keepsName_refl x _).find_inner rfl, hs.find]
  rw [hfind] at f
  refine ⟨r, b', st3, st4, hb, hl, hc4.trans hs.chain, ?_, ?_⟩
  · exact (hs.keepsName x).keeps_trans ((State.keepsName_enterScope x st1).keeps_trans
      (k.keeps_trans (State.keepsName_leaveScope x hl)))
  · have hd : st0.newDiags st4 = st0.newDiags st3 := by simp [State.newDiags, hd4]
    rw [hd]
    exact hcond.append f
      (State.newDiags_mono st0 ((State.grows_enterScope st1).diags.trans he.grows.diags))
      (State.newDiags_suffix _ (h0.trans (hs.diags.trans (State.grows_enterScope st1).diags)))
      (fun h => a (hacc h)) (fun h => h)

mutual
theorem StmtNode.stmt_refs (x : String) : ∀ (s : StmtNode) (st : State) (r : Bool)
    (s' : StmtNode) (st' : State), st.chain ≠ [] → x ∉ s.declaredNames →
    s.nameAnalysis st = some (r, s', st') →
    st.KeepsName x st' ∧ RefsResolved (SymbolTable.find st x) (s'.refs x) r (st.newDiags st')
  | .assign pos dst src, st, r, s', st', _, _, h => by
    simp only [StmtNode.nameAnalysis, Option.some.injEq, Prod.mk.injEq] at h
    obtain ⟨rfl, rfl, rfl⟩ := h
    have h1 := LocNode.loc_refs x dst st
    have h2 := ExpNode.exp_refs x src (dst.nameAnalysis st).2.2
    rw [(LocNode.loc_sameTables dst st).find] at h2
    exact ⟨((LocNode.loc_sameTables dst st).same_trans
        (ExpNode.exp_sameTables src _)).keepsName x,
      h1.append h2 (State.newDiags_mono st (ExpNode.exp_sameTables src _).diags)
        (State.newDiags_suffix _ (LocNode.loc_sameTables dst st).diags) (fun h => by simp [h])
        (fun h => by simp [h])⟩
  | .exit pos, st, r, s', st', _, _, h => by
    simp only [StmtNode.nameAnalysis, Option.some.injEq, Prod.mk.injEq] at h
    obtain ⟨rfl, rfl, rfl⟩ := h
    exact ⟨State.keepsName_refl _ _, RefsResolved.nil _ _ _⟩
  | .postDec pos l, st, r, s', st', _, _, h => by
    simp only [StmtNode.nameAnalysis, Option.some.injEq, Prod.mk.injEq] at h
    obtain ⟨rfl, rfl, rfl⟩ := h
    exact ⟨(LocNode.loc_sameTables l st).keepsName x, LocNode.loc_refs x l st⟩
  | .postInc pos l, st, r, s', st', _, _, h => by
    simp only [StmtNode.nameAnalysis, Option.some.injEq, Prod.mk.injEq] at h
    obtain ⟨rfl, rfl, rfl⟩ := h
    exact ⟨(LocNode.loc_sameTables l st).keepsName x, LocNode.loc_refs x l st⟩
  | .take pos l, st, r, s', st', _, _, h => by
    simp only [StmtNode.nameAnalysis, Option.some.injEq, Prod.mk.injEq] at h
    obtain ⟨rfl, rfl, rfl⟩ := h
    exact ⟨(LocNode.loc_sameTables l st).keepsName x, LocNode.loc_refs x l st⟩
  | .give pos e, st, r, s', st', _, _, h => by
    simp only [StmtNode.nameAnalysis, Option.some.injEq, Prod.mk.injEq] at h
    obtain ⟨rfl, rfl, rfl⟩ := h
    exact ⟨(ExpNode.exp_sameTables e st).keepsName x, ExpNode.exp_refs x e st⟩
  | .ifStmt pos cond body, st, r, s', st', _, hx, h => by
    simp only [StmtNode.declaredNames] at hx
    obtain ⟨rb, b', st3, st4, hb, hl, _, k, f⟩ := StmtNode.body_refs x st st
      (cond.nameAnalysis st).2.2 (cond.nameAnalysis st).1 ((cond.nameAnalysis st).1 && true) body
      ((cond.nameAnalysis st).2.1.refs x) (List.prefix_refl _) (ExpNode.exp_sameTables cond st)
      (ExpNode.exp_refs x cond st) (fun h => by simp [h])
      (fun r l' st' hb => StmtNode.stmtList_refs x body _ _ r l' st'
        (State.chain_ne_nil_enterScope _) hx hb)
    simp only [StmtNode.nameAnalysis, hb, hl, Option.some.injEq, Prod.mk.injEq] at h
    obtain ⟨rfl, rfl, rfl⟩ := h
    exact ⟨k, f⟩
  | .ifElse pos cond bodyT bodyF, st, r, s', st', _, hx, h => by
    simp only [StmtNode.declaredNames, List.mem_append, not_or] at hx
    obtain ⟨rb, b', st3, st4, hb, hl, hc4, k, f⟩ := StmtNode.body_refs x st st
      (cond.nameAnalysis st).2.2 (cond.nameAnalysis st).1 ((cond.nameAnalysis st).1 && true) bodyT
      ((cond.nameAnalysis st).2.1.refs x) (List.prefix_refl _) (ExpNode.exp_sameTables cond st)
      (ExpNode.exp_refs x cond st) (fun h => by simp [h])
      (fun r l' st' hb => StmtNode.stmtList_refs x bodyT _ _ r l' st'
        (State.chain_ne_nil_enterScope _) hx.1 hb)
    rw [← k.keeps_find hc4] at f
    have hd04 : st.diags <+: st4.diags := by
      obtain ⟨_, _, st3', hb', he'⟩ := StmtNode.stmtList_extends bodyT
        ((cond.nameAnalysis st).1 && true) (SymbolTable.enterScope (cond.nameAnalysis st).2.2).2
        (State.chain_ne_nil_enterScope _)
      rw [hb] at hb'
      simp only [Option.some.injEq, Prod.mk.injEq] at hb'
      obtain ⟨_, _, rfl⟩ := hb'
      obtain ⟨_, _, _, _, hd⟩ := SymbolTable.leaveScope_eq hl
      rw [hd]
      exact (ExpNode.exp_sameTables cond st).diags.trans
        ((State.grows_enterScope _).diags.trans he'.grows.diags)
    obtain ⟨rb2, b2, st6, st7, hb2, hl2, _, k2, f2⟩ := StmtNode.body_refs x st st4 st4 rb rb bodyF
      ((cond.nameAnalysis st).2.1.refs x ++ StmtNode.refsList x b') hd04
      (State.SameTables.same_refl _) f (fun h => h)
      (fun r l' st' hb => StmtNode.stmtList_refs x bodyF _ _ r l' st'
        (State.chain_ne_nil_enterScope _) hx.2 hb)
    simp only [StmtNode.nameAnalysis, hb, hl, hb2, hl2, Option.some.injEq, Prod.mk.injEq] at h
    obtain ⟨rfl, rfl, rfl⟩ := h
    rw [k.keeps_find hc4] at f2
    exact ⟨k.keeps_trans k2, f2⟩
  | .while pos cond body, st, r, s', st', _, hx, h => by
    simp only [StmtNode.declaredNames] at hx
    obtain ⟨rb, b', st3, st4, hb, hl, _, k, f⟩ := StmtNode.body_refs x st st
      (cond.nameAnalysis st).2.2 (cond.nameAnalysis st).1 ((cond.nameAnalysis st).1 && true) body
      ((cond.nameAnalysis st).2.1.refs x) (List.prefix_refl _) (ExpNode.exp_sameTables cond st)
      (ExpNode.exp_refs x cond st) (fun h => by simp [h])
      (fun r l' st' hb => StmtNode.stmtList_refs x body _ _ r l' st'
        (State.chain_ne_nil_enterScope _) hx hb)
    simp only [StmtNode.nameAnalysis, hb, hl, Option.some.injEq, Prod.mk.injEq] at h
    obtain ⟨rfl, rfl, rfl⟩ := h
    exact ⟨k, f⟩
  | .ret pos none, st, r, s', st', _, _, h => by
    simp only [StmtNode.nameAnalysis, Option.some.injEq, Prod.mk.injEq] at h
    obtain ⟨rfl, rfl, rfl⟩ := h
    exact ⟨State.keepsName_refl _ _, RefsResolved.nil _ _ _⟩
  | .ret pos (some e), st, r, s', st', _, _, h => by
    simp only [StmtNode.nameAnalysis, Option.some.injEq, Prod.mk.injEq] at h
    obtain ⟨rfl, rfl, rfl⟩ := h
    exact ⟨(ExpNode.exp_sameTables e st).keepsName x, ExpNode.exp_refs x e st⟩
  | .callStmt pos e, st, r, s', st', _, _, h => by
    simp only [StmtNode.nameAnalysis, Option.some.injEq, Prod.mk.injEq] at h
    obtain ⟨rfl, rfl, rfl⟩ := h
    exact ⟨(ExpNode.exp_sameTables e st).keepsName x, ExpNode.exp_refs x e st⟩
  | .decl d, st, r, s', st', hne, hx, h => by
    simp only [StmtNode.declaredNames] at hx
    obtain ⟨r1, d1, st1, h1, _⟩ := DeclNode.decl_extends d st hne
    simp only [StmtNode.nameAnalysis, h1, Option.some.injEq, Prod.mk.injEq] at h
    obtain ⟨rfl, rfl, rfl⟩ := h
    exact DeclNode.decl_refs x d st r1 d1 st1 hne hx h1
theorem StmtNode.stmtList_refs (x : String) : ∀ (l : List StmtNode) (acc : Bool) (st : State)
    (r : Bool) (l' : List StmtNode) (st' : State), st.chain ≠ [] →
    x ∉ StmtNode.declaredNamesList l →
    StmtNode.nameAnalysisList l acc st = some (r, l', st') →
    st.KeepsName x st' ∧
      RefsResolved (SymbolTable.find st x) (StmtNode.refsList x l') r (st.newDiags st') ∧
      (acc = false → r = false)
  | [], acc, st, r, l', st', _, _, h => by
    simp only [StmtNode.nameAnalysisList, Option.some.injEq, Prod.mk.injEq] at h
    obtain ⟨rfl, rfl, rfl⟩ := h
    exact ⟨State.keepsName_refl _ _, RefsResolved.nil _ _ _, fun h => h⟩
  | s :: rest, acc, st, r, l', st', hne, hx, h => by
    simp only [StmtNode.declaredNamesList, List.mem_append, not_or] at hx
    obtain ⟨r1, s1, st1, h1, e1⟩ := StmtNode.stmt_extends s st hne
    have hne1 : st1.chain ≠ [] := by rw [e1.chain]; exact hne
    obtain ⟨r2, l2, st2, h2, e2⟩ := StmtNode.stmtList_extends rest (r1 && acc) st1 hne1
    simp only [StmtNode.nameAnalysisList, h1, h2, Option.some.injEq, Prod.mk.injEq] at h
    obtain ⟨rfl, rfl, rfl⟩ := h
    obtain ⟨k1, f1⟩ := StmtNode.stmt_refs x s st r1 s1 st1 hne hx.1 h1
    obtain ⟨k2, f2, a2⟩ := StmtNode.stmtList_refs x rest (r1 && acc) st1 r2 l2 st2 hne1 hx.2 h2
    rw [k1.keeps_find e1.chain] at f2
    exact ⟨k1.keeps_trans k2,
      f1.append f2 (State.newDiags_mono st e2.grows.diags)
        (State.newDiags_suffix _ e1.grows.diags) (fun h => a2 (by simp [h])) (fun h => h),
      fun h => a2 (by simp [h])⟩
theorem DeclNode.decl_refs (x : String) : ∀ (d : DeclNode) (st : State) (r : Bool)
    (d' : DeclNode) (st' : State), st.chain ≠ [] → x ∉ d.declaredNames →
    d.nameAnalysis st = some (r, d', st') →
    st.KeepsName x st' ∧ RefsResolved (SymbolTable.find st x) (d'.refs x) r (st.newDiags st')
  | .varDecl d, st, r, d', st', hne, hx, h => by
    simp only [DeclNode.declaredNames, List.mem_singleton] at hx
    obtain ⟨r1, d1, st1, h1, _⟩ := d.varDecl_extends st hne
    simp only [DeclNode.nameAnalysis, h1, Option.some.injEq, Prod.mk.injEq] at h
    obtain ⟨rfl, rfl, rfl⟩ := h
    exact d.varDecl_refs x st r1 d1 st1 hne (fun h => hx h.symm) h1
  | .fnDecl pos id ret formals body, st, r, d', st', hne, hx, h => by
    simp only [DeclNode.declaredNames, List.mem_cons, List.mem_append, not_or] at hx
    obtain ⟨hxid, hxf, hxb⟩ := hx
    obtain ⟨c, rest, hc⟩ := List.exists_cons_of_ne_nil hne
    obtain ⟨vf, formals', st4, fts, rty, vb, body', st6, st7, hF, _, _, hB, hL, heq, hc3, e4, e6,
      hc7, hd7⟩ := DeclNode.fnDecl_run pos id ret formals body st hc
    rw [heq] at h
    simp only [Option.some.injEq, Prod.mk.injEq] at h
    obtain ⟨rfl, rfl, rfl⟩ := h
    have hr := TypeNode.type_sameTables ret st
    have h3 := FnDeclNode.formalsState_sameTables id ret st c
    have hc3' : (FnDeclNode.formalsState id ret st c).chain =
        (SymbolTable.enterScope (ret.nameAnalysis st).2.2).2.chain := h3.chain
    have hne3 : (FnDeclNode.formalsState id ret st c).chain ≠ [] := by rw [hc3]; simp
    -- the formals
    obtain ⟨k4, f4, _⟩ := VarDeclNode.formals_refs x formals true _ vf formals' st4 hne3 hxf hF
    have hfind3 : SymbolTable.find (FnDeclNode.formalsState id ret st c) x =
        SymbolTable.find st x := by
      rw [(h3.keepsName x).find_inner hc3', hr.find]
    rw [hfind3] at f4
    -- the function symbol
    have k5 : st4.KeepsName x (FnDeclNode.bodyState id ((st.scope c).clash id.name) c st4
        (FnType.produce fts rty)) := by
      unfold FnDeclNode.bodyState
      split
      · exact State.keepsName_refl _ _
      · exact State.keepsName_insertAt _ _ _ _ _ _ (fun h => hxid h.symm)
    have hc5 : (FnDeclNode.bodyState id ((st.scope c).clash id.name) c st4
        (FnType.produce fts rty)).chain = st4.chain := by
      unfold FnDeclNode.bodyState
      split <;> rfl
    have hd5 : st4.diags <+: (FnDeclNode.bodyState id ((st.scope c).clash id.name) c st4
        (FnType.produce fts rty)).diags := by
      unfold FnDeclNode.bodyState
      split
      · exact List.prefix_refl _
      · exact (State.grows_insertAt _ _ _ _ _).diags
    -- the body
    obtain ⟨k6, f6, _⟩ := StmtNode.stmtList_refs x body true _ vb body' st6
      (by rw [hc5, e4.chain]; exact hne3) hxb hB
    have hfind5 : SymbolTable.find (FnDeclNode.bodyState id ((st.scope c).clash id.name) c st4
        (FnType.produce fts rty)) x = SymbolTable.find st x := by
      rw [(((h3.keepsName x).keeps_trans k4).keeps_trans k5).find_inner
        (hc5.trans (e4.chain.trans hc3')), hr.find]
    rw [hfind5] at f6
    refine ⟨?_, ?_⟩
    · exact (hr.keepsName x).keeps_trans <| (State.keepsName_enterScope x _).keeps_trans <|
        (h3.keepsName x).keeps_trans <| k4.keeps_trans <| k5.keeps_trans <|
        k6.keeps_trans (State.keepsName_leaveScope x hL)
    · have hd : st.newDiags st7 = st.newDiags st6 := by simp [State.newDiags, hd7]
      have hp3 : st.diags <+: (FnDeclNode.formalsState id ret st c).diags :=
        hr.diags.trans ((State.grows_enterScope _).diags.trans h3.diags)
      rw [hd]
      exact f4.append f6
        ((State.newDiags_suffix _ hp3).trans
          (State.newDiags_mono st (hd5.trans e6.grows.diags)))
        (State.newDiags_suffix _ (hp3.trans (e4.grows.diags.trans hd5)))
        (fun h => by simp [h]) (fun h => by simp [h])
  | .classDefn pos id members, st, r, d', st', hne, hx, h => by
    simp only [DeclNode.declaredNames, List.mem_cons, not_or] at hx
    obtain ⟨hxid, hxm⟩ := hx
    obtain ⟨c, rest, hc⟩ := List.exists_cons_of_ne_nil hne
    obtain ⟨res, m', st2, st3, hM, hL, e2, e3, _, _, _, hd3, heq⟩ :=
      DeclNode.classDefn_run pos id members st hc
    obtain ⟨k2, f2, _⟩ := DeclNode.declList_refs x members _ _ res m' st2
      (State.chain_ne_nil_enterScope _) hxm hM
    rw [(State.keepsName_refl x _).find_inner rfl] at f2
    have k3 : st.KeepsName x st3 := (State.keepsName_enterScope x st).keeps_trans
      (k2.keeps_trans (State.keepsName_leaveScope x hL))
    rw [heq] at h
    cases res with
    | false =>
      simp only [Bool.false_eq_true, if_false, Option.some.injEq, Prod.mk.injEq] at h
      obtain ⟨rfl, rfl, rfl⟩ := h
      have hd : st.newDiags st3 = (SymbolTable.enterScope st).2.newDiags st2 := by
        simp [State.newDiags, hd3, SymbolTable.enterScope]
      exact ⟨k3, by rw [hd]; exact f2⟩
    | true =>
      simp only [if_true, Option.some.injEq, Prod.mk.injEq] at h
      obtain ⟨rfl, rfl, rfl⟩ := h
      refine ⟨k3.keeps_trans ((State.keepsName_insertAt _ _ _ _ _ _ (fun h => hxid h.symm)).keeps_trans
        ((IDNode.id_sameTables _ _).keepsName x)), ?_⟩
      have hd : (SymbolTable.enterScope st).2.newDiags st2 = st.newDiags st3 := by
        simp [State.newDiags, hd3, SymbolTable.enterScope]
      rw [hd] at f2
      exact f2.weaken (State.newDiags_mono st
        ((State.grows_insertAt st3 c .agg id.name (.cls st.heap.length)).diags.trans
          (IDNode.id_sameTables _ _).diags)) (fun h => h)
theorem DeclNode.declList_refs (x : String) : ∀ (l : List DeclNode) (acc : Bool) (st : State)
    (r : Bool) (l' : List DeclNode) (st' : State), st.chain ≠ [] →
    x ∉ DeclNode.declaredNamesList l →
    DeclNode.nameAnalysisList l acc st = some (r, l', st') →
    st.KeepsName x st' ∧
      RefsResolved (SymbolTable.find st x) (DeclNode.refsList x l') r (st.newDiags st') ∧
      (acc = false → r = false)
  | [], acc, st, r, l', st', _, _, h => by
    simp only [DeclNode.nameAnalysisList, Option.some.injEq, Prod.mk.injEq] at h
    obtain ⟨rfl, rfl, rfl⟩ := h
    exact ⟨State.keepsName_refl _ _, RefsResolved.nil _ _ _, fun h => h⟩
  | d :: rest, acc, st, r, l', st', hne, hx, h => by
    simp only [DeclNode.declaredNamesList, List.mem_append, not_or] at hx
    obtain ⟨r1, d1, st1, h1, e1⟩ := DeclNode.decl_extends d st hne
    have hne1 : st1.chain ≠ [] := by rw [e1.chain]; exact hne
    obtain ⟨r2, l2, st2, h2, e2⟩ := DeclNode.declList_extends rest (r1 && acc) st1 hne1
    simp only [DeclNode.nameAnalysisList, h1, h2, Option.some.injEq, Prod.mk.injEq] at h
    obtain ⟨rfl, rfl, rfl⟩ := h
    obtain ⟨k1, f1⟩ := DeclNode.decl_refs x d st r1 d1 st1 hne hx.1 h1
    obtain ⟨k2, f2, a2⟩ := DeclNode.declList_refs x rest (r1 && acc) st1 r2 l2 st2 hne1 hx.2 h2
    rw [k1.keeps_find e1.chain] at f2
    exact ⟨k1.keeps_trans k2,
      f1.append f2 (State.newDiags_mono st e2.grows.diags)
        (State.newDiags_suffix _ e1.grows.diags) (fun h => a2 (by simp [h])) (fun h => h),
      fun h => a2 (by simp [h])⟩
end

/-! ## Lookups after a scope was left -/

theorem State.findIn_congr {st st' : State} (x : String) :
    ∀ (l : List ScopeId), (∀ id ∈ l, st'.scope id = st.scope id) →
      st'.findIn l x = st.findIn l x
  | [], _ => rfl
  | id :: rest, h => by
    have h1 := h id (List.mem_cons_self _ _)
    have h2 := State.findIn_congr x rest (fun j hj => h j (List.mem_cons_of_mem _ hj))
    simp [State.findIn, h1, h2]

/-- After a scope was entered, used and left, every name is found where it was
found before, whatever was declared inside. -/
theorem State.find_after_scope {st st3 st4 : State} (hwf : st.WF)
    (he : (SymbolTable.enterScope st).2.Extends st3)
    (hl : SymbolTable.leaveScope st3 = some st4) (x : String) :
    SymbolTable.find st4 x = SymbolTable.find st x := by
  obtain ⟨st4', hl', he4, _, _, _, hf⟩ := State.Extends.enter_leave he
  rw [hl] at hl'
  cases hl'
  unfold SymbolTable.find
  rw [he4.chain]
  exact State.findIn_congr x st.chain (fun id hid => hf id (hwf id hid) (by simp))

theorem State.SameTables.wf {st st' : State} (h : st.SameTables st') (hwf : st.WF) : st'.WF := by
  intro id hid
  rw [h.chain] at hid
  rw [h.heap]
  exact hwf id hid

theorem State.Extends.ext_wf {st st' : State} (h : st.Extends st') (hwf : st.WF) : st'.WF := by
  intro id hid
  rw [h.chain] at hid
  exact lt_of_lt_of_le (hwf id hid) h.grows.heapLen

theorem State.wf_enterScope {st : State} (hwf : st.WF) : (SymbolTable.enterScope st).2.WF := by
  intro id hid
  simp only [SymbolTable.enterScope, List.mem_cons, List.length_append, List.length_singleton]
    at hid ⊢
  rcases hid with rfl | hid
  · exact Nat.lt_succ_self _
  · exact Nat.lt_succ_of_lt (hwf id hid)

/-- The run of an `if`/`else` statement, branch by branch. -/
theorem StmtNode.ifElse_run (pos : Position) (myCond : ExpNode)
    (myBodyTrue myBodyFalse : List StmtNode) (st : State) :
    ∃ (r1 : Bool) (bodyTrue' : List StmtNode) (st3 st4 : State) (r2 : Bool)
      (bodyFalse' : List StmtNode) (st6 st7 : State),
      StmtNode.nameAnalysisList myBodyTrue ((myCond.nameAnalysis st).1 && true)
          (SymbolTable.enterScope (myCond.nameAnalysis st).2.2).2 = some (r1, bodyTrue', st3) ∧
      (SymbolTable.enterScope (myCond.nameAnalysis st).2.2).2.Extends st3 ∧
      SymbolTable.leaveScope st3 = some st4 ∧
      StmtNode.nameAnalysisList myBodyFalse r1 (SymbolTable.enterScope st4).2 =
        some (r2, bodyFalse', st6) ∧
      (SymbolTable.enterScope st4).2.Extends st6 ∧
      SymbolTable.leaveScope st6 = some st7 ∧
      (StmtNode.ifElse pos myCond myBodyTrue myBodyFalse).nameAnalysis st =
        some (r2, .ifElse pos (myCond.nameAnalysis st).2.1 bodyTrue' bodyFalse', st7) := by
  obtain ⟨r, b', st3, hb, he⟩ := StmtNode.stmtList_extends myBodyTrue
    ((myCond.nameAnalysis st).1 && true) (SymbolTable.enterScope (myCond.nameAnalysis st).2.2).2
    (State.chain_ne_nil_enterScope _)
  obtain ⟨st4, hl, _⟩ := State.Extends.of_body (State.SameTables.same_refl _) he
  obtain ⟨r2, b2, st6, hb2, he2⟩ := StmtNode.stmtList_extends myBodyFalse r
    (SymbolTable.enterScope st4).2 (State.chain_ne_nil_enterScope _)
  obtain ⟨st7, hl7, _⟩ := State.Extends.of_body (State.SameTables.same_refl st4) he2
  exact ⟨r, b', st3, st4, r2, b2, st6, st7, hb, he, hl, hb2, he2, hl7,
    by simp only [StmtNode.nameAnalysis, hb, hl, hb2, hl7]⟩

/-! ## Branches of an `if`/`else` -/

/-- C9 as stated fails: in `if (true) { v : int; } else { v : int; v++; }`,
with `v` bound in no enclosing scope, the true branch declares `v` and the
false branch refers to `v`, yet the reference resolves (to the false branch's
own `v`), no `UndeclaredIdentifier` is reported and the statement returns
true. -/
theorem StmtNode.ifElse_isolation_counterexample :
    SymbolTable.find ⟨[[]], [0], 0, []⟩ "v" = none ∧
    "v" ∈ StmtNode.declaredNamesList
      [.decl (.varDecl ⟨⟨2, 0⟩, ⟨⟨2, 1⟩, "v", none⟩, .basic ⟨2, 3⟩ .int, none⟩)] ∧
    StmtNode.refsList "v"
      [.decl (.varDecl ⟨⟨4, 0⟩, ⟨⟨4, 1⟩, "v", none⟩, .basic ⟨4, 3⟩ .int, none⟩),
        .postInc ⟨5, 0⟩ (.id ⟨⟨5, 1⟩, "v", none⟩)] = [⟨⟨5, 1⟩, "v", none⟩] ∧
    (StmtNode.ifElse ⟨1, 0⟩ (.trueNode ⟨1, 1⟩)
        [.decl (.varDecl ⟨⟨2, 0⟩, ⟨⟨2, 1⟩, "v", none⟩, .basic ⟨2, 3⟩ .int, none⟩)]
        [.decl (.varDecl ⟨⟨4, 0⟩, ⟨⟨4, 1⟩, "v", none⟩, .basic ⟨4, 3⟩ .int, none⟩),
          .postInc ⟨5, 0⟩ (.id ⟨⟨5, 1⟩, "v", none⟩)]).nameAnalysis ⟨[[]], [0], 0, []⟩ =
      some (true,
        .ifElse ⟨1, 0⟩ (.trueNode ⟨1, 1⟩)
          [.decl (.varDecl ⟨⟨2, 0⟩, ⟨⟨2, 1⟩, "v", some ⟨0, .var, "v", .primitive .int⟩⟩,
            .basic ⟨2, 3⟩ .int, none⟩)]
          [.decl (.varDecl ⟨⟨4, 0⟩, ⟨⟨4, 1⟩, "v", some ⟨1, .var, "v", .primitive .int⟩⟩,
            .basic ⟨4, 3⟩ .int, none⟩),
            .postInc ⟨5, 0⟩ (.id ⟨⟨5, 1⟩, "v", some ⟨1, .var, "v", .primitive .int⟩⟩)],
        ⟨[[], [⟨0, .var, "v", .primitive .int⟩], [⟨1, .var, "v", .primitive .int⟩]], [0], 2,
          []⟩) := by
  refine ⟨by decide, by decide, by decide, ?_⟩
  rfl

/-- C9, amended. For every `if`/`else` statement resolved in a well-formed
state in which no open scope binds `v`, and whose false branch declares no `v`
of its own: whatever the true branch declares (a variable `v` in particular),
every reference to `v` in the false branch is reported as an undeclared
identifier at its position during this resolution, and when the false branch
has such a reference the statement returns false.  The true branch is resolved
in a scope that is left before the scope of the false branch is entered. -/
theorem StmtNode.ifElse_branch_isolation (pos : Position) (myCond : ExpNode)
    (myBodyTrue myBodyFalse : List StmtNode) (st : State) (v : String)
    (hwf : st.WF)
    (hunbound : SymbolTable.find st v = none)
    (hfalse : v ∉ StmtNode.declaredNamesList myBodyFalse) :
    ∃ (r : Bool) (bodyTrue' bodyFalse' : List StmtNode) (st' : State),
      (StmtNode.ifElse pos myCond myBodyTrue myBodyFalse).nameAnalysis st =
        some (r, .ifElse pos (myCond.nameAnalysis st).2.1 bodyTrue' bodyFalse', st') ∧
      (∀ n ∈ StmtNode.refsList v bodyFalse',
        (⟨.undeclaredIdentifier, n.pos⟩ : Diag) ∈ st.newDiags st') ∧
      (StmtNode.refsList v bodyFalse' ≠ [] → r = false) := by
  obtain ⟨r1, bT', st3, st4, r2, bF', st6, st7, hb, he, hl, hb2, he2, hl7, heq⟩ :=
    StmtNode.ifElse_run pos myCond myBodyTrue myBodyFalse st
  have hc := ExpNode.exp_sameTables myCond st
  have hfind4 : SymbolTable.find st4 v = none := by
    rw [State.find_after_scope (hc.wf hwf) he hl, hc.find, hunbound]
  obtain ⟨_, f, _⟩ := StmtNode.stmtList_refs v myBodyFalse r1 (SymbolTable.enterScope st4).2
    r2 bF' st6 (State.chain_ne_nil_enterScope _) hfalse hb2
  rw [(State.keepsName_refl v _).find_inner rfl, hfind4] at f
  obtain ⟨_, _, _, _, hd4⟩ := SymbolTable.leaveScope_eq hl
  obtain ⟨_, _, _, _, hd7⟩ := SymbolTable.leaveScope_eq hl7
  have hsub : (SymbolTable.enterScope st4).2.newDiags st6 ⊆ st.newDiags st7 := by
    have h1 : st.diags <+: (SymbolTable.enterScope st4).2.diags := by
      show st.diags <+: st4.diags
      rw [hd4]
      exact hc.diags.trans ((State.grows_enterScope _).diags.trans he.grows.diags)
    have h2 : st.newDiags st7 = st.newDiags st6 := by simp [State.newDiags, hd7]
    rw [h2]
    exact State.newDiags_suffix _ h1
  exact ⟨r2, bT', bF', st7, heq, fun n hn => hsub (f.1 n hn), f.2⟩

/-- C9, amended, on a concrete input: `if (true) { v : int; } else { v++; }`. -/
theorem StmtNode.ifElse_branch_isolation_witness :
    ∃ (r : Bool) (bodyTrue' bodyFalse' : List StmtNode) (st' : State),
      (StmtNode.ifElse ⟨1, 0⟩ (.trueNode ⟨1, 1⟩)
        [.decl (.varDecl ⟨⟨2, 0⟩, ⟨⟨2, 1⟩, "v", none⟩, .basic ⟨2, 3⟩ .int, none⟩)]
        [.postInc ⟨5, 0⟩ (.id ⟨⟨5, 1⟩, "v", none⟩)]).nameAnalysis ⟨[[]], [0], 0, []⟩ =
        some (r, .ifElse ⟨1, 0⟩ (ExpNode.nameAnalysis (.trueNode ⟨1, 1⟩) ⟨[[]], [0], 0, []⟩).2.1
          bodyTrue' bodyFalse', st') ∧
      (∀ n ∈ StmtNode.refsList "v" bodyFalse',
        (⟨.undeclaredIdentifier, n.pos⟩ : Diag) ∈ State.newDiags ⟨[[]], [0], 0, []⟩ st') ∧
      (StmtNode.refsList "v" bodyFalse' ≠ [] → r = false) :=
  StmtNode.ifElse_branch_isolation ⟨1, 0⟩ (.trueNode ⟨1, 1⟩)
    [.decl (.varDecl ⟨⟨2, 0⟩, ⟨⟨2, 1⟩, "v", none⟩, .basic ⟨2, 3⟩ .int, none⟩)]
    [.postInc ⟨5, 0⟩ (.id ⟨⟨5, 1⟩, "v", none⟩)] ⟨[[]], [0], 0, []⟩ "v"
    (by intro id hid; simp at hid; subst hid; decide) (by decide) (by decide)

/-! ## Recursive references -/

theorem State.lookup_insertAt_self (st : State) (c : ScopeId) (k : SymbolKind) (name : String)
    (ty : DataType) (hc : c < st.heap.length) (hfree : (st.scope c).lookup name = none) :
    ((st.insertAt c k name ty).2.scope c).lookup name = some ⟨st.nextSym, k, name, ty⟩ := by
  have hcl : (st.scope c).clash name = false := by simp [ScopeTable.clash, hfree]
  rw [State.scope_insertAt]
  simp [hc, ScopeTable.insert, hcl, ScopeTable.lookup]

theorem ScopeTable.clash_eq_false {t : ScopeTable} {name : String} :
    t.clash name = false ↔ t.lookup name = none := by
  simp [ScopeTable.clash]

theorem IDNode.nameAnalysis_of_find {n : IDNode} {st : State} {s : SemSymbol}
    (h : SymbolTable.find st n.name = some s) :
    n.nameAnalysis st = (true, { n with mySymbol := some s }, st) := by
  simp [IDNode.nameAnalysis, h, IDNode.attachSymbol]

/-- C6. A function declaration whose name does not clash in its declaring
scope `c`, and none of whose formals and locals has the name of the function:
the function symbol is attached to the identifier of the declaration and is
bound in `c` in the very state in which the body is resolved, so that a
reference to the name resolves there, successfully and without a diagnostic,
to that symbol; and every reference to the name in the resolved body carries
that symbol. -/
theorem DeclNode.fnDecl_recursive_reference (pos : Position) (myID : IDNode)
    (myRetType : TypeNode) (myFormals : List VarDeclNode) (myBody : List StmtNode) (st : State)
    (c : ScopeId) (rest : List ScopeId)
    (hc : st.chain = c :: rest) (hwf : st.WF)
    (hfree : (st.scope c).clash myID.name = false)
    (hformals : myID.name ∉ myFormals.map (fun f => f.myID.name))
    (hlocals : myID.name ∉ StmtNode.declaredNamesList myBody) :
    ∃ (r validBody : Bool) (id' : IDNode) (ret' : TypeNode) (formals' : List VarDeclNode)
      (body' : List StmtNode) (st5 st6 st' : State) (fnSym : SemSymbol),
      (DeclNode.fnDecl pos myID myRetType myFormals myBody).nameAnalysis st =
        some (r, .fnDecl pos id' ret' formals' body', st') ∧
      id'.mySymbol = some fnSym ∧ fnSym.kind = .fn ∧ fnSym.name = myID.name ∧
      StmtNode.nameAnalysisList myBody true st5 = some (validBody, body', st6) ∧
      SymbolTable.leaveScope st6 = some st' ∧
      (st5.scope c).lookup myID.name = some fnSym ∧
      SymbolTable.find st5 myID.name = some fnSym ∧
      (∀ n : IDNode, n.name = myID.name →
        n.nameAnalysis st5 = (true, { n with mySymbol := some fnSym }, st5)) ∧
      (∀ n ∈ StmtNode.refsList myID.name body', n.mySymbol = some fnSym) ∧
      (st'.scope c).lookup myID.name = some fnSym := by
  obtain ⟨vf, formals', st4, fts, rty, vb, body', st6, st7, hF, _, _, hB, hL, heq, hc3, e4, e6,
    _, _⟩ := DeclNode.fnDecl_run pos myID myRetType myFormals myBody st hc
  have hr := TypeNode.type_sameTables myRetType st
  have h3 := FnDeclNode.formalsState_sameTables myID myRetType st c
  have hne3 : (FnDeclNode.formalsState myID myRetType st c).chain ≠ [] := by rw [hc3]; simp
  -- the formals leave the bindings of the function name alone
  obtain ⟨k4, _, _⟩ := VarDeclNode.formals_refs myID.name myFormals true _ vf formals' st4
    hne3 hformals hF
  have k04 : st.KeepsName myID.name st4 :=
    (hr.keepsName _).keeps_trans ((State.keepsName_enterScope _ _).keeps_trans
      ((h3.keepsName _).keeps_trans k4))
  have hclt : c < st4.heap.length := by
    have h1 : c < st.heap.length := hwf c (by rw [hc]; simp)
    have h2 : st.heap.length ≤ st4.heap.length := by
      have := e4.grows.heapLen
      rw [h3.heap, State.heap_length_enterScope, hr.heap] at this
      omega
    exact lt_of_lt_of_le h1 h2
  have hfree4 : (st4.scope c).lookup myID.name = none := by
    rw [k04 c]; exact ScopeTable.clash_eq_false.mp hfree
  rw [hfree] at hB heq e6
  simp only [FnDeclNode.bodyState, FnDeclNode.resolvedID, Bool.false_eq_true, if_false,
    ScopeTable.addFn] at hB heq e6
  have hsym := State.lookup_insertAt_self st4 c .fn myID.name (FnType.produce fts rty) hclt hfree4
  have hc5 : (st4.insertAt c .fn myID.name (FnType.produce fts rty)).2.chain =
      st.heap.length :: c :: rest := by
    rw [State.chain_insertAt, e4.chain, hc3]
  have hinner : ((st4.insertAt c .fn myID.name (FnType.produce fts rty)).2.scope
      st.heap.length).lookup myID.name = none := by
    have hne : c ≠ st.heap.length := Nat.ne_of_lt (hwf c (by rw [hc]; simp))
    rw [State.scope_insertAt]
    simp only [hne, false_and, if_false]
    rw [k04, State.lookup_new_scope]
  have hfind : SymbolTable.find (st4.insertAt c .fn myID.name (FnType.produce fts rty)).2
      myID.name = some ⟨st4.nextSym, .fn, myID.name, FnType.produce fts rty⟩ := by
    simp [SymbolTable.find, hc5, State.findIn, hinner, hsym]
  obtain ⟨k6, f6, _⟩ := StmtNode.stmtList_refs myID.name myBody true _ vb body' st6
    (by rw [hc5]; simp) hlocals hB
  rw [hfind] at f6
  refine ⟨_, vb, _, _, formals', body', _, st6, st7, _, heq, ?_, rfl, rfl, hB, hL, hsym, hfind,
    fun n hn => IDNode.nameAnalysis_of_find (by rw [hn]; exact hfind), f6, ?_⟩
  · simp [IDNode.attachSymbol, hsym]
  · rw [State.keepsName_leaveScope _ hL, k6]
    exact hsym

/-- C6 on a concrete input: `f : () void { f(); }` declared in an empty global
scope. -/
theorem DeclNode.fnDecl_recursive_reference_witness :
    ∃ (r validBody : Bool) (id' : IDNode) (ret' : TypeNode) (formals' : List VarDeclNode)
      (body' : List StmtNode) (st5 st6 st' : State) (fnSym : SemSymbol),
      (DeclNode.fnDecl ⟨1, 0⟩ ⟨⟨1, 1⟩, "f", none⟩ (.basic ⟨1, 2⟩ .void) []
          [.callStmt ⟨2, 0⟩ (.call ⟨2, 0⟩ (.id ⟨⟨2, 1⟩, "f", none⟩) [])]).nameAnalysis
          ⟨[[]], [0], 0, []⟩ =
        some (r, .fnDecl ⟨1, 0⟩ id' ret' formals' body', st') ∧
      id'.mySymbol = some fnSym ∧ fnSym.kind = .fn ∧ fnSym.name = "f" ∧
      StmtNode.nameAnalysisList
          [.callStmt ⟨2, 0⟩ (.call ⟨2, 0⟩ (.id ⟨⟨2, 1⟩, "f", none⟩) [])] true st5 =
        some (validBody, body', st6) ∧
      SymbolTable.leaveScope st6 = some st' ∧
      (st5.scope 0).lookup "f" = some fnSym ∧
      SymbolTable.find st5 "f" = some fnSym ∧
      (∀ n : IDNode, n.name = "f" →
        n.nameAnalysis st5 = (true, { n with mySymbol := some fnSym }, st5)) ∧
      (∀ n ∈ StmtNode.refsList "f" body', n.mySymbol = some fnSym) ∧
      (st'.scope 0).lookup "f" = some fnSym :=
  DeclNode.fnDecl_recursive_reference ⟨1, 0⟩ ⟨⟨1, 1⟩, "f", none⟩ (.basic ⟨1, 2⟩ .void) []
    [.callStmt ⟨2, 0⟩ (.call ⟨2, 0⟩ (.id ⟨⟨2, 1⟩, "f", none⟩) [])] ⟨[[]], [0], 0, []⟩ 0 [] rfl
    (by intro id hid; simp at hid; subst hid; decide) (by decide) (by decide) (by decide)

/-! ## Registration of a class -/

theorem IDNode.nameAnalysis_unbound {st : State} {n : IDNode}
    (h : SymbolTable.find st n.name = none) :
    n.nameAnalysis st = (false, n, st.withDiag .undeclaredIdentifier n.pos) := by
  simp [IDNode.nameAnalysis, h, NameErr.undeclID, State.report, State.withDiag]

theorem StmtNode.nameAnalysisList_append : ∀ (l1 l2 : List StmtNode) (acc : Bool) (st : State),
    StmtNode.nameAnalysisList (l1 ++ l2) acc st =
      match StmtNode.nameAnalysisList l1 acc st with
      | none => none
      | some (r1, l1', st1) =>
        match StmtNode.nameAnalysisList l2 r1 st1 with
        | none => none
        | some (r2, l2', st2) => some (r2, l1' ++ l2', st2)
  | [], l2, acc, st => by
    simp only [List.nil_append, StmtNode.nameAnalysisList]
    cases StmtNode.nameAnalysisList l2 acc st with
    | none => rfl
    | some x => rfl
  | s :: rest, l2, acc, st => by
    simp only [List.cons_append, StmtNode.nameAnalysisList]
    cases hs : StmtNode.nameAnalysis s st with
    | none => rfl
    | some x =>
      obtain ⟨r, s', st1⟩ := x
      simp only
      have ih := StmtNode.nameAnalysisList_append rest l2 (r && acc) st1
      simp only [List.append_eq] at ih ⊢
      rw [ih]
      cases StmtNode.nameAnalysisList rest (r && acc) st1 with
      | none => rfl
      | some y =>
        obtain ⟨r1, l1', st2⟩ := y
        simp only
        cases StmtNode.nameAnalysisList l2 r1 st2 with
        | none => rfl
        | some z => rfl

/-- A variable declaration that is valid in every respect, resolved in a
current scope `c` that does not bind its name. -/
theorem VarDeclNode.nameAnalysis_fresh (d : VarDeclNode) (sd : State) (c : ScopeId)
    (rest : List ScopeId) (hc : sd.chain = c :: rest) (hclt : c < sd.heap.length)
    (hfree : (sd.scope c).lookup d.myID.name = none)
    (htype : d.validType sd = true)
    (hinit : (d.initAnalysis (d.myType.nameAnalysis sd).2.2).1 = true) :
    ∃ (d' : VarDeclNode) (sd' : State) (ty : DataType),
      d.nameAnalysis sd = some (true, d', sd') ∧
      sd.Extends sd' ∧
      sd'.diagsOf .multipleDeclaration = sd.diagsOf .multipleDeclaration ∧
      d'.myID.mySymbol = some ⟨sd.nextSym, .var, d.myID.name, ty⟩ ∧
      (sd'.scope c).lookup d.myID.name = some ⟨sd.nextSym, .var, d.myID.name, ty⟩ ∧
      SymbolTable.find sd' d.myID.name = some ⟨sd.nextSym, .var, d.myID.name, ty⟩ := by
  obtain ⟨ty, _, heq⟩ := d.nameAnalysis_eq sd hc
  have hcl : (sd.scope c).clash d.myID.name = false := ScopeTable.clash_eq_false.mpr hfree
  have hs := d.decisionState_sameTables sd false
  have hlook := State.lookup_insertAt_self (d.decisionState sd false) c .var d.myID.name ty
    (by rw [hs.heap]; exact hclt) (by rw [hs.scope]; exact hfree)
  rw [hs.nextSym] at hlook
  have hfind : SymbolTable.find ((d.decisionState sd false).insertAt c .var d.myID.name ty).2
      d.myID.name = some ⟨sd.nextSym, .var, d.myID.name, ty⟩ := by
    simp [SymbolTable.find, State.chain_insertAt, hs.chain, hc, State.findIn, hlook]
  refine ⟨{ d with
      myID := d.myID.attachSymbol (SymbolTable.find
        ((d.decisionState sd false).insertAt c .var d.myID.name ty).2 d.myID.name)
      myType := (d.myType.nameAnalysis sd).2.1
      myInit := (d.initAnalysis (d.myType.nameAnalysis sd).2.2).2.1 },
    ((d.decisionState sd false).insertAt c .var d.myID.name ty).2, ty, ?_, ?_, ?_, ?_, hlook, hfind⟩
  · rw [heq]; simp only [htype, hcl, hinit, Bool.not_false, Bool.and_self, if_true]
  · exact hs.extends.ext_trans (State.extends_insertAt (hs.chain.trans hc) _ _ _)
  · have h1 : sd.SameRedecls (d.initAnalysis (d.myType.nameAnalysis sd).2.2).2.2 :=
      (TypeNode.type_sameRedecls d.myType sd).redecl_trans (d.initAnalysis_sameRedecls _)
    have h2 : (((d.decisionState sd false).insertAt c .var d.myID.name ty).2).diagsOf
        .multipleDeclaration =
        (d.initAnalysis (d.myType.nameAnalysis sd).2.2).2.2.diagsOf .multipleDeclaration := by
      simp [State.insertAt, State.setScope, State.diagsOf, VarDeclNode.decisionState,
        VarDeclNode.ownDiags, htype]
    rw [h2, h1]
  · simp [IDNode.attachSymbol, hfind]

theorem StmtNode.resolveBody_run (body : List StmtNode) (result : Bool) (st1 : State) :
    ∃ (r : Bool) (body' : List StmtNode) (st3 st4 : State),
      StmtNode.nameAnalysisList body result (SymbolTable.enterScope st1).2 = some (r, body', st3) ∧
      (SymbolTable.enterScope st1).2.Extends st3 ∧
      SymbolTable.leaveScope st3 = some st4 ∧
      StmtNode.resolveBody body result st1 = some (r, body', st4) := by
  obtain ⟨r, b', st3, hb, he⟩ := StmtNode.stmtList_extends body result
    (SymbolTable.enterScope st1).2 (State.chain_ne_nil_enterScope _)
  obtain ⟨st4, hl, _⟩ := he.leave_inner
  exact ⟨r, b', st3, st4, hb, he, hl, by simp only [StmtNode.resolveBody, hb, hl]⟩

/-- What a body keeps of the state around it. -/
theorem StmtNode.resolveBody_preserves (body : List StmtNode) (result : Bool) (st1 : State)
    (hwf : st1.WF) :
    ∃ (r : Bool) (body' : List StmtNode) (st4 : State),
      StmtNode.resolveBody body result st1 = some (r, body', st4) ∧
      st4.WF ∧ st4.chain = st1.chain ∧ st1.nextSym ≤ st4.nextSym ∧
      (∀ id, id < st1.heap.length → st4.scope id = st1.scope id) ∧
      ∀ y, SymbolTable.find st4 y = SymbolTable.find st1 y := by
  obtain ⟨r, b', st3, st4, _, he, hl, heq⟩ := StmtNode.resolveBody_run body result st1
  obtain ⟨st4', hl', he4, _, _, _, hf⟩ := State.Extends.enter_leave he
  rw [hl] at hl'
  cases hl'
  exact ⟨r, b', st4, heq, he4.ext_wf hwf, he4.chain, he4.grows.nextSym,
    fun id hid => hf id hid (by simp), fun y => State.find_after_scope hwf he hl y⟩

/-- Shadowing inside one body that is resolved in its own scope. -/
theorem StmtNode.resolveBody_shadowing (x : String) (o : SemSymbol) (st1 : State)
    (result : Bool) (pre : List StmtNode) (d : VarDeclNode) (post : List StmtNode)
    (hwf : st1.WF) (hfind : SymbolTable.find st1 x = some o) (ho : o.addr < st1.nextSym)
    (hname : d.myID.name = x)
    (hpre : x ∉ StmtNode.declaredNamesList pre) (hpost : x ∉ StmtNode.declaredNamesList post) :
    ∃ (rp : Bool) (pre' : List StmtNode) (sd : State),
      StmtNode.nameAnalysisList pre result (SymbolTable.enterScope st1).2 = some (rp, pre', sd) ∧
      (∀ n ∈ StmtNode.refsList x pre', n.mySymbol = some o) ∧
      (d.validType sd = true → (d.initAnalysis (d.myType.nameAnalysis sd).2.2).1 = true →
        ∃ (d' : VarDeclNode) (sd' : State) (inner : SemSymbol) (r : Bool)
          (post' : List StmtNode) (st4 : State),
          d.nameAnalysis sd = some (true, d', sd') ∧
          sd'.diagsOf .multipleDeclaration = sd.diagsOf .multipleDeclaration ∧
          d'.myID.mySymbol = some inner ∧ inner.kind = .var ∧ inner.name = x ∧
          inner.addr ≠ o.addr ∧
          StmtNode.resolveBody (pre ++ .decl (.varDecl d) :: post) result st1 =
            some (r, pre' ++ .decl (.varDecl d') :: post', st4) ∧
          (∀ n ∈ StmtNode.refsList x post', n.mySymbol = some inner) ∧
          SymbolTable.find st4 x = some o ∧
          ∀ n : IDNode, n.name = x →
            n.nameAnalysis st4 = (true, { n with mySymbol := some o }, st4)) := by
  subst hname
  have hne2 := State.chain_ne_nil_enterScope st1
  obtain ⟨rp, pre', sd, hP, eP⟩ := StmtNode.stmtList_extends pre result
    (SymbolTable.enterScope st1).2 hne2
  obtain ⟨kP, fP, _⟩ := StmtNode.stmtList_refs d.myID.name pre result _ rp pre' sd hne2 hpre hP
  rw [(State.keepsName_refl _ _).find_inner rfl, hfind] at fP
  refine ⟨rp, pre', sd, hP, fP, fun htype hinit => ?_⟩
  have hcd : sd.chain = st1.heap.length :: st1.chain := eP.chain
  have hlen : st1.heap.length < sd.heap.length :=
    lt_of_lt_of_le (by rw [State.heap_length_enterScope]; exact Nat.lt_succ_self _)
      eP.grows.heapLen
  have hfree : (sd.scope st1.heap.length).lookup d.myID.name = none := by
    rw [kP, State.scope_enterScope, State.lookup_new_scope]
  obtain ⟨d', sd', ty, hD, eD, hmulti, hsym, _, hfindD⟩ :=
    d.nameAnalysis_fresh sd st1.heap.length st1.chain hcd hlen hfree htype hinit
  have hned : sd'.chain ≠ [] := by rw [eD.chain, hcd]; simp
  obtain ⟨r, post', st3, hQ, eQ⟩ := StmtNode.stmtList_extends post (true && rp) sd' hned
  obtain ⟨_, fQ, _⟩ := StmtNode.stmtList_refs d.myID.name post (true && rp) sd' r post' st3
    hned hpost hQ
  rw [hfindD] at fQ
  have e3 : (SymbolTable.enterScope st1).2.Extends st3 := eP.ext_trans (eD.ext_trans eQ)
  obtain ⟨st4, hL, _⟩ := e3.leave_inner
  have hfind4 : SymbolTable.find st4 d.myID.name = some o := by
    rw [State.find_after_scope hwf e3 hL, hfind]
  have hrun : StmtNode.nameAnalysisList (pre ++ .decl (.varDecl d) :: post) result
      (SymbolTable.enterScope st1).2 = some (r, pre' ++ .decl (.varDecl d') :: post', st3) := by
    rw [StmtNode.nameAnalysisList_append, hP]
    simp only [StmtNode.nameAnalysisList, StmtNode.nameAnalysis, DeclNode.nameAnalysis, hD, hQ]
  refine ⟨d', sd', _, r, post', st4, hD, hmulti, hsym, rfl, rfl, ?_, ?_, fQ, hfind4,
    fun n hn => IDNode.nameAnalysis_of_find (by rw [hn]; exact hfind4)⟩
  · have h1 : st1.nextSym ≤ sd.nextSym := eP.grows.nextSym
    show sd.nextSym ≠ o.addr
    omega
  · simp only [StmtNode.resolveBody, hrun, hL]

/-- C5 as stated fails: with `x` bound in the enclosing scope, the body of
`if (true) { x : int = y; x++; }` declares a variable `x` of a usable type, but
its initializer `y` is undeclared: the inner declaration fails, its identifier
gets no symbol, nothing is inserted, and the reference `x++` after it is
attached to the outer symbol. -/
theorem StmtNode.shadowing_counterexample :
    SymbolTable.find ⟨[[⟨0, .var, "x", .primitive .bool⟩]], [0], 1, []⟩ "x" =
      some ⟨0, .var, "x", .primitive .bool⟩ ∧
    (StmtNode.ifStmt ⟨1, 0⟩ (.trueNode ⟨1, 1⟩)
        [.decl (.varDecl ⟨⟨2, 0⟩, ⟨⟨2, 1⟩, "x", none⟩, .basic ⟨2, 3⟩ .int,
          some (.loc (.id ⟨⟨2, 5⟩, "y", none⟩))⟩),
          .postInc ⟨3, 0⟩ (.id ⟨⟨3, 1⟩, "x", none⟩)]).nameAnalysis
        ⟨[[⟨0, .var, "x", .primitive .bool⟩]], [0], 1, []⟩ =
      some (false,
        .ifStmt ⟨1, 0⟩ (.trueNode ⟨1, 1⟩)
          [.decl (.varDecl ⟨⟨2, 0⟩, ⟨⟨2, 1⟩, "x", none⟩, .basic ⟨2, 3⟩ .int,
            some (.loc (.id ⟨⟨2, 5⟩, "y", none⟩))⟩),
            .postInc ⟨3, 0⟩ (.id ⟨⟨3, 1⟩, "x", some ⟨0, .var, "x", .primitive .bool⟩⟩)],
        ⟨[[⟨0, .var, "x", .primitive .bool⟩], []], [0], 1,
          [⟨.undeclaredIdentifier, ⟨2, 5⟩⟩]⟩) := by
  refine ⟨by decide, ?_⟩
  rfl

/-- C5, amended. A body `pre ++ [x : T ...] ++ post` that an `if`, `while` or
`if`/`else` resolves in its own scope, entered from a well-formed state `st1`
in which `x` is found bound to `o`, where neither `pre` nor `post` declares a
further `x`.  The statements before the declaration are resolved and their
references to `x` carry `o`.  If, in the state then reached, the declared type
is usable and the initializer (if any) resolves, the declaration succeeds and
reports no `MultipleDeclaration`, its identifier carries a new variable symbol
`inner` different from `o`, every reference to `x` in `post` carries `inner`,
and once the scope is left `x` is found bound to `o` again, so every reference
to `x` resolved then carries `o`.  The last five parts say that the three
statement kinds resolve their bodies in just this way, in a state where names
are found as before the statement. -/
theorem StmtNode.shadowing_in_body (x : String) (o : SemSymbol) (st1 : State)
    (result : Bool) (pre : List StmtNode) (d : VarDeclNode) (post : List StmtNode)
    (hwf : st1.WF) (hfind : SymbolTable.find st1 x = some o) (ho : o.addr < st1.nextSym)
    (hname : d.myID.name = x)
    (hpre : x ∉ StmtNode.declaredNamesList pre) (hpost : x ∉ StmtNode.declaredNamesList post) :
    (∃ (rp : Bool) (pre' : List StmtNode) (sd : State),
      StmtNode.nameAnalysisList pre result (SymbolTable.enterScope st1).2 = some (rp, pre', sd) ∧
      (∀ n ∈ StmtNode.refsList x pre', n.mySymbol = some o) ∧
      (d.validType sd = true → (d.initAnalysis (d.myType.nameAnalysis sd).2.2).1 = true →
        ∃ (d' : VarDeclNode) (sd' : State) (inner : SemSymbol) (r : Bool)
          (post' : List StmtNode) (st4 : State),
          d.nameAnalysis sd = some (true, d', sd') ∧
          sd'.diagsOf .multipleDeclaration = sd.diagsOf .multipleDeclaration ∧
          d'.myID.mySymbol = some inner ∧ inner.kind = .var ∧ inner.name = x ∧
          inner.addr ≠ o.addr ∧
          StmtNode.resolveBody (pre ++ .decl (.varDecl d) :: post) result st1 =
            some (r, pre' ++ .decl (.varDecl d') :: post', st4) ∧
          (∀ n ∈ StmtNode.refsList x post', n.mySymbol = some inner) ∧
          SymbolTable.find st4 x = some o ∧
          ∀ n : IDNode, n.name = x →
            n.nameAnalysis st4 = (true, { n with mySymbol := some o }, st4))) ∧
    (∀ (pos : Position) (myCond : ExpNode) (myBody : List StmtNode) (st : State),
      (StmtNode.ifStmt pos myCond myBody).nameAnalysis st =
        (StmtNode.resolveBody myBody ((myCond.nameAnalysis st).1 && true)
          (myCond.nameAnalysis st).2.2).map
          (fun b => (b.1, .ifStmt pos (myCond.nameAnalysis st).2.1 b.2.1, b.2.2))) ∧
    (∀ (pos : Position) (myCond : ExpNode) (myBody : List StmtNode) (st : State),
      (StmtNode.while pos myCond myBody).nameAnalysis st =
        (StmtNode.resolveBody myBody ((myCond.nameAnalysis st).1 && true)
          (myCond.nameAnalysis st).2.2).map
          (fun b => (b.1, .while pos (myCond.nameAnalysis st).2.1 b.2.1, b.2.2))) ∧
    (∀ (pos : Position) (myCond : ExpNode) (myBodyTrue myBodyFalse : List StmtNode) (st : State),
      (StmtNode.ifElse pos myCond myBodyTrue myBodyFalse).nameAnalysis st =
        (StmtNode.resolveBody myBodyTrue ((myCond.nameAnalysis st).1 && true)
          (myCond.nameAnalysis st).2.2).bind
          (fun t => (StmtNode.resolveBody myBodyFalse t.1 t.2.2).map
            (fun f => (f.1, .ifElse pos (myCond.nameAnalysis st).2.1 t.2.1 f.2.1, f.2.2)))) ∧
    (∀ (myCond : ExpNode) (st : State) (y : String),
      SymbolTable.find (myCond.nameAnalysis st).2.2 y = SymbolTable.find st y ∧
      (myCond.nameAnalysis st).2.2.nextSym = st.nextSym ∧
      (st.WF → (myCond.nameAnalysis st).2.2.WF)) ∧
    (∀ (body : List StmtNode) (acc : Bool) (st : State), st.WF →
      ∃ (r : Bool) (body' : List StmtNode) (st4 : State),
        StmtNode.resolveBody body acc st = some (r, body', st4) ∧
        st4.WF ∧ st4.chain = st.chain ∧ st.nextSym ≤ st4.nextSym ∧
        ∀ y, SymbolTable.find st4 y = SymbolTable.find st y) := by
  refine ⟨StmtNode.resolveBody_shadowing x o st1 result pre d post hwf hfind ho hname hpre hpost,
    ?_, ?_, ?_, ?_, ?_⟩
  · intro pos myCond myBody st
    obtain ⟨r, b', st3, st4, hb, _, hl, heq⟩ := StmtNode.resolveBody_run myBody
      ((myCond.nameAnalysis st).1 && true) (myCond.nameAnalysis st).2.2
    rw [heq]
    simp only [StmtNode.nameAnalysis, hb, hl, Option.map]
  · intro pos myCond myBody st
    obtain ⟨r, b', st3, st4, hb, _, hl, heq⟩ := StmtNode.resolveBody_run myBody
      ((myCond.nameAnalysis st).1 && true) (myCond.nameAnalysis st).2.2
    rw [heq]
    simp only [StmtNode.nameAnalysis, hb, hl, Option.map]
  · intro pos myCond myBodyTrue myBodyFalse st
    obtain ⟨r, b', st3, st4, hb, _, hl, heq⟩ := StmtNode.resolveBody_run myBodyTrue
      ((myCond.nameAnalysis st).1 && true) (myCond.nameAnalysis st).2.2
    obtain ⟨r2, b2, st6, st7, hb2, _, hl2, heq2⟩ := StmtNode.resolveBody_run myBodyFalse r st4
    rw [heq]
    simp only [StmtNode.nameAnalysis, hb, hl, hb2, hl2, Option.map, Option.bind, heq2]
  · intro myCond st y
    have h := ExpNode.exp_sameTables myCond st
    exact ⟨h.find y, h.nextSym, h.wf⟩
  · intro body acc st hw
    obtain ⟨r, b', st4, h1, h2, h3, h4, _, h6⟩ := StmtNode.resolveBody_preserves body acc st hw
    exact ⟨r, b', st4, h1, h2, h3, h4, h6⟩

/-- C5, amended, on a concrete input: the body `{ x : int; x++; }` entered from
a scope that binds `x` to a bool variable. -/
theorem StmtNode.shadowing_in_body_witness :
    ∃ (rp : Bool) (pre' : List StmtNode) (sd : State),
      StmtNode.nameAnalysisList [] true
          (SymbolTable.enterScope ⟨[[⟨0, .var, "x", .primitive .bool⟩]], [0], 1, []⟩).2 = some (rp, pre', sd) ∧
      (∀ n ∈ StmtNode.refsList "x" pre', n.mySymbol = some ⟨0, .var, "x", .primitive .bool⟩) ∧
      (VarDeclNode.validType ⟨⟨2, 0⟩, ⟨⟨2, 1⟩, "x", none⟩, .basic ⟨2, 3⟩ .int, none⟩ sd = true →
        (VarDeclNode.initAnalysis ⟨⟨2, 0⟩, ⟨⟨2, 1⟩, "x", none⟩, .basic ⟨2, 3⟩ .int, none⟩
          (TypeNode.nameAnalysis (.basic ⟨2, 3⟩ .int) sd).2.2).1 = true →
        ∃ (d' : VarDeclNode) (sd' : State) (inner : SemSymbol) (r : Bool)
          (post' : List StmtNode) (st4 : State),
          VarDeclNode.nameAnalysis ⟨⟨2, 0⟩, ⟨⟨2, 1⟩, "x", none⟩, .basic ⟨2, 3⟩ .int, none⟩ sd =
            some (true, d', sd') ∧
          sd'.diagsOf .multipleDeclaration = sd.diagsOf .multipleDeclaration ∧
          d'.myID.mySymbol = some inner ∧ inner.kind = .var ∧ inner.name = "x" ∧
          inner.addr ≠ 0 ∧
          StmtNode.resolveBody
              ([] ++ .decl (.varDecl ⟨⟨2, 0⟩, ⟨⟨2, 1⟩, "x", none⟩, .basic ⟨2, 3⟩ .int, none⟩) ::
                [.postInc ⟨3, 0⟩ (.id ⟨⟨3, 1⟩, "x", none⟩)]) true
              ⟨[[⟨0, .var, "x", .primitive .bool⟩]], [0], 1, []⟩ =
            some (r, pre' ++ .decl (.varDecl d') :: post', st4) ∧
          (∀ n ∈ StmtNode.refsList "x" post', n.mySymbol = some inner) ∧
          SymbolTable.find st4 "x" = some ⟨0, .var, "x", .primitive .bool⟩ ∧
          ∀ n : IDNode, n.name = "x" →
            n.nameAnalysis st4 = (true, { n with mySymbol := some ⟨0, .var, "x", .primitive .bool⟩ }, st4)) :=
  (StmtNode.shadowing_in_body "x" ⟨0, .var, "x", .primitive .bool⟩
    ⟨[[⟨0, .var, "x", .primitive .bool⟩]], [0], 1, []⟩ true []
    ⟨⟨2, 0⟩, ⟨⟨2, 1⟩, "x", none⟩, .basic ⟨2, 3⟩ .int, none⟩
    [.postInc ⟨3, 0⟩ (.id ⟨⟨3, 1⟩, "x", none⟩)]
    (by intro id hid; simp at hid; subst hid; decide) (by decide) (by decide) rfl (by decide)
    (by decide)).1

/-! ## A resolution that succeeds attaches a symbol to every identifier -/

theorem LocNode.loc_attached (l : LocNode) (st : State) (h : (l.nameAnalysis st).1 = true) :
    (l.nameAnalysis st).2.1.allAttached = true := by
  induction l generalizing st with
  | id n =>
    simp only [LocNode.nameAnalysis, IDNode.nameAnalysis] at h ⊢
    split at h
    · simp [NameErr.undeclID, State.report] at h
    · rename_i s hs
      simp [hs, LocNode.allAttached, IDNode.attached, IDNode.attachSymbol]
  | member pos base field sym ih =>
    simp only [LocNode.nameAnalysis] at h ⊢
    split at h
    · simp at h
    · split at h
      · simp at h
      · split at h
        · simp at h
        · simp only [*]
          simp only at h
          simp [LocNode.allAttached, IDNode.attached, IDNode.attachSymbol, ih st h]

theorem TypeNode.type_attached (t : TypeNode) (st : State) (h : (t.nameAnalysis st).1 = true) :
    (t.nameAnalysis st).2.1.allAttached = true := by
  induction t generalizing st with
  | basic pos b => rfl
  | perfect pos sub ih =>
    simp only [TypeNode.nameAnalysis] at h ⊢
    simpa [TypeNode.allAttached] using ih st h
  | cls pos id ty =>
    simp only [TypeNode.nameAnalysis] at h ⊢
    split at h
    · simp at h
    · split at h
      · simp at h
      · simp only [*]
        simp [TypeNode.allAttached, IDNode.attached, IDNode.attachSymbol]

mutual
theorem ExpNode.exp_attached : ∀ (e : ExpNode) (st : State), (e.nameAnalysis st).1 = true →
    (e.nameAnalysis st).2.1.allAttached = true
  | .intLit _ _, _, _ => rfl
  | .strLit _ _, _, _ => rfl
  | .trueNode _, _, _ => rfl
  | .falseNode _, _, _ => rfl
  | .loc l, st, h => by
    simp only [ExpNode.nameAnalysis] at h ⊢
    simpa [ExpNode.allAttached] using LocNode.loc_attached l st h
  | .binary _ _ e1 e2, st, h => by
    simp only [ExpNode.nameAnalysis, Bool.and_eq_true] at h ⊢
    simp [ExpNode.allAttached, ExpNode.exp_attached e1 st h.1,
      ExpNode.exp_attached e2 _ h.2]
  | .neg _ e, st, h => by
    simp only [ExpNode.nameAnalysis] at h ⊢
    simpa [ExpNode.allAttached] using ExpNode.exp_attached e st h
  | .not _ e, st, h => by
    simp only [ExpNode.nameAnalysis] at h ⊢
    simpa [ExpNode.allAttached] using ExpNode.exp_attached e st h
  | .call _ callee args, st, h => by
    simp only [ExpNode.nameAnalysis] at h ⊢
    obtain ⟨h1, h2⟩ := ExpNode.expList_attached args _ _ h
    simp only [Bool.and_true] at h2
    simp only [Bool.and_true] at h1
    simp [ExpNode.allAttached, h1, LocNode.loc_attached callee st h2]
theorem ExpNode.expList_attached : ∀ (l : List ExpNode) (acc : Bool) (st : State),
    (ExpNode.nameAnalysisList l acc st).1 = true →
    ExpNode.allAttachedList (ExpNode.nameAnalysisList l acc st).2.1 = true ∧ acc = true
  | [], acc, st, h => ⟨rfl, h⟩
  | e :: rest, acc, st, h => by
    simp only [ExpNode.nameAnalysisList] at h ⊢
    obtain ⟨h1, h2⟩ := ExpNode.expList_attached rest _ _ h
    simp only [Bool.and_eq_true] at h2
    exact ⟨by simp [ExpNode.allAttachedList, h1, ExpNode.exp_attached e st h2.1], h2.2⟩
end

/-- A scope table other than the current one is not changed by a step. -/
theorem State.Extends.scope_other {s s' : State} (h : s.Extends s') {k id : ScopeId}
    {rest : List ScopeId} (hk : s.chain = k :: rest) (hid : id < s.heap.length) (hne : id ≠ k) :
    s'.scope id = s.scope id :=
  h.frame id hid (by rw [hk]; simp; exact fun h => hne h.symm)

theorem State.ne_nil_of_chain {st : State} {c : ScopeId} {rest : List ScopeId}
    (hc : st.chain = c :: rest) : st.chain ≠ [] := by
  rw [hc]; simp

theorem State.cur_lt_enterScope (st : State) :
    st.heap.length < (SymbolTable.enterScope st).2.heap.length := by
  rw [State.heap_length_enterScope]; exact Nat.lt_succ_self _

theorem State.wf_of_chain_scope {st : State} (hwf : st.WF) {c : ScopeId} {rest : List ScopeId}
    (hc : st.chain = c :: rest) : c < st.heap.length :=
  hwf c (by rw [hc]; simp)

/-- The class symbol is found under the class name once it is registered. -/
theorem DeclNode.classDefn_find_registered (myID : IDNode) (st3 : State) (c : ScopeId)
    (rest : List ScopeId) (fields : ScopeId) (hclt : c < st3.heap.length)
    (hc3 : st3.chain = c :: rest) (hfree : (st3.scope c).lookup myID.name = none) :
    SymbolTable.find (ClassDefnNode.registeredState myID c fields st3) myID.name =
      some ⟨st3.nextSym, .agg, myID.name, .cls fields⟩ := by
  have hsym := State.lookup_insertAt_self st3 c .agg myID.name (.cls fields) hclt hfree
  simp [SymbolTable.find, ClassDefnNode.registeredState, State.chain_insertAt, hc3,
    State.findIn, hsym]

theorem VarDeclNode.varDecl_attached (d : VarDeclNode) (st : State) (d' : VarDeclNode)
    (st' : State) (c : ScopeId) (rest : List ScopeId) (hc : st.chain = c :: rest)
    (hclt : c < st.heap.length)
    (h : d.nameAnalysis st = some (true, d', st')) : d'.allAttached = true := by
  obtain ⟨ty, _, heq⟩ := d.nameAnalysis_eq st hc
  rw [heq] at h
  split at h
  · rename_i hv
    simp only [Bool.and_eq_true, Bool.not_eq_true'] at hv
    obtain ⟨⟨htype, hcl⟩, hinit⟩ := hv
    obtain ⟨d1, sd1, ty1, h1, _, _, hsym, _, _⟩ := d.nameAnalysis_fresh st c rest hc
      hclt (ScopeTable.clash_eq_false.mp hcl) htype hinit
    rw [heq] at h1
    simp only [htype, hcl, hinit, Bool.not_false, Bool.and_self, if_true, Option.some.injEq,
      Prod.mk.injEq, true_and] at h1 h
    obtain ⟨rfl, _⟩ := h
    obtain ⟨h1, _⟩ := h1
    have hid : (d.myID.attachSymbol (SymbolTable.find
        ((d.decisionState st false).insertAt c .var d.myID.name ty).2 d.myID.name)).attached =
        true := by
      have := congrArg (fun x => x.myID.mySymbol) h1
      simp only at this
      rw [hsym] at this
      simp [IDNode.attached, this]
    have htyA : (d.myType.nameAnalysis st).2.1.allAttached = true := by
      apply TypeNode.type_attached
      simp only [VarDeclNode.validType, Bool.and_eq_true] at htype
      exact htype.1
    have hinA : (match (d.initAnalysis (d.myType.nameAnalysis st).2.2).2.1 with
        | none => true
        | some e => e.allAttached) = true := by
      unfold VarDeclNode.initAnalysis at hinit ⊢
      cases hI : d.myInit with
      | none => rfl
      | some e =>
        simp only [hI] at hinit ⊢
        exact ExpNode.exp_attached e _ hinit
    simp only [VarDeclNode.allAttached, hid, htyA, Bool.and_self, Bool.true_and]
    exact hinA
  · simp at h

theorem VarDeclNode.formals_attached : ∀ (l : List VarDeclNode) (acc : Bool) (st : State)
    (r : Bool) (l' : List VarDeclNode) (st' : State) (c : ScopeId) (rest : List ScopeId),
    st.chain = c :: rest → c < st.heap.length →
    VarDeclNode.nameAnalysisList l acc st = some (r, l', st') → r = true →
    VarDeclNode.allAttachedList l' = true ∧ acc = true
  | [], acc, st, r, l', st', _, _, _, _, h, hr => by
    simp only [VarDeclNode.nameAnalysisList, Option.some.injEq, Prod.mk.injEq] at h
    obtain ⟨rfl, rfl, rfl⟩ := h
    exact ⟨rfl, hr⟩
  | d :: tl, acc, st, r, l', st', c, rest, hc, hclt, h, hr => by
    have hne := State.ne_nil_of_chain hc
    obtain ⟨r1, d1, st1, h1, e1, _⟩ := d.varDecl_extends st hne
    have hne1 : st1.chain ≠ [] := by rw [e1.chain]; exact hne
    obtain ⟨r2, l2, st2, h2, _, _⟩ := VarDeclNode.formals_extends tl (r1 && acc) st1 hne1
    simp only [VarDeclNode.nameAnalysisList, h1, h2, Option.some.injEq, Prod.mk.injEq] at h
    obtain ⟨rfl, rfl, rfl⟩ := h
    obtain ⟨a2, hacc⟩ := VarDeclNode.formals_attached tl (r1 && acc) st1 r2 l2 st2 c rest
      (e1.chain.trans hc) (lt_of_lt_of_le hclt e1.grows.heapLen) h2 hr
    simp only [Bool.and_eq_true] at hacc
    obtain ⟨rfl, rfl⟩ := hacc
    exact ⟨by simp [VarDeclNode.allAttachedList, a2,
      d.varDecl_attached st d1 st1 c rest hc hclt h1], rfl⟩

mutual
theorem StmtNode.stmt_attached : ∀ (s : StmtNode) (st : State) (s' : StmtNode) (st' : State)
    (c : ScopeId) (rest : List ScopeId), st.chain = c :: rest → c < st.heap.length →
    s.nameAnalysis st = some (true, s', st') → s'.allAttached = true
  | .assign pos dst src, st, s', st', _, _, _, _, h => by
    simp only [StmtNode.nameAnalysis, Option.some.injEq, Prod.mk.injEq, Bool.and_eq_true,
      Bool.and_true] at h
    obtain ⟨⟨h2, h1⟩, rfl, _⟩ := h
    simp [StmtNode.allAttached, LocNode.loc_attached dst st h1, ExpNode.exp_attached src _ h2]
  | .exit pos, st, s', st', _, _, _, _, h => by
    simp only [StmtNode.nameAnalysis, Option.some.injEq, Prod.mk.injEq] at h
    obtain ⟨_, rfl, _⟩ := h
    rfl
  | .postDec pos l, st, s', st', _, _, _, _, h => by
    simp only [StmtNode.nameAnalysis, Option.some.injEq, Prod.mk.injEq] at h
    obtain ⟨h1, rfl, _⟩ := h
    simpa [StmtNode.allAttached] using LocNode.loc_attached l st h1
  | .postInc pos l, st, s', st', _, _, _, _, h => by
    simp only [StmtNode.nameAnalysis, Option.some.injEq, Prod.mk.injEq] at h
    obtain ⟨h1, rfl, _⟩ := h
    simpa [StmtNode.allAttached] using LocNode.loc_attached l st h1
  | .take pos l, st, s', st', _, _, _, _, h => by
    simp only [StmtNode.nameAnalysis, Option.some.injEq, Prod.mk.injEq] at h
    obtain ⟨h1, rfl, _⟩ := h
    simpa [StmtNode.allAttached] using LocNode.loc_attached l st h1
  | .give pos e, st, s', st', _, _, _, _, h => by
    simp only [StmtNode.nameAnalysis, Option.some.injEq, Prod.mk.injEq] at h
    obtain ⟨h1, rfl, _⟩ := h
    simpa [StmtNode.allAttached] using ExpNode.exp_attached e st h1
  | .ifStmt pos cond body, st, s', st', _, _, _, _, h => by
    obtain ⟨r, b', st3, st4, hb, _, hl, _⟩ := StmtNode.resolveBody_run body
      ((cond.nameAnalysis st).1 && true) (cond.nameAnalysis st).2.2
    simp only [StmtNode.nameAnalysis, hb, hl, Option.some.injEq, Prod.mk.injEq] at h
    obtain ⟨rfl, rfl, _⟩ := h
    obtain ⟨a, hacc⟩ := StmtNode.stmtList_attached body _ _ true b' st3 _ _
      (State.chain_enterScope _) (State.cur_lt_enterScope _) hb rfl
    simp only [Bool.and_true] at hacc
    simp [StmtNode.allAttached, a, ExpNode.exp_attached cond st hacc]
  | .ifElse pos cond bodyT bodyF, st, s', st', _, _, _, _, h => by
    obtain ⟨r1, bT', st3, st4, hb, _, hl, _⟩ := StmtNode.resolveBody_run bodyT
      ((cond.nameAnalysis st).1 && true) (cond.nameAnalysis st).2.2
    obtain ⟨r2, b2, st6, st7, hb2, _, hl2, _⟩ := StmtNode.resolveBody_run bodyF r1 st4
    simp only [StmtNode.nameAnalysis, hb, hl, hb2, hl2, Option.some.injEq, Prod.mk.injEq] at h
    obtain ⟨rfl, rfl, _⟩ := h
    obtain ⟨a2, rfl⟩ := StmtNode.stmtList_attached bodyF _ _ true b2 st6 _ _
      (State.chain_enterScope _) (State.cur_lt_enterScope _) hb2 rfl
    obtain ⟨a1, hacc⟩ := StmtNode.stmtList_attached bodyT _ _ true bT' st3 _ _
      (State.chain_enterScope _) (State.cur_lt_enterScope _) hb rfl
    simp only [Bool.and_true] at hacc
    simp [StmtNode.allAttached, a1, a2, ExpNode.exp_attached cond st hacc]
  | .while pos cond body, st, s', st', _, _, _, _, h => by
    obtain ⟨r, b', st3, st4, hb, _, hl, _⟩ := StmtNode.resolveBody_run body
      ((cond.nameAnalysis st).1 && true) (cond.nameAnalysis st).2.2
    simp only [StmtNode.nameAnalysis, hb, hl, Option.some.injEq, Prod.mk.injEq] at h
    obtain ⟨rfl, rfl, _⟩ := h
    obtain ⟨a, hacc⟩ := StmtNode.stmtList_attached body _ _ true b' st3 _ _
      (State.chain_enterScope _) (State.cur_lt_enterScope _) hb rfl
    simp only [Bool.and_true] at hacc
    simp [StmtNode.allAttached, a, ExpNode.exp_attached cond st hacc]
  | .ret pos none, st, s', st', _, _, _, _, h => by
    simp only [StmtNode.nameAnalysis, Option.some.injEq, Prod.mk.injEq] at h
    obtain ⟨_, rfl, _⟩ := h
    rfl
  | .ret pos (some e), st, s', st', _, _, _, _, h => by
    simp only [StmtNode.nameAnalysis, Option.some.injEq, Prod.mk.injEq] at h
    obtain ⟨h1, rfl, _⟩ := h
    simpa [StmtNode.allAttached] using ExpNode.exp_attached e st h1
  | .callStmt pos e, st, s', st', _, _, _, _, h => by
    simp only [StmtNode.nameAnalysis, Option.some.injEq, Prod.mk.injEq] at h
    obtain ⟨h1, rfl, _⟩ := h
    simpa [StmtNode.allAttached] using ExpNode.exp_attached e st h1
  | .decl d, st, s', st', c, rest, hc, hclt, h => by
    obtain ⟨r1, d1, st1, h1, _⟩ := DeclNode.decl_extends d st (State.ne_nil_of_chain hc)
    simp only [StmtNode.nameAnalysis, h1, Option.some.injEq, Prod.mk.injEq] at h
    obtain ⟨rfl, rfl, rfl⟩ := h
    simpa [StmtNode.allAttached] using DeclNode.decl_attached d st d1 st1 c rest hc hclt h1
theorem StmtNode.stmtList_attached : ∀ (l : List StmtNode) (acc : Bool) (st : State)
    (r : Bool) (l' : List StmtNode) (st' : State) (c : ScopeId) (rest : List ScopeId),
    st.chain = c :: rest → c < st.heap.length →
    StmtNode.nameAnalysisList l acc st = some (r, l', st') → r = true →
    StmtNode.allAttachedList l' = true ∧ acc = true
  | [], acc, st, r, l', st', _, _, _, _, h, hr => by
    simp only [StmtNode.nameAnalysisList, Option.some.injEq, Prod.mk.injEq] at h
    obtain ⟨rfl, rfl, rfl⟩ := h
    exact ⟨rfl, hr⟩
  | s :: tl, acc, st, r, l', st', c, rest, hc, hclt, h, hr => by
    have hne := State.ne_nil_of_chain hc
    obtain ⟨r1, s1, st1, h1, e1⟩ := StmtNode.stmt_extends s st hne
    have hne1 : st1.chain ≠ [] := by rw [e1.chain]; exact hne
    obtain ⟨r2, l2, st2, h2, _⟩ := StmtNode.stmtList_extends tl (r1 && acc) st1 hne1
    simp only [StmtNode.nameAnalysisList, h1, h2, Option.some.injEq, Prod.mk.injEq] at h
    obtain ⟨rfl, rfl, rfl⟩ := h
    obtain ⟨a2, hacc⟩ := StmtNode.stmtList_attached tl (r1 && acc) st1 r2 l2 st2 c rest
      (e1.chain.trans hc) (lt_of_lt_of_le hclt e1.grows.heapLen) h2 hr
    simp only [Bool.and_eq_true] at hacc
    obtain ⟨rfl, rfl⟩ := hacc
    exact ⟨by simp [StmtNode.allAttachedList, a2,
      StmtNode.stmt_attached s st s1 st1 c rest hc hclt h1], rfl⟩
theorem DeclNode.decl_attached : ∀ (d : DeclNode) (st : State) (d' : DeclNode) (st' : State)
    (c : ScopeId) (rest : List ScopeId), st.chain = c :: rest → c < st.heap.length →
    d.nameAnalysis st = some (true, d', st') → d'.allAttached = true
  | .varDecl d, st, d', st', c, rest, hc, hclt, h => by
    obtain ⟨r1, d1, st1, h1, _⟩ := d.varDecl_extends st (State.ne_nil_of_chain hc)
    simp only [DeclNode.nameAnalysis, h1, Option.some.injEq, Prod.mk.injEq] at h
    obtain ⟨rfl, rfl, rfl⟩ := h
    simpa [DeclNode.allAttached] using d.varDecl_attached st d1 st1 c rest hc hclt h1
  | .fnDecl pos id ret formals body, st, d', st', c, rest, hc, hclt, h => by
    obtain ⟨vf, formals', st4, fts, rty, vb, body', st6, st7, hF, _, _, hB, hL, heq, hc3, e4, e6,
      _, _⟩ := DeclNode.fnDecl_run pos id ret formals body st hc
    rw [heq] at h
    simp only [Option.some.injEq, Prod.mk.injEq, Bool.and_eq_true, Bool.not_eq_true'] at h
    obtain ⟨⟨⟨⟨hret, hvf⟩, hcl⟩, hvb⟩, rfl, _⟩ := h
    have hr := TypeNode.type_sameTables ret st
    have h3 := FnDeclNode.formalsState_sameTables id ret st c
    have hlen3 : st.heap.length < (FnDeclNode.formalsState id ret st c).heap.length := by
      rw [h3.heap, State.heap_length_enterScope, hr.heap]; exact Nat.lt_succ_self _
    -- the declaring scope is as it was when the function symbol is added
    have hsc4 : st4.scope c = st.scope c := by
      rw [e4.scope_other hc3 (lt_trans hclt hlen3) (Nat.ne_of_lt hclt), h3.scope,
        State.scope_enterScope, hr.scope]
    have hclt4 : c < st4.heap.length :=
      lt_of_lt_of_le (lt_trans hclt hlen3) e4.grows.heapLen
    have hsym := State.lookup_insertAt_self st4 c .fn id.name (FnType.produce fts rty) hclt4
      (by rw [hsc4]; exact ScopeTable.clash_eq_false.mp hcl)
    rw [hcl] at hB e6
    simp only [FnDeclNode.bodyState, Bool.false_eq_true, if_false, ScopeTable.addFn] at hB e6
    have hc5 : (st4.insertAt c .fn id.name (FnType.produce fts rty)).2.chain =
        st.heap.length :: c :: rest := by
      rw [State.chain_insertAt, e4.chain, hc3]
    have hlt5 : st.heap.length <
        (st4.insertAt c .fn id.name (FnType.produce fts rty)).2.heap.length :=
      lt_of_lt_of_le (lt_of_lt_of_le hlen3 e4.grows.heapLen)
        (State.grows_insertAt _ _ _ _ _).heapLen
    obtain ⟨aF, _⟩ := VarDeclNode.formals_attached formals true _ vf formals' st4 _ _ hc3 hlen3
      hF hvf
    obtain ⟨aB, _⟩ := StmtNode.stmtList_attached body true _ vb body' st6 _ _ hc5 hlt5 hB hvb
    simp [DeclNode.allAttached, FnDeclNode.resolvedID, FnDeclNode.bodyState, hcl,
      ScopeTable.addFn, IDNode.attached, IDNode.attachSymbol, hsym,
      TypeNode.type_attached ret st hret, aF, aB]
  | .classDefn pos id members, st, d', st', c, rest, hc, hclt, h => by
    obtain ⟨res, m', st2, st3, hM, _, _, e3, hf, _, _, _, heq⟩ :=
      DeclNode.classDefn_run pos id members st hc
    rw [heq] at h
    cases res with
    | false => simp at h
    | true =>
      simp only [if_true, Option.some.injEq, Prod.mk.injEq, true_and] at h
      obtain ⟨rfl, _⟩ := h
      obtain ⟨aM, hacc⟩ := DeclNode.declList_attached members _ _ true m' st2 _ _
        (State.chain_enterScope _) (State.cur_lt_enterScope _) hM rfl
      have hcl : (st.scope c).clash id.name = false := by simpa using hacc
      have hfind := DeclNode.classDefn_find_registered id st3 c rest st.heap.length
        (lt_of_lt_of_le hclt e3.grows.heapLen) (e3.chain.trans hc)
        (by rw [hf c hclt (by simp)]; exact ScopeTable.clash_eq_false.mp hcl)
      rw [IDNode.nameAnalysis_of_find hfind]
      simp [DeclNode.allAttached, IDNode.attached, aM]
theorem DeclNode.declList_attached : ∀ (l : List DeclNode) (acc : Bool) (st : State)
    (r : Bool) (l' : List DeclNode) (st' : State) (c : ScopeId) (rest : List ScopeId),
    st.chain = c :: rest → c < st.heap.length →
    DeclNode.nameAnalysisList l acc st = some (r, l', st') → r = true →
    DeclNode.allAttachedList l' = true ∧ acc = true
  | [], acc, st, r, l', st', _, _, _, _, h, hr => by
    simp only [DeclNode.nameAnalysisList, Option.some.injEq, Prod.mk.injEq] at h
    obtain ⟨rfl, rfl, rfl⟩ := h
    exact ⟨rfl, hr⟩
  | d :: tl, acc, st, r, l', st', c, rest, hc, hclt, h, hr => by
    have hne := State.ne_nil_of_chain hc
    obtain ⟨r1, d1, st1, h1, e1⟩ := DeclNode.decl_extends d st hne
    have hne1 : st1.chain ≠ [] := by rw [e1.chain]; exact hne
    obtain ⟨r2, l2, st2, h2, _⟩ := DeclNode.declList_extends tl (r1 && acc) st1 hne1
    simp only [DeclNode.nameAnalysisList, h1, h2, Option.some.injEq, Prod.mk.injEq] at h
    obtain ⟨rfl, rfl, rfl⟩ := h
    obtain ⟨a2, hacc⟩ := DeclNode.declList_attached tl (r1 && acc) st1 r2 l2 st2 c rest
      (e1.chain.trans hc) (lt_of_lt_of_le hclt e1.grows.heapLen) h2 hr
    simp only [Bool.and_eq_true] at hacc
    obtain ⟨rfl, rfl⟩ := hacc
    exact ⟨by simp [DeclNode.allAttachedList, a2,
      DeclNode.decl_attached d st d1 st1 c rest hc hclt h1], rfl⟩
end

/-! ## A resolution that fails without a redeclaration has complained -/

theorem State.Complains.complains_mono {a b c d : State} (h1 : a.diags <+: b.diags)
    (h2 : c.diags <+: d.diags) (h : b.Complains c) : a.Complains d := by
  obtain ⟨dg, hm, hk⟩ := h
  exact ⟨dg, State.newDiags_mono a h2 (State.newDiags_suffix c h1 hm), hk⟩

theorem State.complains_report (st : State) (k : ErrKind) (p : Position)
    (hk : k ≠ .multipleDeclaration) : st.Complains (st.report k p).2 :=
  ⟨⟨k, p⟩, by rw [State.newDiags_report]; simp, hk⟩

theorem LocNode.loc_complains : ∀ (l : LocNode) (st : State), (l.nameAnalysis st).1 = false →
    st.Complains (l.nameAnalysis st).2.2
  | .id n, st, h => by
    simp only [LocNode.nameAnalysis, IDNode.nameAnalysis] at h ⊢
    split at h
    · rename_i hf
      simp only [hf]
      exact State.complains_report st _ _ (by decide)
    · simp at h
  | .member pos base field sym, st, h => by
    have hs := LocNode.loc_sameTables base st
    simp only [LocNode.nameAnalysis] at h ⊢
    split
    · rename_i hg
      have hb : (base.nameAnalysis st).1 = false := by
        cases hr : (base.nameAnalysis st).1 with
        | false => rfl
        | true =>
          obtain ⟨s, hs⟩ := LocNode.getSymbol_of_resolved base st hr
          rw [hg] at hs
          cases hs
      exact LocNode.loc_complains base st hb
    · split
      · exact State.Complains.complains_mono hs.diags (List.prefix_refl _)
          (State.complains_report _ _ _ (by decide))
      · split
        · exact State.Complains.complains_mono hs.diags (List.prefix_refl _)
            (State.complains_report _ _ _ (by decide))
        · simp only [*] at h
          exact LocNode.loc_complains base st h

theorem TypeNode.type_complains : ∀ (t : TypeNode) (st : State), (t.nameAnalysis st).1 = false →
    st.Complains (t.nameAnalysis st).2.2
  | .basic pos b, st, h => by simp [TypeNode.nameAnalysis] at h
  | .perfect pos sub, st, h => by
    simp only [TypeNode.nameAnalysis] at h ⊢
    exact TypeNode.type_complains sub st h
  | .cls pos id ty, st, h => by
    simp only [TypeNode.nameAnalysis] at h ⊢
    split
    · exact State.complains_report _ _ _ (by decide)
    · split
      · exact State.complains_report _ _ _ (by decide)
      · rename_i h1 h2
        simp [h1, h2] at h

mutual
theorem ExpNode.exp_complains : ∀ (e : ExpNode) (st : State), (e.nameAnalysis st).1 = false →
    st.Complains (e.nameAnalysis st).2.2
  | .intLit _ _, st, h => by simp [ExpNode.nameAnalysis] at h
  | .strLit _ _, st, h => by simp [ExpNode.nameAnalysis] at h
  | .trueNode _, st, h => by simp [ExpNode.nameAnalysis] at h
  | .falseNode _, st, h => by simp [ExpNode.nameAnalysis] at h
  | .loc l, st, h => by
    simp only [ExpNode.nameAnalysis] at h ⊢
    exact LocNode.loc_complains l st h
  | .binary pos op e1 e2, st, h => by
    simp only [ExpNode.nameAnalysis, Bool.and_eq_false_iff] at h ⊢
    have s1 := ExpNode.exp_sameTables e1 st
    have s2 := ExpNode.exp_sameTables e2 (e1.nameAnalysis st).2.2
    rcases h with h | h
    · exact State.Complains.complains_mono (List.prefix_refl _) s2.diags (ExpNode.exp_complains e1 st h)
    · exact State.Complains.complains_mono s1.diags (List.prefix_refl _) (ExpNode.exp_complains e2 _ h)
  | .neg pos e, st, h => by
    simp only [ExpNode.nameAnalysis] at h ⊢
    exact ExpNode.exp_complains e st h
  | .not pos e, st, h => by
    simp only [ExpNode.nameAnalysis] at h ⊢
    exact ExpNode.exp_complains e st h
  | .call pos callee args, st, h => by
    simp only [ExpNode.nameAnalysis] at h ⊢
    have s1 := LocNode.loc_sameTables callee st
    have s2 := ExpNode.expList_sameTables args ((callee.nameAnalysis st).1 && true)
      (callee.nameAnalysis st).2.2
    rcases ExpNode.expList_complains args _ _ h with h1 | h1
    · simp only [Bool.and_true] at h1
      exact State.Complains.complains_mono (List.prefix_refl _) s2.diags (LocNode.loc_complains callee st h1)
    · exact State.Complains.complains_mono s1.diags (List.prefix_refl _) h1
theorem ExpNode.expList_complains : ∀ (l : List ExpNode) (acc : Bool) (st : State),
    (ExpNode.nameAnalysisList l acc st).1 = false →
    acc = false ∨ st.Complains (ExpNode.nameAnalysisList l acc st).2.2
  | [], acc, st, h => by
    simp only [ExpNode.nameAnalysisList] at h
    exact Or.inl h
  | e :: rest, acc, st, h => by
    simp only [ExpNode.nameAnalysisList] at h ⊢
    have s1 := ExpNode.exp_sameTables e st
    have s2 := ExpNode.expList_sameTables rest ((e.nameAnalysis st).1 && acc)
      (e.nameAnalysis st).2.2
    rcases ExpNode.expList_complains rest _ _ h with h1 | h1
    · simp only [Bool.and_eq_false_iff] at h1
      rcases h1 with h1 | h1
      · exact Or.inr (State.Complains.complains_mono (List.prefix_refl _) s2.diags
          (ExpNode.exp_complains e st h1))
      · exact Or.inl h1
    · exact Or.inr (State.Complains.complains_mono s1.diags (List.prefix_refl _) h1)
end

theorem VarDeclNode.varDecl_complains (d : VarDeclNode) (st : State) (d' : VarDeclNode)
    (st' : State) (c : ScopeId) (rest : List ScopeId) (hc : st.chain = c :: rest)
    (hfree : (st.scope c).lookup d.myID.name = none)
    (h : d.nameAnalysis st = some (false, d', st')) : st.Complains st' := by
  obtain ⟨ty, _, heq⟩ := d.nameAnalysis_eq st hc
  have hcl : (st.scope c).clash d.myID.name = false := ScopeTable.clash_eq_false.mpr hfree
  rw [heq, hcl] at h
  have hT := TypeNode.type_sameTables d.myType st
  have hI := d.initAnalysis_sameTables (d.myType.nameAnalysis st).2.2
  split at h
  · simp at h
  · rename_i hv
    simp only [Option.some.injEq, Prod.mk.injEq, true_and] at h
    obtain ⟨_, rfl⟩ := h
    simp only [Bool.not_false, Bool.and_true, Bool.and_eq_true, not_and, Bool.not_eq_true] at hv
    cases htype : d.validType st with
    | false =>
      refine State.Complains.complains_mono (hT.diags.trans hI.diags) (List.prefix_refl _)
        (b := (d.initAnalysis (d.myType.nameAnalysis st).2.2).2.2) ?_
      exact ⟨⟨.badVariableType, d.myID.pos⟩,
        by simp [State.newDiags, VarDeclNode.decisionState, VarDeclNode.ownDiags, htype],
        by simp⟩
    | true =>
      have hinit := hv htype
      have hs := d.decisionState_sameTables st false
      unfold VarDeclNode.initAnalysis at hinit hI
      cases hm : d.myInit with
      | none => simp [hm] at hinit
      | some e =>
        simp only [hm] at hinit hI
        have hE := ExpNode.exp_complains e _ hinit
        refine State.Complains.complains_mono hT.diags ?_ hE
        have : (d.initAnalysis (d.myType.nameAnalysis st).2.2).2.2 =
            (e.nameAnalysis (d.myType.nameAnalysis st).2.2).2.2 := by
          simp [VarDeclNode.initAnalysis, hm]
        rw [← this]
        simp [VarDeclNode.decisionState]

theorem VarDeclNode.formals_complains : ∀ (l : List VarDeclNode) (acc : Bool) (st : State)
    (r : Bool) (l' : List VarDeclNode) (st' : State) (c : ScopeId) (rest : List ScopeId),
    st.chain = c :: rest → (VarDeclNode.namesList l).Nodup →
    (∀ x ∈ VarDeclNode.namesList l, (st.scope c).lookup x = none) →
    VarDeclNode.nameAnalysisList l acc st = some (r, l', st') → r = false →
    acc = false ∨ st.Complains st'
  | [], acc, st, r, l', st', _, _, _, _, _, h, hr => by
    simp only [VarDeclNode.nameAnalysisList, Option.some.injEq, Prod.mk.injEq] at h
    obtain ⟨rfl, rfl, rfl⟩ := h
    exact Or.inl hr
  | d :: tl, acc, st, r, l', st', c, rest, hc, hnd, hfree, h, hr => by
    have hne := State.ne_nil_of_chain hc
    obtain ⟨r1, d1, st1, h1, e1, _⟩ := d.varDecl_extends st hne
    have hne1 : st1.chain ≠ [] := by rw [e1.chain]; exact hne
    obtain ⟨r2, l2, st2, h2, e2, _⟩ := VarDeclNode.formals_extends tl (r1 && acc) st1 hne1
    simp only [VarDeclNode.nameAnalysisList, h1, h2, Option.some.injEq, Prod.mk.injEq] at h
    obtain ⟨rfl, rfl, rfl⟩ := h
    simp only [VarDeclNode.namesList, List.nodup_cons] at hnd
    have hfree1 : ∀ x ∈ VarDeclNode.namesList tl, (st1.scope c).lookup x = none := by
      intro x hx
      have hxd : d.myID.name ≠ x := fun e => hnd.1 (e ▸ hx)
      rw [(d.varDecl_refs x st r1 d1 st1 hne hxd h1).1 c]
      exact hfree x (by simp [VarDeclNode.namesList, hx])
    rcases VarDeclNode.formals_complains tl (r1 && acc) st1 r2 l2 st2 c rest
      (e1.chain.trans hc) hnd.2 hfree1 h2 hr with h3 | h3
    · simp only [Bool.and_eq_false_iff] at h3
      rcases h3 with rfl | h3
      · exact Or.inr (State.Complains.complains_mono (List.prefix_refl _) e2.grows.diags
          (d.varDecl_complains st d1 st1 c rest hc
            (hfree _ (by simp [VarDeclNode.namesList])) h1))
      · exact Or.inl h3
    · exact Or.inr (State.Complains.complains_mono e1.grows.diags (List.prefix_refl _) h3)

/-- The formals add only their own names to the scope they are resolved in. -/
theorem VarDeclNode.formals_keeps : ∀ (l : List VarDeclNode) (acc : Bool) (st : State)
    (r : Bool) (l' : List VarDeclNode) (st' : State) (x : String), st.chain ≠ [] →
    x ∉ VarDeclNode.namesList l →
    VarDeclNode.nameAnalysisList l acc st = some (r, l', st') → st.KeepsName x st'
  | [], acc, st, r, l', st', x, _, _, h => by
    simp only [VarDeclNode.nameAnalysisList, Option.some.injEq, Prod.mk.injEq] at h
    obtain ⟨rfl, rfl, rfl⟩ := h
    exact State.keepsName_refl _ _
  | d :: tl, acc, st, r, l', st', x, hne, hx, h => by
    obtain ⟨r1, d1, st1, h1, e1, _⟩ := d.varDecl_extends st hne
    have hne1 : st1.chain ≠ [] := by rw [e1.chain]; exact hne
    obtain ⟨r2, l2, st2, h2, e2, _⟩ := VarDeclNode.formals_extends tl (r1 && acc) st1 hne1
    simp only [VarDeclNode.nameAnalysisList, h1, h2, Option.some.injEq, Prod.mk.injEq] at h
    obtain ⟨rfl, rfl, rfl⟩ := h
    simp only [VarDeclNode.namesList, List.mem_cons, not_or] at hx
    exact (d.varDecl_refs x st r1 d1 st1 hne (fun e => hx.1 e.symm) h1).1.keeps_trans
      (VarDeclNode.formals_keeps tl (r1 && acc) st1 r2 l2 st2 x hne1 hx.2 h2)

/-- A declaration adds only its own name to the scope it stands in. -/
theorem DeclNode.decl_keeps_cur (d : DeclNode) (st : State) (r : Bool) (d' : DeclNode)
    (st' : State) (c : ScopeId) (rest : List ScopeId) (hc : st.chain = c :: rest)
    (hclt : c < st.heap.length) (x : String) (hx : d.topName ≠ x)
    (h : d.nameAnalysis st = some (r, d', st')) :
    (st'.scope c).lookup x = (st.scope c).lookup x := by
  cases d with
  | varDecl d =>
    have hne := State.ne_nil_of_chain hc
    obtain ⟨r1, d1, st1, h1, _⟩ := d.varDecl_extends st hne
    simp only [DeclNode.nameAnalysis, h1, Option.some.injEq, Prod.mk.injEq] at h
    obtain ⟨rfl, rfl, rfl⟩ := h
    exact (d.varDecl_refs x st r1 d1 st1 hne hx h1).1 c
  | fnDecl pos id ret formals body =>
    simp only [DeclNode.topName] at hx
    obtain ⟨vf, formals', st4, fts, rty, vb, body', st6, st7, hF, _, _, hB, hL, heq, hc3, e4, e6,
      _, _⟩ := DeclNode.fnDecl_run pos id ret formals body st hc
    rw [heq] at h
    simp only [Option.some.injEq, Prod.mk.injEq] at h
    obtain ⟨_, _, rfl⟩ := h
    have hr := TypeNode.type_sameTables ret st
    have h3 := FnDeclNode.formalsState_sameTables id ret st c
    have hlen3 : st.heap.length < (FnDeclNode.formalsState id ret st c).heap.length := by
      rw [h3.heap, State.heap_length_enterScope, hr.heap]; exact Nat.lt_succ_self _
    have hsc4 : st4.scope c = st.scope c := by
      rw [e4.scope_other hc3 (lt_trans hclt hlen3) (Nat.ne_of_lt hclt), h3.scope,
        State.scope_enterScope, hr.scope]
    have hclt4 : c < st4.heap.length :=
      lt_of_lt_of_le (lt_trans hclt hlen3) e4.grows.heapLen
    have h5 : ((FnDeclNode.bodyState id ((st.scope c).clash id.name) c st4
        (FnType.produce fts rty)).scope c).lookup x = (st4.scope c).lookup x := by
      unfold FnDeclNode.bodyState
      split
      · rfl
      · exact State.keepsName_insertAt st4 c .fn id.name _ x hx c
    have hc5 : (FnDeclNode.bodyState id ((st.scope c).clash id.name) c st4
        (FnType.produce fts rty)).chain = st.heap.length :: c :: rest := by
      unfold FnDeclNode.bodyState
      split
      · rw [e4.chain, hc3]
      · simp only [ScopeTable.addFn]; rw [State.chain_insertAt, e4.chain, hc3]
    have hlt5 : c < (FnDeclNode.bodyState id ((st.scope c).clash id.name) c st4
        (FnType.produce fts rty)).heap.length := by
      unfold FnDeclNode.bodyState
      split
      · exact hclt4
      · exact lt_of_lt_of_le hclt4 (State.grows_insertAt _ _ _ _ _).heapLen
    rw [(State.keepsName_leaveScope x hL) c, e6.scope_other hc5 hlt5 (Nat.ne_of_lt hclt), h5,
      hsc4]
  | classDefn pos id members =>
    simp only [DeclNode.topName] at hx
    obtain ⟨res, m', st2, st3, hM, _, _, e3, hf, _, _, _, heq⟩ :=
      DeclNode.classDefn_run pos id members st hc
    rw [heq] at h
    have h3 : st3.scope c = st.scope c := hf c hclt (by simp)
    split at h
    · simp only [Option.some.injEq, Prod.mk.injEq] at h
      obtain ⟨_, _, rfl⟩ := h
      rw [(IDNode.id_sameTables id _).scope]
      unfold ClassDefnNode.registeredState
      rw [State.keepsName_insertAt st3 c .agg id.name _ x hx c, h3]
    · simp only [Option.some.injEq, Prod.mk.injEq] at h
      obtain ⟨_, _, rfl⟩ := h
      rw [h3]

/-- What the body of an `if`, `else` or `while` leaves of the scope tables
around it. -/
theorem StmtNode.resolveBody_scope {st1 st3 st4 : State}
    (he : (SymbolTable.enterScope st1).2.Extends st3)
    (hl : SymbolTable.leaveScope st3 = some st4) (id : ScopeId) (hid : id < st1.heap.length) :
    st4.scope id = st1.scope id ∧ st4.diags = st3.diags ∧ st1.diags <+: st3.diags := by
  obtain ⟨st4', hl', _, _, _, hd, hf⟩ := State.Extends.enter_leave he
  rw [hl] at hl'
  cases hl'
  exact ⟨hf id hid (by simp), hd, he.grows.diags⟩

/-- A statement adds only the name it declares to the scope it stands in. -/
theorem StmtNode.stmt_keeps_cur (s : StmtNode) (st : State) (r : Bool) (s' : StmtNode)
    (st' : State) (c : ScopeId) (rest : List ScopeId) (hc : st.chain = c :: rest)
    (hclt : c < st.heap.length) (x : String) (hx : x ∉ s.topNames)
    (h : s.nameAnalysis st = some (r, s', st')) :
    (st'.scope c).lookup x = (st.scope c).lookup x := by
  cases s with
  | assign pos dst src =>
    simp only [StmtNode.nameAnalysis, Option.some.injEq, Prod.mk.injEq] at h
    obtain ⟨_, _, rfl⟩ := h
    rw [(ExpNode.exp_sameTables src _).scope, (LocNode.loc_sameTables dst st).scope]
  | exit pos =>
    simp only [StmtNode.nameAnalysis, Option.some.injEq, Prod.mk.injEq] at h
    obtain ⟨_, _, rfl⟩ := h
    rfl
  | postDec pos l =>
    simp only [StmtNode.nameAnalysis, Option.some.injEq, Prod.mk.injEq] at h
    obtain ⟨_, _, rfl⟩ := h
    rw [(LocNode.loc_sameTables l st).scope]
  | postInc pos l =>
    simp only [StmtNode.nameAnalysis, Option.some.injEq, Prod.mk.injEq] at h
    obtain ⟨_, _, rfl⟩ := h
    rw [(LocNode.loc_sameTables l st).scope]
  | take pos l =>
    simp only [StmtNode.nameAnalysis, Option.some.injEq, Prod.mk.injEq] at h
    obtain ⟨_, _, rfl⟩ := h
    rw [(LocNode.loc_sameTables l st).scope]
  | give pos e =>
    simp only [StmtNode.nameAnalysis, Option.some.injEq, Prod.mk.injEq] at h
    obtain ⟨_, _, rfl⟩ := h
    rw [(ExpNode.exp_sameTables e st).scope]
  | ifStmt pos cond body =>
    have hs := ExpNode.exp_sameTables cond st
    obtain ⟨r, b', st3, st4, hb, he, hl, _⟩ := StmtNode.resolveBody_run body
      ((cond.nameAnalysis st).1 && true) (cond.nameAnalysis st).2.2
    simp only [StmtNode.nameAnalysis, hb, hl, Option.some.injEq, Prod.mk.injEq] at h
    obtain ⟨_, _, rfl⟩ := h
    rw [(StmtNode.resolveBody_scope he hl c
      (by rw [hs.heap]; exact hclt)).1, hs.scope]
  | ifElse pos cond bodyT bodyF =>
    have hs := ExpNode.exp_sameTables cond st
    obtain ⟨r1, bT', st3, st4, hb, he, hl, _⟩ := StmtNode.resolveBody_run bodyT
      ((cond.nameAnalysis st).1 && true) (cond.nameAnalysis st).2.2
    obtain ⟨r2, b2, st6, st7, hb2, he2, hl2, _⟩ := StmtNode.resolveBody_run bodyF r1 st4
    simp only [StmtNode.nameAnalysis, hb, hl, hb2, hl2, Option.some.injEq, Prod.mk.injEq] at h
    obtain ⟨_, _, rfl⟩ := h
    obtain ⟨st4', hl', e4, _⟩ := State.Extends.enter_leave he
    rw [hl] at hl'
    cases hl'
    have hclt1 : c < (cond.nameAnalysis st).2.2.heap.length := by rw [hs.heap]; exact hclt
    rw [(StmtNode.resolveBody_scope he2 hl2 c
      (lt_of_lt_of_le hclt1 e4.grows.heapLen)).1,
      (StmtNode.resolveBody_scope he hl c hclt1).1, hs.scope]
  | «while» pos cond body =>
    have hs := ExpNode.exp_sameTables cond st
    obtain ⟨r, b', st3, st4, hb, he, hl, _⟩ := StmtNode.resolveBody_run body
      ((cond.nameAnalysis st).1 && true) (cond.nameAnalysis st).2.2
    simp only [StmtNode.nameAnalysis, hb, hl, Option.some.injEq, Prod.mk.injEq] at h
    obtain ⟨_, _, rfl⟩ := h
    rw [(StmtNode.resolveBody_scope he hl c
      (by rw [hs.heap]; exact hclt)).1, hs.scope]
  | ret pos e =>
    cases e with
    | none =>
      simp only [StmtNode.nameAnalysis, Option.some.injEq, Prod.mk.injEq] at h
      obtain ⟨_, _, rfl⟩ := h
      rfl
    | some e =>
      simp only [StmtNode.nameAnalysis, Option.some.injEq, Prod.mk.injEq] at h
      obtain ⟨_, _, rfl⟩ := h
      rw [(ExpNode.exp_sameTables e st).scope]
  | callStmt pos e =>
    simp only [StmtNode.nameAnalysis, Option.some.injEq, Prod.mk.injEq] at h
    obtain ⟨_, _, rfl⟩ := h
    rw [(ExpNode.exp_sameTables e st).scope]
  | decl d =>
    obtain ⟨r1, d1, st1, h1, _⟩ := DeclNode.decl_extends d st (State.ne_nil_of_chain hc)
    simp only [StmtNode.nameAnalysis, h1, Option.some.injEq, Prod.mk.injEq] at h
    obtain ⟨_, _, rfl⟩ := h
    simp only [StmtNode.topNames, List.mem_singleton] at hx
    exact DeclNode.decl_keeps_cur d st r1 d1 st1 c rest hc hclt x (fun e => hx e.symm) h1

theorem State.Complains.complains_of_body {st1 st3 st4 : State}
    (hl : SymbolTable.leaveScope st3 = some st4)
    (h : (SymbolTable.enterScope st1).2.Complains st3) : st1.Complains st4 := by
  obtain ⟨_, _, _, _, hd⟩ := SymbolTable.leaveScope_eq hl
  exact State.Complains.complains_mono (b := (SymbolTable.enterScope st1).2) (List.prefix_refl _)
    (by rw [hd]) h

theorem State.diags_of_body {st1 st3 st4 : State}
    (he : (SymbolTable.enterScope st1).2.Extends st3)
    (hl : SymbolTable.leaveScope st3 = some st4) : st1.diags <+: st4.diags := by
  obtain ⟨_, _, _, _, hd⟩ := SymbolTable.leaveScope_eq hl
  rw [hd]
  exact he.grows.diags

theorem State.lookup_entered_scope (st : State) (x : String) :
    ((SymbolTable.enterScope st).2.scope st.heap.length).lookup x = none := by
  rw [State.scope_enterScope]; exact State.lookup_new_scope st x

mutual
theorem StmtNode.stmt_complains : ∀ (s : StmtNode) (st : State) (s' : StmtNode) (st' : State)
    (c : ScopeId) (rest : List ScopeId), st.chain = c :: rest → c < st.heap.length →
    s.noRedecl = true → (∀ x ∈ s.topNames, (st.scope c).lookup x = none) →
    s.nameAnalysis st = some (false, s', st') → st.Complains st'
  | .assign pos dst src, st, s', st', _, _, _, _, _, _, h => by
    simp only [StmtNode.nameAnalysis, Option.some.injEq, Prod.mk.injEq, Bool.and_true,
      Bool.and_eq_false_iff] at h
    obtain ⟨hr, _, rfl⟩ := h
    have s1 := LocNode.loc_sameTables dst st
    have s2 := ExpNode.exp_sameTables src (dst.nameAnalysis st).2.2
    rcases hr with hr | hr
    · exact State.Complains.complains_mono s1.diags (List.prefix_refl _) (ExpNode.exp_complains src _ hr)
    · exact State.Complains.complains_mono (List.prefix_refl _) s2.diags (LocNode.loc_complains dst st hr)
  | .exit pos, st, s', st', _, _, _, _, _, _, h => by
    simp [StmtNode.nameAnalysis] at h
  | .postDec pos l, st, s', st', _, _, _, _, _, _, h => by
    simp only [StmtNode.nameAnalysis, Option.some.injEq, Prod.mk.injEq] at h
    obtain ⟨hr, _, rfl⟩ := h
    exact LocNode.loc_complains l st hr
  | .postInc pos l, st, s', st', _, _, _, _, _, _, h => by
    simp only [StmtNode.nameAnalysis, Option.some.injEq, Prod.mk.injEq] at h
    obtain ⟨hr, _, rfl⟩ := h
    exact LocNode.loc_complains l st hr
  | .take pos l, st, s', st', _, _, _, _, _, _, h => by
    simp only [StmtNode.nameAnalysis, Option.some.injEq, Prod.mk.injEq] at h
    obtain ⟨hr, _, rfl⟩ := h
    exact LocNode.loc_complains l st hr
  | .give pos e, st, s', st', _, _, _, _, _, _, h => by
    simp only [StmtNode.nameAnalysis, Option.some.injEq, Prod.mk.injEq] at h
    obtain ⟨hr, _, rfl⟩ := h
    exact ExpNode.exp_complains e st hr
  | .ifStmt pos cond body, st, s', st', _, _, _, _, hnr, _, h => by
    have hs := ExpNode.exp_sameTables cond st
    obtain ⟨r, b', st3, st4, hb, he, hl, _⟩ := StmtNode.resolveBody_run body
      ((cond.nameAnalysis st).1 && true) (cond.nameAnalysis st).2.2
    simp only [StmtNode.nameAnalysis, hb, hl, Option.some.injEq, Prod.mk.injEq] at h
    obtain ⟨rfl, _, rfl⟩ := h
    simp only [StmtNode.noRedecl, Bool.and_eq_true, decide_eq_true_eq] at hnr
    rcases StmtNode.stmtList_complains body _ _ false b' st3 _ _
      (State.chain_enterScope _) (State.cur_lt_enterScope _) hnr.1 hnr.2
      (fun x _ => State.lookup_entered_scope _ x) hb rfl with h1 | h1
    · simp only [Bool.and_true] at h1
      exact State.Complains.complains_mono (List.prefix_refl _) (State.diags_of_body he hl)
        (ExpNode.exp_complains cond st h1)
    · exact State.Complains.complains_mono hs.diags (List.prefix_refl _) (State.Complains.complains_of_body hl h1)
  | .ifElse pos cond bodyT bodyF, st, s', st', _, _, _, _, hnr, _, h => by
    have hs := ExpNode.exp_sameTables cond st
    obtain ⟨r1, bT', st3, st4, hb, he, hl, _⟩ := StmtNode.resolveBody_run bodyT
      ((cond.nameAnalysis st).1 && true) (cond.nameAnalysis st).2.2
    obtain ⟨r2, b2, st6, st7, hb2, he2, hl2, _⟩ := StmtNode.resolveBody_run bodyF r1 st4
    simp only [StmtNode.nameAnalysis, hb, hl, hb2, hl2, Option.some.injEq, Prod.mk.injEq] at h
    obtain ⟨rfl, _, rfl⟩ := h
    simp only [StmtNode.noRedecl, Bool.and_eq_true, decide_eq_true_eq] at hnr
    obtain ⟨⟨hndT, hnrT⟩, hndF, hnrF⟩ := hnr
    have p1 := State.diags_of_body he hl
    have p2 := State.diags_of_body he2 hl2
    rcases StmtNode.stmtList_complains bodyF _ _ false b2 st6 _ _
      (State.chain_enterScope _) (State.cur_lt_enterScope _) hndF hnrF
      (fun x _ => State.lookup_entered_scope _ x) hb2 rfl with h2 | h2
    · subst h2
      rcases StmtNode.stmtList_complains bodyT _ _ false bT' st3 _ _
        (State.chain_enterScope _) (State.cur_lt_enterScope _) hndT hnrT
        (fun x _ => State.lookup_entered_scope _ x) hb rfl with h1 | h1
      · simp only [Bool.and_true] at h1
        exact State.Complains.complains_mono (List.prefix_refl _) (p1.trans p2)
          (ExpNode.exp_complains cond st h1)
      · exact State.Complains.complains_mono hs.diags p2 (State.Complains.complains_of_body hl h1)
    · exact State.Complains.complains_mono (hs.diags.trans p1) (List.prefix_refl _)
        (State.Complains.complains_of_body hl2 h2)
  | .while pos cond body, st, s', st', _, _, _, _, hnr, _, h => by
    have hs := ExpNode.exp_sameTables cond st
    obtain ⟨r, b', st3, st4, hb, he, hl, _⟩ := StmtNode.resolveBody_run body
      ((cond.nameAnalysis st).1 && true) (cond.nameAnalysis st).2.2
    simp only [StmtNode.nameAnalysis, hb, hl, Option.some.injEq, Prod.mk.injEq] at h
    obtain ⟨rfl, _, rfl⟩ := h
    simp only [StmtNode.noRedecl, Bool.and_eq_true, decide_eq_true_eq] at hnr
    rcases StmtNode.stmtList_complains body _ _ false b' st3 _ _
      (State.chain_enterScope _) (State.cur_lt_enterScope _) hnr.1 hnr.2
      (fun x _ => State.lookup_entered_scope _ x) hb rfl with h1 | h1
    · simp only [Bool.and_true] at h1
      exact State.Complains.complains_mono (List.prefix_refl _) (State.diags_of_body he hl)
        (ExpNode.exp_complains cond st h1)
    · exact State.Complains.complains_mono hs.diags (List.prefix_refl _) (State.Complains.complains_of_body hl h1)
  | .ret pos none, st, s', st', _, _, _, _, _, _, h => by
    simp [StmtNode.nameAnalysis] at h
  | .ret pos (some e), st, s', st', _, _, _, _, _, _, h => by
    simp only [StmtNode.nameAnalysis, Option.some.injEq, Prod.mk.injEq] at h
    obtain ⟨hr, _, rfl⟩ := h
    exact ExpNode.exp_complains e st hr
  | .callStmt pos e, st, s', st', _, _, _, _, _, _, h => by
    simp only [StmtNode.nameAnalysis, Option.some.injEq, Prod.mk.injEq] at h
    obtain ⟨hr, _, rfl⟩ := h
    exact ExpNode.exp_complains e st hr
  | .decl d, st, s', st', c, rest, hc, hclt, hnr, hfree, h => by
    obtain ⟨r1, d1, st1, h1, _⟩ := DeclNode.decl_extends d st (State.ne_nil_of_chain hc)
    simp only [StmtNode.nameAnalysis, h1, Option.some.injEq, Prod.mk.injEq] at h
    obtain ⟨rfl, _, rfl⟩ := h
    simp only [StmtNode.noRedecl] at hnr
    exact DeclNode.decl_complains d st d1 st1 c rest hc hclt hnr
      (hfree _ (by simp [StmtNode.topNames])) h1
theorem StmtNode.stmtList_complains : ∀ (l : List StmtNode) (acc : Bool) (st : State)
    (r : Bool) (l' : List StmtNode) (st' : State) (c : ScopeId) (rest : List ScopeId),
    st.chain = c :: rest → c < st.heap.length →
    (StmtNode.topNamesList l).Nodup → StmtNode.noRedeclList l = true →
    (∀ x ∈ StmtNode.topNamesList l, (st.scope c).lookup x = none) →
    StmtNode.nameAnalysisList l acc st = some (r, l', st') → r = false →
    acc = false ∨ st.Complains st'
  | [], acc, st, r, l', st', _, _, _, _, _, _, _, h, hr => by
    simp only [StmtNode.nameAnalysisList, Option.some.injEq, Prod.mk.injEq] at h
    obtain ⟨rfl, rfl, rfl⟩ := h
    exact Or.inl hr
  | s :: tl, acc, st, r, l', st', c, rest, hc, hclt, hnd, hnr, hfree, h, hr => by
    have hne := State.ne_nil_of_chain hc
    obtain ⟨r1, s1, st1, h1, e1⟩ := StmtNode.stmt_extends s st hne
    have hne1 : st1.chain ≠ [] := by rw [e1.chain]; exact hne
    obtain ⟨r2, l2, st2, h2, e2⟩ := StmtNode.stmtList_extends tl (r1 && acc) st1 hne1
    simp only [StmtNode.nameAnalysisList, h1, h2, Option.some.injEq, Prod.mk.injEq] at h
    obtain ⟨rfl, rfl, rfl⟩ := h
    simp only [StmtNode.topNamesList, List.nodup_append] at hnd
    simp only [StmtNode.noRedeclList, Bool.and_eq_true] at hnr
    obtain ⟨_, hnd2, hdis⟩ := hnd
    have hfree1 : ∀ x ∈ StmtNode.topNamesList tl, (st1.scope c).lookup x = none := by
      intro x hx
      rw [StmtNode.stmt_keeps_cur s st r1 s1 st1 c rest hc hclt x (fun hs => hdis hs hx) h1]
      exact hfree x (by simp [StmtNode.topNamesList, hx])
    rcases StmtNode.stmtList_complains tl (r1 && acc) st1 r2 l2 st2 c rest
      (e1.chain.trans hc) (lt_of_lt_of_le hclt e1.grows.heapLen) hnd2 hnr.2 hfree1 h2 hr
      with h3 | h3
    · simp only [Bool.and_eq_false_iff] at h3
      rcases h3 with rfl | h3
      · exact Or.inr (State.Complains.complains_mono (List.prefix_refl _) e2.grows.diags
          (StmtNode.stmt_complains s st s1 st1 c rest hc hclt hnr.1
            (fun x hx => hfree x (by simp [StmtNode.topNamesList, hx])) h1))
      · exact Or.inl h3
    · exact Or.inr (State.Complains.complains_mono e1.grows.diags (List.prefix_refl _) h3)
theorem DeclNode.decl_complains : ∀ (d : DeclNode) (st : State) (d' : DeclNode) (st' : State)
    (c : ScopeId) (rest : List ScopeId), st.chain = c :: rest → c < st.heap.length →
    d.noRedecl = true → (st.scope c).lookup d.topName = none →
    d.nameAnalysis st = some (false, d', st') → st.Complains st'
  | .varDecl d, st, d', st', c, rest, hc, hclt, _, hfree, h => by
    obtain ⟨r1, d1, st1, h1, _⟩ := d.varDecl_extends st (State.ne_nil_of_chain hc)
    simp only [DeclNode.nameAnalysis, h1, Option.some.injEq, Prod.mk.injEq] at h
    obtain ⟨rfl, _, rfl⟩ := h
    exact d.varDecl_complains st d1 st1 c rest hc hfree h1
  | .fnDecl pos id ret formals body, st, d', st', c, rest, hc, hclt, hnr, hfree, h => by
    simp only [DeclNode.topName] at hfree
    have hcl : (st.scope c).clash id.name = false := ScopeTable.clash_eq_false.mpr hfree
    obtain ⟨vf, formals', st4, fts, rty, vb, body', st6, st7, hF, _, _, hB, hL, heq, hc3, e4, e6,
      _, hd7⟩ := DeclNode.fnDecl_run pos id ret formals body st hc
    rw [heq] at h
    rw [hcl] at hB e6 h
    simp only [Option.some.injEq, Prod.mk.injEq, Bool.not_false, Bool.and_true] at h
    obtain ⟨hres, _, rfl⟩ := h
    simp only [FnDeclNode.bodyState, Bool.false_eq_true, if_false, ScopeTable.addFn] at hB e6
    simp only [DeclNode.noRedecl, Bool.and_eq_true, decide_eq_true_eq, List.nodup_append] at hnr
    obtain ⟨⟨hndF, hndB, hdis⟩, hnrB⟩ := hnr
    have hr := TypeNode.type_sameTables ret st
    have h3 := FnDeclNode.formalsState_sameTables id ret st c
    have hlen3 : st.heap.length < (FnDeclNode.formalsState id ret st c).heap.length := by
      rw [h3.heap, State.heap_length_enterScope, hr.heap]; exact Nat.lt_succ_self _
    have p1 : st.diags <+: (ret.nameAnalysis st).2.2.diags := hr.diags
    have p3 : (ret.nameAnalysis st).2.2.diags <+: (FnDeclNode.formalsState id ret st c).diags :=
      h3.diags
    have p4 := e4.grows.diags
    have p5 : st4.diags <+: (st4.insertAt c .fn id.name (FnType.produce fts rty)).2.diags :=
      (State.grows_insertAt _ _ _ _ _).diags
    have p6 := e6.grows.diags
    have p7 : st6.diags <+: st7.diags := by rw [hd7]
    have hnew : ∀ x, ((FnDeclNode.formalsState id ret st c).scope st.heap.length).lookup x =
        none := by
      intro x
      rw [h3.scope, ← hr.heap]
      exact State.lookup_entered_scope _ x
    simp only [Bool.and_eq_false_iff] at hres
    rcases hres with (hres | hres) | hres
    · exact State.Complains.complains_mono (List.prefix_refl _)
        (p3.trans (p4.trans (p5.trans (p6.trans p7)))) (TypeNode.type_complains ret st hres)
    · rcases VarDeclNode.formals_complains formals true _ vf formals' st4 _ _ hc3 hndF
        (fun x _ => hnew x) hF hres with h1 | h1
      · cases h1
      · exact State.Complains.complains_mono (p1.trans p3) (p5.trans (p6.trans p7)) h1
    · have hc5 : (st4.insertAt c .fn id.name (FnType.produce fts rty)).2.chain =
          st.heap.length :: c :: rest := by
        rw [State.chain_insertAt, e4.chain, hc3]
      have hlt5 : st.heap.length <
          (st4.insertAt c .fn id.name (FnType.produce fts rty)).2.heap.length :=
        lt_of_lt_of_le (lt_of_lt_of_le hlen3 e4.grows.heapLen)
          (State.grows_insertAt _ _ _ _ _).heapLen
      have hfreeB : ∀ x ∈ StmtNode.topNamesList body,
          (((st4.insertAt c .fn id.name (FnType.produce fts rty)).2.scope
            st.heap.length).lookup x) = none := by
        intro x hx
        rw [State.scope_insertAt, if_neg (fun hh => Nat.ne_of_lt hclt hh.1),
          VarDeclNode.formals_keeps formals true _ vf formals' st4 x (by rw [hc3]; simp)
            (fun hm => hdis hm hx) hF st.heap.length]
        exact hnew x
      rcases StmtNode.stmtList_complains body true _ vb body' st6 _ _ hc5 hlt5 hndB hnrB hfreeB
        hB hres with h1 | h1
      · cases h1
      · exact State.Complains.complains_mono (p1.trans (p3.trans (p4.trans p5))) p7 h1
  | .classDefn pos id members, st, d', st', c, rest, hc, hclt, hnr, hfree, h => by
    simp only [DeclNode.topName] at hfree
    have hcl : (st.scope c).clash id.name = false := ScopeTable.clash_eq_false.mpr hfree
    obtain ⟨res, m', st2, st3, hM, hL, _, _, _, _, _, _, heq⟩ :=
      DeclNode.classDefn_run pos id members st hc
    rw [heq] at h
    rw [hcl] at hM
    simp only [DeclNode.noRedecl, Bool.and_eq_true, decide_eq_true_eq] at hnr
    cases res with
    | true => simp at h
    | false =>
      simp only [Bool.false_eq_true, if_false, Option.some.injEq, Prod.mk.injEq, true_and] at h
      obtain ⟨_, rfl⟩ := h
      rcases DeclNode.declList_complains members _ _ false m' st2 _ _
        (State.chain_enterScope _) (State.cur_lt_enterScope _) hnr.1 hnr.2
        (fun x _ => State.lookup_entered_scope _ x) hM rfl with h1 | h1
      · simp at h1
      · exact State.Complains.complains_of_body hL h1
theorem DeclNode.declList_complains : ∀ (l : List DeclNode) (acc : Bool) (st : State)
    (r : Bool) (l' : List DeclNode) (st' : State) (c : ScopeId) (rest : List ScopeId),
    st.chain = c :: rest → c < st.heap.length →
    (DeclNode.topNamesList l).Nodup → DeclNode.noRedeclList l = true →
    (∀ x ∈ DeclNode.topNamesList l, (st.scope c).lookup x = none) →
    DeclNode.nameAnalysisList l acc st = some (r, l', st') → r = false →
    acc = false ∨ st.Complains st'
  | [], acc, st, r, l', st', _, _, _, _, _, _, _, h, hr => by
    simp only [DeclNode.nameAnalysisList, Option.some.injEq, Prod.mk.injEq] at h
    obtain ⟨rfl, rfl, rfl⟩ := h
    exact Or.inl hr
  | d :: tl, acc, st, r, l', st', c, rest, hc, hclt, hnd, hnr, hfree, h, hr => by
    have hne := State.ne_nil_of_chain hc
    obtain ⟨r1, d1, st1, h1, e1⟩ := DeclNode.decl_extends d st hne
    have hne1 : st1.chain ≠ [] := by rw [e1.chain]; exact hne
    obtain ⟨r2, l2, st2, h2, e2⟩ := DeclNode.declList_extends tl (r1 && acc) st1 hne1
    simp only [DeclNode.nameAnalysisList, h1, h2, Option.some.injEq, Prod.mk.injEq] at h
    obtain ⟨rfl, rfl, rfl⟩ := h
    simp only [DeclNode.topNamesList, List.nodup_cons] at hnd
    simp only [DeclNode.noRedeclList, Bool.and_eq_true] at hnr
    have hfree1 : ∀ x ∈ DeclNode.topNamesList tl, (st1.scope c).lookup x = none := by
      intro x hx
      rw [DeclNode.decl_keeps_cur d st r1 d1 st1 c rest hc hclt x (fun e => hnd.1 (e ▸ hx)) h1]
      exact hfree x (by simp [DeclNode.topNamesList, hx])
    rcases DeclNode.declList_complains tl (r1 && acc) st1 r2 l2 st2 c rest
      (e1.chain.trans hc) (lt_of_lt_of_le hclt e1.grows.heapLen) hnd.2 hnr.2 hfree1 h2 hr
      with h3 | h3
    · simp only [Bool.and_eq_false_iff] at h3
      rcases h3 with rfl | h3
      · exact Or.inr (State.Complains.complains_mono (List.prefix_refl _) e2.grows.diags
          (DeclNode.decl_complains d st d1 st1 c rest hc hclt hnr.1
            (hfree _ (by simp [DeclNode.topNamesList])) h1))
      · exact Or.inl h3
    · exact Or.inr (State.Complains.complains_mono e1.grows.diags (List.prefix_refl _) h3)
end

/-! ## Programs without redeclarations -/

/-- C2 (counterexample). The program `x : void;` declares one name once and
refers to no identifier, so it has no redeclaration and no undeclared
reference; yet `ProgramNode::nameAnalysis` returns false on it (the only
diagnostic is the `BadVariableType` of `VarDeclNode::nameAnalysis`), and the
identifier `x` carries no symbol afterwards.  What it lacks is a usable
variable type. -/
theorem ProgramNode.void_variable_counterexample :
    ProgramNode.noRedecl
        ⟨[.varDecl ⟨⟨1, 0⟩, ⟨⟨1, 0⟩, "x", none⟩, .basic ⟨1, 4⟩ .void, none⟩]⟩ = true ∧
    (∀ name : String, DeclNode.refsList name
        [.varDecl ⟨⟨1, 0⟩, ⟨⟨1, 0⟩, "x", none⟩, .basic ⟨1, 4⟩ .void, none⟩] = []) ∧
    ProgramNode.nameAnalysis
        ⟨[.varDecl ⟨⟨1, 0⟩, ⟨⟨1, 0⟩, "x", none⟩, .basic ⟨1, 4⟩ .void, none⟩]⟩ ⟨[], [], 0, []⟩ =
      some (false,
        ⟨[.varDecl ⟨⟨1, 0⟩, ⟨⟨1, 0⟩, "x", none⟩, .basic ⟨1, 4⟩ .void, none⟩]⟩,
        ⟨[[]], [], 0, [⟨.badVariableType, ⟨1, 0⟩⟩]⟩) ∧
    ProgramNode.allAttached
        ⟨[.varDecl ⟨⟨1, 0⟩, ⟨⟨1, 0⟩, "x", none⟩, .basic ⟨1, 4⟩ .void, none⟩]⟩ = false ∧
    ProgramNode.refsDeclared
        ⟨[.varDecl ⟨⟨1, 0⟩, ⟨⟨1, 0⟩, "x", none⟩, .basic ⟨1, 4⟩ .void, none⟩]⟩ = true ∧
    ProgramNode.usableTypes
        ⟨[.varDecl ⟨⟨1, 0⟩, ⟨⟨1, 0⟩, "x", none⟩, .basic ⟨1, 4⟩ .void, none⟩]⟩ = false := by
  refine ⟨by decide, fun name => rfl, rfl, by decide, by decide, by decide⟩

/-- Failure is never silent without a redeclaration: for every program with no
redeclaration and every symbol table, `ProgramNode::nameAnalysis` returns; a
true result leaves every identifier node with a symbol, and a false result
comes with an `UndeclaredIdentifier` or a `BadVariableType` diagnostic. -/
theorem ProgramNode.failure_reported (p : ProgramNode) (symTab : State)
    (hnr : p.noRedecl = true) :
    ∃ (r : Bool) (p' : ProgramNode) (st' : State),
      p.nameAnalysis symTab = some (r, p', st') ∧
      (r = true → p'.allAttached = true) ∧
      (r = false → symTab.Complains st') ∧
      (¬ symTab.Complains st' → r = true ∧ p'.allAttached = true) := by
  obtain ⟨r, l', st2, h2, e2⟩ := DeclNode.declList_extends p.myGlobals true
    (SymbolTable.enterScope symTab).2 (State.chain_ne_nil_enterScope _)
  obtain ⟨st3, hl, _⟩ := e2.leave_inner
  simp only [ProgramNode.noRedecl, Bool.and_eq_true, decide_eq_true_eq] at hnr
  have hA : r = true → ProgramNode.allAttached ⟨l'⟩ = true := fun hr =>
    (DeclNode.declList_attached p.myGlobals true _ r l' st2 _ _ (State.chain_enterScope _)
      (State.cur_lt_enterScope _) h2 hr).1
  have hC : r = false → symTab.Complains st3 := by
    intro hr
    rcases DeclNode.declList_complains p.myGlobals true _ r l' st2 _ _
      (State.chain_enterScope _) (State.cur_lt_enterScope _) hnr.1 hnr.2
      (fun x _ => State.lookup_entered_scope _ x) h2 hr with h1 | h1
    · cases h1
    · exact State.Complains.complains_of_body hl h1
  refine ⟨r, ⟨l'⟩, st3, by simp only [ProgramNode.nameAnalysis, h2, hl], hA, hC, ?_⟩
  intro hn
  cases r with
  | true => exact ⟨rfl, hA rfl⟩
  | false => exact absurd (hC rfl) hn

/-! ## Redeclaration of a class -/

/-- C11 (failing input). The program `A : class { a : int; }; A : class { b : int; };`
on the empty symbol table: the second declaration finds `A` bound in the global
scope and fails, the program's resolution returns false, the second class
identifier gets no symbol, and no diagnostic at all is reported: the
`MultipleDeclaration` that `VarDeclNode::nameAnalysis` and
`FnDeclNode::nameAnalysis` report for a clashing name is missing in
`ClassDefnNode::nameAnalysis`. -/
theorem ProgramNode.class_redeclaration_silent :
    ProgramNode.nameAnalysis
        ⟨[.classDefn ⟨1, 0⟩ ⟨⟨1, 0⟩, "A", none⟩
            [.varDecl ⟨⟨2, 2⟩, ⟨⟨2, 2⟩, "a", none⟩, .basic ⟨2, 6⟩ .int, none⟩],
          .classDefn ⟨4, 0⟩ ⟨⟨4, 0⟩, "A", none⟩
            [.varDecl ⟨⟨5, 2⟩, ⟨⟨5, 2⟩, "b", none⟩, .basic ⟨5, 6⟩ .int, none⟩]]⟩
        ⟨[], [], 0, []⟩ =
      some (false,
        ⟨[.classDefn ⟨1, 0⟩ ⟨⟨1, 0⟩, "A", some ⟨1, .agg, "A", .cls 1⟩⟩
            [.varDecl ⟨⟨2, 2⟩, ⟨⟨2, 2⟩, "a", some ⟨0, .var, "a", .primitive .int⟩⟩,
              .basic ⟨2, 6⟩ .int, none⟩],
          .classDefn ⟨4, 0⟩ ⟨⟨4, 0⟩, "A", none⟩
            [.varDecl ⟨⟨5, 2⟩, ⟨⟨5, 2⟩, "b", some ⟨2, .var, "b", .primitive .int⟩⟩,
              .basic ⟨5, 6⟩ .int, none⟩]]⟩,
        ⟨[[⟨1, .agg, "A", .cls 1⟩], [⟨0, .var, "a", .primitive .int⟩],
          [⟨2, .var, "b", .primitive .int⟩]], [], 3, []⟩) ∧
    (VarDeclNode.nameAnalysis ⟨⟨4, 0⟩, ⟨⟨4, 0⟩, "A", none⟩, .basic ⟨4, 4⟩ .int, none⟩
        ⟨[[⟨1, .agg, "A", .cls 1⟩], [⟨0, .var, "a", .primitive .int⟩]], [0], 2, []⟩).map
        (fun res => (res.1, res.2.2.diags)) =
      some (false, [⟨.multipleDeclaration, ⟨4, 0⟩⟩]) := by
  refine ⟨rfl, rfl⟩

/-! ## Class-type annotations -/

/-- A successful search stops at the innermost scope that binds the name. -/
theorem State.findIn_some (st : State) (name : String) (s : SemSymbol) :
    ∀ (l : List ScopeId), st.findIn l name = some s →
      ∃ (pre : List ScopeId) (id : ScopeId) (post : List ScopeId),
        l = pre ++ id :: post ∧ (∀ j ∈ pre, (st.scope j).lookup name = none) ∧
        (st.scope id).lookup name = some s
  | [], h => by simp [State.findIn] at h
  | j :: rest, h => by
    cases hj : (st.scope j).lookup name with
    | some s1 =>
      simp only [State.findIn, hj, Option.some.injEq] at h
      subst h
      exact ⟨[], j, rest, rfl, by simp, hj⟩
    | none =>
      simp only [State.findIn, hj] at h
      obtain ⟨pre, id, post, hl, hpre, hs⟩ := State.findIn_some st name s rest h
      refine ⟨j :: pre, id, post, by rw [hl]; rfl, ?_, hs⟩
      intro k hk
      rcases List.mem_cons.mp hk with rfl | hk
      · exact hj
      · exact hpre k hk

/-- C13. `ClassTypeNode::nameAnalysis` succeeds exactly when the name of the
annotation is bound in an open scope and its innermost binding is of aggregate
kind.  With `id` the innermost open scope that binds the name, to `s`: if `s`
is an aggregate, the node's type becomes the type of `s`, `s` is attached to
the identifier, nothing is reported and the result is true; if `s` is a
variable or a function, whatever the scopes outside `id` bind, and likewise if
no open scope binds the name, `BadVariableType` is reported at the position of
the annotation, the node's type becomes the error type, the identifier is left
as it was and the result is false. -/
theorem TypeNode.nameAnalysis_classType (pos : Position) (myID : IDNode)
    (myType : Option DataType) (st : State) :
    ((TypeNode.nameAnalysis (.cls pos myID myType) st).1 = true ↔
      ∃ (pre : List ScopeId) (id : ScopeId) (post : List ScopeId) (s : SemSymbol),
        st.chain = pre ++ id :: post ∧ (∀ j ∈ pre, (st.scope j).lookup myID.name = none) ∧
        (st.scope id).lookup myID.name = some s ∧ s.kind = .agg) ∧
    (∀ (pre : List ScopeId) (id : ScopeId) (post : List ScopeId) (s : SemSymbol),
      st.chain = pre ++ id :: post → (∀ j ∈ pre, (st.scope j).lookup myID.name = none) →
      (st.scope id).lookup myID.name = some s →
      (s.kind = .agg →
        TypeNode.nameAnalysis (.cls pos myID myType) st =
          (true, .cls pos { myID with mySymbol := some s } (some s.type), st)) ∧
      (s.kind ≠ .agg →
        TypeNode.nameAnalysis (.cls pos myID myType) st =
          (false, .cls pos myID (some ErrorType.produce),
            st.withDiag .badVariableType pos))) ∧
    ((∀ id ∈ st.chain, (st.scope id).lookup myID.name = none) →
      TypeNode.nameAnalysis (.cls pos myID myType) st =
        (false, .cls pos myID (some ErrorType.produce), st.withDiag .badVariableType pos)) := by
  have hsome : ∀ (pre : List ScopeId) (id : ScopeId) (post : List ScopeId) (s : SemSymbol),
      st.chain = pre ++ id :: post → (∀ j ∈ pre, (st.scope j).lookup myID.name = none) →
      (st.scope id).lookup myID.name = some s → SymbolTable.find st myID.name = some s := by
    intro pre id post s hc hpre hs
    unfold SymbolTable.find
    rw [hc]
    exact State.findIn_innermost st myID.name s pre id post hpre hs
  refine ⟨⟨?_, ?_⟩, ?_, ?_⟩
  · intro h
    cases hf : SymbolTable.find st myID.name with
    | none => simp [TypeNode.nameAnalysis, hf] at h
    | some s =>
      obtain ⟨pre, id, post, hc, hpre, hs⟩ := State.findIn_some st myID.name s st.chain hf
      refine ⟨pre, id, post, s, hc, hpre, hs, ?_⟩
      by_contra hk
      simp [TypeNode.nameAnalysis, hf, hk] at h
  · rintro ⟨pre, id, post, s, hc, hpre, hs, hk⟩
    simp [TypeNode.nameAnalysis, hsome pre id post s hc hpre hs, hk]
  · intro pre id post s hc hpre hs
    have hf := hsome pre id post s hc hpre hs
    constructor
    · intro hk
      simp [TypeNode.nameAnalysis, hf, hk, IDNode.attachSymbol]
    · intro hk
      simp [TypeNode.nameAnalysis, hf, hk, NameErr.badVarType, State.report, State.withDiag]
  · intro h
    have hf : SymbolTable.find st myID.name = none :=
      (State.findIn_eq_none st myID.name st.chain).mpr h
    simp [TypeNode.nameAnalysis, hf, NameErr.badVarType, State.report, State.withDiag]

/-- C13 on a concrete input: the inner scope binds `A` to a variable, the outer
one binds `A` and `B` to classes; the annotation `A` fails although a class `A`
is visible further out, the annotation `B` succeeds. -/
theorem TypeNode.nameAnalysis_classType_witness :
    TypeNode.nameAnalysis (.cls ⟨1, 4⟩ ⟨⟨1, 4⟩, "A", none⟩ none)
        ⟨[[⟨0, .agg, "A", .cls 2⟩, ⟨1, .agg, "B", .cls 3⟩], [⟨2, .var, "A", .primitive .int⟩],
          [], []], [1, 0], 3, []⟩ =
      (false, .cls ⟨1, 4⟩ ⟨⟨1, 4⟩, "A", none⟩ (some ErrorType.produce),
        State.withDiag ⟨[[⟨0, .agg, "A", .cls 2⟩, ⟨1, .agg, "B", .cls 3⟩],
          [⟨2, .var, "A", .primitive .int⟩], [], []], [1, 0], 3, []⟩ .badVariableType ⟨1, 4⟩) ∧
    TypeNode.nameAnalysis (.cls ⟨1, 4⟩ ⟨⟨1, 4⟩, "B", none⟩ none)
        ⟨[[⟨0, .agg, "A", .cls 2⟩, ⟨1, .agg, "B", .cls 3⟩], [⟨2, .var, "A", .primitive .int⟩],
          [], []], [1, 0], 3, []⟩ =
      (true, .cls ⟨1, 4⟩ ⟨⟨1, 4⟩, "B", some ⟨1, .agg, "B", .cls 3⟩⟩ (some (.cls 3)),
        ⟨[[⟨0, .agg, "A", .cls 2⟩, ⟨1, .agg, "B", .cls 3⟩], [⟨2, .var, "A", .primitive .int⟩],
          [], []], [1, 0], 3, []⟩) :=
  ⟨((TypeNode.nameAnalysis_classType ⟨1, 4⟩ ⟨⟨1, 4⟩, "A", none⟩ none
      ⟨[[⟨0, .agg, "A", .cls 2⟩, ⟨1, .agg, "B", .cls 3⟩], [⟨2, .var, "A", .primitive .int⟩],
        [], []], [1, 0], 3, []⟩).2.1 [] 1 [0] ⟨2, .var, "A", .primitive .int⟩ rfl
      (by simp) (by decide)).2 (by decide),
   ((TypeNode.nameAnalysis_classType ⟨1, 4⟩ ⟨⟨1, 4⟩, "B", none⟩ none
      ⟨[[⟨0, .agg, "A", .cls 2⟩, ⟨1, .agg, "B", .cls 3⟩], [⟨2, .var, "A", .primitive .int⟩],
        [], []], [1, 0], 3, []⟩).2.1 [1] 0 [] ⟨1, .agg, "B", .cls 3⟩ rfl
      (by decide) (by decide)).1 rfl⟩

/-! ## Variable declarations with a bad type -/

theorem VarDeclNode.validType_eq_false {d : VarDeclNode} {st : State}
    (hbad : (d.myType.nameAnalysis st).1 = false ∨
      ∃ t, (d.myType.nameAnalysis st).2.1.getType = some t ∧ t.validVarType = false) :
    d.validType st = false := by
  unfold VarDeclNode.validType
  rcases hbad with h | ⟨t, ht, hv⟩
  · simp [h]
  · simp [ht, hv]

/-- A variable declaration that fails: nothing is inserted and nothing is
attached. -/
theorem VarDeclNode.varDecl_failed (d : VarDeclNode) (st : State) {c : ScopeId}
    {rest : List ScopeId} (hc : st.chain = c :: rest)
    (h : (d.validType st && !(st.scope c).clash d.myID.name &&
      (d.initAnalysis (d.myType.nameAnalysis st).2.2).1) = false) :
    d.nameAnalysis st =
      some (false,
        { d with
          myType := (d.myType.nameAnalysis st).2.1
          myInit := (d.initAnalysis (d.myType.nameAnalysis st).2.2).2.1 },
        d.decisionState st ((st.scope c).clash d.myID.name)) := by
  obtain ⟨ty, _, heq⟩ := d.nameAnalysis_eq st hc
  rw [heq, h]
  simp

/-- C12. A variable declaration whose type node failed to resolve, or whose
type is not a usable variable type (`void`), resolved in a state with current
scope `c`: `VarDeclNode::nameAnalysis` returns false; after the diagnostics of
the type node and of the initializer it reports `BadVariableType` at the
position of the declared identifier (followed by `MultipleDeclaration` if the
name also clashes); the identifier gets no symbol and no scope table changes,
no symbol being allocated.  An initializer is resolved all the same: the
declaration carries the resolved initializer, and the diagnostics of the
initializer are among those reported. -/
theorem VarDeclNode.nameAnalysis_badType (d : VarDeclNode) (st : State) (c : ScopeId)
    (rest : List ScopeId) (hc : st.chain = c :: rest)
    (hbad : (d.myType.nameAnalysis st).1 = false ∨
      ∃ t, (d.myType.nameAnalysis st).2.1.getType = some t ∧ t.validVarType = false) :
    ∃ d' st',
      d.nameAnalysis st = some (false, d', st') ∧
      st'.diags = (d.initAnalysis (d.myType.nameAnalysis st).2.2).2.2.diags ++
        (⟨.badVariableType, d.myID.pos⟩ ::
          (if (st.scope c).clash d.myID.name then [⟨.multipleDeclaration, d.myID.pos⟩]
           else [])) ∧
      (⟨.badVariableType, d.myID.pos⟩ : Diag) ∈ st.newDiags st' ∧
      d'.myID = d.myID ∧ st'.heap = st.heap ∧ st'.chain = st.chain ∧
      st'.nextSym = st.nextSym ∧
      (∀ e, d.myInit = some e →
        d'.myInit = some (e.nameAnalysis (d.myType.nameAnalysis st).2.2).2.1 ∧
        (e.nameAnalysis (d.myType.nameAnalysis st).2.2).2.2.diags <+: st'.diags ∧
        (d.myType.nameAnalysis st).2.2.newDiags
            (e.nameAnalysis (d.myType.nameAnalysis st).2.2).2.2 ⊆ st.newDiags st') := by
  have hv := VarDeclNode.validType_eq_false hbad
  have hs := d.decisionState_sameTables st ((st.scope c).clash d.myID.name)
  have hT := TypeNode.type_sameTables d.myType st
  have hI := d.initAnalysis_sameTables (d.myType.nameAnalysis st).2.2
  have hd : (d.decisionState st ((st.scope c).clash d.myID.name)).diags =
      (d.initAnalysis (d.myType.nameAnalysis st).2.2).2.2.diags ++
        (⟨.badVariableType, d.myID.pos⟩ ::
          (if (st.scope c).clash d.myID.name then [⟨.multipleDeclaration, d.myID.pos⟩]
           else [])) := by
    simp [VarDeclNode.decisionState, VarDeclNode.ownDiags, hv]
  refine ⟨_, _, d.varDecl_failed st hc (by simp [hv]), hd, ?_, rfl, hs.heap, hs.chain,
    hs.nextSym, ?_⟩
  · have hp : st.diags <+: (d.initAnalysis (d.myType.nameAnalysis st).2.2).2.2.diags :=
      hT.diags.trans hI.diags
    apply State.newDiags_suffix (a := st)
      (b := (d.initAnalysis (d.myType.nameAnalysis st).2.2).2.2) _ hp
    simp [State.newDiags, hd]
  · intro e he
    have h1 : (d.initAnalysis (d.myType.nameAnalysis st).2.2) =
        ((e.nameAnalysis (d.myType.nameAnalysis st).2.2).1,
          some (e.nameAnalysis (d.myType.nameAnalysis st).2.2).2.1,
          (e.nameAnalysis (d.myType.nameAnalysis st).2.2).2.2) := by
      simp [VarDeclNode.initAnalysis, he]
    have hpre : (e.nameAnalysis (d.myType.nameAnalysis st).2.2).2.2.diags <+:
        (d.decisionState st ((st.scope c).clash d.myID.name)).diags := by
      rw [hd, h1]
      exact List.prefix_append _ _
    refine ⟨by simp [h1], hpre, ?_⟩
    exact fun x hx => State.newDiags_suffix _ hT.diags (State.newDiags_mono _ hpre hx)

/-- C12 on two concrete inputs: `x : void = y;` with `y` undeclared, and
`v : B;` with `B` no class. -/
theorem VarDeclNode.nameAnalysis_badType_witness :
    (∃ d' st',
      VarDeclNode.nameAnalysis
          ⟨⟨1, 0⟩, ⟨⟨1, 0⟩, "x", none⟩, .basic ⟨1, 4⟩ .void, some (.loc (.id ⟨⟨1, 11⟩, "y", none⟩))⟩
          ⟨[[]], [0], 0, []⟩ = some (false, d', st') ∧
      st'.diags = [⟨.undeclaredIdentifier, ⟨1, 11⟩⟩, ⟨.badVariableType, ⟨1, 0⟩⟩] ∧
      st'.heap = [[]]) ∧
    (∃ d' st',
      VarDeclNode.nameAnalysis
          ⟨⟨2, 0⟩, ⟨⟨2, 0⟩, "v", none⟩, .cls ⟨2, 4⟩ ⟨⟨2, 4⟩, "B", none⟩ none, none⟩
          ⟨[[]], [0], 0, []⟩ = some (false, d', st') ∧
      (⟨.badVariableType, ⟨2, 0⟩⟩ : Diag) ∈ State.newDiags ⟨[[]], [0], 0, []⟩ st' ∧
      st'.heap = [[]]) := by
  constructor
  · obtain ⟨d', st', h, hd, _, _, hh, _⟩ := VarDeclNode.nameAnalysis_badType
      ⟨⟨1, 0⟩, ⟨⟨1, 0⟩, "x", none⟩, .basic ⟨1, 4⟩ .void, some (.loc (.id ⟨⟨1, 11⟩, "y", none⟩))⟩
      ⟨[[]], [0], 0, []⟩ 0 [] rfl (Or.inr ⟨.primitive .void, rfl, rfl⟩)
    exact ⟨d', st', h, hd, hh⟩
  · obtain ⟨d', st', h, _, hm, _, hh, _⟩ := VarDeclNode.nameAnalysis_badType
      ⟨⟨2, 0⟩, ⟨⟨2, 0⟩, "v", none⟩, .cls ⟨2, 4⟩ ⟨⟨2, 4⟩, "B", none⟩ none, none⟩
      ⟨[[]], [0], 0, []⟩ 0 [] rfl (Or.inl rfl)
    exact ⟨d', st', h, hm, hh⟩

/-! ## The error type of a failed annotation -/

/-- A type node that fails reports one `BadVariableType`, at the position `p`
of its class-type annotation, and carries the error type. -/
theorem TypeNode.type_failed : ∀ (t : TypeNode) (st : State),
    (t.nameAnalysis st).1 = false →
    ∃ p, (t.nameAnalysis st).2.2 = st.withDiag .badVariableType p ∧
      (t.nameAnalysis st).2.1.getType = some ErrorType.produce ∧
      ∀ (pos : Position) (id : IDNode) (ty : Option DataType), t = .cls pos id ty → p = pos
  | .basic pos b, st, h => by simp [TypeNode.nameAnalysis] at h
  | .perfect pos sub, st, h => by
    simp only [TypeNode.nameAnalysis] at h ⊢
    obtain ⟨p, h1, h2, _⟩ := TypeNode.type_failed sub st h
    exact ⟨p, h1, by simpa [TypeNode.getType] using h2, fun _ _ _ hh => by cases hh⟩
  | .cls pos id ty, st, h => by
    refine ⟨pos, ?_, ?_, fun _ _ _ hh => by cases hh; rfl⟩
    · simp only [TypeNode.nameAnalysis] at h ⊢
      split
      · simp [NameErr.badVarType, State.report, State.withDiag]
      · split
        · simp [NameErr.badVarType, State.report, State.withDiag]
        · simp_all
    · simp only [TypeNode.nameAnalysis] at h ⊢
      split
      · rfl
      · split
        · rfl
        · simp_all

/-- C17 as stated fails: for `v : B;` with `B` unbound, the type node reports
`BadVariableType` at its own position and `VarDeclNode::nameAnalysis` reports
it once more, at the position of `v`: two `BadVariableType` diagnostics are
emitted for the one declaration. -/
theorem VarDeclNode.failed_annotation_counterexample :
    TypeNode.nameAnalysis (.cls ⟨2, 4⟩ ⟨⟨2, 4⟩, "B", none⟩ none) ⟨[[]], [0], 0, []⟩ =
      (false, .cls ⟨2, 4⟩ ⟨⟨2, 4⟩, "B", none⟩ (some ErrorType.produce),
        ⟨[[]], [0], 0, [⟨.badVariableType, ⟨2, 4⟩⟩]⟩) ∧
    VarDeclNode.nameAnalysis
        ⟨⟨2, 0⟩, ⟨⟨2, 0⟩, "v", none⟩, .cls ⟨2, 4⟩ ⟨⟨2, 4⟩, "B", none⟩ none, none⟩
        ⟨[[]], [0], 0, []⟩ =
      some (false,
        ⟨⟨2, 0⟩, ⟨⟨2, 0⟩, "v", none⟩,
          .cls ⟨2, 4⟩ ⟨⟨2, 4⟩, "B", none⟩ (some ErrorType.produce), none⟩,
        ⟨[[]], [0], 0, [⟨.badVariableType, ⟨2, 4⟩⟩, ⟨.badVariableType, ⟨2, 0⟩⟩]⟩) ∧
    (State.diagsOf ⟨[[]], [0], 0, [⟨.badVariableType, ⟨2, 4⟩⟩, ⟨.badVariableType, ⟨2, 0⟩⟩]⟩
      .badVariableType).length = 2 := by
  refine ⟨by decide, rfl, by decide⟩

/-- C17, amended. A variable declaration whose type annotation fails to
resolve, in a state with current scope `c`: the type node reports
`BadVariableType` at the position `p` of the annotation and carries the error
type; `VarDeclNode::nameAnalysis` returns false and, after the diagnostics of
the initializer, reports `BadVariableType` again, at the position of the
declared identifier.  Without an initializer the `BadVariableType` diagnostics
of the declaration are exactly these two. -/
theorem VarDeclNode.nameAnalysis_failedAnnotation (d : VarDeclNode) (st : State) (c : ScopeId)
    (rest : List ScopeId) (hc : st.chain = c :: rest)
    (hfail : (d.myType.nameAnalysis st).1 = false) :
    ∃ (p : Position) (d' : VarDeclNode) (st' : State),
      (d.myType.nameAnalysis st).2.2 = st.withDiag .badVariableType p ∧
      (∀ (pos : Position) (id : IDNode) (ty : Option DataType),
        d.myType = .cls pos id ty → p = pos) ∧
      d.nameAnalysis st = some (false, d', st') ∧
      d'.myType.getType = some ErrorType.produce ∧
      (st.diags ++ [⟨.badVariableType, p⟩] <+:
        (d.initAnalysis (d.myType.nameAnalysis st).2.2).2.2.diags) ∧
      st'.diags = (d.initAnalysis (d.myType.nameAnalysis st).2.2).2.2.diags ++
        (⟨.badVariableType, d.myID.pos⟩ ::
          (if (st.scope c).clash d.myID.name then [⟨.multipleDeclaration, d.myID.pos⟩]
           else [])) ∧
      (d.myInit = none →
        (st.newDiags st').filter (fun dg => dg.kind = .badVariableType) =
          [⟨.badVariableType, p⟩, ⟨.badVariableType, d.myID.pos⟩]) := by
  obtain ⟨p, hp, hty, hpos⟩ := TypeNode.type_failed d.myType st hfail
  have hv : d.validType st = false := VarDeclNode.validType_eq_false (Or.inl hfail)
  have hI := d.initAnalysis_sameTables (d.myType.nameAnalysis st).2.2
  have hd : (d.decisionState st ((st.scope c).clash d.myID.name)).diags =
      (d.initAnalysis (d.myType.nameAnalysis st).2.2).2.2.diags ++
        (⟨.badVariableType, d.myID.pos⟩ ::
          (if (st.scope c).clash d.myID.name then [⟨.multipleDeclaration, d.myID.pos⟩]
           else [])) := by
    simp [VarDeclNode.decisionState, VarDeclNode.ownDiags, hv]
  refine ⟨p, _, _, hp, hpos, d.varDecl_failed st hc (by simp [hv]), hty, ?_, hd, ?_⟩
  · have h3 : (d.myType.nameAnalysis st).2.2.diags = st.diags ++ [⟨.badVariableType, p⟩] := by
      rw [hp]; rfl
    rw [← h3]
    exact hI.diags
  · intro hnone
    have h2 : (d.initAnalysis (d.myType.nameAnalysis st).2.2).2.2 =
        st.withDiag .badVariableType p := by
      simp [VarDeclNode.initAnalysis, hnone, hp]
    rw [h2] at hd
    simp only [State.newDiags, hd, State.withDiag, List.append_assoc, List.drop_left]
    split <;> simp

/-- C17, amended, on the concrete input `v : B;` with `B` unbound. -/
theorem VarDeclNode.nameAnalysis_failedAnnotation_witness :
    ∃ (p : Position) (d' : VarDeclNode) (st' : State),
      p = ⟨2, 4⟩ ∧
      VarDeclNode.nameAnalysis
          ⟨⟨2, 0⟩, ⟨⟨2, 0⟩, "v", none⟩, .cls ⟨2, 4⟩ ⟨⟨2, 4⟩, "B", none⟩ none, none⟩
          ⟨[[]], [0], 0, []⟩ = some (false, d', st') ∧
      (State.newDiags ⟨[[]], [0], 0, []⟩ st').filter (fun dg => dg.kind = .badVariableType) =
        [⟨.badVariableType, p⟩, ⟨.badVariableType, ⟨2, 0⟩⟩] := by
  obtain ⟨p, d', st', _, hpos, h, _, _, _, hn⟩ := VarDeclNode.nameAnalysis_failedAnnotation
    ⟨⟨2, 0⟩, ⟨⟨2, 0⟩, "v", none⟩, .cls ⟨2, 4⟩ ⟨⟨2, 4⟩, "B", none⟩ none, none⟩
    ⟨[[]], [0], 0, []⟩ 0 [] rfl rfl
  exact ⟨p, d', st', hpos _ _ _ rfl, h, hn rfl⟩

/-! ## When a variable declaration succeeds -/

/-- C19 as stated fails in its last clause: with `x` bound only in the
enclosing scope, the declaration `x : int = y;` (`y` undeclared) has a usable
type and a name that does not clash in the current scope, its initializer
fails and it inserts nothing; yet a later reference to `x` is not reported: it
resolves to the symbol of the enclosing scope. -/
theorem VarDeclNode.failed_initializer_counterexample :
    VarDeclNode.validType
        ⟨⟨1, 0⟩, ⟨⟨1, 0⟩, "x", none⟩, .basic ⟨1, 4⟩ .int, some (.loc (.id ⟨⟨1, 10⟩, "y", none⟩))⟩
        ⟨[[⟨0, .var, "x", .primitive .bool⟩], []], [1, 0], 1, []⟩ = true ∧
    (State.scope ⟨[[⟨0, .var, "x", .primitive .bool⟩], []], [1, 0], 1, []⟩ 1).clash "x" = false ∧
    VarDeclNode.nameAnalysis
        ⟨⟨1, 0⟩, ⟨⟨1, 0⟩, "x", none⟩, .basic ⟨1, 4⟩ .int, some (.loc (.id ⟨⟨1, 10⟩, "y", none⟩))⟩
        ⟨[[⟨0, .var, "x", .primitive .bool⟩], []], [1, 0], 1, []⟩ =
      some (false,
        ⟨⟨1, 0⟩, ⟨⟨1, 0⟩, "x", none⟩, .basic ⟨1, 4⟩ .int,
          some (.loc (.id ⟨⟨1, 10⟩, "y", none⟩))⟩,
        ⟨[[⟨0, .var, "x", .primitive .bool⟩], []], [1, 0], 1,
          [⟨.undeclaredIdentifier, ⟨1, 10⟩⟩]⟩) ∧
    IDNode.nameAnalysis ⟨⟨2, 0⟩, "x", none⟩
        ⟨[[⟨0, .var, "x", .primitive .bool⟩], []], [1, 0], 1,
          [⟨.undeclaredIdentifier, ⟨1, 10⟩⟩]⟩ =
      (true, ⟨⟨2, 0⟩, "x", some ⟨0, .var, "x", .primitive .bool⟩⟩,
        ⟨[[⟨0, .var, "x", .primitive .bool⟩], []], [1, 0], 1,
          [⟨.undeclaredIdentifier, ⟨1, 10⟩⟩]⟩) := by
  refine ⟨by decide, by decide, rfl, by decide⟩

/-- C19, amended. `VarDeclNode::nameAnalysis` in a state whose current scope
`c` is an allocated scope table.  The declaration returns; it returns true
exactly when the type is a usable variable type, the name does not clash in `c`
and the initializer (if any) resolves; and it returns true exactly when it puts
a new variable symbol of the declared type in front of the scope table `c` and
attaches it to the declared identifier.  When it returns false no scope table
changes, no symbol is allocated, the identifier is as it was, and every name is
found exactly where it was found before the declaration.  In particular, with
a usable type, a name that no open scope binds and an initializer that fails,
it returns false without inserting anything, and any reference to the name
resolved in the state it leaves is reported as an undeclared identifier. -/
theorem VarDeclNode.nameAnalysis_iff (d : VarDeclNode) (st : State) (c : ScopeId)
    (rest : List ScopeId) (hc : st.chain = c :: rest) (hclt : c < st.heap.length) :
    ∃ (r : Bool) (d' : VarDeclNode) (st' : State),
      d.nameAnalysis st = some (r, d', st') ∧
      (r = true ↔
        (d.validType st = true ∧ (st.scope c).clash d.myID.name = false ∧
          (d.initAnalysis (d.myType.nameAnalysis st).2.2).1 = true)) ∧
      (r = true ↔
        ∃ sym : SemSymbol, sym.kind = .var ∧ sym.name = d.myID.name ∧
          (d.myType.nameAnalysis st).2.1.getType = some sym.type ∧
          st'.scope c = sym :: st.scope c ∧ d'.myID.mySymbol = some sym) ∧
      (r = false → st'.heap = st.heap ∧ st'.nextSym = st.nextSym ∧ d'.myID = d.myID) ∧
      (d.validType st = true → SymbolTable.find st d.myID.name = none →
        (d.initAnalysis (d.myType.nameAnalysis st).2.2).1 = false →
        r = false ∧ st'.heap = st.heap ∧
        ∀ n : IDNode, n.name = d.myID.name →
          n.nameAnalysis st' = (false, n, st'.withDiag .undeclaredIdentifier n.pos)) ∧
      (r = false → ∀ y, SymbolTable.find st' y = SymbolTable.find st y) := by
  obtain ⟨ty, hty, heq⟩ := d.nameAnalysis_eq st hc
  cases hcond : (d.validType st && !(st.scope c).clash d.myID.name &&
      (d.initAnalysis (d.myType.nameAnalysis st).2.2).1) with
  | true =>
    simp only [Bool.and_eq_true, Bool.not_eq_true'] at hcond
    obtain ⟨⟨htype, hcl⟩, hinit⟩ := hcond
    have hs := d.decisionState_sameTables st false
    have hsc : ((d.decisionState st false).insertAt c .var d.myID.name ty).2.scope c =
        ⟨st.nextSym, .var, d.myID.name, ty⟩ :: st.scope c := by
      rw [State.scope_insertAt, if_pos ⟨rfl, by rw [hs.heap]; exact hclt⟩, hs.scope, hs.nextSym]
      simp [ScopeTable.insert, hcl]
    have hfind : SymbolTable.find ((d.decisionState st false).insertAt c .var d.myID.name ty).2
        d.myID.name = some ⟨st.nextSym, .var, d.myID.name, ty⟩ := by
      simp [SymbolTable.find, State.chain_insertAt, hs.chain, hc, State.findIn, hsc,
        ScopeTable.lookup]
    refine ⟨true,
      { d with
        myID := d.myID.attachSymbol (SymbolTable.find
          ((d.decisionState st false).insertAt c .var d.myID.name ty).2 d.myID.name)
        myType := (d.myType.nameAnalysis st).2.1
        myInit := (d.initAnalysis (d.myType.nameAnalysis st).2.2).2.1 },
      ((d.decisionState st false).insertAt c .var d.myID.name ty).2,
      by rw [heq]; simp [htype, hcl, hinit], ?_, ?_, ?_, ?_, ?_⟩
    · simp [htype, hcl, hinit]
    · simp only [true_iff]
      exact ⟨⟨st.nextSym, .var, d.myID.name, ty⟩, rfl, rfl, hty, hsc,
        by simp [IDNode.attachSymbol, hfind]⟩
    · intro h; cases h
    · intro _ _ hi
      rw [hinit] at hi
      cases hi
    · intro h; cases h
  | false =>
    have hs := d.decisionState_sameTables st ((st.scope c).clash d.myID.name)
    refine ⟨false, _, _, d.varDecl_failed st hc hcond, ?_, ?_, ?_, ?_, fun _ y => hs.find y⟩
    · simp only [Bool.false_eq_true, false_iff]
      rintro ⟨h1, h2, h3⟩
      simp [h1, h2, h3] at hcond
    · simp only [Bool.false_eq_true, false_iff]
      rintro ⟨sym, _, _, _, hsc, _⟩
      rw [hs.scope] at hsc
      exact List.cons_ne_self _ _ hsc.symm
    · intro _
      exact ⟨hs.heap, hs.nextSym, rfl⟩
    · intro _ hfree _
      refine ⟨rfl, hs.heap, fun n hn => IDNode.nameAnalysis_unbound ?_⟩
      rw [hn, hs.find]
      exact hfree

/-- C19, amended, on a concrete input: `x : int = y;` with `y` undeclared and
`x` bound nowhere. -/
theorem VarDeclNode.nameAnalysis_iff_witness :
    ∃ (d' : VarDeclNode) (st' : State),
      VarDeclNode.nameAnalysis
          ⟨⟨1, 0⟩, ⟨⟨1, 0⟩, "x", none⟩, .basic ⟨1, 4⟩ .int, some (.loc (.id ⟨⟨1, 10⟩, "y", none⟩))⟩
          ⟨[[]], [0], 0, []⟩ = some (false, d', st') ∧
      st'.heap = [[]] ∧
      IDNode.nameAnalysis ⟨⟨2, 0⟩, "x", none⟩ st' =
        (false, ⟨⟨2, 0⟩, "x", none⟩, st'.withDiag .undeclaredIdentifier ⟨2, 0⟩) := by
  obtain ⟨r, d', st', h, _, _, _, hp, _⟩ := VarDeclNode.nameAnalysis_iff
    ⟨⟨1, 0⟩, ⟨⟨1, 0⟩, "x", none⟩, .basic ⟨1, 4⟩ .int, some (.loc (.id ⟨⟨1, 10⟩, "y", none⟩))⟩
    ⟨[[]], [0], 0, []⟩ 0 [] rfl (by decide)
  obtain ⟨rfl, hh, hn⟩ := hp (by decide) (by decide) (by decide)
  exact ⟨d', st', h, hh, hn _ rfl⟩

/-! ## Stack discipline of every node -/

/-- With no open scope a variable declaration is an internal error: there is
no current scope to test the name against. -/
theorem VarDeclNode.varDecl_of_nil (d : VarDeclNode) (st : State) (h : st.chain = []) :
    d.nameAnalysis st = none := by
  have hT := TypeNode.type_sameTables d.myType st
  have hI := d.initAnalysis_sameTables (d.myType.nameAnalysis st).2.2
  have hch : (d.initAnalysis (d.myType.nameAnalysis st).2.2).2.2.chain = [] := by
    rw [hI.chain, hT.chain, h]
  have key : ∀ (s : State), s.chain = [] → SymbolTable.clash s d.myID.name = none := by
    intro s hs
    simp [SymbolTable.clash, SymbolTable.getCurrentScope, hs]
  unfold VarDeclNode.initAnalysis at hch
  unfold VarDeclNode.nameAnalysis
  simp only
  split
  · rfl
  · rw [key]
    cases hm : d.myInit with
    | none =>
      simp only [hm] at hch ⊢
      split_ifs <;> simp [NameErr.badVarType, State.report, hch]
    | some e =>
      simp only [hm] at hch ⊢
      split_ifs <;> simp [NameErr.badVarType, State.report, hch]

/-- With no open scope a declaration is an internal error, raised before any
scope is entered. -/
theorem DeclNode.decl_of_nil (d : DeclNode) (st : State) (h : st.chain = []) :
    d.nameAnalysis st = none := by
  cases d with
  | varDecl d => simp [DeclNode.nameAnalysis, d.varDecl_of_nil st h]
  | fnDecl pos id ret formals body =>
    have hr := TypeNode.type_sameTables ret st
    simp [DeclNode.nameAnalysis, SymbolTable.getCurrentScope, hr.chain, h]
  | classDefn pos id members =>
    simp [DeclNode.nameAnalysis, SymbolTable.clash, SymbolTable.getCurrentScope, h]

theorem DeclNode.decl_extends_of_some (d : DeclNode) (st : State) (r : Bool) (d' : DeclNode)
    (st' : State) (h : d.nameAnalysis st = some (r, d', st')) : st.chain ≠ [] ∧ st.Extends st' := by
  have hne : st.chain ≠ [] := by
    intro hn
    rw [d.decl_of_nil st hn] at h
    cases h
  obtain ⟨r1, d1, st1, h1, e1⟩ := DeclNode.decl_extends d st hne
  rw [h1] at h
  cases h
  exact ⟨hne, e1⟩

/-- A statement that is not a declaration is resolved without internal error
on every state, an empty scope stack included. -/
theorem StmtNode.nameAnalysis_total (s : StmtNode) (st : State)
    (h : st.chain ≠ [] ∨ ∀ d, s ≠ .decl d) :
    ∃ r s' st', s.nameAnalysis st = some (r, s', st') ∧ st.Extends st' := by
  by_cases hne : st.chain ≠ []
  · exact StmtNode.stmt_extends s st hne
  · have hnd : ∀ d, s ≠ .decl d := h.resolve_left hne
    cases s with
    | assign pos dst src =>
      exact ⟨_, _, _, rfl, ((LocNode.loc_sameTables dst st).same_trans
        (ExpNode.exp_sameTables src _)).extends⟩
    | exit pos => exact ⟨_, _, _, rfl, State.Extends.ext_refl _⟩
    | postDec pos l => exact ⟨_, _, _, rfl, (LocNode.loc_sameTables l st).extends⟩
    | postInc pos l => exact ⟨_, _, _, rfl, (LocNode.loc_sameTables l st).extends⟩
    | take pos l => exact ⟨_, _, _, rfl, (LocNode.loc_sameTables l st).extends⟩
    | give pos e => exact ⟨_, _, _, rfl, (ExpNode.exp_sameTables e st).extends⟩
    | ifStmt pos cond body =>
      have hc := ExpNode.exp_sameTables cond st
      obtain ⟨r, b', st3, hb, he⟩ := StmtNode.stmtList_extends body
        ((cond.nameAnalysis st).1 && true) (SymbolTable.enterScope (cond.nameAnalysis st).2.2).2
        (State.chain_ne_nil_enterScope _)
      obtain ⟨st4, hl, h4⟩ := State.Extends.of_body hc he
      exact ⟨r, _, st4, by simp only [StmtNode.nameAnalysis, hb, hl]; rfl, h4⟩
    | ifElse pos cond bodyT bodyF =>
      have hc := ExpNode.exp_sameTables cond st
      obtain ⟨r, b', st3, hb, he⟩ := StmtNode.stmtList_extends bodyT
        ((cond.nameAnalysis st).1 && true) (SymbolTable.enterScope (cond.nameAnalysis st).2.2).2
        (State.chain_ne_nil_enterScope _)
      obtain ⟨st4, hl, h4⟩ := State.Extends.of_body hc he
      obtain ⟨r2, b2, st6, hb2, he2⟩ := StmtNode.stmtList_extends bodyF r
        (SymbolTable.enterScope st4).2 (State.chain_ne_nil_enterScope _)
      obtain ⟨st7, hl7, h7⟩ := State.Extends.of_body (State.SameTables.same_refl st4) he2
      exact ⟨r2, _, st7, by simp only [StmtNode.nameAnalysis, hb, hl, hb2, hl7]; rfl,
        h4.ext_trans h7⟩
    | «while» pos cond body =>
      have hc := ExpNode.exp_sameTables cond st
      obtain ⟨r, b', st3, hb, he⟩ := StmtNode.stmtList_extends body
        ((cond.nameAnalysis st).1 && true) (SymbolTable.enterScope (cond.nameAnalysis st).2.2).2
        (State.chain_ne_nil_enterScope _)
      obtain ⟨st4, hl, h4⟩ := State.Extends.of_body hc he
      exact ⟨r, _, st4, by simp only [StmtNode.nameAnalysis, hb, hl]; rfl, h4⟩
    | ret pos e =>
      cases e with
      | none => exact ⟨_, _, _, rfl, State.Extends.ext_refl _⟩
      | some e => exact ⟨_, _, _, rfl, (ExpNode.exp_sameTables e st).extends⟩
    | callStmt pos e => exact ⟨_, _, _, rfl, (ExpNode.exp_sameTables e st).extends⟩
    | decl d => exact absurd rfl (hnd d)

theorem StmtNode.stmt_extends_of_some (s : StmtNode) (st : State) (r : Bool) (s' : StmtNode)
    (st' : State) (h : s.nameAnalysis st = some (r, s', st')) : st.Extends st' := by
  by_cases hd : ∃ d, s = .decl d
  · obtain ⟨d, rfl⟩ := hd
    cases hh : d.nameAnalysis st with
    | none => simp [StmtNode.nameAnalysis, hh] at h
    | some x =>
      obtain ⟨r1, d1, st1⟩ := x
      simp only [StmtNode.nameAnalysis, hh, Option.some.injEq, Prod.mk.injEq] at h
      obtain ⟨_, _, rfl⟩ := h
      exact (DeclNode.decl_extends_of_some d st r1 d1 st1 hh).2
  · obtain ⟨r1, s1, st1, h1, e1⟩ := StmtNode.nameAnalysis_total s st
      (Or.inr (fun d hs => hd ⟨d, hs⟩))
    rw [h1] at h
    cases h
    exact e1

theorem ProgramNode.nameAnalysis_extends (p : ProgramNode) (symTab : State) :
    ∃ r p' st2 st', p.nameAnalysis symTab = some (r, p', st') ∧ symTab.Extends st' ∧
      DeclNode.nameAnalysisList p.myGlobals true (SymbolTable.enterScope symTab).2 =
        some (r, p'.myGlobals, st2) ∧
      st2.chain = symTab.heap.length :: symTab.chain ∧
      SymbolTable.leaveScope st2 = some st' := by
  obtain ⟨r, l', st2, h2, e2⟩ := DeclNode.declList_extends p.myGlobals true
    (SymbolTable.enterScope symTab).2 (State.chain_ne_nil_enterScope _)
  obtain ⟨st3, hl, e3, _⟩ := State.Extends.enter_leave e2
  exact ⟨r, ⟨l'⟩, st2, st3, by simp only [ProgramNode.nameAnalysis, h2, hl], e3, h2,
    e2.chain.trans (State.chain_enterScope _), hl⟩

/-- C15. Stack discipline.  Whenever `nameAnalysis` of a statement, a
declaration or a variable declaration returns, the state it leaves extends the
state it started from: the chain of open scopes is the same (same depth, same
scopes), every scope table that existed before other than the innermost open
one is unchanged, every binding of every scope table is still there (bindings
are only added, none removed or rebound) and scope tables are only allocated.
Expression, location, type and identifier nodes do not touch the symbol table
at all, and a program always returns and leaves the stack it was given.  The
only internal error is a declaration resolved with no open scope, raised
before any scope is entered; in particular no `leaveScope` meets an empty
stack: a body resolved in a scope just entered leaves that very scope on top,
and the matching `leaveScope` pops it and restores the stack. -/
theorem StmtNode.nameAnalysis_stack_discipline :
    (∀ (s : StmtNode) (st : State) (r : Bool) (s' : StmtNode) (st' : State),
      s.nameAnalysis st = some (r, s', st') → st.Extends st') ∧
    (∀ (d : DeclNode) (st : State) (r : Bool) (d' : DeclNode) (st' : State),
      d.nameAnalysis st = some (r, d', st') → st.Extends st') ∧
    (∀ (d : VarDeclNode) (st : State) (r : Bool) (d' : VarDeclNode) (st' : State),
      d.nameAnalysis st = some (r, d', st') → st.Extends st') ∧
    (∀ (e : ExpNode) (st : State), st.SameTables (e.nameAnalysis st).2.2) ∧
    (∀ (l : LocNode) (st : State), st.SameTables (l.nameAnalysis st).2.2) ∧
    (∀ (t : TypeNode) (st : State), st.SameTables (t.nameAnalysis st).2.2) ∧
    (∀ (n : IDNode) (st : State), st.SameTables (n.nameAnalysis st).2.2) ∧
    (∀ (p : ProgramNode) (symTab : State),
      ∃ r p' st', p.nameAnalysis symTab = some (r, p', st') ∧ symTab.Extends st') ∧
    (∀ (s : StmtNode) (st : State), (st.chain ≠ [] ∨ ∀ d, s ≠ .decl d) →
      ∃ r s' st', s.nameAnalysis st = some (r, s', st')) ∧
    (∀ (d : DeclNode) (st : State), st.chain ≠ [] →
      ∃ r d' st', d.nameAnalysis st = some (r, d', st')) ∧
    (∀ (body : List StmtNode) (acc : Bool) (st1 : State) (r : Bool) (body' : List StmtNode)
        (st3 : State),
      StmtNode.nameAnalysisList body acc (SymbolTable.enterScope st1).2 = some (r, body', st3) →
      st3.chain = st1.heap.length :: st1.chain ∧
      ∃ st4, SymbolTable.leaveScope st3 = some st4 ∧ st4.chain = st1.chain) ∧
    (∀ (members : List DeclNode) (acc : Bool) (st1 : State) (r : Bool)
        (members' : List DeclNode) (st3 : State),
      DeclNode.nameAnalysisList members acc (SymbolTable.enterScope st1).2 =
        some (r, members', st3) →
      st3.chain = st1.heap.length :: st1.chain ∧
      ∃ st4, SymbolTable.leaveScope st3 = some st4 ∧ st4.chain = st1.chain) := by
  refine ⟨StmtNode.stmt_extends_of_some, fun d st r d' st' h => (d.decl_extends_of_some st r d' st' h).2,
    ?_, ExpNode.exp_sameTables, LocNode.loc_sameTables, TypeNode.type_sameTables,
    IDNode.id_sameTables, ?_, ?_, ?_, ?_, ?_⟩
  · intro d st r d' st' h
    have hne : st.chain ≠ [] := by
      intro hn
      rw [d.varDecl_of_nil st hn] at h
      cases h
    obtain ⟨r1, d1, st1, h1, e1, _⟩ := d.varDecl_extends st hne
    rw [h1] at h
    cases h
    exact e1
  · intro p symTab
    obtain ⟨r, p', _, st', h, e, _⟩ := p.nameAnalysis_extends symTab
    exact ⟨r, p', st', h, e⟩
  · intro s st h
    obtain ⟨r, s', st', h1, _⟩ := s.nameAnalysis_total st h
    exact ⟨r, s', st', h1⟩
  · intro d st h
    obtain ⟨r, d', st', h1, _⟩ := DeclNode.decl_extends d st h
    exact ⟨r, d', st', h1⟩
  · intro body acc st1 r body' st3 h
    obtain ⟨r1, b1, s3, h1, e1⟩ := StmtNode.stmtList_extends body acc
      (SymbolTable.enterScope st1).2 (State.chain_ne_nil_enterScope _)
    rw [h1] at h
    cases h
    obtain ⟨st4, hl, hc, _⟩ := e1.leave_inner
    exact ⟨e1.chain.trans (State.chain_enterScope _), st4, hl, hc⟩
  · intro members acc st1 r members' st3 h
    obtain ⟨r1, b1, s3, h1, e1⟩ := DeclNode.declList_extends members acc
      (SymbolTable.enterScope st1).2 (State.chain_ne_nil_enterScope _)
    rw [h1] at h
    cases h
    obtain ⟨st4, hl, hc, _⟩ := e1.leave_inner
    exact ⟨e1.chain.trans (State.chain_enterScope _), st4, hl, hc⟩

/-- C15 on a concrete input: `while (true) { x : int; x++; }` resolved in a
scope that binds `y`. -/
theorem StmtNode.nameAnalysis_stack_discipline_witness :
    State.Extends ⟨[[⟨0, .var, "y", .primitive .bool⟩]], [0], 1, []⟩
      ⟨[[⟨0, .var, "y", .primitive .bool⟩], [⟨1, .var, "x", .primitive .int⟩]], [0], 2, []⟩ :=
  StmtNode.nameAnalysis_stack_discipline.1
    (.while ⟨1, 0⟩ (.trueNode ⟨1, 7⟩)
      [.decl (.varDecl ⟨⟨2, 2⟩, ⟨⟨2, 2⟩, "x", none⟩, .basic ⟨2, 6⟩ .int, none⟩),
        .postInc ⟨3, 2⟩ (.id ⟨⟨3, 2⟩, "x", none⟩)])
    ⟨[[⟨0, .var, "y", .primitive .bool⟩]], [0], 1, []⟩ true
    (.while ⟨1, 0⟩ (.trueNode ⟨1, 7⟩)
      [.decl (.varDecl ⟨⟨2, 2⟩, ⟨⟨2, 2⟩, "x", some ⟨1, .var, "x", .primitive .int⟩⟩,
        .basic ⟨2, 6⟩ .int, none⟩),
        .postInc ⟨3, 2⟩ (.id ⟨⟨3, 2⟩, "x", some ⟨1, .var, "x", .primitive .int⟩⟩)])
    ⟨[[⟨0, .var, "y", .primitive .bool⟩], [⟨1, .var, "x", .primitive .int⟩]], [0], 2, []⟩ rfl

/-! ## The result of a function declaration -/

theorem VarDeclNode.formals_resolved : ∀ (l : List VarDeclNode) (acc : Bool)
    (st : State) (res : Bool) (l' : List VarDeclNode) (st' : State),
    VarDeclNode.nameAnalysisList l acc st = some (res, l', st') →
      ∃ rs, VarDeclNode.ResolvedInOrder l st rs st' ∧ l' = rs.map (·.2) ∧
        res = (rs.all (·.1) && acc)
  | [], acc, st, res, l', st', h => by
    simp only [VarDeclNode.nameAnalysisList, Option.some.injEq, Prod.mk.injEq] at h
    obtain ⟨rfl, rfl, rfl⟩ := h
    exact ⟨[], .nil _, rfl, by simp⟩
  | d :: rest, acc, st, res, l', st', h => by
    simp only [VarDeclNode.nameAnalysisList] at h
    cases hd : d.nameAnalysis st with
    | none => simp [hd] at h
    | some x =>
      obtain ⟨r, d', st1⟩ := x
      simp only [hd] at h
      cases hl : VarDeclNode.nameAnalysisList rest (r && acc) st1 with
      | none => simp [hl] at h
      | some y =>
        obtain ⟨res2, l2, st2⟩ := y
        simp only [hl, Option.some.injEq, Prod.mk.injEq] at h
        obtain ⟨rfl, rfl, rfl⟩ := h
        obtain ⟨rs, hrs, rfl, rfl⟩ :=
          VarDeclNode.formals_resolved rest (r && acc) st1 _ _ _ hl
        refine ⟨(r, d') :: rs, .cons hd hrs, rfl, ?_⟩
        cases r <;> cases acc <;> simp

theorem StmtNode.stmtList_resolved : ∀ (l : List StmtNode) (acc : Bool)
    (st : State) (res : Bool) (l' : List StmtNode) (st' : State),
    StmtNode.nameAnalysisList l acc st = some (res, l', st') →
      ∃ rs, StmtNode.ResolvedInOrder l st rs st' ∧ l' = rs.map (·.2) ∧
        res = (rs.all (·.1) && acc)
  | [], acc, st, res, l', st', h => by
    simp only [StmtNode.nameAnalysisList, Option.some.injEq, Prod.mk.injEq] at h
    obtain ⟨rfl, rfl, rfl⟩ := h
    exact ⟨[], .nil _, rfl, by simp⟩
  | s :: rest, acc, st, res, l', st', h => by
    simp only [StmtNode.nameAnalysisList] at h
    cases hd : s.nameAnalysis st with
    | none => simp [hd] at h
    | some x =>
      obtain ⟨r, s', st1⟩ := x
      simp only [hd] at h
      cases hl : StmtNode.nameAnalysisList rest (r && acc) st1 with
      | none => simp [hl] at h
      | some y =>
        obtain ⟨res2, l2, st2⟩ := y
        simp only [hl, Option.some.injEq, Prod.mk.injEq] at h
        obtain ⟨rfl, rfl, rfl⟩ := h
        obtain ⟨rs, hrs, rfl, rfl⟩ :=
          StmtNode.stmtList_resolved rest (r && acc) st1 _ _ _ hl
        refine ⟨(r, s') :: rs, .cons hd hrs, rfl, ?_⟩
        cases r <;> cases acc <;> simp

theorem SymbolTable.clash_of_empty {st : State} {b : ScopeId} {rest : List ScopeId}
    (hc : st.chain = b :: rest) (x : String) (h : (st.scope b).lookup x = none) :
    SymbolTable.clash st x = some false := by
  simp [SymbolTable.clash, SymbolTable.getCurrentScope, hc, ScopeTable.clash, h]

theorem State.diags_eq_append {a b : State} (h : a.diags <+: b.diags) :
    b.diags = a.diags ++ a.newDiags b := by
  obtain ⟨t, ht⟩ := h
  simp [State.newDiags, ← ht]

/-- C14. `FnDeclNode::nameAnalysis` in a state whose current scope `c` is an
allocated scope table.  After the return type, the body scope is entered and
the name is tested against the declaring scope `c` as it was on entry, and
against nothing else: exactly when it clashes there, `MultipleDeclaration` is
reported at the position of the function identifier (state `s3`).  The formals
are then resolved one after the other from `s3`, whatever the earlier ones
returned; the function symbol is added to `c` unless the name clashed (state
`st5`); the body statements are resolved one after the other from `st5`,
whatever the earlier ones returned; the scope is left.  The result is true
exactly when the return type resolved, every formal returned true, the name
does not clash and every body statement returned true.  The diagnostics of the
returned state are those of the return type, then the `MultipleDeclaration` of
the name check if the name clashed, then those of the formals, then those of
the body.  The formals and the locals are checked against the body scope, which
is the current scope while they are resolved: no name at all clashes there when
the first formal is resolved, and no name other than those of the formals when
the first body statement is resolved, the name of the function included. -/
theorem DeclNode.fnDecl_succeeds_iff (pos : Position) (myID : IDNode) (myRetType : TypeNode)
    (myFormals : List VarDeclNode) (myBody : List StmtNode) (st : State) (c : ScopeId)
    (rest : List ScopeId) (hc : st.chain = c :: rest) (hclt : c < st.heap.length) :
    ∃ (fs : List (Bool × VarDeclNode)) (bs : List (Bool × StmtNode)) (s3 st4 st5 st6 st' : State)
      (r : Bool) (id' : IDNode) (dataType : DataType),
      s3 =
        (if (st.scope c).clash myID.name then
          (NameErr.multiDecl myID.pos (SymbolTable.enterScope (myRetType.nameAnalysis st).2.2).2).2
         else (SymbolTable.enterScope (myRetType.nameAnalysis st).2.2).2) ∧
      VarDeclNode.ResolvedInOrder myFormals s3 fs st4 ∧
      st5 = (if (st.scope c).clash myID.name then st4
             else ScopeTable.addFn st4 c myID.name dataType) ∧
      StmtNode.ResolvedInOrder myBody st5 bs st6 ∧
      SymbolTable.leaveScope st6 = some st' ∧
      (DeclNode.fnDecl pos myID myRetType myFormals myBody).nameAnalysis st =
        some (r, .fnDecl pos id' (myRetType.nameAnalysis st).2.1 (fs.map (·.2)) (bs.map (·.2)),
          st') ∧
      (r = true ↔
        ((myRetType.nameAnalysis st).1 = true ∧ (∀ f ∈ fs, f.1 = true) ∧
          (st.scope c).clash myID.name = false ∧ ∀ b ∈ bs, b.1 = true)) ∧
      s3.diags =
        (myRetType.nameAnalysis st).2.2.diags ++
          (if (st.scope c).clash myID.name then [⟨.multipleDeclaration, myID.pos⟩] else []) ∧
      st'.diags =
        (myRetType.nameAnalysis st).2.2.diags ++
          (if (st.scope c).clash myID.name then [⟨.multipleDeclaration, myID.pos⟩] else []) ++
          s3.newDiags st4 ++ st5.newDiags st6 ∧
      ((st.scope c).clash myID.name = true →
        (⟨.multipleDeclaration, myID.pos⟩ : Diag) ∈ st.newDiags st') ∧
      s3.chain = st.heap.length :: c :: rest ∧
      st5.chain = st.heap.length :: c :: rest ∧
      (∀ x, SymbolTable.clash s3 x = some false) ∧
      (∀ x, x ∉ VarDeclNode.namesList myFormals → SymbolTable.clash st5 x = some false) := by
  obtain ⟨vf, formals', st4, fts, rty, vb, body', st6, st7, hF, _, _, hB, hL, heq, hc3, e4, e6,
    _, hd7⟩ := DeclNode.fnDecl_run pos myID myRetType myFormals myBody st hc
  obtain ⟨fs, hfs, rfl, rfl⟩ := VarDeclNode.formals_resolved _ _ _ _ _ _ hF
  obtain ⟨bs, hbs, rfl, rfl⟩ := StmtNode.stmtList_resolved _ _ _ _ _ _ hB
  have hr := TypeNode.type_sameTables myRetType st
  have h3 := FnDeclNode.formalsState_sameTables myID myRetType st c
  have hs3 : FnDeclNode.formalsState myID myRetType st c =
      (if (st.scope c).clash myID.name then
        (NameErr.multiDecl myID.pos (SymbolTable.enterScope (myRetType.nameAnalysis st).2.2).2).2
       else (SymbolTable.enterScope (myRetType.nameAnalysis st).2.2).2) := rfl
  have hs5 : FnDeclNode.bodyState myID ((st.scope c).clash myID.name) c st4
      (FnType.produce fts rty) =
      (if (st.scope c).clash myID.name then st4
       else ScopeTable.addFn st4 c myID.name (FnType.produce fts rty)) := rfl
  have hnew : ∀ x, ((FnDeclNode.formalsState myID myRetType st c).scope st.heap.length).lookup x =
      none := by
    intro x
    rw [h3.scope, ← hr.heap]
    exact State.lookup_entered_scope _ x
  have hc5 : (FnDeclNode.bodyState myID ((st.scope c).clash myID.name) c st4
      (FnType.produce fts rty)).chain = st.heap.length :: c :: rest := by
    unfold FnDeclNode.bodyState
    split
    · rw [e4.chain, hc3]
    · simp only [ScopeTable.addFn]; rw [State.chain_insertAt, e4.chain, hc3]
  have hd3 : (FnDeclNode.formalsState myID myRetType st c).diags =
      (myRetType.nameAnalysis st).2.2.diags ++
        (if (st.scope c).clash myID.name then [⟨.multipleDeclaration, myID.pos⟩] else []) := by
    unfold FnDeclNode.formalsState
    simp only
    split <;> simp [NameErr.multiDecl, State.report, SymbolTable.enterScope]
  have hd5 : (FnDeclNode.bodyState myID ((st.scope c).clash myID.name) c st4
      (FnType.produce fts rty)).diags = st4.diags := by
    unfold FnDeclNode.bodyState
    split
    · rfl
    · simp [ScopeTable.addFn, State.insertAt, State.setScope]
  have hdall : st7.diags =
      (myRetType.nameAnalysis st).2.2.diags ++
        (if (st.scope c).clash myID.name then [⟨.multipleDeclaration, myID.pos⟩] else []) ++
        (FnDeclNode.formalsState myID myRetType st c).newDiags st4 ++
        (FnDeclNode.bodyState myID ((st.scope c).clash myID.name) c st4
          (FnType.produce fts rty)).newDiags st6 := by
    rw [hd7, State.diags_eq_append e6.grows.diags, hd5, State.diags_eq_append e4.grows.diags,
      hd3]
  refine ⟨fs, bs, _, st4, _, st6, st7, _, _, FnType.produce fts rty, hs3, hfs, hs5, hbs, hL, heq,
    ?_, hd3, hdall, ?_, hc3, hc5, fun x => SymbolTable.clash_of_empty hc3 x (hnew x), ?_⟩
  · simp only [Bool.and_eq_true, Bool.and_true, List.all_eq_true, Bool.not_eq_true']
    constructor
    · rintro ⟨⟨⟨h1, h2⟩, h3⟩, h4⟩
      exact ⟨h1, fun f hf => h2 f hf, h3, fun b hb => h4 b hb⟩
    · rintro ⟨h1, h2, h3, h4⟩
      exact ⟨⟨⟨h1, fun f hf => h2 f hf⟩, h3⟩, fun b hb => h4 b hb⟩
  · intro hcl
    have hp : st.diags <+: (myRetType.nameAnalysis st).2.2.diags := hr.diags
    apply State.newDiags_suffix (a := st) (b := (myRetType.nameAnalysis st).2.2) _ hp
    simp [State.newDiags, hdall, hcl]
  · intro x hx
    apply SymbolTable.clash_of_empty hc5
    have h4 : (st4.scope st.heap.length).lookup x = none := by
      rw [VarDeclNode.formals_keeps myFormals true _ _ _ st4 x (by rw [hc3]; simp) hx hF
        st.heap.length]
      exact hnew x
    unfold FnDeclNode.bodyState
    split
    · exact h4
    · simp only [ScopeTable.addFn]
      rw [State.scope_insertAt, if_neg (fun hh => Nat.ne_of_lt hclt hh.1)]
      exact h4

/-- C14 on a concrete input: `f : (f : int) void { x : bool; f++; }` declared in
a scope that already binds `f`; the formal has the name of the function. -/
theorem DeclNode.fnDecl_succeeds_iff_witness :
    ∃ (r : Bool) (d' : DeclNode) (st' : State),
      (DeclNode.fnDecl ⟨1, 0⟩ ⟨⟨1, 0⟩, "f", none⟩ (.basic ⟨1, 14⟩ .void)
          [⟨⟨1, 5⟩, ⟨⟨1, 5⟩, "f", none⟩, .basic ⟨1, 9⟩ .int, none⟩]
          [.decl (.varDecl ⟨⟨2, 2⟩, ⟨⟨2, 2⟩, "x", none⟩, .basic ⟨2, 6⟩ .bool, none⟩),
            .postInc ⟨3, 2⟩ (.id ⟨⟨3, 2⟩, "f", none⟩)]).nameAnalysis
          ⟨[[⟨0, .var, "f", .primitive .int⟩]], [0], 1, []⟩ = some (r, d', st') ∧
      r = false ∧
      (⟨.multipleDeclaration, ⟨1, 0⟩⟩ : Diag) ∈
        State.newDiags ⟨[[⟨0, .var, "f", .primitive .int⟩]], [0], 1, []⟩ st' := by
  obtain ⟨fs, bs, s3, st4, st5, st6, st', r, id', dt, _, _, _, _, _, hrun, hiff, _, _, hmem, _⟩ :=
    DeclNode.fnDecl_succeeds_iff ⟨1, 0⟩ ⟨⟨1, 0⟩, "f", none⟩ (.basic ⟨1, 14⟩ .void)
      [⟨⟨1, 5⟩, ⟨⟨1, 5⟩, "f", none⟩, .basic ⟨1, 9⟩ .int, none⟩]
      [.decl (.varDecl ⟨⟨2, 2⟩, ⟨⟨2, 2⟩, "x", none⟩, .basic ⟨2, 6⟩ .bool, none⟩),
        .postInc ⟨3, 2⟩ (.id ⟨⟨3, 2⟩, "f", none⟩)]
      ⟨[[⟨0, .var, "f", .primitive .int⟩]], [0], 1, []⟩ 0 [] rfl (by decide)
  refine ⟨r, _, st', hrun, ?_, hmem (by decide)⟩
  cases r with
  | false => rfl
  | true =>
    have := (hiff.mp rfl).2.2.1
    revert this
    decide

/-! ## The signature of a function symbol -/

/-- The resolved declaration carries the resolved type node. -/
theorem VarDeclNode.myType_nameAnalysis (d : VarDeclNode) (st : State) {c : ScopeId}
    {rest : List ScopeId} (hc : st.chain = c :: rest) {r : Bool} {d' : VarDeclNode} {st' : State}
    (h : d.nameAnalysis st = some (r, d', st')) :
    d'.myType = (d.myType.nameAnalysis st).2.1 := by
  obtain ⟨ty, _, heq⟩ := d.nameAnalysis_eq st hc
  rw [heq] at h
  split at h
  · simp only [Option.some.injEq, Prod.mk.injEq] at h
    obtain ⟨_, rfl, _⟩ := h
    rfl
  · simp only [Option.some.injEq, Prod.mk.injEq] at h
    obtain ⟨_, rfl, _⟩ := h
    rfl

theorem VarDeclNode.nameAnalysisList_types : ∀ (l : List VarDeclNode) (acc : Bool)
    (st : State) (res : Bool) (l' : List VarDeclNode) (st' : State) (c : ScopeId)
    (rest : List ScopeId), st.chain = c :: rest →
    VarDeclNode.nameAnalysisList l acc st = some (res, l', st') →
      ∃ ts, VarDeclNode.FormalTypes l st ts st' ∧ ts.length = l.length ∧
        TypeList.produceNodes (l'.map (fun formal => formal.myType)) =
          some (TypeList.produce ts)
  | [], acc, st, res, l', st', _, _, _, h => by
    simp only [VarDeclNode.nameAnalysisList, Option.some.injEq, Prod.mk.injEq] at h
    obtain ⟨rfl, rfl, rfl⟩ := h
    exact ⟨[], .nil _, rfl, rfl⟩
  | d :: tl, acc, st, res, l', st', c, rest, hc, h => by
    have hne := State.ne_nil_of_chain hc
    obtain ⟨r1, d1, st1, h1, e1, _⟩ := d.varDecl_extends st hne
    have hne1 : st1.chain ≠ [] := by rw [e1.chain]; exact hne
    obtain ⟨r2, l2, st2, h2, _, _⟩ := VarDeclNode.formals_extends tl (r1 && acc) st1 hne1
    simp only [VarDeclNode.nameAnalysisList, h1, h2, Option.some.injEq, Prod.mk.injEq] at h
    obtain ⟨rfl, rfl, rfl⟩ := h
    obtain ⟨ts, hts, hlen, hp⟩ := VarDeclNode.nameAnalysisList_types tl (r1 && acc) st1 r2 l2 st2
      c rest (e1.chain.trans hc) h2
    obtain ⟨t, ht⟩ := TypeNode.getType_nameAnalysis d.myType st
    refine ⟨t :: ts, .cons h1 ht hts, by simp [hlen], ?_⟩
    simp only [List.map_cons, TypeList.produceNodes, d.myType_nameAnalysis st hc h1, ht, hp,
      TypeList.produce]

/-- C16. A function declaration whose name does not clash, in a state whose
current scope `c` is an allocated scope table.  With `params` the declared
types of the formals in the order of the declaration, one per formal whatever
its resolution returned, and `ret` the type of the return type node, the
function symbol has the type `FnType(params, ret)`.  The name is still unbound
in `c` when the formals have been resolved (state `st4`); the symbol is then
put in front of the scope table `c`, no other table changing, and the body is
resolved from the state so obtained (`st5`).  Whatever the declaration returns,
the name is bound to that symbol in `c` when it has returned, and the symbol is
attached to the identifier of the function. -/
theorem DeclNode.fnDecl_signature (pos : Position) (myID : IDNode) (myRetType : TypeNode)
    (myFormals : List VarDeclNode) (myBody : List StmtNode) (st : State) (c : ScopeId)
    (rest : List ScopeId) (hc : st.chain = c :: rest) (hclt : c < st.heap.length)
    (hfree : (st.scope c).clash myID.name = false) :
    ∃ (params : List DataType) (ret : DataType) (st4 st5 st6 st' : State) (r validBody : Bool)
      (id' : IDNode) (ret' : TypeNode) (formals' : List VarDeclNode) (body' : List StmtNode)
      (fnSym : SemSymbol),
      VarDeclNode.FormalTypes myFormals (FnDeclNode.formalsState myID myRetType st c) params st4 ∧
      params.length = myFormals.length ∧
      (myRetType.nameAnalysis st).2.1.getType = some ret ∧
      fnSym = ⟨st4.nextSym, .fn, myID.name, FnType.produce (TypeList.produce params) ret⟩ ∧
      (st4.scope c).lookup myID.name = none ∧
      st5.scope c = fnSym :: st4.scope c ∧
      (∀ id, id ≠ c → st5.scope id = st4.scope id) ∧
      StmtNode.nameAnalysisList myBody true st5 = some (validBody, body', st6) ∧
      SymbolTable.leaveScope st6 = some st' ∧
      (DeclNode.fnDecl pos myID myRetType myFormals myBody).nameAnalysis st =
        some (r, .fnDecl pos id' ret' formals' body', st') ∧
      id'.mySymbol = some fnSym ∧
      (st'.scope c).lookup myID.name = some fnSym := by
  obtain ⟨vf, formals', st4, fts, rty, vb, body', st6, st7, hF, hP, hR, hB, hL, heq, hc3, e4, e6,
    _, _⟩ := DeclNode.fnDecl_run pos myID myRetType myFormals myBody st hc
  rw [hfree] at hB e6 heq
  simp only [FnDeclNode.bodyState, Bool.false_eq_true, if_false, ScopeTable.addFn] at hB e6 heq
  obtain ⟨ts, hts, hlen, hp⟩ := VarDeclNode.nameAnalysisList_types _ _ _ _ _ _ _ _ hc3 hF
  rw [hP] at hp
  simp only [Option.some.injEq] at hp
  subst hp
  have hr := TypeNode.type_sameTables myRetType st
  have h3 := FnDeclNode.formalsState_sameTables myID myRetType st c
  have hlen3 : st.heap.length < (FnDeclNode.formalsState myID myRetType st c).heap.length := by
    rw [h3.heap, State.heap_length_enterScope, hr.heap]; exact Nat.lt_succ_self _
  have hsc4 : st4.scope c = st.scope c := by
    rw [e4.scope_other hc3 (lt_trans hclt hlen3) (Nat.ne_of_lt hclt), h3.scope,
      State.scope_enterScope, hr.scope]
  have hclt4 : c < st4.heap.length :=
    lt_of_lt_of_le (lt_trans hclt hlen3) e4.grows.heapLen
  have hfree4 : (st4.scope c).lookup myID.name = none := by
    rw [hsc4]; exact ScopeTable.clash_eq_false.mp hfree
  have hsym := State.lookup_insertAt_self st4 c .fn myID.name
    (FnType.produce (TypeList.produce ts) rty) hclt4 hfree4
  have hsc5 : (st4.insertAt c .fn myID.name (FnType.produce (TypeList.produce ts) rty)).2.scope c =
      ⟨st4.nextSym, .fn, myID.name, FnType.produce (TypeList.produce ts) rty⟩ :: st4.scope c := by
    rw [State.scope_insertAt, if_pos ⟨rfl, hclt4⟩]
    simp [ScopeTable.insert, ScopeTable.clash, hfree4]
  obtain ⟨_, _, hh7, _, _⟩ := SymbolTable.leaveScope_eq hL
  refine ⟨ts, rty, st4, _, st6, st7, _, vb, _, _, formals', body', _, hts, hlen, hR, rfl,
    hfree4, hsc5, ?_, hB, hL, heq, ?_, ?_⟩
  · intro id hid
    rw [State.scope_insertAt, if_neg (fun hh => hid hh.1.symm)]
  · simp [FnDeclNode.resolvedID, IDNode.attachSymbol, hsym]
  · have := e6.grows.lookup c myID.name _ hsym
    simpa [State.scope, hh7] using this

/-- C16 on a concrete input: `f : (a : int, b : void) bool { zz++; }` in an
empty global scope; the second formal and the body fail. -/
theorem DeclNode.fnDecl_signature_witness :
    ∃ (params : List DataType) (ret : DataType) (r : Bool) (d' : DeclNode) (st' : State)
      (fnSym : SemSymbol),
      params.length = 2 ∧ ret = .primitive .bool ∧
      fnSym.type = FnType.produce (TypeList.produce params) ret ∧
      (DeclNode.fnDecl ⟨1, 0⟩ ⟨⟨1, 0⟩, "f", none⟩ (.basic ⟨1, 24⟩ .bool)
          [⟨⟨1, 5⟩, ⟨⟨1, 5⟩, "a", none⟩, .basic ⟨1, 9⟩ .int, none⟩,
            ⟨⟨1, 14⟩, ⟨⟨1, 14⟩, "b", none⟩, .basic ⟨1, 18⟩ .void, none⟩]
          [.postInc ⟨2, 2⟩ (.id ⟨⟨2, 2⟩, "zz", none⟩)]).nameAnalysis ⟨[[]], [0], 0, []⟩ =
        some (r, d', st') ∧
      (st'.scope 0).lookup "f" = some fnSym := by
  obtain ⟨params, ret, st4, st5, st6, st', r, vb, id', ret', formals', body', fnSym, _, hlen,
    hret, hsym, _, _, _, _, _, hrun, _, hfin⟩ :=
    DeclNode.fnDecl_signature ⟨1, 0⟩ ⟨⟨1, 0⟩, "f", none⟩ (.basic ⟨1, 24⟩ .bool)
      [⟨⟨1, 5⟩, ⟨⟨1, 5⟩, "a", none⟩, .basic ⟨1, 9⟩ .int, none⟩,
        ⟨⟨1, 14⟩, ⟨⟨1, 14⟩, "b", none⟩, .basic ⟨1, 18⟩ .void, none⟩]
      [.postInc ⟨2, 2⟩ (.id ⟨⟨2, 2⟩, "zz", none⟩)] ⟨[[]], [0], 0, []⟩ 0 [] rfl (by decide)
      (by decide)
  refine ⟨params, ret, r, _, st', fnSym, hlen, ?_, by rw [hsym], hrun, hfin⟩
  simpa [TypeNode.nameAnalysis, TypeNode.getType] using hret.symm

/-! ## Insertions never fail -/

theorem State.InsertsCleanly.ins_refl (st : State) : st.InsertsCleanly st :=
  ⟨rfl, fun h => h⟩

theorem State.InsertsCleanly.ins_trans {a b c : State} (h1 : a.InsertsCleanly b)
    (h2 : b.InsertsCleanly c) : a.InsertsCleanly c :=
  ⟨by have := h1.allBound; have := h2.allBound; omega, fun h => h2.unique (h1.unique h)⟩

theorem State.SameTables.inserts {st st' : State} (h : st.SameTables st') :
    st.InsertsCleanly st' :=
  ⟨by simp [State.bindings, h.heap, h.nextSym], fun hu => by
    intro t ht
    rw [h.heap] at ht
    exact hu t ht⟩

theorem State.inserts_enterScope (st : State) : st.InsertsCleanly (SymbolTable.enterScope st).2 :=
  ⟨by simp [State.bindings, SymbolTable.enterScope], fun hu => by
    intro t ht
    simp only [SymbolTable.enterScope, List.mem_append, List.mem_singleton] at ht
    rcases ht with ht | rfl
    · exact hu t ht
    · simp⟩

theorem State.inserts_leaveScope {st st' : State} (h : SymbolTable.leaveScope st = some st') :
    st.InsertsCleanly st' := by
  obtain ⟨_, _, hh, hn, _⟩ := SymbolTable.leaveScope_eq h
  exact ⟨by simp [State.bindings, hh, hn], fun hu => by
    intro t ht
    rw [hh] at ht
    exact hu t ht⟩

theorem List.sum_length_set {α : Type} : ∀ (l : List (List α)) (i : Nat) (t : List α),
    i < l.length → ((l.set i t).map List.length).sum + (l.getD i []).length =
      (l.map List.length).sum + t.length
  | [], i, t, h => by simp at h
  | x :: xs, 0, t, _ => by simp; omega
  | x :: xs, i + 1, t, h => by
    have := List.sum_length_set xs i t (by simpa using h)
    simp only [List.set_cons_succ, List.map_cons, List.sum_cons, List.getD_cons_succ]
    omega

theorem ScopeTable.name_not_mem {t : ScopeTable} {name : String} (h : t.lookup name = none) :
    name ∉ t.map (fun s => s.name) := by
  intro hm
  obtain ⟨s, hs, rfl⟩ := List.mem_map.mp hm
  have := List.find?_eq_none.mp h s hs
  simp at this

/-- An insertion into an allocated scope table in which the name is unbound
succeeds. -/
theorem State.inserts_insertAt (st : State) (c : ScopeId) (k : SymbolKind) (name : String)
    (ty : DataType) (hclt : c < st.heap.length) (hfree : (st.scope c).lookup name = none) :
    (st.insertAt c k name ty).1 = true ∧
      (st.insertAt c k name ty).2.scope c = ⟨st.nextSym, k, name, ty⟩ :: st.scope c ∧
      st.InsertsCleanly (st.insertAt c k name ty).2 := by
  have hcl : (st.scope c).clash name = false := ScopeTable.clash_eq_false.mpr hfree
  have hsc : (st.insertAt c k name ty).2.scope c = ⟨st.nextSym, k, name, ty⟩ :: st.scope c := by
    rw [State.scope_insertAt, if_pos ⟨rfl, hclt⟩]
    simp [ScopeTable.insert, hcl]
  have hheap : (st.insertAt c k name ty).2.heap =
      st.heap.set c (⟨st.nextSym, k, name, ty⟩ :: st.scope c) := by
    simp [State.insertAt, State.setScope, ScopeTable.insert, hcl]
  refine ⟨by simp [State.insertAt, ScopeTable.insert, hcl], hsc, ?_, ?_⟩
  · have := List.sum_length_set st.heap c (⟨st.nextSym, k, name, ty⟩ :: st.scope c) hclt
    simp only [State.bindings, hheap]
    have hn : (st.insertAt c k name ty).2.nextSym = st.nextSym + 1 := by simp [State.insertAt]
    rw [hn]
    simp only [State.scope, List.length_cons] at this ⊢
    omega
  · intro hu t ht
    rw [hheap] at ht
    rcases List.mem_or_eq_of_mem_set ht with ht | rfl
    · exact hu t ht
    · have hmem : st.scope c ∈ st.heap := by
        simp only [State.scope, List.getD_eq_getElem?_getD, List.getElem?_eq_getElem hclt,
          Option.getD_some]
        exact List.getElem_mem _
      simp only [List.map_cons, List.nodup_cons]
      exact ⟨ScopeTable.name_not_mem hfree, hu _ hmem⟩

theorem VarDeclNode.varDecl_inserts (d : VarDeclNode) (st : State) (r : Bool) (d' : VarDeclNode)
    (st' : State) (c : ScopeId) (rest : List ScopeId) (hc : st.chain = c :: rest)
    (hclt : c < st.heap.length) (h : d.nameAnalysis st = some (r, d', st')) :
    st.InsertsCleanly st' := by
  obtain ⟨ty, _, heq⟩ := d.nameAnalysis_eq st hc
  rw [heq] at h
  split at h
  · rename_i hv
    simp only [Bool.and_eq_true, Bool.not_eq_true'] at hv
    simp only [Option.some.injEq, Prod.mk.injEq] at h
    obtain ⟨_, _, rfl⟩ := h
    have hs := d.decisionState_sameTables st false
    refine hs.inserts.ins_trans (State.inserts_insertAt _ c .var d.myID.name ty
      (by rw [hs.heap]; exact hclt) ?_).2.2
    rw [hs.scope]
    exact ScopeTable.clash_eq_false.mp hv.1.2
  · simp only [Option.some.injEq, Prod.mk.injEq] at h
    obtain ⟨_, _, rfl⟩ := h
    exact (d.decisionState_sameTables st _).inserts

theorem VarDeclNode.formals_inserts : ∀ (l : List VarDeclNode) (acc : Bool) (st : State)
    (r : Bool) (l' : List VarDeclNode) (st' : State) (c : ScopeId) (rest : List ScopeId),
    st.chain = c :: rest → c < st.heap.length →
    VarDeclNode.nameAnalysisList l acc st = some (r, l', st') → st.InsertsCleanly st'
  | [], acc, st, r, l', st', _, _, _, _, h => by
    simp only [VarDeclNode.nameAnalysisList, Option.some.injEq, Prod.mk.injEq] at h
    obtain ⟨_, _, rfl⟩ := h
    exact State.InsertsCleanly.ins_refl _
  | d :: tl, acc, st, r, l', st', c, rest, hc, hclt, h => by
    have hne := State.ne_nil_of_chain hc
    obtain ⟨r1, d1, st1, h1, e1, _⟩ := d.varDecl_extends st hne
    have hne1 : st1.chain ≠ [] := by rw [e1.chain]; exact hne
    obtain ⟨r2, l2, st2, h2, _, _⟩ := VarDeclNode.formals_extends tl (r1 && acc) st1 hne1
    simp only [VarDeclNode.nameAnalysisList, h1, h2, Option.some.injEq, Prod.mk.injEq] at h
    obtain ⟨_, _, rfl⟩ := h
    exact (d.varDecl_inserts st r1 d1 st1 c rest hc hclt h1).ins_trans
      (VarDeclNode.formals_inserts tl (r1 && acc) st1 r2 l2 st2 c rest (e1.chain.trans hc)
        (lt_of_lt_of_le hclt e1.grows.heapLen) h2)

/-- A body resolved in a scope of its own. -/
theorem State.InsertsCleanly.of_entered {st1 st3 st4 : State}
    (h : (SymbolTable.enterScope st1).2.InsertsCleanly st3)
    (hl : SymbolTable.leaveScope st3 = some st4) : st1.InsertsCleanly st4 :=
  (State.inserts_enterScope st1).ins_trans (h.ins_trans (State.inserts_leaveScope hl))

mutual
theorem StmtNode.stmt_inserts : ∀ (s : StmtNode) (st : State) (r : Bool) (s' : StmtNode)
    (st' : State) (c : ScopeId) (rest : List ScopeId), st.chain = c :: rest →
    c < st.heap.length → s.nameAnalysis st = some (r, s', st') → st.InsertsCleanly st'
  | .assign pos dst src, st, r, s', st', _, _, _, _, h => by
    simp only [StmtNode.nameAnalysis, Option.some.injEq, Prod.mk.injEq] at h
    obtain ⟨_, _, rfl⟩ := h
    exact ((LocNode.loc_sameTables dst st).same_trans (ExpNode.exp_sameTables src _)).inserts
  | .exit pos, st, r, s', st', _, _, _, _, h => by
    simp only [StmtNode.nameAnalysis, Option.some.injEq, Prod.mk.injEq] at h
    obtain ⟨_, _, rfl⟩ := h
    exact State.InsertsCleanly.ins_refl _
  | .postDec pos l, st, r, s', st', _, _, _, _, h => by
    simp only [StmtNode.nameAnalysis, Option.some.injEq, Prod.mk.injEq] at h
    obtain ⟨_, _, rfl⟩ := h
    exact (LocNode.loc_sameTables l st).inserts
  | .postInc pos l, st, r, s', st', _, _, _, _, h => by
    simp only [StmtNode.nameAnalysis, Option.some.injEq, Prod.mk.injEq] at h
    obtain ⟨_, _, rfl⟩ := h
    exact (LocNode.loc_sameTables l st).inserts
  | .take pos l, st, r, s', st', _, _, _, _, h => by
    simp only [StmtNode.nameAnalysis, Option.some.injEq, Prod.mk.injEq] at h
    obtain ⟨_, _, rfl⟩ := h
    exact (LocNode.loc_sameTables l st).inserts
  | .give pos e, st, r, s', st', _, _, _, _, h => by
    simp only [StmtNode.nameAnalysis, Option.some.injEq, Prod.mk.injEq] at h
    obtain ⟨_, _, rfl⟩ := h
    exact (ExpNode.exp_sameTables e st).inserts
  | .ifStmt pos cond body, st, r, s', st', _, _, _, _, h => by
    have hs := ExpNode.exp_sameTables cond st
    obtain ⟨r1, b', st3, st4, hb, _, hl, _⟩ := StmtNode.resolveBody_run body
      ((cond.nameAnalysis st).1 && true) (cond.nameAnalysis st).2.2
    simp only [StmtNode.nameAnalysis, hb, hl, Option.some.injEq, Prod.mk.injEq] at h
    obtain ⟨_, _, rfl⟩ := h
    exact hs.inserts.ins_trans ((StmtNode.stmtList_inserts body _ _ r1 b' st3 _ _
      (State.chain_enterScope _) (State.cur_lt_enterScope _) hb).of_entered hl)
  | .ifElse pos cond bodyT bodyF, st, r, s', st', _, _, _, _, h => by
    have hs := ExpNode.exp_sameTables cond st
    obtain ⟨r1, bT', st3, st4, hb, _, hl, _⟩ := StmtNode.resolveBody_run bodyT
      ((cond.nameAnalysis st).1 && true) (cond.nameAnalysis st).2.2
    obtain ⟨r2, b2, st6, st7, hb2, _, hl2, _⟩ := StmtNode.resolveBody_run bodyF r1 st4
    simp only [StmtNode.nameAnalysis, hb, hl, hb2, hl2, Option.some.injEq, Prod.mk.injEq] at h
    obtain ⟨_, _, rfl⟩ := h
    exact hs.inserts.ins_trans (((StmtNode.stmtList_inserts bodyT _ _ r1 bT' st3 _ _
      (State.chain_enterScope _) (State.cur_lt_enterScope _) hb).of_entered hl).ins_trans
      ((StmtNode.stmtList_inserts bodyF _ _ r2 b2 st6 _ _
        (State.chain_enterScope _) (State.cur_lt_enterScope _) hb2).of_entered hl2))
  | .while pos cond body, st, r, s', st', _, _, _, _, h => by
    have hs := ExpNode.exp_sameTables cond st
    obtain ⟨r1, b', st3, st4, hb, _, hl, _⟩ := StmtNode.resolveBody_run body
      ((cond.nameAnalysis st).1 && true) (cond.nameAnalysis st).2.2
    simp only [StmtNode.nameAnalysis, hb, hl, Option.some.injEq, Prod.mk.injEq] at h
    obtain ⟨_, _, rfl⟩ := h
    exact hs.inserts.ins_trans ((StmtNode.stmtList_inserts body _ _ r1 b' st3 _ _
      (State.chain_enterScope _) (State.cur_lt_enterScope _) hb).of_entered hl)
  | .ret pos none, st, r, s', st', _, _, _, _, h => by
    simp only [StmtNode.nameAnalysis, Option.some.injEq, Prod.mk.injEq] at h
    obtain ⟨_, _, rfl⟩ := h
    exact State.InsertsCleanly.ins_refl _
  | .ret pos (some e), st, r, s', st', _, _, _, _, h => by
    simp only [StmtNode.nameAnalysis, Option.some.injEq, Prod.mk.injEq] at h
    obtain ⟨_, _, rfl⟩ := h
    exact (ExpNode.exp_sameTables e st).inserts
  | .callStmt pos e, st, r, s', st', _, _, _, _, h => by
    simp only [StmtNode.nameAnalysis, Option.some.injEq, Prod.mk.injEq] at h
    obtain ⟨_, _, rfl⟩ := h
    exact (ExpNode.exp_sameTables e st).inserts
  | .decl d, st, r, s', st', c, rest, hc, hclt, h => by
    obtain ⟨r1, d1, st1, h1, _⟩ := DeclNode.decl_extends d st (State.ne_nil_of_chain hc)
    simp only [StmtNode.nameAnalysis, h1, Option.some.injEq, Prod.mk.injEq] at h
    obtain ⟨_, _, rfl⟩ := h
    exact DeclNode.decl_inserts d st r1 d1 st1 c rest hc hclt h1
theorem StmtNode.stmtList_inserts : ∀ (l : List StmtNode) (acc : Bool) (st : State)
    (r : Bool) (l' : List StmtNode) (st' : State) (c : ScopeId) (rest : List ScopeId),
    st.chain = c :: rest → c < st.heap.length →
    StmtNode.nameAnalysisList l acc st = some (r, l', st') → st.InsertsCleanly st'
  | [], acc, st, r, l', st', _, _, _, _, h => by
    simp only [StmtNode.nameAnalysisList, Option.some.injEq, Prod.mk.injEq] at h
    obtain ⟨_, _, rfl⟩ := h
    exact State.InsertsCleanly.ins_refl _
  | s :: tl, acc, st, r, l', st', c, rest, hc, hclt, h => by
    have hne := State.ne_nil_of_chain hc
    obtain ⟨r1, s1, st1, h1, e1⟩ := StmtNode.stmt_extends s st hne
    have hne1 : st1.chain ≠ [] := by rw [e1.chain]; exact hne
    obtain ⟨r2, l2, st2, h2, _⟩ := StmtNode.stmtList_extends tl (r1 && acc) st1 hne1
    simp only [StmtNode.nameAnalysisList, h1, h2, Option.some.injEq, Prod.mk.injEq] at h
    obtain ⟨_, _, rfl⟩ := h
    exact (StmtNode.stmt_inserts s st r1 s1 st1 c rest hc hclt h1).ins_trans
      (StmtNode.stmtList_inserts tl (r1 && acc) st1 r2 l2 st2 c rest (e1.chain.trans hc)
        (lt_of_lt_of_le hclt e1.grows.heapLen) h2)
theorem DeclNode.decl_inserts : ∀ (d : DeclNode) (st : State) (r : Bool) (d' : DeclNode)
    (st' : State) (c : ScopeId) (rest : List ScopeId), st.chain = c :: rest →
    c < st.heap.length → d.nameAnalysis st = some (r, d', st') → st.InsertsCleanly st'
  | .varDecl d, st, r, d', st', c, rest, hc, hclt, h => by
    obtain ⟨r1, d1, st1, h1, _⟩ := d.varDecl_extends st (State.ne_nil_of_chain hc)
    simp only [DeclNode.nameAnalysis, h1, Option.some.injEq, Prod.mk.injEq] at h
    obtain ⟨_, _, rfl⟩ := h
    exact d.varDecl_inserts st r1 d1 st1 c rest hc hclt h1
  | .fnDecl pos id ret formals body, st, r, d', st', c, rest, hc, hclt, h => by
    obtain ⟨vf, formals', st4, fts, rty, vb, body', st6, st7, hF, _, _, hB, hL, heq, hc3, e4, e6,
      _, _⟩ := DeclNode.fnDecl_run pos id ret formals body st hc
    rw [heq] at h
    simp only [Option.some.injEq, Prod.mk.injEq] at h
    obtain ⟨_, _, rfl⟩ := h
    have hr := TypeNode.type_sameTables ret st
    have h3 := FnDeclNode.formalsState_sameTables id ret st c
    have hlen3 : st.heap.length < (FnDeclNode.formalsState id ret st c).heap.length := by
      rw [h3.heap, State.heap_length_enterScope, hr.heap]; exact Nat.lt_succ_self _
    have hsc4 : st4.scope c = st.scope c := by
      rw [e4.scope_other hc3 (lt_trans hclt hlen3) (Nat.ne_of_lt hclt), h3.scope,
        State.scope_enterScope, hr.scope]
    have hclt4 : c < st4.heap.length :=
      lt_of_lt_of_le (lt_trans hclt hlen3) e4.grows.heapLen
    have i1 : st.InsertsCleanly (FnDeclNode.formalsState id ret st c) :=
      hr.inserts.ins_trans ((State.inserts_enterScope _).ins_trans h3.inserts)
    have i4 := VarDeclNode.formals_inserts formals true _ vf formals' st4 _ _ hc3 hlen3 hF
    have hc5 : (FnDeclNode.bodyState id ((st.scope c).clash id.name) c st4
        (FnType.produce fts rty)).chain = st.heap.length :: c :: rest := by
      unfold FnDeclNode.bodyState
      split
      · rw [e4.chain, hc3]
      · simp only [ScopeTable.addFn]; rw [State.chain_insertAt, e4.chain, hc3]
    have i5 : st4.InsertsCleanly (FnDeclNode.bodyState id ((st.scope c).clash id.name) c st4
        (FnType.produce fts rty)) := by
      unfold FnDeclNode.bodyState
      split
      · exact State.InsertsCleanly.ins_refl _
      · rename_i hcl
        exact (State.inserts_insertAt st4 c .fn id.name _ hclt4
          (by rw [hsc4]; exact ScopeTable.clash_eq_false.mp (by simpa using hcl))).2.2
    have hlt5 : st.heap.length < (FnDeclNode.bodyState id ((st.scope c).clash id.name) c st4
        (FnType.produce fts rty)).heap.length := by
      have h45 : st4.heap.length ≤ (FnDeclNode.bodyState id ((st.scope c).clash id.name) c st4
          (FnType.produce fts rty)).heap.length := by
        unfold FnDeclNode.bodyState
        split
        · exact Nat.le_refl _
        · exact (State.grows_insertAt _ _ _ _ _).heapLen
      exact lt_of_lt_of_le (lt_of_lt_of_le hlen3 e4.grows.heapLen) h45
    have i6 := StmtNode.stmtList_inserts body true _ vb body' st6 _ _ hc5 hlt5 hB
    exact i1.ins_trans (i4.ins_trans (i5.ins_trans (i6.ins_trans (State.inserts_leaveScope hL))))
  | .classDefn pos id members, st, r, d', st', c, rest, hc, hclt, h => by
    obtain ⟨res, m', st2, st3, hM, hL, _, e3, hf, _, _, _, heq⟩ :=
      DeclNode.classDefn_run pos id members st hc
    rw [heq] at h
    have i3 : st.InsertsCleanly st3 :=
      (DeclNode.declList_inserts members _ _ res m' st2 _ _ (State.chain_enterScope _)
        (State.cur_lt_enterScope _) hM).of_entered hL
    cases res with
    | false =>
      simp only [Bool.false_eq_true, if_false, Option.some.injEq, Prod.mk.injEq] at h
      obtain ⟨_, _, rfl⟩ := h
      exact i3
    | true =>
      simp only [if_true, Option.some.injEq, Prod.mk.injEq] at h
      obtain ⟨_, _, rfl⟩ := h
      obtain ⟨rs, _, _, hres⟩ := (DeclNode.nameAnalysisList_iff _ _ _ _ _ _).mp hM
      have hcl : (st.scope c).clash id.name = false := by
        cases hcc : (st.scope c).clash id.name with
        | false => rfl
        | true => simp [hcc] at hres
      have h3 : st3.scope c = st.scope c := hf c hclt (by simp)
      refine i3.ins_trans (((State.inserts_insertAt st3 c .agg id.name (.cls st.heap.length)
        (lt_of_lt_of_le hclt e3.grows.heapLen)
        (by rw [h3]; exact ScopeTable.clash_eq_false.mp hcl)).2.2).ins_trans ?_)
      exact (IDNode.id_sameTables id _).inserts
theorem DeclNode.declList_inserts : ∀ (l : List DeclNode) (acc : Bool) (st : State)
    (r : Bool) (l' : List DeclNode) (st' : State) (c : ScopeId) (rest : List ScopeId),
    st.chain = c :: rest → c < st.heap.length →
    DeclNode.nameAnalysisList l acc st = some (r, l', st') → st.InsertsCleanly st'
  | [], acc, st, r, l', st', _, _, _, _, h => by
    simp only [DeclNode.nameAnalysisList, Option.some.injEq, Prod.mk.injEq] at h
    obtain ⟨_, _, rfl⟩ := h
    exact State.InsertsCleanly.ins_refl _
  | d :: tl, acc, st, r, l', st', c, rest, hc, hclt, h => by
    have hne := State.ne_nil_of_chain hc
    obtain ⟨r1, d1, st1, h1, e1⟩ := DeclNode.decl_extends d st hne
    have hne1 : st1.chain ≠ [] := by rw [e1.chain]; exact hne
    obtain ⟨r2, l2, st2, h2, _⟩ := DeclNode.declList_extends tl (r1 && acc) st1 hne1
    simp only [DeclNode.nameAnalysisList, h1, h2, Option.some.injEq, Prod.mk.injEq] at h
    obtain ⟨_, _, rfl⟩ := h
    exact (DeclNode.decl_inserts d st r1 d1 st1 c rest hc hclt h1).ins_trans
      (DeclNode.declList_inserts tl (r1 && acc) st1 r2 l2 st2 c rest (e1.chain.trans hc)
        (lt_of_lt_of_le hclt e1.grows.heapLen) h2)
end

/-- C18. Insertion precondition, in a state whose current scope `c` is an
allocated scope table.  At each of the three insertions of the pass the name is
unbound in the target scope table at the moment of the insertion, and the
insertion returns true: the `insert` of a variable declaration that succeeds;
the `addFn` of a function declaration whose name passed the clash test, made
in the state `st4` left by the formals although the test was made before they
were resolved; the `addClass` of a class declaration whose result is true, made
in the state `st3` left by the members although the test was made before they
were resolved.  Hence over the whole run of a statement, a declaration or a
program every insertion succeeds: as many bindings are gained as symbols are
allocated, and keys that were unique within every scope table stay unique. -/
theorem ProgramNode.insertions_succeed :
    (∀ (d : VarDeclNode) (st : State) (c : ScopeId) (rest : List ScopeId) (d' : VarDeclNode)
        (st' : State), st.chain = c :: rest → c < st.heap.length →
      d.nameAnalysis st = some (true, d', st') →
      ∃ ty, ((d.decisionState st false).scope c).lookup d.myID.name = none ∧
        ((d.decisionState st false).insertAt c .var d.myID.name ty).1 = true ∧
        st' = ((d.decisionState st false).insertAt c .var d.myID.name ty).2) ∧
    (∀ (myID : IDNode) (myRetType : TypeNode) (myFormals : List VarDeclNode)
        (myBody : List StmtNode) (st : State) (c : ScopeId) (rest : List ScopeId),
      st.chain = c :: rest → c < st.heap.length → (st.scope c).clash myID.name = false →
      ∃ (validFormals : Bool) (formals' : List VarDeclNode) (st4 : State) (dataType : DataType)
        (validBody : Bool) (body' : List StmtNode) (st6 : State),
        VarDeclNode.nameAnalysisList myFormals true
          (FnDeclNode.formalsState myID myRetType st c) = some (validFormals, formals', st4) ∧
        (st4.scope c).lookup myID.name = none ∧
        (st4.insertAt c .fn myID.name dataType).1 = true ∧
        StmtNode.nameAnalysisList myBody true (ScopeTable.addFn st4 c myID.name dataType) =
          some (validBody, body', st6)) ∧
    (∀ (myID : IDNode) (myMembers : List DeclNode) (st : State) (c : ScopeId)
        (rest : List ScopeId), st.chain = c :: rest → c < st.heap.length →
      ∃ (result : Bool) (members' : List DeclNode) (st2 st3 : State),
        DeclNode.nameAnalysisList myMembers (!(st.scope c).clash myID.name)
          (SymbolTable.enterScope st).2 = some (result, members', st2) ∧
        SymbolTable.leaveScope st2 = some st3 ∧
        (result = true →
          (st3.scope c).lookup myID.name = none ∧
          (st3.insertAt c .agg myID.name (.cls st.heap.length)).1 = true ∧
          SymbolTable.addClass st3 myID.name st.heap.length =
            some (st3.insertAt c .agg myID.name (.cls st.heap.length)).2)) ∧
    (∀ (s : StmtNode) (st : State) (r : Bool) (s' : StmtNode) (st' : State) (c : ScopeId)
        (rest : List ScopeId), st.chain = c :: rest → c < st.heap.length →
      s.nameAnalysis st = some (r, s', st') → st.InsertsCleanly st') ∧
    (∀ (d : DeclNode) (st : State) (r : Bool) (d' : DeclNode) (st' : State) (c : ScopeId)
        (rest : List ScopeId), st.chain = c :: rest → c < st.heap.length →
      d.nameAnalysis st = some (r, d', st') → st.InsertsCleanly st') ∧
    (∀ (p : ProgramNode) (symTab : State),
      ∃ r p' st', p.nameAnalysis symTab = some (r, p', st') ∧ symTab.InsertsCleanly st') := by
  refine ⟨?_, ?_, ?_, StmtNode.stmt_inserts, DeclNode.decl_inserts, ?_⟩
  · intro d st c rest d' st' hc hclt h
    obtain ⟨ty, _, heq⟩ := d.nameAnalysis_eq st hc
    rw [heq] at h
    have hs := d.decisionState_sameTables st false
    split at h
    · rename_i hv
      simp only [Bool.and_eq_true, Bool.not_eq_true'] at hv
      simp only [Option.some.injEq, Prod.mk.injEq] at h
      obtain ⟨_, _, rfl⟩ := h
      have hfree : ((d.decisionState st false).scope c).lookup d.myID.name = none := by
        rw [hs.scope]; exact ScopeTable.clash_eq_false.mp hv.1.2
      exact ⟨ty, hfree, (State.inserts_insertAt _ c .var d.myID.name ty
        (by rw [hs.heap]; exact hclt) hfree).1, rfl⟩
    · simp at h
  · intro id ret formals body st c rest hc hclt hcl
    obtain ⟨vf, formals', st4, fts, rty, vb, body', st6, st7, hF, _, _, hB, hL, heq, hc3, e4, e6,
      _, _⟩ := DeclNode.fnDecl_run id.pos id ret formals body st hc
    rw [hcl] at hB
    simp only [FnDeclNode.bodyState, Bool.false_eq_true, if_false] at hB
    have hr := TypeNode.type_sameTables ret st
    have h3 := FnDeclNode.formalsState_sameTables id ret st c
    have hlen3 : st.heap.length < (FnDeclNode.formalsState id ret st c).heap.length := by
      rw [h3.heap, State.heap_length_enterScope, hr.heap]; exact Nat.lt_succ_self _
    have hsc4 : st4.scope c = st.scope c := by
      rw [e4.scope_other hc3 (lt_trans hclt hlen3) (Nat.ne_of_lt hclt), h3.scope,
        State.scope_enterScope, hr.scope]
    have hclt4 : c < st4.heap.length :=
      lt_of_lt_of_le (lt_trans hclt hlen3) e4.grows.heapLen
    have hfree : (st4.scope c).lookup id.name = none := by
      rw [hsc4]; exact ScopeTable.clash_eq_false.mp hcl
    exact ⟨vf, formals', st4, _, vb, body', st6, hF, hfree,
      (State.inserts_insertAt st4 c .fn id.name _ hclt4 hfree).1, hB⟩
  · intro id members st c rest hc hclt
    obtain ⟨res, m', st2, st3, hM, hL, _, e3, hf, _, _, _, _⟩ :=
      DeclNode.classDefn_run id.pos id members st hc
    refine ⟨res, m', st2, st3, hM, hL, ?_⟩
    rintro rfl
    obtain ⟨rs, _, _, hres⟩ := (DeclNode.nameAnalysisList_iff _ _ _ _ _ _).mp hM
    have hcl : (st.scope c).clash id.name = false := by
      cases hcc : (st.scope c).clash id.name with
      | false => rfl
      | true => simp [hcc] at hres
    have hfree : (st3.scope c).lookup id.name = none := by
      rw [hf c hclt (by simp)]; exact ScopeTable.clash_eq_false.mp hcl
    refine ⟨hfree, (State.inserts_insertAt st3 c .agg id.name _
      (lt_of_lt_of_le hclt e3.grows.heapLen) hfree).1, ?_⟩
    simp [SymbolTable.addClass, SymbolTable.getCurrentScope, e3.chain, hc]
  · intro p symTab
    obtain ⟨r, p', st2, st', h, _, h2, _, hl⟩ := p.nameAnalysis_extends symTab
    exact ⟨r, p', st', h, (DeclNode.declList_inserts p.myGlobals true _ r _ st2 _ _
      (State.chain_enterScope _) (State.cur_lt_enterScope _) h2).of_entered hl⟩

/-- C18 on a concrete input: the class `A : class { A : int; }`, whose member
has the name of the class, followed by a reference to it. -/
theorem ProgramNode.insertions_succeed_witness :
    (∃ (result : Bool) (members' : List DeclNode) (st2 st3 : State),
      DeclNode.nameAnalysisList
          [.varDecl ⟨⟨2, 2⟩, ⟨⟨2, 2⟩, "A", none⟩, .basic ⟨2, 6⟩ .int, none⟩]
          (!(State.scope ⟨[[]], [0], 0, []⟩ 0).clash "A")
          (SymbolTable.enterScope ⟨[[]], [0], 0, []⟩).2 = some (result, members', st2) ∧
      SymbolTable.leaveScope st2 = some st3 ∧
      (result = true →
        (st3.scope 0).lookup "A" = none ∧
        (st3.insertAt 0 .agg "A" (.cls 1)).1 = true ∧
        SymbolTable.addClass st3 "A" 1 = some (st3.insertAt 0 .agg "A" (.cls 1)).2)) ∧
    State.InsertsCleanly ⟨[[]], [0], 0, []⟩
      ⟨[[⟨1, .agg, "A", .cls 1⟩], [⟨0, .var, "A", .primitive .int⟩]], [0], 2, []⟩ :=
  ⟨ProgramNode.insertions_succeed.2.2.1 ⟨⟨1, 0⟩, "A", none⟩
      [.varDecl ⟨⟨2, 2⟩, ⟨⟨2, 2⟩, "A", none⟩, .basic ⟨2, 6⟩ .int, none⟩]
      ⟨[[]], [0], 0, []⟩ 0 [] rfl (by decide),
   ProgramNode.insertions_succeed.2.2.2.2.1
      (.classDefn ⟨1, 0⟩ ⟨⟨1, 0⟩, "A", none⟩
        [.varDecl ⟨⟨2, 2⟩, ⟨⟨2, 2⟩, "A", none⟩, .basic ⟨2, 6⟩ .int, none⟩])
      ⟨[[]], [0], 0, []⟩ true
      (.classDefn ⟨1, 0⟩ ⟨⟨1, 0⟩, "A", some ⟨1, .agg, "A", .cls 1⟩⟩
        [.varDecl ⟨⟨2, 2⟩, ⟨⟨2, 2⟩, "A", some ⟨0, .var, "A", .primitive .int⟩⟩,
          .basic ⟨2, 6⟩ .int, none⟩])
      ⟨[[⟨1, .agg, "A", .cls 1⟩], [⟨0, .var, "A", .primitive .int⟩]], [0], 2, []⟩ 0 [] rfl
      (by decide) rfl⟩

/-! ## Formals and locals share the body scope -/

theorem State.find_of_head {st : State} {b : ScopeId} {rest : List ScopeId} {x : String}
    {s : SemSymbol} (hc : st.chain = b :: rest) (h : (st.scope b).lookup x = some s) :
    SymbolTable.find st x = some s := by
  simp [SymbolTable.find, hc, State.findIn, h]

mutual
theorem State.HasShape.shape_mono {st st' : State}
    (hg : ∀ id name s, (st.scope id).lookup name = some s → (st'.scope id).lookup name = some s) :
    ∀ (sh : Shape) (ty : DataType), st.HasShape sh ty → st'.HasShape sh ty
  | .plain, _, _ => by simp [State.HasShape]
  | .obj fs, ty, h => by
    simp only [State.HasShape] at h ⊢
    obtain ⟨fid, hty, hf⟩ := h
    exact ⟨fid, hty, State.HasFields.fields_mono hg fs fid hf⟩
theorem State.HasFields.fields_mono {st st' : State}
    (hg : ∀ id name s, (st.scope id).lookup name = some s → (st'.scope id).lookup name = some s) :
    ∀ (fs : FieldList) (fid : ScopeId), st.HasFields fs fid → st'.HasFields fs fid
  | .nil, _, _ => by simp [State.HasFields]
  | .cons n sh rest, fid, h => by
    simp only [State.HasFields] at h ⊢
    obtain ⟨⟨sym, hl, hs⟩, hr⟩ := h
    exact ⟨⟨sym, hg _ _ _ hl, State.HasShape.shape_mono hg sh _ hs⟩,
      State.HasFields.fields_mono hg rest fid hr⟩
end

theorem State.Stands.stands_mono {st st' : State} (hg : st.Grows st') {e : Entry}
    {sym : SemSymbol} (h : st.Stands e sym) : st'.Stands e sym :=
  ⟨h.1, State.HasShape.shape_mono hg.lookup _ _ h.2⟩

theorem State.HasFields.field {st : State} : ∀ (fs : FieldList) (fid : ScopeId) (x : String)
    (sh : Shape), st.HasFields fs fid → fs.lookup x = some sh →
    ∃ sym, (st.scope fid).lookup x = some sym ∧ st.HasShape sh sym.type
  | .nil, _, _, _, _, h => by simp [FieldList.lookup] at h
  | .cons n sh0 rest, fid, x, sh, hf, h => by
    simp only [State.HasFields] at hf
    simp only [FieldList.lookup] at h
    split at h
    · rename_i hn
      cases h
      subst hn
      exact hf.1
    · exact State.HasFields.field rest fid x sh hf.2 h

theorem Env.lookup_append (loc outer : Env) (x : String) :
    Env.lookup (loc ++ outer) x =
      match Env.lookup loc x with
      | some e => some e
      | none => Env.lookup outer x := by
  induction loc with
  | nil => rfl
  | cons p rest ih =>
    obtain ⟨n, e⟩ := p
    simp only [List.cons_append, Env.lookup]
    split
    · rfl
    · exact ih

theorem Env.mem_of_lookup : ∀ (loc : Env) (x : String) (e : Entry),
    Env.lookup loc x = some e → (x, e) ∈ loc
  | [], _, _, h => by simp [Env.lookup] at h
  | (n, e0) :: rest, x, e, h => by
    simp only [Env.lookup] at h
    split at h
    · rename_i hn
      cases h
      subst hn
      exact List.mem_cons_self _ _
    · exact List.mem_cons_of_mem _ (Env.mem_of_lookup rest x e h)

theorem State.Finds.of_grows {st st' : State} {env : Env} (h : st.Finds env)
    (hg : st.Grows st') (hf : ∀ x, SymbolTable.find st' x = SymbolTable.find st x) :
    st'.Finds env := by
  intro x e hx
  obtain ⟨sym, hs, hr⟩ := h x e hx
  exact ⟨sym, by rw [hf, hs], hr.stands_mono hg⟩

theorem State.Finds.of_same {st st' : State} {env : Env} (h : st.Finds env)
    (hs : st.SameTables st') : st'.Finds env :=
  h.of_grows hs.grows hs.find

theorem State.Mirrors.finds {st : State} {loc outer : Env} {c : ScopeId} {rest : List ScopeId}
    (h : st.Mirrors loc outer c rest) : st.Finds (loc ++ outer) := by
  intro x e hx
  rw [Env.lookup_append] at hx
  cases hl : Env.lookup loc x with
  | some e1 =>
    simp only [hl, Option.some.injEq] at hx
    subst hx
    obtain ⟨sym, hs, hr⟩ := h.locals (x, e1) (Env.mem_of_lookup loc x e1 hl)
    exact ⟨sym, State.find_of_head h.chain hs, hr⟩
  | none =>
    simp only [hl] at hx
    obtain ⟨sym, hs, hr⟩ := h.outers x e hx
    refine ⟨sym, ?_, hr⟩
    simp [SymbolTable.find, h.chain, State.findIn, h.agree x hl, hs]

/-- A location whose references are declared resolves, to a symbol that offers
what the text promises. -/
theorem LocNode.loc_sound {env : Env} : ∀ (l : LocNode) (st : State) (sh : Shape),
    st.Finds env → l.shape env = some sh →
    (l.nameAnalysis st).1 = true ∧
      ∃ sym, (l.nameAnalysis st).2.1.getSymbol = some sym ∧ st.HasShape sh sym.type
  | .id n, st, sh, hf, h => by
    simp only [LocNode.shape, Option.map_eq_some'] at h
    obtain ⟨e, he, rfl⟩ := h
    obtain ⟨sym, hs, hr⟩ := hf n.name e he
    simp only [LocNode.nameAnalysis, IDNode.nameAnalysis, hs]
    exact ⟨trivial, sym, rfl, hr.2⟩
  | .member pos base field sym0, st, sh, hf, h => by
    simp only [LocNode.shape] at h
    split at h
    · rename_i fs hb
      obtain ⟨hres, bsym, hsym, hshape⟩ := LocNode.loc_sound base st (.obj fs) hf hb
      simp only [State.HasShape] at hshape
      obtain ⟨fid, hty, hfields⟩ := hshape
      obtain ⟨fsym, hfl, hfs⟩ := State.HasFields.field fs fid field.name sh hfields h
      have hs := LocNode.loc_sameTables base st
      have hfl1 : ClassType.getField (base.nameAnalysis st).2.2 fid field.name = some fsym := by
        simp only [ClassType.getField, hs.scope]
        exact hfl
      simp only [LocNode.nameAnalysis, hsym, hty, DataType.asClass, hfl1]
      exact ⟨hres, fsym, rfl, hfs⟩
    · cases h

theorem DataType.validVarType_of_ne {b : BaseType} (h : (b != .void) = true) :
    (DataType.primitive b).validVarType = true := by
  cases b <;> simp_all [DataType.validVarType]

/-- A type annotation whose class, if any, is declared resolves, to a type that
offers what the text promises and that is usable unless the annotation is
`void`. -/
theorem TypeNode.type_sound {env : Env} : ∀ (t : TypeNode) (st : State) (sh : Shape),
    st.Finds env → t.shape env = some sh →
    (t.nameAnalysis st).1 = true ∧
      ∃ ty, (t.nameAnalysis st).2.1.getType = some ty ∧ st.HasShape sh ty ∧
        (t.usable = true → ty.validVarType = true)
  | .basic pos b, st, sh, _, h => by
    simp only [TypeNode.shape, Option.some.injEq] at h
    subst h
    exact ⟨rfl, .primitive b, rfl, by simp [State.HasShape],
      fun hu => DataType.validVarType_of_ne (by simpa [TypeNode.usable] using hu)⟩
  | .perfect pos sub, st, sh, hf, h => by
    simp only [TypeNode.shape] at h
    obtain ⟨h1, ty, h2, h3, h4⟩ := TypeNode.type_sound sub st sh hf h
    exact ⟨by simpa [TypeNode.nameAnalysis] using h1, ty,
      by simpa [TypeNode.nameAnalysis, TypeNode.getType] using h2, h3,
      fun hu => h4 (by simpa [TypeNode.usable] using hu)⟩
  | .cls pos id ty0, st, sh, hf, h => by
    simp only [TypeNode.shape] at h
    split at h
    · rename_i fs he
      cases h
      obtain ⟨sym, hs, hk, hshape⟩ := hf id.name _ he
      have hk1 : sym.kind = .agg := hk rfl
      have hshape1 := hshape
      simp only [State.HasShape] at hshape1
      obtain ⟨fid, hty, _⟩ := hshape1
      simp only [TypeNode.nameAnalysis, hs, hk1, ne_eq, not_true_eq_false, if_false,
        TypeNode.getType]
      exact ⟨trivial, sym.type, rfl, hshape, fun _ => by rw [hty]; rfl⟩
    · cases h

mutual
theorem ExpNode.exp_sound {env : Env} : ∀ (e : ExpNode) (st : State), st.Finds env →
    e.check env = true → (e.nameAnalysis st).1 = true
  | .intLit _ _, _, _, _ => rfl
  | .strLit _ _, _, _, _ => rfl
  | .trueNode _, _, _, _ => rfl
  | .falseNode _, _, _, _ => rfl
  | .loc l, st, hf, h => by
    simp only [ExpNode.check, Option.isSome_iff_exists] at h
    obtain ⟨sh, hsh⟩ := h
    simpa [ExpNode.nameAnalysis] using (LocNode.loc_sound l st sh hf hsh).1
  | .binary pos op e1 e2, st, hf, h => by
    simp only [ExpNode.check, Bool.and_eq_true] at h
    have h1 := ExpNode.exp_sound e1 st hf h.1
    have h2 := ExpNode.exp_sound e2 (e1.nameAnalysis st).2.2
      (hf.of_same (ExpNode.exp_sameTables e1 st)) h.2
    simp [ExpNode.nameAnalysis, h1, h2]
  | .neg pos e, st, hf, h => by
    simp only [ExpNode.check] at h
    simpa [ExpNode.nameAnalysis] using ExpNode.exp_sound e st hf h
  | .not pos e, st, hf, h => by
    simp only [ExpNode.check] at h
    simpa [ExpNode.nameAnalysis] using ExpNode.exp_sound e st hf h
  | .call pos callee args, st, hf, h => by
    simp only [ExpNode.check, Bool.and_eq_true, Option.isSome_iff_exists] at h
    obtain ⟨⟨sh, hsh⟩, hargs⟩ := h
    have h1 := (LocNode.loc_sound callee st sh hf hsh).1
    have h2 := ExpNode.expList_sound args (callee.nameAnalysis st).2.2
      (hf.of_same (LocNode.loc_sameTables callee st)) hargs
    simp only [ExpNode.nameAnalysis, h1, Bool.and_true]
    exact h2
theorem ExpNode.expList_sound {env : Env} : ∀ (l : List ExpNode) (st : State), st.Finds env →
    ExpNode.checkList env l = true → (ExpNode.nameAnalysisList l true st).1 = true
  | [], _, _, _ => rfl
  | e :: rest, st, hf, h => by
    simp only [ExpNode.checkList, Bool.and_eq_true] at h
    have h1 := ExpNode.exp_sound e st hf h.1
    have h2 := ExpNode.expList_sound rest (e.nameAnalysis st).2.2
      (hf.of_same (ExpNode.exp_sameTables e st)) h.2
    simp only [ExpNode.nameAnalysisList, h1, Bool.and_true]
    exact h2
end

theorem State.Mirrors.lt_heap {st : State} {loc outer : Env} {c : ScopeId} {rest : List ScopeId}
    (h : st.Mirrors loc outer c rest) : c < st.heap.length :=
  h.wf c (by rw [h.chain]; exact List.mem_cons_self _ _)

/-- A scope that is entered starts with nothing declared; what was visible
stays visible from outside. -/
theorem State.Mirrors.mirrors_enter {st : State} {loc outer : Env} {c : ScopeId}
    {rest : List ScopeId} (h : st.Mirrors loc outer c rest) :
    (SymbolTable.enterScope st).2.Mirrors [] (loc ++ outer) st.heap.length (c :: rest) := by
  refine ⟨by rw [State.chain_enterScope, h.chain], State.wf_enterScope h.wf, ?_, ?_, ?_, ?_⟩
  · intro hm
    have := h.wf st.heap.length (by rw [h.chain]; exact hm)
    exact Nat.lt_irrefl _ this
  · intro x _
    exact State.lookup_entered_scope st x
  · intro p hp
    cases hp
  · intro x e hx
    obtain ⟨sym, hs, hr⟩ := h.finds x e hx
    refine ⟨sym, ?_, hr.stands_mono (State.grows_enterScope st)⟩
    rw [State.findIn_congr x (c :: rest) (fun id _ => State.scope_enterScope st id)]
    simpa [SymbolTable.find, h.chain] using hs

theorem State.Mirrors.outer_scopes {st st' : State} {loc outer : Env} {c : ScopeId}
    {rest : List ScopeId} (h : st.Mirrors loc outer c rest) (he : st.Extends st') :
    ∀ id ∈ rest, st'.scope id = st.scope id := by
  intro id hid
  refine he.frame id (h.wf id (by rw [h.chain]; exact List.mem_cons_of_mem _ hid)) ?_
  rw [h.chain]
  simp only [List.head?_cons, ne_eq, Option.some.injEq]
  intro hc
  exact h.fresh (hc ▸ hid)

/-- A step that leaves the current scope table as it was. -/
theorem State.Mirrors.step_same {st st' : State} {loc outer : Env} {c : ScopeId}
    {rest : List ScopeId} (h : st.Mirrors loc outer c rest) (he : st.Extends st')
    (hk : ∀ x, (st'.scope c).lookup x = (st.scope c).lookup x) :
    st'.Mirrors loc outer c rest := by
  refine ⟨he.chain.trans h.chain, he.ext_wf h.wf, h.fresh, ?_, ?_, ?_⟩
  · intro x hx
    rw [hk]
    exact h.agree x hx
  · intro p hp
    obtain ⟨sym, hs, hr⟩ := h.locals p hp
    exact ⟨sym, by rw [hk]; exact hs, hr.stands_mono he.grows⟩
  · intro x e hx
    obtain ⟨sym, hs, hr⟩ := h.outers x e hx
    exact ⟨sym, by rw [State.findIn_congr x rest (h.outer_scopes he)]; exact hs,
      hr.stands_mono he.grows⟩

/-- A step that declares one more name in the current scope table. -/
theorem State.Mirrors.step_decl {st st' : State} {loc outer : Env} {c : ScopeId}
    {rest : List ScopeId} (h : st.Mirrors loc outer c rest) (he : st.Extends st') {x : String}
    {e : Entry} {s : SemSymbol}
    (hk : ∀ y, x ≠ y → (st'.scope c).lookup y = (st.scope c).lookup y)
    (hfree : (st.scope c).lookup x = none)
    (hx : (st'.scope c).lookup x = some s) (hs : st'.Stands e s) :
    st'.Mirrors ((x, e) :: loc) outer c rest := by
  refine ⟨he.chain.trans h.chain, he.ext_wf h.wf, h.fresh, ?_, ?_, ?_⟩
  · intro y hy
    simp only [Env.lookup] at hy
    split at hy
    · cases hy
    · rename_i hne
      rw [hk y hne]
      exact h.agree y hy
  · intro p hp
    rcases List.mem_cons.mp hp with rfl | hp
    · exact ⟨s, hx, hs⟩
    · obtain ⟨s1, hl, hr⟩ := h.locals p hp
      have hne : x ≠ p.1 := by
        intro hxp
        rw [← hxp, hfree] at hl
        cases hl
      exact ⟨s1, by rw [hk _ hne]; exact hl, hr.stands_mono he.grows⟩
  · intro y e1 hy
    obtain ⟨s1, hl, hr⟩ := h.outers y e1 hy
    exact ⟨s1, by rw [State.findIn_congr y rest (h.outer_scopes he)]; exact hl,
      hr.stands_mono he.grows⟩

/-- A name added to the enclosing scope while an inner scope is current (the
function symbol, added between the formals and the body). -/
theorem State.Mirrors.add_outer {st : State} {floc env : Env} {b c : ScopeId}
    {rest : List ScopeId} (h : st.Mirrors floc env b (c :: rest)) (x : String) (k : SymbolKind)
    (ty : DataType) (e : Entry) (hclt : c < st.heap.length)
    (hfree : (st.scope c).lookup x = none)
    (hs : (st.insertAt c k x ty).2.Stands e ⟨st.nextSym, k, x, ty⟩) :
    (st.insertAt c k x ty).2.Mirrors floc ((x, e) :: env) b (c :: rest) := by
  have hg := State.grows_insertAt st c k x ty
  have hbc : ¬ (c = b ∧ c < st.heap.length) := fun hh =>
    h.fresh (hh.1 ▸ List.mem_cons_self _ _)
  have hsb : (st.insertAt c k x ty).2.scope b = st.scope b := by
    rw [State.scope_insertAt, if_neg hbc]
  refine ⟨by rw [State.chain_insertAt, h.chain], ?_, h.fresh, ?_, ?_, ?_⟩
  · intro id hid
    rw [State.chain_insertAt] at hid
    exact lt_of_lt_of_le (h.wf id hid) hg.heapLen
  · intro y hy
    rw [hsb]
    exact h.agree y hy
  · intro p hp
    obtain ⟨s, hl, hr⟩ := h.locals p hp
    exact ⟨s, by rw [hsb]; exact hl, hr.stands_mono hg⟩
  · intro y e1 hy
    simp only [Env.lookup] at hy
    split at hy
    · rename_i hxy
      cases hy
      subst hxy
      refine ⟨_, ?_, hs⟩
      simp [State.findIn, State.lookup_insertAt_self st c k x ty hclt hfree]
    · rename_i hxy
      obtain ⟨s, hl, hr⟩ := h.outers y e1 hy
      refine ⟨s, ?_, hr.stands_mono hg⟩
      rw [(State.keepsName_insertAt st c k x ty y hxy).findIn]
      exact hl

/-- A variable declaration whose references are declared, whose type is not
`void` and whose name is new in the current scope succeeds. -/
theorem VarDeclNode.varDecl_sound (d : VarDeclNode) (outer loc loc' : Env) (st : State)
    (c : ScopeId) (rest : List ScopeId) (hm : st.Mirrors loc outer c rest)
    (hu : d.myType.usable = true) (hfree : (st.scope c).lookup d.myID.name = none)
    (hck : d.check outer loc = some loc') :
    ∃ d' st', d.nameAnalysis st = some (true, d', st') ∧ st'.Mirrors loc' outer c rest := by
  unfold VarDeclNode.check at hck
  split at hck
  · cases hck
  · rename_i sh hsh
    split at hck
    · rename_i hinit
      cases hck
      obtain ⟨hT, ty, hty, hshape, hvalid⟩ := TypeNode.type_sound d.myType st sh hm.finds hsh
      have htype : d.validType st = true := by
        simp [VarDeclNode.validType, hT, hty, hvalid hu]
      have hI : (d.initAnalysis (d.myType.nameAnalysis st).2.2).1 = true := by
        unfold VarDeclNode.initAnalysis
        cases hi : d.myInit with
        | none => rfl
        | some e =>
          simp only [hi] at hinit ⊢
          exact ExpNode.exp_sound e _ (hm.finds.of_same (TypeNode.type_sameTables d.myType st))
            hinit
      obtain ⟨ty1, hty1, heq⟩ := d.nameAnalysis_eq st hm.chain
      rw [hty] at hty1
      cases hty1
      have hcl : (st.scope c).clash d.myID.name = false := ScopeTable.clash_eq_false.mpr hfree
      have hs := d.decisionState_sameTables st false
      have hrun : d.nameAnalysis st = some (true,
          { d with
            myID := d.myID.attachSymbol (SymbolTable.find
              ((d.decisionState st false).insertAt c .var d.myID.name ty).2 d.myID.name)
            myType := (d.myType.nameAnalysis st).2.1
            myInit := (d.initAnalysis (d.myType.nameAnalysis st).2.2).2.1 },
          ((d.decisionState st false).insertAt c .var d.myID.name ty).2) := by
        rw [heq]; simp [htype, hcl, hI]
      obtain ⟨r1, d1, st1, h1, e1, _⟩ := d.varDecl_extends st (State.ne_nil_of_chain hm.chain)
      rw [hrun] at h1
      simp only [Option.some.injEq, Prod.mk.injEq] at h1
      obtain ⟨_, _, rfl⟩ := h1
      refine ⟨_, _, hrun, hm.step_decl e1 ?_ hfree
        (s := ⟨st.nextSym, .var, d.myID.name, ty⟩) ?_ ?_⟩
      · intro y hy
        exact (d.varDecl_refs y st _ _ _ (State.ne_nil_of_chain hm.chain) hy hrun).1 c
      · have := State.lookup_insertAt_self (d.decisionState st false) c .var d.myID.name ty
          (by rw [hs.heap]; exact hm.lt_heap) (by rw [hs.scope]; exact hfree)
        rw [hs.nextSym] at this
        exact this
      · exact ⟨fun hh => (by cases hh), State.HasShape.shape_mono e1.grows.lookup _ _ hshape⟩
    · cases hck

theorem VarDeclNode.formals_sound : ∀ (l : List VarDeclNode) (outer loc loc' : Env) (st : State)
    (c : ScopeId) (rest : List ScopeId), st.Mirrors loc outer c rest →
    VarDeclNode.usableList l = true → (VarDeclNode.namesList l).Nodup →
    (∀ x ∈ VarDeclNode.namesList l, (st.scope c).lookup x = none) →
    VarDeclNode.checkList outer l loc = some loc' →
    ∃ l' st', VarDeclNode.nameAnalysisList l true st = some (true, l', st') ∧
      st'.Mirrors loc' outer c rest
  | [], outer, loc, loc', st, c, rest, hm, _, _, _, hck => by
    simp only [VarDeclNode.checkList, Option.some.injEq] at hck
    subst hck
    exact ⟨[], st, rfl, hm⟩
  | d :: tl, outer, loc, loc', st, c, rest, hm, hu, hnd, hfree, hck => by
    simp only [VarDeclNode.usableList, Bool.and_eq_true] at hu
    simp only [VarDeclNode.namesList, List.nodup_cons] at hnd
    simp only [VarDeclNode.checkList] at hck
    cases h1 : d.check outer loc with
    | none => simp [h1] at hck
    | some loc1 =>
      simp only [h1] at hck
      obtain ⟨d', st1, hd, hm1⟩ := d.varDecl_sound outer loc loc1 st c rest hm hu.1
        (hfree _ (by simp [VarDeclNode.namesList])) h1
      have hfree1 : ∀ x ∈ VarDeclNode.namesList tl, (st1.scope c).lookup x = none := by
        intro x hx
        have hxd : d.myID.name ≠ x := fun e => hnd.1 (e ▸ hx)
        rw [(d.varDecl_refs x st true d' st1 (State.ne_nil_of_chain hm.chain) hxd hd).1 c]
        exact hfree x (by simp [VarDeclNode.namesList, hx])
      obtain ⟨l', st2, hl, hm2⟩ := VarDeclNode.formals_sound tl outer loc1 loc' st1 c rest hm1
        hu.2 hnd.2 hfree1 hck
      exact ⟨d' :: l', st2, by simp [VarDeclNode.nameAnalysisList, hd, hl], hm2⟩

theorem State.Mirrors.mirrors_same {st st' : State} {loc outer : Env} {c : ScopeId}
    {rest : List ScopeId} (h : st.Mirrors loc outer c rest) (hs : st.SameTables st') :
    st'.Mirrors loc outer c rest :=
  h.step_same hs.extends (fun x => by rw [hs.scope])

/-- The members a class scope has declared make up the fields of the class. -/
theorem State.HasFields.of_locals {st : State} {b : ScopeId} : ∀ (m : Env),
    (∀ p ∈ m, ∃ sym, (st.scope b).lookup p.1 = some sym ∧ st.Stands p.2 sym) →
    st.HasFields (FieldList.ofEnv m) b
  | [], _ => by simp [FieldList.ofEnv, State.HasFields]
  | (n, e) :: rest, h => by
    simp only [FieldList.ofEnv, State.HasFields]
    obtain ⟨sym, hl, hs⟩ := h (n, e) (List.mem_cons_self _ _)
    exact ⟨⟨sym, hl, hs.2⟩,
      State.HasFields.of_locals rest (fun p hp => h p (List.mem_cons_of_mem _ hp))⟩

/-- A statement that declares nothing leaves the scope it stands in as it was. -/
theorem StmtNode.mirrors_of_run {st st' : State} {loc outer : Env} {c : ScopeId}
    {rest : List ScopeId} (s : StmtNode) (r : Bool) (s' : StmtNode)
    (hm : st.Mirrors loc outer c rest) (ht : s.topNames = [])
    (h : s.nameAnalysis st = some (r, s', st')) : st'.Mirrors loc outer c rest := by
  obtain ⟨r1, s1, st1, h1, he⟩ := s.stmt_extends st (State.ne_nil_of_chain hm.chain)
  rw [h] at h1
  simp only [Option.some.injEq, Prod.mk.injEq] at h1
  obtain ⟨_, _, rfl⟩ := h1
  exact hm.step_same he (fun x => s.stmt_keeps_cur st r s' st' c rest hm.chain hm.lt_heap x
    (by rw [ht]; simp) h)

theorem StmtNode.sound_of_true {st : State} {loc outer : Env} {c : ScopeId}
    {rest : List ScopeId} (s : StmtNode) (hm : st.Mirrors loc outer c rest)
    (ht : s.topNames = [])
    (hr : ∀ r s' st', s.nameAnalysis st = some (r, s', st') → r = true) :
    ∃ s' st', s.nameAnalysis st = some (true, s', st') ∧ st'.Mirrors loc outer c rest := by
  obtain ⟨r1, s1, st1, h1, _⟩ := s.stmt_extends st (State.ne_nil_of_chain hm.chain)
  have := hr r1 s1 st1 h1
  subst this
  exact ⟨s1, st1, h1, s.mirrors_of_run true s1 hm ht h1⟩

/-- Leaving the scope of a body gives back the scope around it as it was. -/
theorem State.Mirrors.after_body {st1 st3 st4 : State} {loc outer : Env} {c : ScopeId}
    {rest : List ScopeId} (hm : st1.Mirrors loc outer c rest)
    (he : (SymbolTable.enterScope st1).2.Extends st3)
    (hl : SymbolTable.leaveScope st3 = some st4) : st4.Mirrors loc outer c rest := by
  obtain ⟨st4', hl', he4, _, _, _, hf⟩ := State.Extends.enter_leave he
  rw [hl] at hl'
  cases hl'
  exact hm.step_same he4 (fun x => by rw [hf c hm.lt_heap (by simp)])

theorem State.scope_of_heap {st st' : State} (h : st'.heap = st.heap) (id : ScopeId) :
    st'.scope id = st.scope id := by
  simp only [State.scope, h]

mutual
theorem StmtNode.stmt_sound : ∀ (s : StmtNode) (outer loc loc' : Env) (st : State) (c : ScopeId)
    (rest : List ScopeId), st.Mirrors loc outer c rest → s.noRedecl = true →
    s.usableTypes = true → (∀ x ∈ s.topNames, (st.scope c).lookup x = none) →
    s.check outer loc = some loc' →
    ∃ s' st', s.nameAnalysis st = some (true, s', st') ∧ st'.Mirrors loc' outer c rest
  | .assign pos dst src, outer, loc, loc', st, c, rest, hm, _, _, _, hck => by
    simp only [StmtNode.check] at hck
    split at hck
    · rename_i hc
      cases hck
      simp only [Bool.and_eq_true, Option.isSome_iff_exists] at hc
      obtain ⟨⟨sh, hsh⟩, hsrc⟩ := hc
      have h1 := (LocNode.loc_sound dst st sh hm.finds hsh).1
      have h2 := ExpNode.exp_sound src _ (hm.finds.of_same (LocNode.loc_sameTables dst st)) hsrc
      refine StmtNode.sound_of_true _ hm rfl ?_
      intro r s' st' h
      simp only [StmtNode.nameAnalysis, Option.some.injEq, Prod.mk.injEq] at h
      obtain ⟨rfl, _, _⟩ := h
      simp [h1, h2]
    · cases hck
  | .exit pos, outer, loc, loc', st, c, rest, hm, _, _, _, hck => by
    simp only [StmtNode.check, Option.some.injEq] at hck
    subst hck
    refine StmtNode.sound_of_true _ hm rfl ?_
    intro r s' st' h
    simp only [StmtNode.nameAnalysis, Option.some.injEq, Prod.mk.injEq] at h
    exact h.1.symm
  | .postDec pos l, outer, loc, loc', st, c, rest, hm, _, _, _, hck => by
    simp only [StmtNode.check] at hck
    split at hck
    · rename_i hc
      cases hck
      obtain ⟨sh, hsh⟩ := Option.isSome_iff_exists.mp hc
      have h1 := (LocNode.loc_sound l st sh hm.finds hsh).1
      refine StmtNode.sound_of_true _ hm rfl ?_
      intro r s' st' h
      simp only [StmtNode.nameAnalysis, Option.some.injEq, Prod.mk.injEq] at h
      obtain ⟨rfl, _, _⟩ := h
      exact h1
    · cases hck
  | .postInc pos l, outer, loc, loc', st, c, rest, hm, _, _, _, hck => by
    simp only [StmtNode.check] at hck
    split at hck
    · rename_i hc
      cases hck
      obtain ⟨sh, hsh⟩ := Option.isSome_iff_exists.mp hc
      have h1 := (LocNode.loc_sound l st sh hm.finds hsh).1
      refine StmtNode.sound_of_true _ hm rfl ?_
      intro r s' st' h
      simp only [StmtNode.nameAnalysis, Option.some.injEq, Prod.mk.injEq] at h
      obtain ⟨rfl, _, _⟩ := h
      exact h1
    · cases hck
  | .take pos l, outer, loc, loc', st, c, rest, hm, _, _, _, hck => by
    simp only [StmtNode.check] at hck
    split at hck
    · rename_i hc
      cases hck
      obtain ⟨sh, hsh⟩ := Option.isSome_iff_exists.mp hc
      have h1 := (LocNode.loc_sound l st sh hm.finds hsh).1
      refine StmtNode.sound_of_true _ hm rfl ?_
      intro r s' st' h
      simp only [StmtNode.nameAnalysis, Option.some.injEq, Prod.mk.injEq] at h
      obtain ⟨rfl, _, _⟩ := h
      exact h1
    · cases hck
  | .give pos e, outer, loc, loc', st, c, rest, hm, _, _, _, hck => by
    simp only [StmtNode.check] at hck
    split at hck
    · rename_i hc
      cases hck
      have h1 := ExpNode.exp_sound e st hm.finds hc
      refine StmtNode.sound_of_true _ hm rfl ?_
      intro r s' st' h
      simp only [StmtNode.nameAnalysis, Option.some.injEq, Prod.mk.injEq] at h
      obtain ⟨rfl, _, _⟩ := h
      exact h1
    · cases hck
  | .ifStmt pos cond body, outer, loc, loc', st, c, rest, hm, hnr, hu, _, hck => by
    simp only [StmtNode.check] at hck
    split at hck
    · rename_i hcond
      cases hb : StmtNode.checkList (loc ++ outer) body [] with
      | none => simp [hb] at hck
      | some bl =>
        simp only [hb, Option.some.injEq] at hck
        subst hck
        simp only [StmtNode.noRedecl, Bool.and_eq_true, decide_eq_true_eq] at hnr
        simp only [StmtNode.usableTypes] at hu
        have h1 := ExpNode.exp_sound cond st hm.finds hcond
        have hm1 := hm.mirrors_same (ExpNode.exp_sameTables cond st)
        obtain ⟨b', st3, hrun, _⟩ := StmtNode.stmtList_sound body (loc ++ outer) [] bl _ _ _
          hm1.mirrors_enter hnr.2 hu hnr.1 (fun x _ => State.lookup_entered_scope _ x) hb
        refine StmtNode.sound_of_true _ hm rfl ?_
        intro r s' st' h
        obtain ⟨r2, b2, st3x, st4x, hbx, _, hl, _⟩ := StmtNode.resolveBody_run body
          ((cond.nameAnalysis st).1 && true) (cond.nameAnalysis st).2.2
        simp only [StmtNode.nameAnalysis, hbx, hl, Option.some.injEq, Prod.mk.injEq] at h
        obtain ⟨rfl, _, _⟩ := h
        rw [h1, Bool.and_true, hrun] at hbx
        simp only [Option.some.injEq, Prod.mk.injEq] at hbx
        exact hbx.1.symm
    · cases hck
  | .ifElse pos cond bodyT bodyF, outer, loc, loc', st, c, rest, hm, hnr, hu, _, hck => by
    simp only [StmtNode.check] at hck
    split at hck
    · rename_i hcond
      cases hbT : StmtNode.checkList (loc ++ outer) bodyT [] with
      | none => simp [hbT] at hck
      | some blT =>
        cases hbF : StmtNode.checkList (loc ++ outer) bodyF [] with
        | none => simp [hbT, hbF] at hck
        | some blF =>
          simp only [hbT, hbF, Option.some.injEq] at hck
          subst hck
          simp only [StmtNode.noRedecl, Bool.and_eq_true, decide_eq_true_eq] at hnr
          simp only [StmtNode.usableTypes, Bool.and_eq_true] at hu
          have h1 := ExpNode.exp_sound cond st hm.finds hcond
          have hm1 := hm.mirrors_same (ExpNode.exp_sameTables cond st)
          obtain ⟨bT', st3, hrunT, _⟩ := StmtNode.stmtList_sound bodyT (loc ++ outer) [] blT _ _ _
            hm1.mirrors_enter hnr.1.2 hu.1 hnr.1.1 (fun x _ => State.lookup_entered_scope _ x)
            hbT
          refine StmtNode.sound_of_true _ hm rfl ?_
          intro r s' st' h
          obtain ⟨r1, b1, st3x, st4x, hbx, he, hl, _⟩ := StmtNode.resolveBody_run bodyT
            ((cond.nameAnalysis st).1 && true) (cond.nameAnalysis st).2.2
          obtain ⟨r2, b2, st6x, st7x, hbx2, _, hl2, _⟩ := StmtNode.resolveBody_run bodyF r1 st4x
          simp only [StmtNode.nameAnalysis, hbx, hl, hbx2, hl2, Option.some.injEq,
            Prod.mk.injEq] at h
          obtain ⟨rfl, _, _⟩ := h
          have hm4 := hm1.after_body he hl
          rw [h1, Bool.and_true, hrunT] at hbx
          simp only [Option.some.injEq, Prod.mk.injEq] at hbx
          obtain ⟨rfl, _, _⟩ := hbx
          obtain ⟨bF', st6, hrunF, _⟩ := StmtNode.stmtList_sound bodyF (loc ++ outer) [] blF _ _ _
            hm4.mirrors_enter hnr.2.2 hu.2 hnr.2.1 (fun x _ => State.lookup_entered_scope _ x)
            hbF
          rw [hrunF] at hbx2
          simp only [Option.some.injEq, Prod.mk.injEq] at hbx2
          exact hbx2.1.symm
    · cases hck
  | .while pos cond body, outer, loc, loc', st, c, rest, hm, hnr, hu, _, hck => by
    simp only [StmtNode.check] at hck
    split at hck
    · rename_i hcond
      cases hb : StmtNode.checkList (loc ++ outer) body [] with
      | none => simp [hb] at hck
      | some bl =>
        simp only [hb, Option.some.injEq] at hck
        subst hck
        simp only [StmtNode.noRedecl, Bool.and_eq_true, decide_eq_true_eq] at hnr
        simp only [StmtNode.usableTypes] at hu
        have h1 := ExpNode.exp_sound cond st hm.finds hcond
        have hm1 := hm.mirrors_same (ExpNode.exp_sameTables cond st)
        obtain ⟨b', st3, hrun, _⟩ := StmtNode.stmtList_sound body (loc ++ outer) [] bl _ _ _
          hm1.mirrors_enter hnr.2 hu hnr.1 (fun x _ => State.lookup_entered_scope _ x) hb
        refine StmtNode.sound_of_true _ hm rfl ?_
        intro r s' st' h
        obtain ⟨r2, b2, st3x, st4x, hbx, _, hl, _⟩ := StmtNode.resolveBody_run body
          ((cond.nameAnalysis st).1 && true) (cond.nameAnalysis st).2.2
        simp only [StmtNode.nameAnalysis, hbx, hl, Option.some.injEq, Prod.mk.injEq] at h
        obtain ⟨rfl, _, _⟩ := h
        rw [h1, Bool.and_true, hrun] at hbx
        simp only [Option.some.injEq, Prod.mk.injEq] at hbx
        exact hbx.1.symm
    · cases hck
  | .ret pos none, outer, loc, loc', st, c, rest, hm, _, _, _, hck => by
    simp only [StmtNode.check, Option.some.injEq] at hck
    subst hck
    refine StmtNode.sound_of_true _ hm rfl ?_
    intro r s' st' h
    simp only [StmtNode.nameAnalysis, Option.some.injEq, Prod.mk.injEq] at h
    exact h.1.symm
  | .ret pos (some e), outer, loc, loc', st, c, rest, hm, _, _, _, hck => by
    simp only [StmtNode.check] at hck
    split at hck
    · rename_i hc
      cases hck
      have h1 := ExpNode.exp_sound e st hm.finds hc
      refine StmtNode.sound_of_true _ hm rfl ?_
      intro r s' st' h
      simp only [StmtNode.nameAnalysis, Option.some.injEq, Prod.mk.injEq] at h
      obtain ⟨rfl, _, _⟩ := h
      exact h1
    · cases hck
  | .callStmt pos e, outer, loc, loc', st, c, rest, hm, _, _, _, hck => by
    simp only [StmtNode.check] at hck
    split at hck
    · rename_i hc
      cases hck
      have h1 := ExpNode.exp_sound e st hm.finds hc
      refine StmtNode.sound_of_true _ hm rfl ?_
      intro r s' st' h
      simp only [StmtNode.nameAnalysis, Option.some.injEq, Prod.mk.injEq] at h
      obtain ⟨rfl, _, _⟩ := h
      exact h1
    · cases hck
  | .decl d, outer, loc, loc', st, c, rest, hm, hnr, hu, hfree, hck => by
    simp only [StmtNode.check] at hck
    simp only [StmtNode.noRedecl] at hnr
    simp only [StmtNode.usableTypes] at hu
    obtain ⟨d', st', h, hm'⟩ := DeclNode.decl_sound d outer loc loc' st c rest hm hnr hu
      (hfree _ (by simp [StmtNode.topNames])) hck
    exact ⟨.decl d', st', by simp [StmtNode.nameAnalysis, h], hm'⟩
theorem StmtNode.stmtList_sound : ∀ (l : List StmtNode) (outer loc loc' : Env) (st : State)
    (c : ScopeId) (rest : List ScopeId), st.Mirrors loc outer c rest →
    StmtNode.noRedeclList l = true → StmtNode.usableTypesList l = true →
    (StmtNode.topNamesList l).Nodup →
    (∀ x ∈ StmtNode.topNamesList l, (st.scope c).lookup x = none) →
    StmtNode.checkList outer l loc = some loc' →
    ∃ l' st', StmtNode.nameAnalysisList l true st = some (true, l', st') ∧
      st'.Mirrors loc' outer c rest
  | [], outer, loc, loc', st, c, rest, hm, _, _, _, _, hck => by
    simp only [StmtNode.checkList, Option.some.injEq] at hck
    subst hck
    exact ⟨[], st, rfl, hm⟩
  | s :: tl, outer, loc, loc', st, c, rest, hm, hnr, hu, hnd, hfree, hck => by
    simp only [StmtNode.noRedeclList, Bool.and_eq_true] at hnr
    simp only [StmtNode.usableTypesList, Bool.and_eq_true] at hu
    simp only [StmtNode.topNamesList] at hnd hfree
    simp only [StmtNode.checkList] at hck
    cases h1 : StmtNode.check outer s loc with
    | none => simp [h1] at hck
    | some loc1 =>
      simp only [h1] at hck
      obtain ⟨s', st1, hs, hm1⟩ := StmtNode.stmt_sound s outer loc loc1 st c rest hm hnr.1 hu.1
        (fun x hx => hfree x (List.mem_append_left _ hx)) h1
      have hd := List.nodup_append.mp hnd
      have hfree1 : ∀ x ∈ StmtNode.topNamesList tl, (st1.scope c).lookup x = none := by
        intro x hx
        rw [s.stmt_keeps_cur st true s' st1 c rest hm.chain hm.lt_heap x
          (fun hxs => hd.2.2 hxs hx) hs]
        exact hfree x (List.mem_append_right _ hx)
      obtain ⟨l', st2, hl, hm2⟩ := StmtNode.stmtList_sound tl outer loc1 loc' st1 c rest hm1
        hnr.2 hu.2 hd.2.1 hfree1 hck
      exact ⟨s' :: l', st2, by simp [StmtNode.nameAnalysisList, hs, hl], hm2⟩
theorem DeclNode.decl_sound : ∀ (d : DeclNode) (outer loc loc' : Env) (st : State) (c : ScopeId)
    (rest : List ScopeId), st.Mirrors loc outer c rest → d.noRedecl = true →
    d.usableTypes = true → (st.scope c).lookup d.topName = none →
    d.check outer loc = some loc' →
    ∃ d' st', d.nameAnalysis st = some (true, d', st') ∧ st'.Mirrors loc' outer c rest
  | .varDecl d, outer, loc, loc', st, c, rest, hm, _, hu, hfree, hck => by
    simp only [DeclNode.check] at hck
    simp only [DeclNode.usableTypes] at hu
    simp only [DeclNode.topName] at hfree
    obtain ⟨d', st', h, hm'⟩ := d.varDecl_sound outer loc loc' st c rest hm hu hfree hck
    exact ⟨.varDecl d', st', by simp [DeclNode.nameAnalysis, h], hm'⟩
  | .fnDecl pos myID myRetType myFormals myBody, outer, loc, loc', st, c, rest, hm, hnr, hu,
      hfree, hck => by
    simp only [DeclNode.check] at hck
    split at hck
    swap
    · cases hck
    rename_i hret
    cases hfl : VarDeclNode.checkList (loc ++ outer) myFormals [] with
    | none => simp [hfl] at hck
    | some floc =>
      simp only [hfl] at hck
      cases hbl : StmtNode.checkList ((myID.name, ⟨false, .plain⟩) :: (loc ++ outer)) myBody
          floc with
      | none => simp [hbl] at hck
      | some bloc =>
        simp only [hbl, Option.some.injEq] at hck
        subst hck
        simp only [DeclNode.noRedecl, Bool.and_eq_true, decide_eq_true_eq] at hnr
        simp only [DeclNode.usableTypes, Bool.and_eq_true] at hu
        simp only [DeclNode.topName] at hfree
        have hd := List.nodup_append.mp hnr.1
        obtain ⟨sh, hsh⟩ := Option.isSome_iff_exists.mp hret
        have hR := (TypeNode.type_sound myRetType st sh hm.finds hsh).1
        have hcl : (st.scope c).clash myID.name = false := ScopeTable.clash_eq_false.mpr hfree
        have hsR := TypeNode.type_sameTables myRetType st
        have hm3 := (hm.mirrors_same hsR).mirrors_enter
        obtain ⟨vfx, formalsx, st4x, ftys, rty, vbx, bodyx, st6x, st7, hfx, _, _, hbx, hleave,
          hrun, _, he34, he56, _, _⟩ :=
          DeclNode.fnDecl_run pos myID myRetType myFormals myBody st hm.chain
        have hfs : FnDeclNode.formalsState myID myRetType st c =
            (SymbolTable.enterScope (myRetType.nameAnalysis st).2.2).2 := by
          simp [FnDeclNode.formalsState, hcl]
        have hbs : FnDeclNode.bodyState myID ((st.scope c).clash myID.name) c st4x
            (FnType.produce ftys rty) =
            (st4x.insertAt c .fn myID.name (FnType.produce ftys rty)).2 := by
          simp [FnDeclNode.bodyState, hcl, ScopeTable.addFn]
        rw [hfs] at hfx he34
        rw [hbs] at hbx he56
        obtain ⟨fl', st4, hf, hm4⟩ := VarDeclNode.formals_sound myFormals (loc ++ outer) [] floc
          _ _ _ hm3 hu.1 hd.1 (fun x _ => State.lookup_entered_scope _ x) hfl
        have hkeep := fun x hx => VarDeclNode.formals_keeps myFormals true _ true fl' st4 x
          (State.ne_nil_of_chain hm3.chain) hx hf
        rw [hf] at hfx
        simp only [Option.some.injEq, Prod.mk.injEq] at hfx
        obtain ⟨rfl, rfl, rfl⟩ := hfx
        have hclt4 : c < st4.heap.length :=
          hm4.wf c (by rw [hm4.chain]; simp)
        have hfree4 : (st4.scope c).lookup myID.name = none := by
          rw [hm3.outer_scopes he34 c (List.mem_cons_self _ _), State.scope_enterScope,
            hsR.scope]
          exact hfree
        have hm5 := hm4.add_outer myID.name .fn (FnType.produce ftys rty) ⟨false, .plain⟩ hclt4
          hfree4 ⟨fun hh => (by cases hh), by simp [State.HasShape]⟩
        have hne : ¬ (c = (myRetType.nameAnalysis st).2.2.heap.length ∧ c < st4.heap.length) :=
          fun hh => hm3.fresh (hh.1 ▸ List.mem_cons_self _ _)
        have hfree5 : ∀ x ∈ StmtNode.topNamesList myBody,
            (((st4.insertAt c .fn myID.name (FnType.produce ftys rty)).2.scope
              (myRetType.nameAnalysis st).2.2.heap.length).lookup x) = none := by
          intro x hx
          rw [State.scope_insertAt, if_neg hne, hkeep x (fun hxf => hd.2.2 hxf hx)]
          exact State.lookup_entered_scope _ x
        obtain ⟨bl', st6, hb, _⟩ := StmtNode.stmtList_sound myBody _ floc bloc _ _ _ hm5 hnr.2
          hu.2 hd.2.1 hfree5 hbl
        rw [hb] at hbx
        simp only [Option.some.injEq, Prod.mk.injEq] at hbx
        obtain ⟨rfl, rfl, rfl⟩ := hbx
        rw [hR, hcl] at hrun
        simp only [Bool.and_true, Bool.not_false, Bool.and_self] at hrun
        obtain ⟨r1, d1, st1, h1, e1⟩ := DeclNode.decl_extends
          (.fnDecl pos myID myRetType myFormals myBody) st (State.ne_nil_of_chain hm.chain)
        rw [hrun] at h1
        simp only [Option.some.injEq, Prod.mk.injEq] at h1
        obtain ⟨_, _, rfl⟩ := h1
        refine ⟨_, _, hrun, hm.step_decl e1 ?_ hfree
          (s := ⟨st4.nextSym, .fn, myID.name, FnType.produce ftys rty⟩) ?_
          ⟨fun hh => (by cases hh), by simp [State.HasShape]⟩⟩
        · intro y hy
          exact DeclNode.decl_keeps_cur (.fnDecl pos myID myRetType myFormals myBody) st _ _ _ c
            rest hm.chain hm.lt_heap y hy hrun
        · obtain ⟨_, _, hh7, _⟩ := SymbolTable.leaveScope_eq hleave
          rw [State.scope_of_heap hh7]
          exact he56.grows.lookup _ _ _
            (State.lookup_insertAt_self st4 c .fn myID.name _ hclt4 hfree4)
  | .classDefn pos myID members, outer, loc, loc', st, c, rest, hm, hnr, hu, hfree, hck => by
    simp only [DeclNode.check] at hck
    cases hml : DeclNode.checkList (loc ++ outer) members [] with
    | none => simp [hml] at hck
    | some mloc =>
      simp only [hml, Option.some.injEq] at hck
      subst hck
      simp only [DeclNode.noRedecl, Bool.and_eq_true, decide_eq_true_eq] at hnr
      simp only [DeclNode.usableTypes] at hu
      simp only [DeclNode.topName] at hfree
      have hcl : (st.scope c).clash myID.name = false := ScopeTable.clash_eq_false.mpr hfree
      obtain ⟨result, membersx, st2x, st3, hmr, hleave, _, he03, hfr, hh, _, _, hrun⟩ :=
        DeclNode.classDefn_run pos myID members st hm.chain
      rw [hcl] at hmr
      simp only [Bool.not_false] at hmr
      obtain ⟨ml', st2, hmlr, hm2⟩ := DeclNode.declList_sound members (loc ++ outer) [] mloc
        _ _ _ hm.mirrors_enter hnr.2 hu hnr.1 (fun x _ => State.lookup_entered_scope _ x) hml
      rw [hmlr] at hmr
      simp only [Option.some.injEq, Prod.mk.injEq] at hmr
      obtain ⟨rfl, rfl, rfl⟩ := hmr
      simp only [if_true] at hrun
      obtain ⟨r1, d1, st1, h1, e1⟩ := DeclNode.decl_extends
        (.classDefn pos myID members) st (State.ne_nil_of_chain hm.chain)
      rw [hrun] at h1
      simp only [Option.some.injEq, Prod.mk.injEq] at h1
      obtain ⟨_, _, rfl⟩ := h1
      have hsI := IDNode.id_sameTables myID
        (ClassDefnNode.registeredState myID c st.heap.length st3)
      have hfree3 : (st3.scope c).lookup myID.name = none := by
        rw [hfr c hm.lt_heap (by simp)]
        exact hfree
      have hclt3 : c < st3.heap.length := lt_of_lt_of_le hm.lt_heap he03.grows.heapLen
      have hmono : ∀ id name s, (st2.scope id).lookup name = some s →
          (((myID.nameAnalysis (ClassDefnNode.registeredState myID c st.heap.length
            st3)).2.2).scope id).lookup name = some s := by
        intro id name s h
        rw [hsI.scope]
        exact (State.grows_insertAt st3 c .agg myID.name (.cls st.heap.length)).lookup id name s
          (by rw [State.scope_of_heap hh]; exact h)
      refine ⟨_, _, hrun, hm.step_decl e1 ?_ hfree
        (s := ⟨st3.nextSym, .agg, myID.name, .cls st.heap.length⟩) ?_ ⟨fun _ => rfl, ?_⟩⟩
      · intro y hy
        exact DeclNode.decl_keeps_cur (.classDefn pos myID members) st _ _ _ c rest hm.chain
          hm.lt_heap y hy hrun
      · rw [hsI.scope]
        exact State.lookup_insertAt_self st3 c .agg myID.name _ hclt3 hfree3
      · simp only [State.HasShape]
        exact ⟨_, rfl, State.HasFields.fields_mono hmono _ _
          (State.HasFields.of_locals mloc hm2.locals)⟩
theorem DeclNode.declList_sound : ∀ (l : List DeclNode) (outer loc loc' : Env) (st : State)
    (c : ScopeId) (rest : List ScopeId), st.Mirrors loc outer c rest →
    DeclNode.noRedeclList l = true → DeclNode.usableTypesList l = true →
    (DeclNode.topNamesList l).Nodup →
    (∀ x ∈ DeclNode.topNamesList l, (st.scope c).lookup x = none) →
    DeclNode.checkList outer l loc = some loc' →
    ∃ l' st', DeclNode.nameAnalysisList l true st = some (true, l', st') ∧
      st'.Mirrors loc' outer c rest
  | [], outer, loc, loc', st, c, rest, hm, _, _, _, _, hck => by
    simp only [DeclNode.checkList, Option.some.injEq] at hck
    subst hck
    exact ⟨[], st, rfl, hm⟩
  | d :: tl, outer, loc, loc', st, c, rest, hm, hnr, hu, hnd, hfree, hck => by
    simp only [DeclNode.noRedeclList, Bool.and_eq_true] at hnr
    simp only [DeclNode.usableTypesList, Bool.and_eq_true] at hu
    simp only [DeclNode.topNamesList, List.nodup_cons] at hnd
    simp only [DeclNode.topNamesList] at hfree
    simp only [DeclNode.checkList] at hck
    cases h1 : DeclNode.check outer d loc with
    | none => simp [h1] at hck
    | some loc1 =>
      simp only [h1] at hck
      obtain ⟨d', st1, hs, hm1⟩ := DeclNode.decl_sound d outer loc loc1 st c rest hm hnr.1 hu.1
        (hfree _ (List.mem_cons_self _ _)) h1
      have hfree1 : ∀ x ∈ DeclNode.topNamesList tl, (st1.scope c).lookup x = none := by
        intro x hx
        rw [d.decl_keeps_cur st true d' st1 c rest hm.chain hm.lt_heap x
          (fun hxs => hnd.1 (hxs ▸ hx)) hs]
        exact hfree x (List.mem_cons_of_mem _ hx)
      obtain ⟨l', st2, hl, hm2⟩ := DeclNode.declList_sound tl outer loc1 loc' st1 c rest hm1
        hnr.2 hu.2 hnd.2 hfree1 hck
      exact ⟨d' :: l', st2, by simp [DeclNode.nameAnalysisList, hs, hl], hm2⟩
end

/-- C2, amended. Let a program have no redeclaration (no scope of it declares
a name twice), no undeclared reference (every identifier it refers to has a
declaration visible at that point, every class-type annotation names a visible
class, every member access names a field of the class of its base) and no
variable or formal declared `void`.  Then on every symbol table whose open
scopes are allocated tables `ProgramNode::nameAnalysis` returns true, and every
identifier node of the resolved program carries a symbol. -/
theorem ProgramNode.nameAnalysis_declared (p : ProgramNode) (symTab : State)
    (hwf : symTab.WF) (hnr : p.noRedecl = true) (hrefs : p.refsDeclared = true)
    (hty : p.usableTypes = true) :
    ∃ (p' : ProgramNode) (st' : State),
      p.nameAnalysis symTab = some (true, p', st') ∧ p'.allAttached = true := by
  simp only [ProgramNode.noRedecl, Bool.and_eq_true, decide_eq_true_eq] at hnr
  simp only [ProgramNode.refsDeclared, Option.isSome_iff_exists] at hrefs
  simp only [ProgramNode.usableTypes] at hty
  obtain ⟨gl, hgl⟩ := hrefs
  have hm0 : (SymbolTable.enterScope symTab).2.Mirrors [] [] symTab.heap.length symTab.chain :=
    ⟨State.chain_enterScope _, State.wf_enterScope hwf, fun h => Nat.lt_irrefl _ (hwf _ h),
      fun x _ => State.lookup_entered_scope _ x, fun p hp => (by cases hp),
      fun x e hx => (by simp [Env.lookup] at hx)⟩
  obtain ⟨l', st2, h2, hm2⟩ := DeclNode.declList_sound p.myGlobals [] [] gl _ _ _ hm0 hnr.2 hty
    hnr.1 (fun x _ => State.lookup_entered_scope _ x) hgl
  obtain ⟨st3, hl, _⟩ := SymbolTable.leaveScope_of_chain hm2.chain
  refine ⟨⟨l'⟩, st3, by simp only [ProgramNode.nameAnalysis, h2, hl], ?_⟩
  exact (DeclNode.declList_attached p.myGlobals true _ true l' st2 _ _
    (State.chain_enterScope _) (State.cur_lt_enterScope _) h2 rfl).1

/-- The program
`A : class { a : int; }; x : A; f : (p : int) void { x--a = p; if (true) { y : int = p; } }`
has no redeclaration, no undeclared reference and no `void` variable; on the
empty symbol table its resolution returns true with every identifier attached. -/
theorem ProgramNode.nameAnalysis_declared_witness :
    State.WF ⟨[], [], 0, []⟩ ∧
    ProgramNode.noRedecl
        ⟨[.classDefn ⟨1, 0⟩ ⟨⟨1, 0⟩, "A", none⟩
            [.varDecl ⟨⟨1, 12⟩, ⟨⟨1, 12⟩, "a", none⟩, .basic ⟨1, 16⟩ .int, none⟩],
          .varDecl ⟨⟨2, 0⟩, ⟨⟨2, 0⟩, "x", none⟩, .cls ⟨2, 4⟩ ⟨⟨2, 4⟩, "A", none⟩ none, none⟩,
          .fnDecl ⟨3, 0⟩ ⟨⟨3, 0⟩, "f", none⟩ (.basic ⟨3, 17⟩ .void)
            [⟨⟨3, 5⟩, ⟨⟨3, 5⟩, "p", none⟩, .basic ⟨3, 9⟩ .int, none⟩]
            [.assign ⟨4, 2⟩ (.member ⟨4, 2⟩ (.id ⟨⟨4, 2⟩, "x", none⟩) ⟨⟨4, 5⟩, "a", none⟩ none)
              (.loc (.id ⟨⟨4, 9⟩, "p", none⟩)),
             .ifStmt ⟨5, 2⟩ (.trueNode ⟨5, 6⟩)
              [.decl (.varDecl ⟨⟨5, 14⟩, ⟨⟨5, 14⟩, "y", none⟩, .basic ⟨5, 18⟩ .int,
                some (.loc (.id ⟨⟨5, 24⟩, "p", none⟩))⟩)]]]⟩ = true ∧
    ProgramNode.refsDeclared
        ⟨[.classDefn ⟨1, 0⟩ ⟨⟨1, 0⟩, "A", none⟩
            [.varDecl ⟨⟨1, 12⟩, ⟨⟨1, 12⟩, "a", none⟩, .basic ⟨1, 16⟩ .int, none⟩],
          .varDecl ⟨⟨2, 0⟩, ⟨⟨2, 0⟩, "x", none⟩, .cls ⟨2, 4⟩ ⟨⟨2, 4⟩, "A", none⟩ none, none⟩,
          .fnDecl ⟨3, 0⟩ ⟨⟨3, 0⟩, "f", none⟩ (.basic ⟨3, 17⟩ .void)
            [⟨⟨3, 5⟩, ⟨⟨3, 5⟩, "p", none⟩, .basic ⟨3, 9⟩ .int, none⟩]
            [.assign ⟨4, 2⟩ (.member ⟨4, 2⟩ (.id ⟨⟨4, 2⟩, "x", none⟩) ⟨⟨4, 5⟩, "a", none⟩ none)
              (.loc (.id ⟨⟨4, 9⟩, "p", none⟩)),
             .ifStmt ⟨5, 2⟩ (.trueNode ⟨5, 6⟩)
              [.decl (.varDecl ⟨⟨5, 14⟩, ⟨⟨5, 14⟩, "y", none⟩, .basic ⟨5, 18⟩ .int,
                some (.loc (.id ⟨⟨5, 24⟩, "p", none⟩))⟩)]]]⟩ = true ∧
    ProgramNode.usableTypes
        ⟨[.classDefn ⟨1, 0⟩ ⟨⟨1, 0⟩, "A", none⟩
            [.varDecl ⟨⟨1, 12⟩, ⟨⟨1, 12⟩, "a", none⟩, .basic ⟨1, 16⟩ .int, none⟩],
          .varDecl ⟨⟨2, 0⟩, ⟨⟨2, 0⟩, "x", none⟩, .cls ⟨2, 4⟩ ⟨⟨2, 4⟩, "A", none⟩ none, none⟩,
          .fnDecl ⟨3, 0⟩ ⟨⟨3, 0⟩, "f", none⟩ (.basic ⟨3, 17⟩ .void)
            [⟨⟨3, 5⟩, ⟨⟨3, 5⟩, "p", none⟩, .basic ⟨3, 9⟩ .int, none⟩]
            [.assign ⟨4, 2⟩ (.member ⟨4, 2⟩ (.id ⟨⟨4, 2⟩, "x", none⟩) ⟨⟨4, 5⟩, "a", none⟩ none)
              (.loc (.id ⟨⟨4, 9⟩, "p", none⟩)),
             .ifStmt ⟨5, 2⟩ (.trueNode ⟨5, 6⟩)
              [.decl (.varDecl ⟨⟨5, 14⟩, ⟨⟨5, 14⟩, "y", none⟩, .basic ⟨5, 18⟩ .int,
                some (.loc (.id ⟨⟨5, 24⟩, "p", none⟩))⟩)]]]⟩ = true ∧
    ∃ (p' : ProgramNode) (st' : State),
      ProgramNode.nameAnalysis
        ⟨[.classDefn ⟨1, 0⟩ ⟨⟨1, 0⟩, "A", none⟩
            [.varDecl ⟨⟨1, 12⟩, ⟨⟨1, 12⟩, "a", none⟩, .basic ⟨1, 16⟩ .int, none⟩],
          .varDecl ⟨⟨2, 0⟩, ⟨⟨2, 0⟩, "x", none⟩, .cls ⟨2, 4⟩ ⟨⟨2, 4⟩, "A", none⟩ none, none⟩,
          .fnDecl ⟨3, 0⟩ ⟨⟨3, 0⟩, "f", none⟩ (.basic ⟨3, 17⟩ .void)
            [⟨⟨3, 5⟩, ⟨⟨3, 5⟩, "p", none⟩, .basic ⟨3, 9⟩ .int, none⟩]
            [.assign ⟨4, 2⟩ (.member ⟨4, 2⟩ (.id ⟨⟨4, 2⟩, "x", none⟩) ⟨⟨4, 5⟩, "a", none⟩ none)
              (.loc (.id ⟨⟨4, 9⟩, "p", none⟩)),
             .ifStmt ⟨5, 2⟩ (.trueNode ⟨5, 6⟩)
              [.decl (.varDecl ⟨⟨5, 14⟩, ⟨⟨5, 14⟩, "y", none⟩, .basic ⟨5, 18⟩ .int,
                some (.loc (.id ⟨⟨5, 24⟩, "p", none⟩))⟩)]]]⟩
          ⟨[], [], 0, []⟩ = some (true, p', st') ∧
      p'.allAttached = true :=
  ⟨fun _ h => (by cases h), by decide, by decide, by decide,
    ProgramNode.nameAnalysis_declared _ _ (fun _ h => (by cases h)) (by decide) (by decide)
      (by decide)⟩

end DrewnoMars
